import Mathlib

/-!
# SLR bidirectional path tracer: MIS weights and subpath walks

A shallow embedding of `libSLR/Renderers/BidirectionalPathTracingRenderer.cpp`.

Numbers.  A C++ `float` is modelled by `F32`: a finite value is an exact rational, and the
IEEE special values (the two infinities and NaN) are kept, so that a division by zero and a
comparison with NaN behave as in the program.  Rounding, overflow to infinity of a finite
result and the sign of zero are outside the model (a zero divisor counts as `+0`).
-/

namespace SLR

/-! ## The value model of `float` -/

/-- Values of the C++ type `float`: an exact finite value, an infinity with its sign
(`neg = true` is minus infinity), or NaN. -/
inductive F32 where
  | fin (q : ℚ)
  | inf (neg : Bool)
  | nan
deriving DecidableEq

namespace F32

instance : Inhabited F32 := ⟨fin 0⟩

instance (n : Nat) : OfNat F32 n := ⟨fin n⟩

/-- Multiplication: zero times infinity is NaN, NaN is absorbing. -/
def mul : F32 → F32 → F32
  | fin a, fin b => fin (a * b)
  | fin a, inf s => if a = 0 then nan else inf (xor (decide (a < 0)) s)
  | inf s, fin b => if b = 0 then nan else inf (xor s (decide (b < 0)))
  | inf s, inf t => inf (xor s t)
  | nan, _ => nan
  | _, nan => nan

/-- Division: `x / 0` is an infinity for `x ≠ 0` and NaN for `x = 0`; a finite value divided
by an infinity is zero; infinity over infinity is NaN. -/
def div : F32 → F32 → F32
  | fin a, fin b =>
    if b = 0 then (if a = 0 then nan else inf (decide (a < 0))) else fin (a / b)
  | fin _, inf _ => fin 0
  | inf s, fin b => inf (xor s (decide (b < 0)))
  | inf _, inf _ => nan
  | nan, _ => nan
  | _, nan => nan

/-- Addition: infinities of opposite sign give NaN. -/
def add : F32 → F32 → F32
  | fin a, fin b => fin (a + b)
  | fin _, inf s => inf s
  | inf s, fin _ => inf s
  | inf s, inf t => if s = t then inf s else nan
  | nan, _ => nan
  | _, nan => nan

/-- Unary minus. -/
def neg : F32 → F32
  | fin a => fin (-a)
  | inf s => inf (!s)
  | nan => nan

/-- Absolute value (`std::fabs`). -/
def abs : F32 → F32
  | fin a => fin |a|
  | inf _ => inf false
  | nan => nan

instance : Mul F32 := ⟨mul⟩
instance : Div F32 := ⟨div⟩
instance : Add F32 := ⟨add⟩
instance : Neg F32 := ⟨neg⟩
instance : Sub F32 := ⟨fun a b => add a (neg b)⟩

/-- The comparison `a < b` of C++: false as soon as one side is NaN. -/
def lt : F32 → F32 → Bool
  | fin a, fin b => decide (a < b)
  | fin _, inf s => !s
  | inf s, fin _ => s
  | inf s, inf t => s && !t
  | nan, _ => false
  | _, nan => false

/-- The comparison `a <= b` of C++: false as soon as one side is NaN. -/
def le : F32 → F32 → Bool
  | fin a, fin b => decide (a ≤ b)
  | fin _, inf s => !s
  | inf s, fin _ => s
  | inf s, inf t => s || !t
  | nan, _ => false
  | _, nan => false

/-- The comparison `a == b` of C++: NaN is equal to nothing. -/
def eq : F32 → F32 → Bool
  | fin a, fin b => decide (a = b)
  | inf s, inf t => s == t
  | _, _ => false

/-- `std::min(a, b)`, which is `(b < a) ? b : a`. -/
def min (a b : F32) : F32 := if lt b a then b else a

/-- `std::isinf`. -/
def isinf : F32 → Bool
  | inf _ => true
  | _ => false

/-- `std::isnan`. -/
def isnan : F32 → Bool
  | nan => true
  | _ => false

/-- `std::isfinite`. -/
def isfinite : F32 → Bool
  | fin _ => true
  | _ => false

end F32

/-! ## Geometry (`libSLR/Core/geometry.h`) -/

/-- Modelled from the spec: `Vector3D` of `BasicTypes/Vector3.h` (not among the sources), three
`float` components.  `Point3D` and `Normal3D` have the same shape. -/
structure Vector3D where
  x : F32
  y : F32
  z : F32
deriving DecidableEq

abbrev Point3D := Vector3D
abbrev Normal3D := Vector3D

namespace Vector3D

/-- `Vector3D::Zero`. -/
def Zero : Vector3D := ⟨0, 0, 0⟩

instance : Inhabited Vector3D := ⟨Zero⟩

/-- Unary minus, componentwise. -/
def neg (v : Vector3D) : Vector3D := ⟨-v.x, -v.y, -v.z⟩

/-- Difference, componentwise. -/
def sub (a b : Vector3D) : Vector3D := ⟨a.x - b.x, a.y - b.y, a.z - b.z⟩

instance : Neg Vector3D := ⟨neg⟩
instance : Sub Vector3D := ⟨sub⟩

end Vector3D

/-- Modelled from the spec: `dot` of `BasicTypes/Vector3.h` (not among the sources). -/
def dot (a b : Vector3D) : F32 := a.x * b.x + a.y * b.y + a.z * b.z

/-- Modelled from the spec: `absDot`, the absolute value of the dot product. -/
def absDot (a b : Vector3D) : F32 := F32.abs (dot a b)

/-- Modelled from the spec: `sqDistance` of two points, the squared length of their
difference. -/
def sqDistance (p q : Point3D) : F32 := dot (p - q) (p - q)

/-- `ReferenceFrame` (geometry.h:102-112). -/
structure ReferenceFrame where
  x : Vector3D
  y : Vector3D
  z : Vector3D
deriving DecidableEq

namespace ReferenceFrame

instance : Inhabited ReferenceFrame := ⟨⟨default, default, default⟩⟩

/-- `ReferenceFrame::toLocal`. -/
def toLocal (f : ReferenceFrame) (v : Vector3D) : Vector3D :=
  ⟨dot f.x v, dot f.y v, dot f.z v⟩

/-- `ReferenceFrame::fromLocal`. -/
def fromLocal (f : ReferenceFrame) (v : Vector3D) : Vector3D :=
  ⟨dot ⟨f.x.x, f.y.x, f.z.x⟩ v, dot ⟨f.x.y, f.y.y, f.z.y⟩ v, dot ⟨f.x.z, f.y.z, f.z.z⟩ v⟩

end ReferenceFrame

/-- `SurfacePoint` with the members of `InteractionPoint` it inherits (geometry.h:116-228).
The owning object `m_obj` is an opaque handle. -/
structure SurfacePoint where
  m_p : Point3D
  m_atInfinity : Bool
  m_shadingFrame : ReferenceFrame
  m_gNormal : Normal3D
  m_u : F32
  m_v : F32
  m_texCoord : F32 × F32
  m_texCoord0Dir : Vector3D
  m_obj : Nat
deriving DecidableEq

namespace SurfacePoint

instance : Inhabited SurfacePoint :=
  ⟨⟨default, false, default, default, default, default, default, default, 0⟩⟩

/-- `InteractionPoint::getPosition`. -/
def getPosition (sp : SurfacePoint) : Point3D := sp.m_p

/-- `InteractionPoint::atInfinity`. -/
def atInfinity (sp : SurfacePoint) : Bool := sp.m_atInfinity

/-- `InteractionPoint::toLocal`. -/
def toLocal (sp : SurfacePoint) (vecWorld : Vector3D) : Vector3D :=
  sp.m_shadingFrame.toLocal vecWorld

/-- `InteractionPoint::fromLocal`. -/
def fromLocal (sp : SurfacePoint) (vecLocal : Vector3D) : Vector3D :=
  sp.m_shadingFrame.fromLocal vecLocal

/-- `SurfacePoint::getLocalGeometricNormal`. -/
def getLocalGeometricNormal (sp : SurfacePoint) : Normal3D :=
  sp.m_shadingFrame.toLocal sp.m_gNormal

/-- `SurfacePoint::calcCosTerm`. -/
def calcCosTerm (sp : SurfacePoint) (vecWorld : Vector3D) : F32 := absDot vecWorld sp.m_gNormal

end SurfacePoint

/-- `squaredDistance(const SurfacePoint &, const SurfacePoint &)` (geometry.h:230-232). -/
def squaredDistance (p0 p1 : SurfacePoint) : F32 :=
  if p0.atInfinity || p1.atInfinity then 1 else sqDistance p0.getPosition p1.getPosition

/-- `Ray` as built by `Ray(org, dir, time, distMin)` with `distMax` left at its default. -/
structure Ray where
  org : Point3D
  dir : Vector3D
  time : F32
  distMin : F32
  distMax : F32
deriving DecidableEq

/-- `Ray::Epsilon` (geometry.cpp:16). -/
def Ray.Epsilon : F32 := F32.fin (1 / 10000)

/-! ## Vertices of a subpath -/

/-- Modelled from the spec: `DirectionType` (declared in a header that is not among the
sources).  Only `isDelta()` and `isDispersive()` are observed by the renderer; the remaining
classification bits are kept as a number. -/
structure DirectionType where
  delta : Bool
  dispersive : Bool
  bits : Nat
deriving DecidableEq

namespace DirectionType

instance : Inhabited DirectionType := ⟨⟨false, false, 0⟩⟩

/-- `DirectionType::isDelta`. -/
def isDelta (t : DirectionType) : Bool := t.delta

/-- `DirectionType::isDispersive`. -/
def isDispersive (t : DirectionType) : Bool := t.dispersive

end DirectionType

/-- Modelled from the spec: `SampledSpectrum` (declared in `BasicTypes/SpectrumTypes.h`, not
among the sources), one `float` per wavelength component. -/
structure SampledSpectrum where
  values : List F32
deriving DecidableEq

namespace SampledSpectrum

instance : Inhabited SampledSpectrum := ⟨⟨[]⟩⟩

/-- Product of two spectra, component by component. -/
def mul (a b : SampledSpectrum) : SampledSpectrum := ⟨List.zipWith (· * ·) a.values b.values⟩

/-- Product of a spectrum and a `float`. -/
def scale (a : SampledSpectrum) (c : F32) : SampledSpectrum := ⟨a.values.map (· * c)⟩

/-- Quotient of a spectrum by a `float`. -/
def divF (a : SampledSpectrum) (c : F32) : SampledSpectrum := ⟨a.values.map (· / c)⟩

/-- The test `s == SampledSpectrum::Zero`: every component compares equal to zero. -/
def isZero (a : SampledSpectrum) : Bool := a.values.all (fun c => F32.eq c 0)

end SampledSpectrum

/-- The proxy object a vertex keeps for its directional distribution: `BSDFProxy`, `EDFProxy`
or `IDFProxy` around a handle of the arena. -/
inductive DDFProxy where
  | bsdf (h : Nat)
  | edf (h : Nat)
  | idf (h : Nat)
deriving DecidableEq

instance : Inhabited DDFProxy := ⟨DDFProxy.bsdf 0⟩

/-- Modelled from the spec: `BPTVertex`, declared in `BidirectionalPathTracingRenderer.h`
(not among the sources).  The first nine fields are the constructor arguments of the
`emplace_back` calls, in their order; `revAreaPDF` and `revRRProb` are the two members
assigned later by `generateSubPath`.  `revWrites` is instrumentation, not a member of the
program: it counts how often the two reverse members of this vertex have been assigned. -/
structure BPTVertex where
  surfPt : SurfacePoint
  dirIn_sn : Vector3D
  gNormal_sn : Normal3D
  ddf : DDFProxy
  alpha : SampledSpectrum
  areaPDF : F32
  RRProb : F32
  sampledType : DirectionType
  wlFlags : Nat
  revAreaPDF : F32
  revRRProb : F32
  revWrites : Nat
deriving DecidableEq

instance : Inhabited BPTVertex :=
  ⟨⟨default, default, default, default, default, default, default, default, 0, default, default,
    0⟩⟩

/-! ## The MIS weight (`calculateMISWeight`, lines 357-403) -/

/-- The loop `for (int i = numVertices - 2; i > minNumVertices; --i)` of `extendAndShorten`
(lines 377-384), started at `i` with the current `PDFRatio`, `prevIsDeltaSampled` and
`*recMISWeight`.  Returns the final `*recMISWeight`; `none` stands for an access outside the
vector. -/
def shortenLoop (subPathToShorten : List BPTVertex) (minNumVertices : Nat) :
    Nat → F32 → Bool → F32 → Option F32
  | 0, _, _, recMISWeight => some recMISWeight
  | i + 1, PDFRatio, prevIsDeltaSampled, recMISWeight =>
    if i + 1 > minNumVertices then
      match subPathToShorten[i]? with
      | none => none
      | some newVtx =>
        let PDFRatio := PDFRatio *
          (newVtx.revAreaPDF * newVtx.revRRProb / (newVtx.areaPDF * newVtx.RRProb))
        let shortenIsDeltaSampled := newVtx.sampledType.isDelta
        let recMISWeight :=
          if !shortenIsDeltaSampled && !prevIsDeltaSampled then recMISWeight + PDFRatio * PDFRatio
          else recMISWeight
        shortenLoop subPathToShorten minNumVertices i PDFRatio shortenIsDeltaSampled recMISWeight
    else some recMISWeight

/-- The lambda `extendAndShorten` (lines 360-387).  `recMISWeight` is the value of
`*recMISWeight` on entry, the result its value on exit; `none` stands for an access outside
the vector. -/
def extendAndShorten (extend1stAreaPDF extend1stRRProb extend2ndAreaPDF extend2ndRRProb : F32)
    (subPathToShorten : List BPTVertex) (numVertices minNumVertices : Nat)
    (recMISWeight : F32) : Option F32 :=
  if numVertices > minNumVertices then
    match subPathToShorten[numVertices - 1]? with
    | none => none
    | some endVtx =>
      let PDFRatio := extend1stAreaPDF * extend1stRRProb / (endVtx.areaPDF * endVtx.RRProb)
      let shortenIsDeltaSampled := endVtx.sampledType.isDelta
      let recMISWeight :=
        if !shortenIsDeltaSampled then recMISWeight + PDFRatio * PDFRatio else recMISWeight
      let prevIsDeltaSampled := shortenIsDeltaSampled
      if numVertices - 1 > minNumVertices then
        match subPathToShorten[numVertices - 2]? with
        | none => none
        | some newVtx =>
          let PDFRatio := PDFRatio *
            (extend2ndAreaPDF * extend2ndRRProb / (newVtx.areaPDF * newVtx.RRProb))
          let shortenIsDeltaSampled := newVtx.sampledType.isDelta
          let recMISWeight :=
            if !shortenIsDeltaSampled && !prevIsDeltaSampled then
              recMISWeight + PDFRatio * PDFRatio
            else recMISWeight
          let prevIsDeltaSampled := shortenIsDeltaSampled
          shortenLoop subPathToShorten minNumVertices (numVertices - 2) PDFRatio
            prevIsDeltaSampled recMISWeight
      else some recMISWeight
  else some recMISWeight

/-- The running reciprocal sum `recMISWeight` of `calculateMISWeight` just before the final
division (lines 389-400).  Modelled from the spec: `FloatSum` (its declaration is not among
the sources) is the running sum, initialised by `1` and increased by `+=`. -/
def recMISWeightSum (eyeVertices lightVertices : List BPTVertex)
    (lExtend1stAreaPDF lExtend1stRRProb lExtend2ndAreaPDF lExtend2ndRRProb : F32)
    (eExtend1stAreaPDF eExtend1stRRProb eExtend2ndAreaPDF eExtend2ndRRProb : F32)
    (numLVtx numEVtx : Nat) : Option F32 :=
  let recMISWeight : F32 := 1
  let minEyeVertices := 1
  match extendAndShorten lExtend1stAreaPDF lExtend1stRRProb lExtend2ndAreaPDF lExtend2ndRRProb
      eyeVertices numEVtx minEyeVertices recMISWeight with
  | none => none
  | some recMISWeight =>
    let minLightVertices := 0
    extendAndShorten eExtend1stAreaPDF eExtend1stRRProb eExtend2ndAreaPDF eExtend2ndRRProb
      lightVertices numLVtx minLightVertices recMISWeight

/-- `BidirectionalPathTracingRenderer::Job::calculateMISWeight` (lines 357-403): the power
heuristic weight `1.0f / recMISWeight`. -/
def calculateMISWeight (eyeVertices lightVertices : List BPTVertex)
    (lExtend1stAreaPDF lExtend1stRRProb lExtend2ndAreaPDF lExtend2ndRRProb : F32)
    (eExtend1stAreaPDF eExtend1stRRProb eExtend2ndAreaPDF eExtend2ndRRProb : F32)
    (numLVtx numEVtx : Nat) : Option F32 :=
  match recMISWeightSum eyeVertices lightVertices
      lExtend1stAreaPDF lExtend1stRRProb lExtend2ndAreaPDF lExtend2ndRRProb
      eExtend1stAreaPDF eExtend1stRRProb eExtend2ndAreaPDF eExtend2ndRRProb numLVtx numEVtx with
  | none => none
  | some recMISWeight => some (1 / recMISWeight)

/-- What `extendAndShorten` reads of a vertex it removes: the stored forward density, the
stored survival probability and the delta flag of the sampled type. -/
def BPTVertex.fwdKey (v : BPTVertex) : F32 × F32 × Bool :=
  (v.areaPDF, v.RRProb, v.sampledType.isDelta)

/-- The two reverse fields of a vertex. -/
def BPTVertex.revKey (v : BPTVertex) : F32 × F32 := (v.revAreaPDF, v.revRRProb)

/-- Everything `calculateMISWeight` can read of a vertex: the four stored densities and
probabilities and the delta flag. -/
def BPTVertex.misKey (v : BPTVertex) : F32 × F32 × F32 × F32 × Bool :=
  (v.areaPDF, v.RRProb, v.revAreaPDF, v.revRRProb, v.sampledType.isDelta)

/-! ## The weight as the specification words it

The definitions of this section follow the words of the specification (a cumulative density
ratio, whose square is added at each shortening step unless a delta-sampled vertex is
involved).  They are compared with `extendAndShorten` below. -/

/-- The vertex removed at shortening step `k` (counted from 1) of a chain used with `n`
vertices: the vertex of index `n - k`. -/
def stepVertex (sub : List BPTVertex) (n k : Nat) : BPTVertex := (sub[n - k]?).getD default

/-- The density ratio of step `j`: (alternative density * alternative RR probability) /
(original density * original RR probability).  The alternative values are the first
extension values at step 1, the second extension values at step 2, and the stored reverse
values of the removed vertex from step 3 on. -/
def stepRatio (x1A x1R x2A x2R : F32) (sub : List BPTVertex) (n j : Nat) : F32 :=
  let v := stepVertex sub n j
  if j = 1 then x1A * x1R / (v.areaPDF * v.RRProb)
  else if j = 2 then x2A * x2R / (v.areaPDF * v.RRProb)
  else v.revAreaPDF * v.revRRProb / (v.areaPDF * v.RRProb)

/-- The cumulative ratio after `k` steps: the product of the ratios of steps `1..k`. -/
def cumRatio (x1A x1R x2A x2R : F32) (sub : List BPTVertex) (n : Nat) : Nat → F32
  | 0 => 1
  | k + 1 => cumRatio x1A x1R x2A x2R sub n k * stepRatio x1A x1R x2A x2R sub n (k + 1)

/-- Step `k` is suppressed when the vertex it removes is delta-sampled, or (for `k ≥ 2`) the
vertex removed by step `k - 1` is. -/
def stepSuppressed (sub : List BPTVertex) (n k : Nat) : Bool :=
  (stepVertex sub n k).sampledType.isDelta ||
    (decide (2 ≤ k) && (stepVertex sub n (k - 1)).sampledType.isDelta)

/-- The running sum after `k` steps, started from `r`: each step that is not suppressed adds
the square of the cumulative ratio. -/
def sumSteps (x1A x1R x2A x2R : F32) (sub : List BPTVertex) (n : Nat) (r : F32) : Nat → F32
  | 0 => r
  | k + 1 =>
    if stepSuppressed sub n (k + 1) then sumSteps x1A x1R x2A x2R sub n r k
    else sumSteps x1A x1R x2A x2R sub n r k +
      cumRatio x1A x1R x2A x2R sub n (k + 1) * cumRatio x1A x1R x2A x2R sub n (k + 1)

/-- The sum of the squared cumulative ratios of steps `1..k`, with no suppression. -/
def sumSquares (x1A x1R x2A x2R : F32) (sub : List BPTVertex) (n : Nat) : Nat → F32
  | 0 => 0
  | k + 1 => sumSquares x1A x1R x2A x2R sub n k +
      cumRatio x1A x1R x2A x2R sub n (k + 1) * cumRatio x1A x1R x2A x2R sub n (k + 1)

/-! ## The collaborators of the renderer

The scene, the materials, the camera and the sampler are declared in headers that are not
among the sources.  Their answers are parameters of the model (`Env`). -/

/-- Modelled from the spec: `WavelengthSamples` (declared in `BasicTypes/SpectrumTypes.h`, not
among the sources): the sampled wavelengths, the index of the selected one and the flags. -/
structure WavelengthSamples where
  lambdas : List F32
  selectedLambda : Nat
  flags : Nat
deriving DecidableEq

instance : Inhabited WavelengthSamples := ⟨⟨[], 0, 0⟩⟩

/-- `SurfaceInteraction` with the members of `Interaction` it inherits (geometry.h:19-72); the
applied transform is left out and the object is an opaque handle. -/
structure SurfaceInteraction where
  m_time : F32
  m_dist : F32
  m_p : Point3D
  m_lightProb : F32
  m_obj : Nat
  m_gNormal : Normal3D
  m_u : F32
  m_v : F32
  m_texCoord : F32 × F32
deriving DecidableEq

/-- `Interaction::getLightProb`. -/
def SurfaceInteraction.getLightProb (si : SurfaceInteraction) : F32 := si.m_lightProb

/-- The state of the `IndependentLightPathSampler` of a thread (an opaque generator state). -/
structure IndependentLightPathSampler where
  rng : Nat
deriving DecidableEq

/-- `BSDFSample`: one sample for the component and two for the direction. -/
structure BSDFSample where
  uComponent : F32
  uDir0 : F32
  uDir1 : F32
deriving DecidableEq

/-- `BSDFQuery(dirOut_sn, gNorm_sn, wls.selectedLambda, DirectionType::All, adjoint)`; the
filter is always `DirectionType::All` in this renderer and is not kept. -/
structure BSDFQuery where
  dirLocal : Vector3D
  gNormal_sn : Normal3D
  wlHint : Nat
  adjoint : Bool
deriving DecidableEq

/-- `BSDFReverseInfo`: value and directional density of the reversed scattering. -/
structure BSDFReverseInfo where
  fs : SampledSpectrum
  dirPDF : F32
deriving DecidableEq

/-- `BSDFQueryResult` as filled by `bsdf->sample`, with the reverse information asked for. -/
structure BSDFQueryResult where
  dirLocal : Vector3D
  dirPDF : F32
  sampledType : DirectionType
  reverse : BSDFReverseInfo
deriving DecidableEq

/-- The answers of the collaborators that `generateSubPath` consults. -/
structure Env where
  /-- `scene->intersect(ray, &si)`: the interaction when the ray hits something. -/
  intersect : Ray → Option SurfaceInteraction
  /-- `si.getSurfacePoint(&surfPt)`. -/
  getSurfacePoint : SurfaceInteraction → SurfacePoint
  /-- `surfPt.isEmitting()`. -/
  isEmitting : SurfacePoint → Bool
  /-- `surfPt.emittance(wls)`. -/
  emittance : SurfacePoint → WavelengthSamples → SampledSpectrum
  /-- `surfPt.evaluateAreaPDF()`. -/
  evaluateAreaPDF : SurfacePoint → F32
  /-- `surfPt.createBSDF(wls, mem)`: the handle of the BSDF in the arena. -/
  createBSDF : SurfacePoint → WavelengthSamples → Nat
  /-- `surfPt.createEDF(wls, mem)`: the handle of the EDF in the arena. -/
  createEDF : SurfacePoint → WavelengthSamples → Nat
  /-- `edf->evaluate(EDFQuery(), dir)`. -/
  edfEvaluate : Nat → Vector3D → SampledSpectrum
  /-- `edf->evaluatePDF(EDFQuery(), dir)`. -/
  edfEvaluatePDF : Nat → Vector3D → F32
  /-- `bsdf->sample(fsQuery, sample, &fsResult)`: the value and the filled result. -/
  bsdfSample : Nat → BSDFQuery → BSDFSample → SampledSpectrum × BSDFQueryResult
  /-- `SampledSpectrum::importance(wlHint)`. -/
  importance : SampledSpectrum → Nat → F32
  /-- `pathSampler.getBSDFSample()`. -/
  getBSDFSample : IndependentLightPathSampler → BSDFSample × IndependentLightPathSampler
  /-- `pathSampler.getPathTerminationSample()`. -/
  getPathTerminationSample : IndependentLightPathSampler → F32 × IndependentLightPathSampler
  /-- `WavelengthSamples::LambdaIsSelected`. -/
  LambdaIsSelected : Nat
  /-- `WavelengthSamples::NumComponents`. -/
  NumComponents : Nat
  /-- The value that the constructor of `BPTVertex` leaves in `revAreaPDF` and `revRRProb`. -/
  revInit : F32

/-! ## The state of a job -/

/-- One call `sensor->add(x, y, wls, contribution)`, or, with a thread index,
`sensor->add(threadID, x, y, wls, contribution)`. -/
structure SensorAdd where
  threadID : Option Nat
  px : F32
  py : F32
  wls : WavelengthSamples
  contribution : SampledSpectrum
deriving DecidableEq

/-- Instrumentation: the calls that the kernel makes to the scene and to the weighter, in
order.  A call of `calculateMISWeight` is recorded with its two counts and with the write
counts of the reverse fields of the eye and light vertices at the time of the call; a call
of `scene->testVisibility` is recorded with its arguments. -/
inductive Event where
  | intersect (ray : Ray)
  | calculateMISWeight (numLVtx numEVtx : Nat) (eyeRevWrites lightRevWrites : List Nat)
  | testVisibility (shdP lightP : SurfacePoint) (time : F32)
deriving DecidableEq

/-- The members of `Job` that `generateSubPath` works on: the working area of the current
pixel and the sensor, modelled by the list of the contributions added to it.  `trace` is
instrumentation. -/
structure Job where
  eyeVertices : List BPTVertex
  lightVertices : List BPTVertex
  curPx : F32
  curPy : F32
  wlHint : Nat
  sensor : List SensorAdd
  trace : List Event
deriving DecidableEq

/-- What a call ends with: a result, an access outside a vector (undefined behaviour in the
program), or the end of the fuel given to a loop that need not terminate. -/
inductive Outcome (α : Type) where
  | ok (a : α)
  | fault
  | outOfFuel
deriving DecidableEq

/-- The result of a call that ends normally, and `d` otherwise. -/
def Outcome.getD {α : Type} (o : Outcome α) (d : α) : α :=
  match o with
  | Outcome.ok a => a
  | _ => d

/-- The vector `adjoint ? lightVertices : eyeVertices` (line 268). -/
def Job.vertices (job : Job) (adjoint : Bool) : List BPTVertex :=
  if adjoint then job.lightVertices else job.eyeVertices

/-- The job with the vector `adjoint ? lightVertices : eyeVertices` replaced. -/
def Job.setVertices (job : Job) (adjoint : Bool) (vs : List BPTVertex) : Job :=
  if adjoint then { job with lightVertices := vs } else { job with eyeVertices := vs }

/-- The locals of `generateSubPath` that live across iterations of its loop, with the job
and the sampler it works on. -/
structure WalkState where
  job : Job
  pathSampler : IndependentLightPathSampler
  wls : WavelengthSamples
  ray : Ray
  alpha : SampledSpectrum
  RRProb : F32
  dirPDF : F32
  sampledType : DirectionType
  cosLast : F32

/-- What one iteration of the loop of `generateSubPath` ends with. -/
inductive IterResult where
  | next (st : WalkState)
  | done (job : Job) (pathSampler : IndependentLightPathSampler)
  | fault

/-! ## `generateSubPath` (lines 266-354) -/

/-- Lines 282-289: the vertex built at a hit and appended by `emplace_back`; `prev` is
`vertices.back()` before the append. -/
def hitVertex (env : Env) (st : WalkState) (prev : BPTVertex) (surfPt : SurfacePoint) :
    BPTVertex :=
  let dist2 := squaredDistance prev.surfPt surfPt
  let dirOut_sn := surfPt.toLocal (-st.ray.dir)
  let gNorm_sn := surfPt.getLocalGeometricNormal
  let bsdf := env.createBSDF surfPt st.wls
  let areaPDF := st.dirPDF * absDot dirOut_sn gNorm_sn / dist2
  { surfPt := surfPt, dirIn_sn := dirOut_sn, gNormal_sn := gNorm_sn, ddf := DDFProxy.bsdf bsdf,
    alpha := st.alpha, areaPDF := areaPDF, RRProb := st.RRProb, sampledType := st.sampledType,
    wlFlags := st.wls.flags, revAreaPDF := env.revInit, revRRProb := env.revInit,
    revWrites := 0 }

/-- Lines 291-313: the implicit path (`s = 0`) evaluated on an eye subpath at an emitting
point.  `job` already holds the new vertex.  The result is the job after the possible
`sensor->add`; `none` stands for an access outside a vector in `calculateMISWeight`. -/
def implicitPath (env : Env) (job : Job) (st : WalkState) (adjoint : Bool)
    (si : SurfaceInteraction) (surfPt : SurfacePoint) (dirOut_sn : Vector3D) (dist2 : F32) :
    Option Job :=
  if !adjoint && env.isEmitting surfPt then
    let edf := env.createEDF surfPt st.wls
    let Le0 := env.emittance surfPt st.wls
    let Le1 := env.edfEvaluate edf dirOut_sn
    let extend1stAreaPDF := si.getLightProb * env.evaluateAreaPDF surfPt
    let extend2ndAreaPDF := env.edfEvaluatePDF edf dirOut_sn * st.cosLast / dist2
    let numEVtx := (job.vertices adjoint).length
    let job := { job with trace := job.trace ++
      [Event.calculateMISWeight 0 numEVtx (job.eyeVertices.map BPTVertex.revWrites)
        (job.lightVertices.map BPTVertex.revWrites)] }
    match calculateMISWeight job.eyeVertices job.lightVertices
        extend1stAreaPDF 1 extend2ndAreaPDF 1 0 0 0 0 0 numEVtx with
    | none => none
    | some MISWeight =>
      if !F32.isinf MISWeight && !F32.isnan MISWeight then
        let contribution := ((st.alpha.scale MISWeight).mul Le0).mul Le1
        let contribution :=
          if st.wls.flags &&& env.LambdaIsSelected ≠ 0 then
            contribution.scale (F32.fin env.NumComponents)
          else contribution
        some { job with sensor := job.sensor ++
          [⟨none, job.curPx, job.curPy, st.wls, contribution⟩] }
      else some job
  else some job

/-- Lines 320-352: the scattering step at the vertex just appended (the last one of
`job`'s vector): sampling of the BSDF, Russian roulette, update of the throughput and of the
ray, and the write of the reverse fields of the vertex next to the last. -/
def scatterStep (env : Env) (job : Job) (st : WalkState) (adjoint : Bool)
    (surfPt : SurfacePoint) (dirOut_sn : Vector3D) (gNorm_sn : Normal3D) (bsdf : Nat)
    (dist2 : F32) : IterResult :=
  let fsQuery : BSDFQuery := ⟨dirOut_sn, gNorm_sn, st.wls.selectedLambda, adjoint⟩
  let (bsdfSmp, pathSampler) := env.getBSDFSample st.pathSampler
  let (fs, fsResult) := env.bsdfSample bsdf fsQuery bsdfSmp
  let revInfo := fsResult.reverse
  if fs.isZero || F32.eq fsResult.dirPDF 0 then IterResult.done job pathSampler
  else
    let wls : WavelengthSamples :=
      if fsResult.sampledType.isDispersive then
        { st.wls with flags := st.wls.flags ||| env.LambdaIsSelected }
      else st.wls
    let cosIn := absDot fsResult.dirLocal gNorm_sn
    let weight := fs.scale (cosIn / fsResult.dirPDF)
    let RRProb := F32.min (env.importance weight job.wlHint) 1
    let (u, pathSampler) := env.getPathTerminationSample pathSampler
    if F32.lt u RRProb then
      let weight := weight.divF RRProb
      let alpha := st.alpha.mul weight
      let ray : Ray :=
        ⟨surfPt.getPosition, surfPt.fromLocal fsResult.dirLocal, st.ray.time, Ray.Epsilon,
          F32.inf false⟩
      let vertices := job.vertices adjoint
      if 2 ≤ vertices.length then
        match vertices[vertices.length - 2]? with
        | none => IterResult.fault
        | some vtxNextToLast =>
          let vtxNextToLast := { vtxNextToLast with
            revAreaPDF := revInfo.dirPDF * st.cosLast / dist2,
            revRRProb := F32.min
              (env.importance ((revInfo.fs.scale (absDot dirOut_sn gNorm_sn)).divF revInfo.dirPDF)
                job.wlHint) 1,
            revWrites := vtxNextToLast.revWrites + 1 }
          let job := job.setVertices adjoint (vertices.set (vertices.length - 2) vtxNextToLast)
          IterResult.next
            { job := job, pathSampler := pathSampler, wls := wls, ray := ray, alpha := alpha,
              RRProb := RRProb, dirPDF := fsResult.dirPDF, sampledType := fsResult.sampledType,
              cosLast := cosIn }
      else IterResult.fault
    else IterResult.done job pathSampler

/-- One evaluation of the loop condition `scene->intersect(ray, &si)` followed, at a hit, by
the loop body (lines 281-353). -/
def walkIter (env : Env) (adjoint : Bool) (st : WalkState) : IterResult :=
  let job := { st.job with trace := st.job.trace ++ [Event.intersect st.ray] }
  match env.intersect st.ray with
  | none => IterResult.done job st.pathSampler
  | some si =>
    let surfPt := env.getSurfacePoint si
    match (job.vertices adjoint).getLast? with
    | none => IterResult.fault
    | some prev =>
      let dist2 := squaredDistance prev.surfPt surfPt
      let dirOut_sn := surfPt.toLocal (-st.ray.dir)
      let gNorm_sn := surfPt.getLocalGeometricNormal
      let bsdf := env.createBSDF surfPt st.wls
      let job := job.setVertices adjoint (job.vertices adjoint ++ [hitVertex env st prev surfPt])
      match implicitPath env job st adjoint si surfPt dirOut_sn dist2 with
      | none => IterResult.fault
      | some job =>
        if surfPt.atInfinity then
          IterResult.done (job.setVertices adjoint (job.vertices adjoint).dropLast) st.pathSampler
        else scatterStep env job st adjoint surfPt dirOut_sn gNorm_sn bsdf dist2

/-- The loop `while (scene->intersect(ray, &si)) { ... }` with a bound on the number of
evaluations of its condition. -/
def walkLoop (env : Env) (adjoint : Bool) :
    Nat → WalkState → Outcome (Job × IndependentLightPathSampler)
  | 0, _ => Outcome.outOfFuel
  | fuel + 1, st =>
    match walkIter env adjoint st with
    | IterResult.next st => walkLoop env adjoint fuel st
    | IterResult.done job pathSampler => Outcome.ok (job, pathSampler)
    | IterResult.fault => Outcome.fault

/-- `BidirectionalPathTracingRenderer::Job::generateSubPath` (lines 266-354).  The assertions
(`SLRAssert`) are not modelled. -/
def generateSubPath (env : Env) (job : Job) (initWLs : WavelengthSamples)
    (initAlpha : SampledSpectrum) (initRay : Ray) (dirPDF : F32) (sampledType : DirectionType)
    (cosLast : F32) (adjoint : Bool) (pathSampler : IndependentLightPathSampler) (fuel : Nat) :
    Outcome (Job × IndependentLightPathSampler) :=
  if F32.eq dirPDF 0 then Outcome.ok (job, pathSampler)
  else
    walkLoop env adjoint fuel
      { job := job, pathSampler := pathSampler, wls := initWLs, ray := initRay,
        alpha := initAlpha, RRProb := 1, dirPDF := dirPDF, sampledType := sampledType,
        cosLast := cosLast }

/-- Instrumentation: what one iteration that starts in `st` appends to the trace: the
intersection query, followed on an eye subpath by at most one call of `calculateMISWeight`
with `s = 0` and `t` the length of the eye vector after the append of a vertex `hv` whose
reverse fields are not yet written. -/
def StepTrace (st : WalkState) (adjoint : Bool) (tr : List Event) : Prop :=
  tr = st.job.trace ++ [Event.intersect st.ray] ∨
  (adjoint = false ∧ ∃ hv : BPTVertex, hv.revWrites = 0 ∧
    tr = st.job.trace ++ [Event.intersect st.ray,
      Event.calculateMISWeight 0 ((st.job.vertices adjoint).length + 1)
        ((st.job.vertices adjoint ++ [hv]).map BPTVertex.revWrites)
        ((st.job.vertices (!adjoint)).map BPTVertex.revWrites)])

/-- The geometry of a vertex and its stored area density. -/
def BPTVertex.geomKey (v : BPTVertex) : SurfacePoint × Vector3D × Normal3D × F32 :=
  (v.surfPt, v.dirIn_sn, v.gNormal_sn, v.areaPDF)

/-- Instrumentation: the state of the write counts at the entry of the loop: the reverse
fields of the last vertex are not yet written, those of every vertex before it have been
written exactly once. -/
def RevEntry (vs : List BPTVertex) : Prop :=
  ∃ init last, vs = init ++ [last] ∧ last.revWrites = 0 ∧ ∀ v ∈ init, v.revWrites = 1

/-- Instrumentation: the state of the write counts when a walk has ended: no vertex has its
reverse fields written more than once, and every vertex of index `≤ size - 3` has them
written exactly once. -/
def RevFinal (vs : List BPTVertex) : Prop :=
  (∀ v ∈ vs, v.revWrites ≤ 1) ∧
  ∀ j v, j + 2 < vs.length → vs[j]? = some v → v.revWrites = 1

/-- Instrumentation: every recorded call of `calculateMISWeight` has `s = 0`, and at the
time of the call every eye vertex of index `≤ t - 3` had its reverse fields written exactly
once. -/
def EventsOk (evs : List Event) : Prop :=
  ∀ s t ew lw, Event.calculateMISWeight s t ew lw ∈ evs →
    s = 0 ∧ ∀ j, j + 2 < t → ew[j]? = some 1

/-! ## The two walks of a pixel (`kernel`, lines 114-167) -/

/-- What `scene->selectSurfaceLight` and `light.sampleRay` hand back (lines 124-137). -/
structure LightRaySample where
  lightProb : F32
  surfPt : SurfacePoint
  areaPDF : F32
  posType : DirectionType
  Le0 : SampledSpectrum
  edf : Nat
  Le1 : SampledSpectrum
  dirPDF : F32
  dirType : DirectionType
  dir_sn_z : F32
  ray : Ray

/-- What `camera->sampleRay` hands back (lines 152-158). -/
structure LensRaySample where
  surfPt : SurfacePoint
  areaPDF : F32
  posType : DirectionType
  We0 : SampledSpectrum
  idf : Nat
  We1 : SampledSpectrum
  dirPDF : F32
  dirType : DirectionType
  dirLocal_z : F32
  ray : Ray

/-- Lines 139-146: the first light vertex is registered and the light subpath is
generated. -/
def lightSubPath (env : Env) (job : Job) (wls : WavelengthSamples) (smp : LightRaySample)
    (pathSampler : IndependentLightPathSampler) (fuel : Nat) :
    Outcome (Job × IndependentLightPathSampler) :=
  let lightAreaPDF := smp.lightProb * smp.areaPDF
  let origin : BPTVertex :=
    { surfPt := smp.surfPt, dirIn_sn := Vector3D.Zero, gNormal_sn := ⟨0, 0, 1⟩,
      ddf := DDFProxy.edf smp.edf, alpha := smp.Le0.divF lightAreaPDF, areaPDF := lightAreaPDF,
      RRProb := 1, sampledType := smp.posType, wlFlags := 0, revAreaPDF := env.revInit,
      revRRProb := env.revInit, revWrites := 0 }
  let job := { job with lightVertices := job.lightVertices ++ [origin] }
  let alpha := (origin.alpha.mul smp.Le1).scale (smp.surfPt.calcCosTerm smp.ray.dir / smp.dirPDF)
  generateSubPath env job wls alpha smp.ray smp.dirPDF smp.dirType smp.dir_sn_z true
    pathSampler fuel

/-- Lines 160-166: the first eye vertex is registered and the eye subpath is generated. -/
def eyeSubPath (env : Env) (job : Job) (wls : WavelengthSamples) (selectWLPDF : F32)
    (smp : LensRaySample) (pathSampler : IndependentLightPathSampler) (fuel : Nat) :
    Outcome (Job × IndependentLightPathSampler) :=
  let origin : BPTVertex :=
    { surfPt := smp.surfPt, dirIn_sn := Vector3D.Zero, gNormal_sn := ⟨0, 0, 1⟩,
      ddf := DDFProxy.idf smp.idf, alpha := smp.We0.divF (smp.areaPDF * selectWLPDF),
      areaPDF := smp.areaPDF, RRProb := 1, sampledType := smp.posType, wlFlags := 0,
      revAreaPDF := env.revInit, revRRProb := env.revInit, revWrites := 0 }
  let job := { job with eyeVertices := job.eyeVertices ++ [origin] }
  let alpha := (origin.alpha.mul smp.We1).scale (smp.surfPt.calcCosTerm smp.ray.dir / smp.dirPDF)
  generateSubPath env job wls alpha smp.ray smp.dirPDF smp.dirType smp.dirLocal_z false
    pathSampler fuel

/-- Lines 114-167 of `kernel` for one pixel: initialisation of the working area, light
subpath, eye subpath.  `sampleLight` and `sampleLens` stand for the collaborator calls of
lines 124-137 and 152-158, which draw from the sampler. -/
def kernelSubPaths (env : Env) (job : Job) (px py : F32) (wls : WavelengthSamples)
    (selectWLPDF : F32)
    (sampleLight : IndependentLightPathSampler → LightRaySample × IndependentLightPathSampler)
    (sampleLens : IndependentLightPathSampler → LensRaySample × IndependentLightPathSampler)
    (pathSampler : IndependentLightPathSampler) (fuel : Nat) :
    Outcome (Job × IndependentLightPathSampler) :=
  let job := { job with
    curPx := px, curPy := py, wlHint := wls.selectedLambda, eyeVertices := [],
    lightVertices := [] }
  let (lightSmp, pathSampler) := sampleLight pathSampler
  match lightSubPath env job wls lightSmp pathSampler fuel with
  | Outcome.ok (job, pathSampler) =>
    let (lensSmp, pathSampler) := sampleLens pathSampler
    eyeSubPath env job wls selectWLPDF lensSmp pathSampler fuel
  | Outcome.fault => Outcome.fault
  | Outcome.outOfFuel => Outcome.outOfFuel

/-! ## Concrete vertices used in the examples -/

/-- A vertex whose only interesting members are the four stored densities and the delta flag
of the sampled type; everything else is left at its default. -/
def mkVertex (areaPDF RRProb revAreaPDF revRRProb : F32) (delta : Bool) : BPTVertex :=
  { (default : BPTVertex) with
    areaPDF := areaPDF, RRProb := RRProb, revAreaPDF := revAreaPDF, revRRProb := revRRProb,
    sampledType := ⟨delta, false, 0⟩ }

/-- A lens or light origin vertex of density 1, with unwritten (NaN) reverse fields. -/
def originVertex : BPTVertex := mkVertex 1 1 F32.nan F32.nan false

/-- A vertex hit at grazing incidence: its stored area density is zero. -/
def grazingVertex : BPTVertex := mkVertex 0 1 F32.nan F32.nan false

/-- An eye chain of four regular vertices: the lens, a hit of density 2 whose reverse fields
are written, and two more hits whose reverse fields are still NaN. -/
def sampleEye : List BPTVertex :=
  [originVertex, mkVertex 2 1 3 1 false, mkVertex 1 1 F32.nan F32.nan false,
    mkVertex 1 1 F32.nan F32.nan false]

/-- The same eye chain with a delta-sampled third vertex. -/
def deltaEye : List BPTVertex :=
  [originVertex, mkVertex 2 1 3 1 false, mkVertex 1 1 F32.nan F32.nan true,
    mkVertex 1 1 F32.nan F32.nan false]

/-- A light chain of one regular vertex. -/
def sampleLight : List BPTVertex := [originVertex]

/-- The eye chain of the examples with every member that is not a stored density or the
delta flag changed (throughput, wavelength flags, incoming direction, distribution handle,
the other bits of the sampled type), and one more vertex appended. -/
def sampleEyeRelabelled : List BPTVertex :=
  sampleEye.map (fun v => { v with
    alpha := ⟨[7]⟩, wlFlags := 1, dirIn_sn := ⟨1, 2, 3⟩, ddf := DDFProxy.idf 5,
    sampledType := ⟨v.sampledType.delta, true, 9⟩ }) ++ [grazingVertex]

/-! ## Concrete scenes used in the examples -/

/-- The surface point of position `p` and geometric normal `n`, with the world axes as
shading frame. -/
def mkSurfacePoint (p : Point3D) (n : Normal3D) (obj : Nat) : SurfacePoint :=
  { m_p := p, m_atInfinity := false,
    m_shadingFrame := ⟨⟨1, 0, 0⟩, ⟨0, 1, 0⟩, ⟨0, 0, 1⟩⟩, m_gNormal := n, m_u := 0, m_v := 0,
    m_texCoord := (0, 0), m_texCoord0Dir := ⟨1, 0, 0⟩, m_obj := obj }

/-- The interaction of position `p` and geometric normal `n`. -/
def mkInteraction (dist : F32) (p : Point3D) (n : Normal3D) (obj : Nat) : SurfaceInteraction :=
  { m_time := 0, m_dist := dist, m_p := p, m_lightProb := 1, m_obj := obj, m_gNormal := n,
    m_u := 0, m_v := 0, m_texCoord := (0, 0) }

/-- A scene given by the table `intersect` of the rays that hit something.  Every surface
scatters into the local direction `(0, 0, 1)` with value 1 and density 1 in both directions,
nothing emits, the importance of a spectrum is its first component and the termination
sample is always `1/2`. -/
def tableEnv (intersect : Ray → Option SurfaceInteraction) : Env :=
  { intersect := intersect
    getSurfacePoint := fun si => mkSurfacePoint si.m_p si.m_gNormal si.m_obj
    isEmitting := fun _ => false
    emittance := fun _ _ => ⟨[0]⟩
    evaluateAreaPDF := fun _ => 1
    createBSDF := fun sp _ => sp.m_obj
    createEDF := fun sp _ => sp.m_obj
    edfEvaluate := fun _ _ => ⟨[0]⟩
    edfEvaluatePDF := fun _ _ => 1
    bsdfSample := fun _ _ _ => (⟨[1]⟩, ⟨⟨0, 0, 1⟩, 1, ⟨false, false, 0⟩, ⟨⟨[1]⟩, 1⟩⟩)
    importance := fun s _ => s.values.headD 0
    getBSDFSample := fun ps => (⟨0, 0, 0⟩, ⟨ps.rng + 1⟩)
    getPathTerminationSample := fun ps => (F32.fin (1 / 2), ⟨ps.rng + 1⟩)
    LambdaIsSelected := 1
    NumComponents := 1
    revInit := F32.nan }

/-- A unit sphere of centre `(1, 0, -1)`: the ray that leaves the origin along the x axis
touches it at `(1, 0, 0)`, where the normal `(0, 0, 1)` is perpendicular to the ray. -/
def grazingEnv : Env :=
  tableEnv (fun ray =>
    if ray.org = ⟨0, 0, 0⟩ ∧ ray.dir = ⟨1, 0, 0⟩ then
      some (mkInteraction 1 ⟨1, 0, 0⟩ ⟨0, 0, 1⟩ 7)
    else none)

/-- A floor `z = 0` and a ceiling `z = 2`: the ray that leaves `(0, 0, 1)` downwards hits
the floor at the origin, and the ray scattered there upwards hits the ceiling at
`(0, 0, 2)`; every other ray leaves the scene. -/
def twoPlaneEnv : Env :=
  tableEnv (fun ray =>
    if ray.org = ⟨0, 0, 1⟩ ∧ ray.dir = ⟨0, 0, F32.fin (-1)⟩ then
      some (mkInteraction 1 ⟨0, 0, 0⟩ ⟨0, 0, 1⟩ 1)
    else if ray.org = ⟨0, 0, 0⟩ ∧ ray.dir = ⟨0, 0, 1⟩ then
      some (mkInteraction 2 ⟨0, 0, 2⟩ ⟨0, 0, F32.fin (-1)⟩ 2)
    else none)

/-- The origin vertex of a walk that starts at the point `p`. -/
def originAt (p : Point3D) : BPTVertex :=
  { originVertex with surfPt := mkSurfacePoint p ⟨0, 0, 1⟩ 0 }

/-- A job whose eye vector holds the origin vertex at `p` and whose light vector is empty. -/
def eyeJobAt (p : Point3D) : Job :=
  { eyeVertices := [originAt p], lightVertices := [], curPx := 0, curPy := 0, wlHint := 0,
    sensor := [], trace := [] }

/-- The ray of origin `org` and direction `dir`, as the kernel hands it to the walk. -/
def mkRay (org : Point3D) (dir : Vector3D) : Ray := ⟨org, dir, 0, 0, F32.inf false⟩

/-- The vector of the walked subpath at the end of a call, when it ends normally. -/
def Outcome.vertices (o : Outcome (Job × IndependentLightPathSampler)) (adjoint : Bool) :
    Option (List BPTVertex) :=
  match o with
  | Outcome.ok (job, _) => some (job.vertices adjoint)
  | _ => none

/-- The eye walk of the examples: in the scene of the two planes, from `(0, 0, 1)`
downwards with density 1. -/
def twoPlaneWalk : Outcome (Job × IndependentLightPathSampler) :=
  generateSubPath twoPlaneEnv (eyeJobAt ⟨0, 0, 1⟩) default ⟨[1]⟩
    (mkRay ⟨0, 0, 1⟩ ⟨0, 0, F32.fin (-1)⟩) 1 default 1 false ⟨0⟩ 5

/-- The loop state in which the eye walk of the examples enters its loop. -/
def twoPlaneStart : WalkState :=
  { job := eyeJobAt ⟨0, 0, 1⟩, pathSampler := ⟨0⟩, wls := default,
    ray := mkRay ⟨0, 0, 1⟩ ⟨0, 0, F32.fin (-1)⟩, alpha := ⟨[1]⟩, RRProb := 1, dirPDF := 1,
    sampledType := default, cosLast := 1 }

/-- A light sample at `(0, 0, 1)` whose ray leaves downwards with density 1. -/
def lightSampleDown (ps : IndependentLightPathSampler) :
    LightRaySample × IndependentLightPathSampler :=
  ({ lightProb := 1, surfPt := mkSurfacePoint ⟨0, 0, 1⟩ ⟨0, 0, F32.fin (-1)⟩ 3, areaPDF := 1,
     posType := default, Le0 := ⟨[1]⟩, edf := 3, Le1 := ⟨[1]⟩, dirPDF := 1, dirType := default,
     dir_sn_z := 1, ray := mkRay ⟨0, 0, 1⟩ ⟨0, 0, F32.fin (-1)⟩ }, ⟨ps.rng + 1⟩)

/-- A lens sample at `(0, 0, 1)` whose ray leaves downwards with density 1. -/
def lensSampleDown (ps : IndependentLightPathSampler) :
    LensRaySample × IndependentLightPathSampler :=
  ({ surfPt := mkSurfacePoint ⟨0, 0, 1⟩ ⟨0, 0, F32.fin (-1)⟩ 4, areaPDF := 1,
     posType := default, We0 := ⟨[1]⟩, idf := 4, We1 := ⟨[1]⟩, dirPDF := 1, dirType := default,
     dirLocal_z := 1, ray := mkRay ⟨0, 0, 1⟩ ⟨0, 0, F32.fin (-1)⟩ }, ⟨ps.rng + 1⟩)

/-- The two walks of one pixel in the scene of the two planes. -/
def twoPlanePixel : Outcome (Job × IndependentLightPathSampler) :=
  kernelSubPaths twoPlaneEnv (eyeJobAt ⟨0, 0, 1⟩) 0 0 default 1 lightSampleDown lensSampleDown
    ⟨0⟩ 5

/-- The scene of the two planes with an emitting floor (object 1): emittance 1, unit EDF
value and density. -/
def emitterEnv : Env :=
  { twoPlaneEnv with
    isEmitting := fun sp => decide (sp.m_obj = 1)
    emittance := fun _ _ => ⟨[1]⟩
    edfEvaluate := fun _ _ => ⟨[1]⟩ }

/-- A job whose light vector holds the origin vertex at `p` and whose eye vector is empty. -/
def lightJobAt (p : Point3D) : Job :=
  { eyeVertices := [], lightVertices := [originAt p], curPx := 0, curPy := 0, wlHint := 0,
    sensor := [], trace := [] }

/-- The eye walk of the examples in the scene with the emitting floor. -/
def emitterEyeWalk : Outcome (Job × IndependentLightPathSampler) :=
  generateSubPath emitterEnv (eyeJobAt ⟨0, 0, 1⟩) default ⟨[1]⟩
    (mkRay ⟨0, 0, 1⟩ ⟨0, 0, F32.fin (-1)⟩) 1 default 1 false ⟨0⟩ 5

/-- The same walk made as a light subpath. -/
def emitterLightWalk : Outcome (Job × IndependentLightPathSampler) :=
  generateSubPath emitterEnv (lightJobAt ⟨0, 0, 1⟩) default ⟨[1]⟩
    (mkRay ⟨0, 0, 1⟩ ⟨0, 0, F32.fin (-1)⟩) 1 default 1 true ⟨0⟩ 5

/-- The scene of the two planes in which the floor (object 1) scatters with value `3/4` and
the ceiling with value 1: the roulette applied at the floor has acceptance probability
`3/4`, the one applied at the ceiling has acceptance probability 1. -/
def rouletteEnv : Env :=
  { twoPlaneEnv with
    bsdfSample := fun bsdf _ _ =>
      (if bsdf = 1 then ⟨[F32.fin (3 / 4)]⟩ else ⟨[1]⟩,
        ⟨⟨0, 0, 1⟩, 1, ⟨false, false, 0⟩, ⟨⟨[1]⟩, 1⟩⟩) }

/-- The eye walk of the examples in that scene. -/
def rouletteWalk : Outcome (Job × IndependentLightPathSampler) :=
  generateSubPath rouletteEnv (eyeJobAt ⟨0, 0, 1⟩) default ⟨[1]⟩
    (mkRay ⟨0, 0, 1⟩ ⟨0, 0, F32.fin (-1)⟩) 1 default 1 false ⟨0⟩ 5

/-- The loop state with which an iteration continues the walk, if it does. -/
def IterResult.state? (r : IterResult) : Option WalkState :=
  match r with
  | IterResult.next st => some st
  | _ => none

/-- A job whose two vectors are empty, as at the start of a pixel. -/
def emptyJob : Job :=
  { eyeVertices := [], lightVertices := [], curPx := 0, curPy := 0, wlHint := 0,
    sensor := [], trace := [] }

/-- The eye walk of a pixel in the scene of the roulette example, from the lens vertex on. -/
def rouletteEyeSubPath : Outcome (Job × IndependentLightPathSampler) :=
  eyeSubPath rouletteEnv emptyJob default 1 (lensSampleDown ⟨0⟩).1 ⟨1⟩ 5

/-! ## The connection loop (`kernel`, lines 169-258) -/

/-- Modelled from the spec: `DDFQuery` (declared in a header that is not among the sources),
as built by `DDFQuery{dirIn_sn, gNormal_sn, wlHint, adjoint}`. -/
structure DDFQuery where
  dirLocal : Vector3D
  gNormal_sn : Normal3D
  wlHint : Nat
  adjoint : Bool
deriving DecidableEq

/-- `PixelPosition`, the sample `p` that `getPixelPositionSample` hands to the kernel. -/
structure PixelPosition where
  x : F32
  y : F32
deriving DecidableEq

/-- The answers of the collaborators that the connection loop consults, on top of those of
the walk. -/
structure ConnectEnv extends Env where
  /-- `std::sqrt`. -/
  sqrt : F32 → F32
  /-- `normalize` of `BasicTypes/Vector3.h`. -/
  normalize : Vector3D → Vector3D
  /-- `ddf->evaluate(query, dir, &revDDF)`: the value and the reverse value. -/
  ddfEvaluate : DDFProxy → DDFQuery → Vector3D → SampledSpectrum × SampledSpectrum
  /-- `ddf->evaluatePDF(query, dir, &revPDF)`: the density and the reverse density. -/
  ddfEvaluatePDF : DDFProxy → DDFQuery → Vector3D → F32 × F32
  /-- `scene->testVisibility(shdP, lightP, time)`. -/
  testVisibility : SurfacePoint → SurfacePoint → F32 → Bool
  /-- `idf->calculatePixel(dir, &hitPx, &hitPy)` on the IDF behind the proxy. -/
  calculatePixel : DDFProxy → Vector3D → F32 × F32
  /-- The value of a `float` local that is declared and not assigned. -/
  uninit : F32

/-- Modelled from the spec: the quotient of a vector by a `float` (`BasicTypes/Vector3.h` is
not among the sources), componentwise. -/
def Vector3D.divF (v : Vector3D) (s : F32) : Vector3D := ⟨v.x / s, v.y / s, v.z / s⟩

/-- `InteractionPoint::getDirectionFrom` (geometry.h:136-146): the returned direction and
the value left in `*dist2`. -/
def SurfacePoint.getDirectionFrom (env : ConnectEnv) (sp : SurfacePoint)
    (shadingPoint : Point3D) : Vector3D × F32 :=
  if sp.m_atInfinity then (env.normalize (sp.m_p - Vector3D.Zero), 1)
  else
    let ret := sp.m_p - shadingPoint
    let dist2 := dot ret ret
    (ret.divF (env.sqrt dist2), dist2)

/-- The locals that the body of the connection loop computes for a pair of vertices before
its first test (lines 178-201). -/
structure Connection where
  connectDist2 : F32
  connectionVector : Vector3D
  cosLightEnd : F32
  cosEyeEnd : F32
  G : F32
  lConnectVector : Vector3D
  lDDF : SampledSpectrum
  lRevDDF : SampledSpectrum
  lExtend1stDirPDF : F32
  eExtend2ndDirPDF : F32
  eConnectVector : Vector3D
  eDDF : SampledSpectrum
  eRevDDF : SampledSpectrum
  eExtend1stDirPDF : F32
  lExtend2ndDirPDF : F32
  wlProb : F32
  connectionTerm : SampledSpectrum
deriving DecidableEq

/-- Lines 178-201: the factors of the full path that the stored throughputs do not hold. -/
def connection (env : ConnectEnv) (wlHint : Nat) (eVtx lVtx : BPTVertex) : Connection :=
  let (connectionVector, connectDist2) :=
    lVtx.surfPt.getDirectionFrom env eVtx.surfPt.getPosition
  let cosLightEnd := lVtx.surfPt.calcCosTerm connectionVector
  let cosEyeEnd := eVtx.surfPt.calcCosTerm connectionVector
  let G := cosEyeEnd * cosLightEnd / connectDist2
  let lConnectVector := lVtx.surfPt.toLocal (-connectionVector)
  let queryLightEnd : DDFQuery := ⟨lVtx.dirIn_sn, lVtx.gNormal_sn, wlHint, true⟩
  let (lDDF, lRevDDF) := env.ddfEvaluate lVtx.ddf queryLightEnd lConnectVector
  let (lExtend1stDirPDF, eExtend2ndDirPDF) :=
    env.ddfEvaluatePDF lVtx.ddf queryLightEnd lConnectVector
  let eConnectVector := eVtx.surfPt.toLocal connectionVector
  let queryEyeEnd : DDFQuery := ⟨eVtx.dirIn_sn, eVtx.gNormal_sn, wlHint, false⟩
  let (eDDF, eRevDDF) := env.ddfEvaluate eVtx.ddf queryEyeEnd eConnectVector
  let (eExtend1stDirPDF, lExtend2ndDirPDF) :=
    env.ddfEvaluatePDF eVtx.ddf queryEyeEnd eConnectVector
  let wlProb : F32 :=
    if (lVtx.wlFlags ||| eVtx.wlFlags) &&& env.LambdaIsSelected ≠ 0 then
      1 / F32.fin env.NumComponents
    else 1
  let connectionTerm := (lDDF.scale (G / wlProb)).mul eDDF
  { connectDist2 := connectDist2, connectionVector := connectionVector,
    cosLightEnd := cosLightEnd, cosEyeEnd := cosEyeEnd, G := G,
    lConnectVector := lConnectVector, lDDF := lDDF, lRevDDF := lRevDDF,
    lExtend1stDirPDF := lExtend1stDirPDF, eExtend2ndDirPDF := eExtend2ndDirPDF,
    eConnectVector := eConnectVector, eDDF := eDDF, eRevDDF := eRevDDF,
    eExtend1stDirPDF := eExtend1stDirPDF, lExtend2ndDirPDF := lExtend2ndDirPDF,
    wlProb := wlProb, connectionTerm := connectionTerm }

/-- Lines 216-222: the second extension of the light subpath, `(lExtend2ndAreaPDF,
lExtend2ndRRProb)`; both locals stay unassigned when `t ≤ 1`.  `none` stands for an access
outside the eye vector. -/
def lExtend2nd (env : ConnectEnv) (job : Job) (c : Connection) (eVtx : BPTVertex) (t : Nat) :
    Option (F32 × F32) :=
  if t > 1 then
    match job.eyeVertices[t - 2]? with
    | none => none
    | some eVtxNextToEnd =>
      let (dir2nd, dist2) := eVtx.surfPt.getDirectionFrom env eVtxNextToEnd.surfPt.getPosition
      some (c.lExtend2ndDirPDF * eVtxNextToEnd.surfPt.calcCosTerm dir2nd / dist2,
        F32.min (env.importance
          ((c.eRevDDF.scale (absDot eVtx.gNormal_sn eVtx.dirIn_sn)).divF c.lExtend2ndDirPDF)
          job.wlHint) 1)
  else some (env.uninit, env.uninit)

/-- Lines 229-235: the second extension of the eye subpath, `(eExtend2ndAreaPDF,
eExtend2ndRRProb)`; both locals stay unassigned when `s ≤ 1`.  `none` stands for an access
outside the light vector. -/
def eExtend2nd (env : ConnectEnv) (job : Job) (c : Connection) (lVtx : BPTVertex) (s : Nat) :
    Option (F32 × F32) :=
  if s > 1 then
    match job.lightVertices[s - 2]? with
    | none => none
    | some lVtxNextToEnd =>
      let (dir2nd, dist2) := lVtxNextToEnd.surfPt.getDirectionFrom env lVtx.surfPt.getPosition
      some (c.eExtend2ndDirPDF * lVtxNextToEnd.surfPt.calcCosTerm dir2nd / dist2,
        F32.min (env.importance
          ((c.lRevDDF.scale (absDot lVtx.gNormal_sn lVtx.dirIn_sn)).divF c.eExtend2ndDirPDF)
          job.wlHint) 1)
  else some (env.uninit, env.uninit)

/-- Lines 248-256: the deposit of a contribution, on the shared sensor at the pixel `p`
when `t > 1`, and else on the buffer of the thread at the pixel that the IDF of the eye
vertex computes for the connection direction. -/
def deposit (env : ConnectEnv) (job : Job) (threadID : Nat) (wls : WavelengthSamples)
    (p : PixelPosition) (c : Connection) (eVtx : BPTVertex) (t : Nat)
    (contribution : SampledSpectrum) : Job :=
  if t > 1 then
    { job with sensor := job.sensor ++ [⟨none, p.x, p.y, wls, contribution⟩] }
  else
    let (hitPx, hitPy) := env.calculatePixel eVtx.ddf c.eConnectVector
    { job with sensor := job.sensor ++ [⟨some threadID, hitPx, hitPy, wls, contribution⟩] }

/-- Lines 209-241: the extension densities and probabilities of the two subpaths at the
connection, and the call of `calculateMISWeight` with them.  `none` stands for an access
outside a vector. -/
def connectionWeight (env : ConnectEnv) (job : Job) (c : Connection) (eVtx lVtx : BPTVertex)
    (t s : Nat) : Option F32 :=
  let lExtend1stAreaPDF := c.lExtend1stDirPDF * c.cosEyeEnd / c.connectDist2
  let lExtend1stRRProb :=
    if s > 1 then
      F32.min (env.importance ((c.lDDF.scale c.cosLightEnd).divF c.lExtend1stDirPDF)
        job.wlHint) 1
    else 1
  match lExtend2nd env job c eVtx t with
  | none => none
  | some (lExtend2ndAreaPDF, lExtend2ndRRProb) =>
    let eExtend1stAreaPDF := c.eExtend1stDirPDF * c.cosLightEnd / c.connectDist2
    let eExtend1stRRProb :=
      if t > 1 then
        F32.min (env.importance ((c.eDDF.scale c.cosEyeEnd).divF c.eExtend1stDirPDF)
          job.wlHint) 1
      else 1
    match eExtend2nd env job c lVtx s with
    | none => none
    | some (eExtend2ndAreaPDF, eExtend2ndRRProb) =>
      calculateMISWeight job.eyeVertices job.lightVertices
        lExtend1stAreaPDF lExtend1stRRProb lExtend2ndAreaPDF lExtend2ndRRProb
        eExtend1stAreaPDF eExtend1stRRProb eExtend2ndAreaPDF eExtend2ndRRProb s t

/-- The body of the connection loop for the pair `(s, t)` (lines 171-257), `continue`
being the return of the job as it is.  `none` stands for an access outside a vector.  The
assertions (`SLRAssert`) are not modelled. -/
def connectPair (env : ConnectEnv) (job : Job) (threadID : Nat) (time : F32)
    (wls : WavelengthSamples) (p : PixelPosition) (t s : Nat) : Option Job :=
  match job.eyeVertices[t - 1]? with
  | none => none
  | some eVtx =>
    match job.lightVertices[s - 1]? with
    | none => none
    | some lVtx =>
      let c := connection env job.wlHint eVtx lVtx
      if c.connectionTerm.isZero then some job
      else
        let job := { job with trace := job.trace ++
          [Event.testVisibility eVtx.surfPt lVtx.surfPt time] }
        if !env.testVisibility eVtx.surfPt lVtx.surfPt time then some job
        else
          match connectionWeight env job c eVtx lVtx t s with
          | none => none
          | some MISWeight =>
            let job := { job with trace := job.trace ++
              [Event.calculateMISWeight s t (job.eyeVertices.map BPTVertex.revWrites)
                (job.lightVertices.map BPTVertex.revWrites)] }
            if F32.isinf MISWeight || F32.isnan MISWeight then some job
            else
              let contribution :=
                ((lVtx.alpha.scale MISWeight).mul c.connectionTerm).mul eVtx.alpha
              some (deposit env job threadID wls p c eVtx t contribution)

/-- The inner loop `for (int s = 1; s <= lightVertices.size(); ++s)` from `s` on, with
`n` iterations left. -/
def connectLight (env : ConnectEnv) (threadID : Nat) (time : F32) (wls : WavelengthSamples)
    (p : PixelPosition) (t : Nat) : Nat → Nat → Job → Option Job
  | 0, _, job => some job
  | n + 1, s, job =>
    match connectPair env job threadID time wls p t s with
    | none => none
    | some job => connectLight env threadID time wls p t n (s + 1) job

/-- The outer loop `for (int t = 1; t <= eyeVertices.size(); ++t)` from `t` on, with `n`
iterations left. -/
def connectEye (env : ConnectEnv) (threadID : Nat) (time : F32) (wls : WavelengthSamples)
    (p : PixelPosition) : Nat → Nat → Job → Option Job
  | 0, _, job => some job
  | n + 1, t, job =>
    match connectLight env threadID time wls p t job.lightVertices.length 1 job with
    | none => none
    | some job => connectEye env threadID time wls p n (t + 1) job

/-- The connection loop of the kernel (lines 169-258).  The two vectors are not modified in
the loop, so that their sizes on entry give the numbers of iterations. -/
def connectionLoop (env : ConnectEnv) (job : Job) (threadID : Nat) (time : F32)
    (wls : WavelengthSamples) (p : PixelPosition) : Option Job :=
  connectEye env threadID time wls p job.eyeVertices.length 1 job

/-- The collaborators of the connection examples, on top of the scene of the two planes:
every distribution has value 1 and density 1 in both directions, every pair of points is
mutually visible unless the light point belongs to object 9, the camera maps every
direction to the pixel `(3, 4)`, and the square root is exact on the squared distances
`0`, `1` and `4` that occur. -/
def connectExampleEnv : ConnectEnv :=
  { twoPlaneEnv with
    sqrt := fun x => if x = F32.fin 4 then F32.fin 2 else x
    normalize := fun v => v
    ddfEvaluate := fun ddf _ _ => (if ddf = DDFProxy.edf 8 then ⟨[0]⟩ else ⟨[1]⟩, ⟨[1]⟩)
    ddfEvaluatePDF := fun _ _ _ => (1, 1)
    testVisibility := fun _ lightP _ => decide (lightP.m_obj ≠ 9)
    calculatePixel := fun _ _ => (F32.fin 3, F32.fin 4)
    uninit := F32.nan }

/-- A vertex at `p` with normal `n`, throughput `alpha`, stored density 1 and survival
probability 1, on object `obj`. -/
def vertexAt (p : Point3D) (n : Normal3D) (obj : Nat) (ddf : DDFProxy) (alpha : F32) :
    BPTVertex :=
  { originVertex with
    surfPt := mkSurfacePoint p n obj, gNormal_sn := ⟨0, 0, 1⟩, ddf := ddf,
    alpha := ⟨[alpha]⟩ }

/-- The lens vertex of the connection examples, at `(0, 0, 2)`, of throughput 1. -/
def lensVertex : BPTVertex := vertexAt ⟨0, 0, 2⟩ ⟨0, 0, F32.fin (-1)⟩ 4 (DDFProxy.idf 4) 1

/-- The eye vertex of the connection examples on the floor, at the origin, reached along
the normal, of throughput 2. -/
def floorVertex : BPTVertex :=
  { vertexAt ⟨0, 0, 0⟩ ⟨0, 0, 1⟩ 1 (DDFProxy.bsdf 1) 2 with dirIn_sn := ⟨0, 0, 1⟩ }

/-- The light vertex of the connection examples, on object `obj` at `(0, 0, 1)`, of
throughput 3 and distribution `ddf`. -/
def lightVertexOn (obj : Nat) (ddf : DDFProxy) : BPTVertex :=
  vertexAt ⟨0, 0, 1⟩ ⟨0, 0, 1⟩ obj ddf 3

/-- A job at the entry of the connection loop: the eye vector holds the lens vertex and the
floor vertex, the light vector holds the light vertex on object `obj`. -/
def connectJob (obj : Nat) (ddf : DDFProxy) : Job :=
  { eyeVertices := [lensVertex, floorVertex], lightVertices := [lightVertexOn obj ddf],
    curPx := F32.fin 5, curPy := F32.fin 6, wlHint := 0, sensor := [], trace := [] }

/-! ## `render` (lines 25-101) and the pixel loop of `kernel` (lines 103-109)

The declarations of `ImageSensor`, of the thread pool and of the members of `Job` are not
among the sources, so that the tile arithmetic is done on natural numbers.  The counters of
the round loop, whose types are visible in `render`, are machine integers: `s` is an `int`
and `imgIdx` and `exportPass` are `uint32_t`. -/

/-- What `render` reads of its settings, of the renderer and of the sensor. -/
structure RenderConfig where
  /-- `m_samplesPerPixel`, a `uint32_t`. -/
  samplesPerPixel : Nat
  /-- `settings.getFloat(RenderSettingItem::Brightness)`. -/
  brightness : F32
  /-- `sensor->numTileX()`. -/
  numTileX : Nat
  /-- `sensor->numTileY()`. -/
  numTileY : Nat
  /-- `sensor->tileWidth()`. -/
  tileWidth : Nat
  /-- `sensor->tileHeight()`. -/
  tileHeight : Nat

/-- The copy of the job that `std::bind` makes for one task, as far as the tasks differ:
the base pixel of the tile and the numbers of pixels of a tile.  `round` is instrumentation:
the value of `s` when the task was enqueued. -/
structure Task where
  round : Nat
  basePixelX : Nat
  basePixelY : Nat
  numPixelX : Nat
  numPixelY : Nat
deriving DecidableEq

/-- One call `sensor->saveImage(filename, scale)`: the number printed in the file name, the
scale, and the contents of the sensor at the time of the call.  `sampleCount` is
instrumentation: the value of `s + 1` at the time of the call. -/
structure Export where
  imgIdx : Nat
  sampleCount : Nat
  scale : F32
  image : List SensorAdd
deriving DecidableEq

/-- The locals of `render` that live across the rounds, with the sensor, modelled by the
list of the contributions added to it since `init`.  `exports`, `enqueued` and `rounds`
are instrumentation: the calls of `saveImage` and of `enqueue` so far, in order, and the
values of `s` for which the body of the loop has waited for its tasks. -/
structure RenderState where
  s : Nat
  imgIdx : Nat
  exportPass : Nat
  sensor : List SensorAdd
  exports : List Export
  enqueued : List Task
  rounds : List Nat
deriving DecidableEq

/-- Lines 67-73: the tasks that one round enqueues, in the order of the two loops over the
tiles; `numPixelX` and `numPixelY` are the tile sizes (lines 49-50). -/
def roundTasks (cfg : RenderConfig) (s : Nat) : List Task :=
  (List.range cfg.numTileY).flatMap fun ty =>
    (List.range cfg.numTileX).map fun tx =>
      { round := s, basePixelX := tx * cfg.tileWidth, basePixelY := ty * cfg.tileHeight,
        numPixelX := cfg.tileWidth, numPixelY := cfg.tileHeight }

/-- Lines 106-109 of `kernel`: the integer pixels `(basePixelX + lx, basePixelY + ly)` that
the two loops of a task hand to `getPixelPositionSample`, in order. -/
def kernelPixels (task : Task) : List (Nat × Nat) :=
  (List.range task.numPixelY).flatMap fun ly =>
    (List.range task.numPixelX).map fun lx => (task.basePixelX + lx, task.basePixelY + ly)

/-- The integer pixels that the tasks of one round process. -/
def roundPixels (cfg : RenderConfig) (s : Nat) : List (Nat × Nat) :=
  (roundTasks cfg s).flatMap kernelPixels

/-- Lines 65-74: one round.  The tasks are enqueued and, at `threadPool.wait()`, all of
them have run; `kernelAdds task` stands for the contributions that the kernel of `task`
adds to the sensor, listed here in the order of the tasks. -/
def renderRound (cfg : RenderConfig) (kernelAdds : Task → List SensorAdd) (st : RenderState) :
    RenderState :=
  { st with
    sensor := st.sensor ++ (roundTasks cfg st.s).flatMap kernelAdds,
    enqueued := st.enqueued ++ roundTasks cfg st.s, rounds := st.rounds ++ [st.s] }

/-- The loop `for (int s = 0; s < m_samplesPerPixel; ++s)` of `render` (lines 64-95) with a
bound on the number of evaluations of its condition.  `fault` stands for the overflow of
`s + 1` in `int`. -/
def renderLoop (cfg : RenderConfig) (kernelAdds : Task → List SensorAdd) :
    Nat → RenderState → Outcome RenderState
  | 0, _ => Outcome.outOfFuel
  | fuel + 1, st =>
    if st.s < cfg.samplesPerPixel then
      let st := renderRound cfg kernelAdds st
      if 2 ^ 31 ≤ st.s + 1 then Outcome.fault
      else if st.s + 1 = st.exportPass then
        let image : Export :=
          ⟨st.imgIdx, st.s + 1, cfg.brightness / F32.fin ((st.s + 1 : Nat) : ℚ), st.sensor⟩
        let st := { st with exports := st.exports ++ [image] }
        let st := { st with imgIdx := (st.imgIdx + 1) % 2 ^ 32 }
        if st.s + 1 = cfg.samplesPerPixel then Outcome.ok st
        else
          let st := { st with exportPass := (st.exportPass + st.exportPass) % 2 ^ 32 }
          renderLoop cfg kernelAdds fuel { st with s := st.s + 1 }
      else renderLoop cfg kernelAdds fuel { st with s := st.s + 1 }
    else Outcome.ok st

/-- Modelled from the spec: `ImageSensor::init` (its definition is not among the sources)
empties the buffers of the sensor. -/
def ImageSensor.init (_sensor : List SensorAdd) : List SensorAdd := []

/-- `BidirectionalPathTracingRenderer::render` (lines 25-101), as far as the sensor, the
tasks and the exported images go: `sensor->init` (line 53) and the loop over the rounds,
which evaluates its condition at most `samplesPerPixel + 1` times. -/
def render (cfg : RenderConfig) (kernelAdds : Task → List SensorAdd)
    (sensor : List SensorAdd) : Outcome RenderState :=
  renderLoop cfg kernelAdds (cfg.samplesPerPixel + 1)
    { s := 0, imgIdx := 0, exportPass := 1, sensor := ImageSensor.init sensor, exports := [],
      enqueued := [], rounds := [] }

/-- The contents of the sensor after `n` rounds that started from an empty sensor. -/
def cumulativeSensor (cfg : RenderConfig) (kernelAdds : Task → List SensorAdd) (n : Nat) :
    List SensorAdd :=
  (List.range n).flatMap fun s => (roundTasks cfg s).flatMap kernelAdds

/-- The export of number `k` as the schedule of doubling makes it: after `2 ^ k` rounds,
with the cumulative sensor and the brightness over the number of rounds. -/
def checkpoint (cfg : RenderConfig) (kernelAdds : Task → List SensorAdd) (k : Nat) : Export :=
  ⟨k, 2 ^ k, cfg.brightness / F32.fin ((2 ^ k : Nat) : ℚ),
    cumulativeSensor cfg kernelAdds (2 ^ k)⟩

/-- A sensor of 3 by 2 tiles of 2 by 2 pixels rendered with 5 samples per pixel. -/
def exampleConfig : RenderConfig :=
  { samplesPerPixel := 5, brightness := 3, numTileX := 3, numTileY := 2, tileWidth := 2,
    tileHeight := 2 }

/-- A kernel that adds, per task, one contribution at the base pixel of its tile. -/
def exampleKernel (task : Task) : List SensorAdd :=
  [⟨none, F32.fin task.basePixelX, F32.fin task.basePixelY, default, ⟨[1]⟩⟩]

/-- The exports of a call of `render` that ended normally. -/
def Outcome.exports (o : Outcome RenderState) : List Export :=
  match o with
  | Outcome.ok st => st.exports
  | _ => []

/-- The tasks enqueued by a call of `render` that ended normally. -/
def Outcome.enqueued (o : Outcome RenderState) : List Task :=
  match o with
  | Outcome.ok st => st.enqueued
  | _ => []

/-- A contribution left in the sensor by an earlier use. -/
def staleAdd : SensorAdd := ⟨none, F32.fin 9, F32.fin 9, default, ⟨[7]⟩⟩

/-! ## Russian roulette as a random experiment (lines 332-339)

The two definitions that follow are generic in the ordered field of the values, so that
they can be evaluated on rational numbers and integrated over real numbers. -/

/-- Lines 336-339: the factor that one roulette decision leaves of the weight `w`, for the
survival probability `p` and the termination sample `u`: `w / p` when `u < p`, and nothing
(the walk ends, `break`) otherwise. -/
def rouletteFactor {K : Type} [LinearOrderedField K] (p w u : K) : K :=
  if u < p then w / p else 0

/-- The factor by which `N` successive iterations of the loop multiply the throughput
(`alpha *= weight`, line 340), for the survival probabilities `p`, the weights `w` and the
termination samples `u` of the iterations; it is 0 as soon as one decision ends the
walk. -/
def rouletteThroughput {K : Type} [LinearOrderedField K] {N : Nat} (p w u : Fin N → K) : K :=
  ∏ i, rouletteFactor (p i) (w i) (u i)

/-- The average of the values of `X` over `M` runs. -/
def sampleAverage {K : Type} [Field K] {Ω : Type} {M : Nat} (X : Ω → K) (x : Fin M → Ω) : K :=
  (∑ j, X (x j)) / (M : K)

/-- The termination samples of `N` decisions as a random experiment: each one in `[0, 1)`,
uniform when the cube carries the Lebesgue measure.  The generator of
`RandomNumberGenerator.h` draws its samples from this interval (`getFloat0cTo1o`, the
multiples of `2 ^ -23`). -/
def unitCube (N : Nat) : Set (Fin N → ℝ) := Set.pi Set.univ (fun _ => Set.Ico (0 : ℝ) 1)

/-- The vertex `v` with the delta flag of its sampled type set to `b`. -/
def BPTVertex.withDelta (v : BPTVertex) (b : Bool) : BPTVertex :=
  { v with sampledType := { v.sampledType with delta := b } }

/-- The chain `sub` in which the delta flag of the vertex of index `i` is set to `b`. -/
def setDelta (sub : List BPTVertex) (i : Nat) (b : Bool) : List BPTVertex :=
  sub.set i ((sub[i]?.getD default).withDelta b)

/-- The members of a vertex that its constructor sets, in the order of its arguments:
everything but the two reverse members (and the count of their writes). -/
def BPTVertex.record (v : BPTVertex) :
    SurfacePoint × Vector3D × Normal3D × DDFProxy × SampledSpectrum × F32 × F32 ×
      DirectionType × Nat :=
  (v.surfPt, v.dirIn_sn, v.gNormal_sn, v.ddf, v.alpha, v.areaPDF, v.RRProb, v.sampledType,
    v.wlFlags)

/-- The scene of the two planes in which the second object is the environment: a hit on it
is at infinity and emits. -/
def skyEnv : Env :=
  { twoPlaneEnv with
    getSurfacePoint := fun si =>
      { mkSurfacePoint si.m_p si.m_gNormal si.m_obj with m_atInfinity := decide (si.m_obj = 2) }
    isEmitting := fun sp => decide (sp.m_obj = 2)
    emittance := fun _ _ => ⟨[1]⟩
    edfEvaluate := fun _ _ => ⟨[1]⟩ }

/-- The eye walk of the examples in the scene with the environment. -/
def skyWalk : Outcome (Job × IndependentLightPathSampler) :=
  generateSubPath skyEnv (eyeJobAt ⟨0, 0, 1⟩) default ⟨[1]⟩
    (mkRay ⟨0, 0, 1⟩ ⟨0, 0, F32.fin (-1)⟩) 1 default 1 false ⟨0⟩ 5

/-- The loop state of the eye walk of the examples after its first iteration in the scene
with the environment: the floor vertex is appended and the ray leaves upwards. -/
def skyState : WalkState :=
  match walkIter skyEnv false twoPlaneStart with
  | IterResult.next st => st
  | _ => twoPlaneStart

/-- The floor vertex that the first iteration of the eye walk of the examples appends in the
scene with the environment. -/
def skyFloorVertex : BPTVertex :=
  hitVertex skyEnv twoPlaneStart (originAt ⟨0, 0, 1⟩)
    (skyEnv.getSurfacePoint (mkInteraction 1 ⟨0, 0, 0⟩ ⟨0, 0, 1⟩ 1))

/-- The test `flags & WavelengthSamples::LambdaIsSelected` of the program: the flag word
carries the flag. -/
def hasLambdaSelected (L flags : Nat) : Bool := decide (flags &&& L ≠ 0)

/-- The wavelength flags of a walk after scattering samples of the given types, as the
specification words it: the initial flags, with `LambdaIsSelected` added as soon as one of
the samples is dispersive. -/
def flagsAfter (L init : Nat) (types : List DirectionType) : Nat :=
  if types.any DirectionType.isDispersive then init ||| L else init

/-- The scene of the two planes in which the floor (object 1) scatters dispersively. -/
def prismEnv : Env :=
  { twoPlaneEnv with
    bsdfSample := fun bsdf _ _ =>
      (⟨[1]⟩, ⟨⟨0, 0, 1⟩, 1, ⟨false, decide (bsdf = 1), 0⟩, ⟨⟨[1]⟩, 1⟩⟩) }

/-- The eye walk of the examples in that scene. -/
def prismWalk : Outcome (Job × IndependentLightPathSampler) :=
  generateSubPath prismEnv (eyeJobAt ⟨0, 0, 1⟩) default ⟨[1]⟩
    (mkRay ⟨0, 0, 1⟩ ⟨0, 0, F32.fin (-1)⟩) 1 default 1 false ⟨0⟩ 5

/-- The vertices that the eye walk of the examples appends in the scene with the dispersive
floor: the floor vertex and the ceiling vertex. -/
def prismAppended : List BPTVertex :=
  ((prismWalk.getD (eyeJobAt ⟨0, 0, 1⟩, ⟨0⟩)).1.vertices false).drop
    ((eyeJobAt ⟨0, 0, 1⟩).vertices false).length

/-! ## The subscripts of `extendAndShorten` in the arithmetic of the program

`numVertices` and `minNumVertices` are `uint32_t`, the loop counter `i` is an `int`, and a
subscript of `std::vector` is a `size_t` of 64 bits.  The subscripts depend on the two
counts only, not on the vertices. -/

/-- The value of a `uint32_t` converted to `int`. -/
def toInt32 (u : Nat) : Int :=
  if u % 2 ^ 32 < 2 ^ 31 then ((u % 2 ^ 32 : Nat) : Int) else ((u % 2 ^ 32 : Nat) : Int) - 2 ^ 32

/-- The value of an `int` converted to `uint32_t`. -/
def toUInt32 (i : Int) : Nat := (i % 2 ^ 32).toNat

/-- The value of an `int` converted to `size_t`. -/
def toSizeT (i : Int) : Nat := (i % 2 ^ 64).toNat

/-- The loop `for (int i = numVertices - 2; i > minNumVertices; --i)` (lines 377-384),
entered with the counter `i`: the pairs of the value of the counter and of the subscript
`i - 1`, converted to `size_t`, of each iteration.  The comparison converts `i` to
`uint32_t`.  `none` stands for the overflow of `i - 1` in `int`, or for a loop that does
not end within `fuel` evaluations of its condition. -/
def shortenLoopReads (minNumVertices : Nat) : Nat → Int → Option (List (Int × Nat))
  | 0, _ => none
  | fuel + 1, i =>
    if toUInt32 i > minNumVertices then
      if i - 1 < -(2 ^ 31) then none
      else
        match shortenLoopReads minNumVertices fuel (i - 1) with
        | none => none
        | some reads => some ((i, toSizeT (i - 1)) :: reads)
    else some []

/-- The subscripts that `extendAndShorten` (lines 360-387) applies to `subPathToShorten`,
in order: `numVertices - 1` and `numVertices - 2`, computed in `uint32_t`, and those of the
loop, which evaluates its condition at most `numVertices + 1` times. -/
def extendAndShortenReads (numVertices minNumVertices : Nat) : Option (List Nat) :=
  if numVertices > minNumVertices then
    let first := (numVertices + 2 ^ 32 - 1) % 2 ^ 32
    if first > minNumVertices then
      let second := (numVertices + 2 ^ 32 - 2) % 2 ^ 32
      match shortenLoopReads minNumVertices (numVertices + 1) (toInt32 second) with
      | none => none
      | some reads => some (first :: second :: reads.map Prod.snd)
    else some [first]
  else some []

/-- The three components of the vector are finite values. -/
def Vector3D.isFinite (v : Vector3D) : Bool :=
  F32.isfinite v.x && F32.isfinite v.y && F32.isfinite v.z

/-- `BoundingBox3D` (SLR/Core/geometry.h:35-109): the two points `minP` and `maxP`, declared in
this order. -/
structure BoundingBox3D where
  minP : Point3D
  maxP : Point3D
deriving DecidableEq

namespace BoundingBox3D

/-- The `float` members of a box in the order of their declaration: the three coordinates of
`minP`, then the three coordinates of `maxP`. -/
def floats (b : BoundingBox3D) : List F32 :=
  [b.minP.x, b.minP.y, b.minP.z, b.maxP.x, b.maxP.y, b.maxP.z]

/-- The read `*(&minP.x + k)`: the `float` that lies `k` elements after `minP.x`, and `none`
when that element is not one of the six coordinates of the box. -/
def readFloat (b : BoundingBox3D) (k : Nat) : Option F32 := b.floats[k]?

/-- `BoundingBox3D::corner` (SLR/Core/geometry.h:60-66).  `sizeofPoint3D` is the value of
`sizeof(Point3D)` (the type is declared in `BasicTypes/Point3.h`, not among the sources; it holds
three `float` members).  `&minP.y` and `&minP.z` lie one and two elements after `&minP.x`; the
products are computed in `size_t` and added to a `const float*`, so they count elements.  The
result is `none` when the assertion `c < 8` fails or a read leaves the six coordinates. -/
def corner (sizeofPoint3D : Nat) (b : BoundingBox3D) (c : Nat) : Option Point3D :=
  if c < 8 then
    let offset := sizeofPoint3D
    match b.readFloat (0 + offset * (c &&& 0x01)), b.readFloat (1 + offset * (c &&& 0x02)),
        b.readFloat (2 + offset * (c &&& 0x04)) with
    | some x, some y, some z => some ⟨x, y, z⟩
    | _, _, _ => none
  else none

/-- The corner of the box selected by the bits of `c`: each coordinate is taken from `maxP`
when the bit of `c` for its axis (bit 0 for x, bit 1 for y, bit 2 for z) is set and from `minP`
otherwise. -/
def cornerByBits (b : BoundingBox3D) (c : Nat) : Point3D :=
  ⟨if c.testBit 0 then b.maxP.x else b.minP.x, if c.testBit 1 then b.maxP.y else b.minP.y,
    if c.testBit 2 then b.maxP.z else b.minP.z⟩

end BoundingBox3D

/-- The box from (0, 0, 0) to (1, 2, 3). -/
def sampleBox : BoundingBox3D := ⟨⟨0, 0, 0⟩, ⟨1, 2, 3⟩⟩

namespace Vector3D

/-- Modelled from the spec: `Vector3D::reciprocal` of `BasicTypes/Vector3.h` (not among the
sources), the vector of the reciprocals of the three components. -/
def reciprocal (v : Vector3D) : Vector3D := ⟨1 / v.x, 1 / v.y, 1 / v.z⟩

/-- Modelled from the spec: the product `a * b` of two vectors of `BasicTypes/Vector3.h`,
component by component. -/
def mulv (a b : Vector3D) : Vector3D := ⟨a.x * b.x, a.y * b.y, a.z * b.z⟩

/-- Modelled from the spec: `operator[]` of `BasicTypes/Vector3.h`, read of the component of
index `i` (0 for x, 1 for y, 2 for z). -/
def get (v : Vector3D) (i : Nat) : F32 :=
  match i with
  | 0 => v.x
  | 1 => v.y
  | _ => v.z

/-- Modelled from the spec: `operator[]` of `BasicTypes/Vector3.h`, write of the component of
index `i`. -/
def set (v : Vector3D) (i : Nat) (a : F32) : Vector3D :=
  match i with
  | 0 => { v with x := a }
  | 1 => { v with y := a }
  | _ => { v with z := a }

/-- No component of the vector compares equal to zero. -/
def noZeroComponent (v : Vector3D) : Bool :=
  !F32.eq v.x 0 && !F32.eq v.y 0 && !F32.eq v.z 0

end Vector3D

/-- The point `org + d * dir` of a ray. -/
def Ray.pointAt (r : Ray) (d : F32) : Point3D :=
  ⟨r.org.x + d * r.dir.x, r.org.y + d * r.dir.y, r.org.z + d * r.dir.z⟩

namespace BoundingBox3D

/-- The loop of `BoundingBox3D::intersect` (SLR/Core/geometry.h:99-106) from the axis `i` on,
with `n` axes left to visit (the call starts it with `i = 0` and `n = 3`).  The exchange of
`tNear[i]` and `tFar[i]` is made in the two local vectors. -/
def intersectLoop : Nat → Nat → Vector3D → Vector3D → F32 → F32 → Bool
  | 0, _, _, _, _, _ => true
  | n + 1, i, tNear, tFar, dist0, dist1 =>
    let swap := F32.lt (tFar.get i) (tNear.get i)
    let tNear2 := if swap then tNear.set i (tFar.get i) else tNear
    let tFar2 := if swap then tFar.set i (tNear.get i) else tFar
    let dist0 := if F32.lt dist0 (tNear2.get i) then tNear2.get i else dist0
    let dist1 := if F32.lt (tFar2.get i) dist1 then tFar2.get i else dist1
    if F32.lt dist1 dist0 then false else intersectLoop n (i + 1) tNear2 tFar2 dist0 dist1

/-- `BoundingBox3D::intersect` (SLR/Core/geometry.h:94-108). -/
def intersect (b : BoundingBox3D) (r : Ray) : Bool :=
  let dist0 := r.distMin
  let dist1 := r.distMax
  let invRayDir := r.dir.reciprocal
  let tNear := (b.minP - r.org).mulv invRayDir
  let tFar := (b.maxP - r.org).mulv invRayDir
  intersectLoop 3 0 tNear tFar dist0 dist1

/-- The point `p` lies in the closed box: each coordinate lies between the coordinates of
`minP` and `maxP`, bounds included. -/
def containsPoint (b : BoundingBox3D) (p : Point3D) : Bool :=
  F32.le b.minP.x p.x && F32.le p.x b.maxP.x && F32.le b.minP.y p.y && F32.le p.y b.maxP.y &&
    F32.le b.minP.z p.z && F32.le p.z b.maxP.z

/-- The box has `minP <= maxP` in each coordinate. -/
def isOrdered (b : BoundingBox3D) : Bool :=
  F32.le b.minP.x b.maxP.x && F32.le b.minP.y b.maxP.y && F32.le b.minP.z b.maxP.z

end BoundingBox3D

/-- A ray from (-1, -1, -1) in the direction (1, 2, 3), with the default range from 0 to
infinity. -/
def sampleRay : Ray := ⟨⟨-1, -1, -1⟩, ⟨1, 2, 3⟩, 0, 0, F32.inf false⟩

/-! ## The rounds of `render` with the worker threads

`ThreadPool` is not among the sources.  Its tasks are run by worker threads at times that
`render` does not control: the steps of the workers between two calls that `render` makes
are chosen by a scheduler, a parameter of the model. -/

/-- Modelled from the spec: a task held by a thread pool (`ThreadPool` is not among the
sources): the bound copy of the job, and the contributions that its kernel has still to add to
the sensor. -/
structure PoolEntry where
  task : Task
  todo : List SensorAdd
deriving DecidableEq

/-- What the worker threads act on: the tasks that were enqueued and are not complete, the
sensor, and, as instrumentation, the tasks that have completed, in the order of their
completion. -/
structure Workers where
  running : List PoolEntry
  sensor : List SensorAdd
  completed : List Task
deriving DecidableEq

/-- Modelled from the spec: one step of a worker thread on the task at position `k` of the
running tasks.  The kernel adds its next contribution to the sensor; a kernel that has
nothing left to add returns, which completes the task.  A `k` that names no running task is
no step. -/
def workerStep (k : Nat) (w : Workers) : Workers :=
  match w.running[k]? with
  | none => w
  | some e =>
    match e.todo with
    | [] =>
      { w with running := w.running.take k ++ w.running.drop (k + 1),
               completed := w.completed ++ [e.task] }
    | a :: rest =>
      { w with running := w.running.take k ++ (⟨e.task, rest⟩ : PoolEntry) :: w.running.drop (k + 1),
               sensor := w.sensor ++ [a] }

/-- The steps `ks` of the workers, in order. -/
def workerSteps (ks : List Nat) (w : Workers) : Workers :=
  ks.foldl (fun w k => workerStep k w) w

/-- Modelled from the spec: `ThreadPool::enqueue`.  The task joins the running tasks; the
workers have made the steps `ks` since the previous call of `render`. -/
def poolEnqueue (ks : List Nat) (task : Task) (adds : List SensorAdd) (w : Workers) : Workers :=
  let w := workerSteps ks w
  { w with running := w.running ++ [⟨task, adds⟩] }

/-- Modelled from the spec: `ThreadPool::wait` of the pool of round `round`.  It returns when
every task enqueued in this pool is complete: the workers make the steps `ks`, and the tasks
of the pool that these steps leave incomplete then run to their end, in the order of the
pool.  Running tasks of another pool are not waited for. -/
def poolWait (round : Nat) (ks : List Nat) (w : Workers) : Workers :=
  let w := workerSteps ks w
  let mine := w.running.filter fun e => e.task.round = round
  { running := w.running.filter fun e => ¬ e.task.round = round,
    sensor := w.sensor ++ mine.flatMap PoolEntry.todo,
    completed := w.completed ++ mine.map PoolEntry.task }

/-- Instrumentation: a call of `enqueue`, with the tasks that were complete when it was
made. -/
structure EnqueueCall where
  task : Task
  completed : List Task
deriving DecidableEq

/-- Instrumentation: a call of `saveImage`, with the tasks that were complete when it read the
sensor. -/
structure SaveImageCall where
  image : Export
  completed : List Task
deriving DecidableEq

/-- The locals of `render` that live across the rounds, and what the worker threads act on.
`clock` is instrumentation: the number of calls of `enqueue`, `wait` and `saveImage` so far,
which is what the scheduler is asked by.  `enqueues` and `exports` are instrumentation. -/
structure ThreadedState where
  s : Nat
  imgIdx : Nat
  exportPass : Nat
  workers : Workers
  clock : Nat
  enqueues : List EnqueueCall
  exports : List SaveImageCall
deriving DecidableEq

/-- Lines 67-73: the calls of `enqueue` of one round, in the order of the two loops over the
tiles. -/
def enqueueAll (kernelAdds : Task → List SensorAdd) (sched : Nat → List Nat) :
    List Task → ThreadedState → ThreadedState
  | [], c => c
  | task :: rest, c =>
    let w := poolEnqueue (sched c.clock) task (kernelAdds task) c.workers
    let call : EnqueueCall := ⟨task, w.completed⟩
    enqueueAll kernelAdds sched rest
      { c with workers := w, clock := c.clock + 1, enqueues := c.enqueues ++ [call] }

/-- Lines 65-74: one round.  The pool of the round is new (line 65), the tasks are enqueued
and `render` waits for the pool (line 74). -/
def threadedRound (cfg : RenderConfig) (kernelAdds : Task → List SensorAdd)
    (sched : Nat → List Nat) (c : ThreadedState) : ThreadedState :=
  let c := enqueueAll kernelAdds sched (roundTasks cfg c.s) c
  { c with workers := poolWait c.s (sched c.clock) c.workers, clock := c.clock + 1 }

/-- The loop `for (int s = 0; s < m_samplesPerPixel; ++s)` of `render` (lines 64-95) with the
worker threads, and with a bound on the number of evaluations of its condition.  `fault`
stands for the overflow of `s + 1` in `int`.  The workers may step before `saveImage` reads
the sensor. -/
def renderLoopThreaded (cfg : RenderConfig) (kernelAdds : Task → List SensorAdd)
    (sched : Nat → List Nat) : Nat → ThreadedState → Outcome ThreadedState
  | 0, _ => Outcome.outOfFuel
  | fuel + 1, c =>
    if c.s < cfg.samplesPerPixel then
      let c := threadedRound cfg kernelAdds sched c
      if 2 ^ 31 ≤ c.s + 1 then Outcome.fault
      else if c.s + 1 = c.exportPass then
        let w := workerSteps (sched c.clock) c.workers
        let image : Export :=
          ⟨c.imgIdx, c.s + 1, cfg.brightness / F32.fin ((c.s + 1 : Nat) : ℚ), w.sensor⟩
        let call : SaveImageCall := ⟨image, w.completed⟩
        let c := { c with workers := w, clock := c.clock + 1, exports := c.exports ++ [call] }
        let c := { c with imgIdx := (c.imgIdx + 1) % 2 ^ 32 }
        if c.s + 1 = cfg.samplesPerPixel then Outcome.ok c
        else
          let c := { c with exportPass := (c.exportPass + c.exportPass) % 2 ^ 32 }
          renderLoopThreaded cfg kernelAdds sched fuel { c with s := c.s + 1 }
      else renderLoopThreaded cfg kernelAdds sched fuel { c with s := c.s + 1 }
    else Outcome.ok c

/-- `BidirectionalPathTracingRenderer::render` (lines 25-101) with the worker threads:
`sensor->init` (line 53) and the loop over the rounds. -/
def renderThreaded (cfg : RenderConfig) (kernelAdds : Task → List SensorAdd)
    (sched : Nat → List Nat) (sensor : List SensorAdd) : Outcome ThreadedState :=
  renderLoopThreaded cfg kernelAdds sched (cfg.samplesPerPixel + 1)
    { s := 0, imgIdx := 0, exportPass := 1,
      workers := { running := [], sensor := ImageSensor.init sensor, completed := [] },
      clock := 0, enqueues := [], exports := [] }

/-- A scheduler that leaves the workers idle during the first six calls of `render` and then
lets them step on the running tasks at the positions 2, 0, 1 and 1 before each call. -/
def exampleSched (clock : Nat) : List Nat := if clock < 6 then [] else [2, 0, 1, 1]

/-- The calls of `saveImage` of a call of `render` with worker threads that ended normally. -/
def Outcome.savedImages (o : Outcome ThreadedState) : List SaveImageCall :=
  match o with
  | Outcome.ok c => c.exports
  | _ => []

/-- The tasks of the rounds `0, ..., n - 1`, in the order in which `render` enqueues them. -/
def tasksOfRounds (cfg : RenderConfig) (n : Nat) : List Task :=
  (List.range n).flatMap (roundTasks cfg)

/-- What holds of the calls recorded so far, at any time: when a task was enqueued every
task of an earlier round was complete, and when an image was exported the complete tasks
were those of the rounds so far and the sensor held their contributions, all of them and
no other. -/
def BarrierLog (cfg : RenderConfig) (kernelAdds : Task → List SensorAdd)
    (c : ThreadedState) : Prop :=
  (∀ q ∈ c.enqueues, ∀ r, r < q.task.round → ∀ t ∈ roundTasks cfg r, t ∈ q.completed) ∧
  (∀ v ∈ c.exports,
    List.Perm v.completed (tasksOfRounds cfg v.image.sampleCount) ∧
    List.Perm v.image.image (cumulativeSensor cfg kernelAdds v.image.sampleCount))

/-- What holds when `render` evaluates the condition of its loop: no task is running, the
sensor holds the contributions of the rounds so far, and the tasks complete or enqueued are
those of the rounds so far. -/
def BarrierInv (cfg : RenderConfig) (kernelAdds : Task → List SensorAdd)
    (c : ThreadedState) : Prop :=
  c.workers.running = [] ∧
  List.Perm c.workers.sensor (cumulativeSensor cfg kernelAdds c.s) ∧
  List.Perm c.workers.completed (tasksOfRounds cfg c.s) ∧
  c.enqueues.map EnqueueCall.task = tasksOfRounds cfg c.s ∧
  ((c.s = 0 ∧ c.exportPass = 1) ∨ ∃ v ∈ c.exports, v.image.sampleCount = 1) ∧
  BarrierLog cfg kernelAdds c

/-! ## Rounded arithmetic

The operations of `F32` are exact on finite values.  Where a statement is to hold for the
`float` operations as a machine computes them, each operation is followed by the rounding
`rnd` of its exact finite result; `rnd` is a parameter.  An overflow is a rounding to an
infinity, an underflow a rounding to zero. -/

/-- The value that a `float` operation returns when its exact value is `x`: a finite exact
value is rounded by `rnd`, an infinity and NaN are returned as they are. -/
def F32.rounded (rnd : ℚ → F32) : F32 → F32
  | F32.fin q => rnd q
  | x => x

/-- The product of two `float` values, rounded. -/
def F32.rmul (rnd : ℚ → F32) (a b : F32) : F32 := F32.rounded rnd (a * b)

/-- The quotient of two `float` values, rounded. -/
def F32.rdiv (rnd : ℚ → F32) (a b : F32) : F32 := F32.rounded rnd (a / b)

/-- The sum of two `float` values, rounded. -/
def F32.radd (rnd : ℚ → F32) (a b : F32) : F32 := F32.rounded rnd (a + b)

/-- What is assumed of a rounding: it keeps 0 and 1, it never gives NaN, and it is
monotone.  The result may be an infinity (overflow) and may be zero for a value that is not
(underflow). -/
def IsRounding (rnd : ℚ → F32) : Prop :=
  rnd 0 = F32.fin 0 ∧ rnd 1 = F32.fin 1 ∧ (∀ q, F32.isnan (rnd q) = false) ∧
    ∀ p q, p ≤ q → F32.le (rnd p) (rnd q) = true

/-- A rounding that is exact up to `2 ^ 128` in absolute value and overflows beyond. -/
def overflowRound (q : ℚ) : F32 :=
  if 2 ^ 128 < q then F32.inf false else if q < -(2 ^ 128) then F32.inf true else F32.fin q

/-- The loop of `extendAndShorten` (lines 377-384) in rounded arithmetic: `shortenLoop` with
each product, quotient and sum rounded. -/
def shortenLoopR (rnd : ℚ → F32) (subPathToShorten : List BPTVertex) (minNumVertices : Nat) :
    Nat → F32 → Bool → F32 → Option F32
  | 0, _, _, recMISWeight => some recMISWeight
  | i + 1, PDFRatio, prevIsDeltaSampled, recMISWeight =>
    if i + 1 > minNumVertices then
      match subPathToShorten[i]? with
      | none => none
      | some newVtx =>
        let PDFRatio := F32.rmul rnd PDFRatio
          (F32.rdiv rnd (F32.rmul rnd newVtx.revAreaPDF newVtx.revRRProb)
            (F32.rmul rnd newVtx.areaPDF newVtx.RRProb))
        let shortenIsDeltaSampled := newVtx.sampledType.isDelta
        let recMISWeight :=
          if !shortenIsDeltaSampled && !prevIsDeltaSampled then
            F32.radd rnd recMISWeight (F32.rmul rnd PDFRatio PDFRatio)
          else recMISWeight
        shortenLoopR rnd subPathToShorten minNumVertices i PDFRatio shortenIsDeltaSampled
          recMISWeight
    else some recMISWeight

/-- The lambda `extendAndShorten` (lines 360-387) in rounded arithmetic: `extendAndShorten`
with each product, quotient and sum rounded. -/
def extendAndShortenR (rnd : ℚ → F32)
    (extend1stAreaPDF extend1stRRProb extend2ndAreaPDF extend2ndRRProb : F32)
    (subPathToShorten : List BPTVertex) (numVertices minNumVertices : Nat)
    (recMISWeight : F32) : Option F32 :=
  if numVertices > minNumVertices then
    match subPathToShorten[numVertices - 1]? with
    | none => none
    | some endVtx =>
      let PDFRatio := F32.rdiv rnd (F32.rmul rnd extend1stAreaPDF extend1stRRProb)
        (F32.rmul rnd endVtx.areaPDF endVtx.RRProb)
      let shortenIsDeltaSampled := endVtx.sampledType.isDelta
      let recMISWeight :=
        if !shortenIsDeltaSampled then F32.radd rnd recMISWeight (F32.rmul rnd PDFRatio PDFRatio)
        else recMISWeight
      let prevIsDeltaSampled := shortenIsDeltaSampled
      if numVertices - 1 > minNumVertices then
        match subPathToShorten[numVertices - 2]? with
        | none => none
        | some newVtx =>
          let PDFRatio := F32.rmul rnd PDFRatio
            (F32.rdiv rnd (F32.rmul rnd extend2ndAreaPDF extend2ndRRProb)
              (F32.rmul rnd newVtx.areaPDF newVtx.RRProb))
          let shortenIsDeltaSampled := newVtx.sampledType.isDelta
          let recMISWeight :=
            if !shortenIsDeltaSampled && !prevIsDeltaSampled then
              F32.radd rnd recMISWeight (F32.rmul rnd PDFRatio PDFRatio)
            else recMISWeight
          let prevIsDeltaSampled := shortenIsDeltaSampled
          shortenLoopR rnd subPathToShorten minNumVertices (numVertices - 2) PDFRatio
            prevIsDeltaSampled recMISWeight
      else some recMISWeight
  else some recMISWeight

/-- The running reciprocal sum of `calculateMISWeight` (lines 389-400) in rounded
arithmetic. -/
def recMISWeightSumR (rnd : ℚ → F32) (eyeVertices lightVertices : List BPTVertex)
    (lExtend1stAreaPDF lExtend1stRRProb lExtend2ndAreaPDF lExtend2ndRRProb : F32)
    (eExtend1stAreaPDF eExtend1stRRProb eExtend2ndAreaPDF eExtend2ndRRProb : F32)
    (numLVtx numEVtx : Nat) : Option F32 :=
  let recMISWeight : F32 := 1
  let minEyeVertices := 1
  match extendAndShortenR rnd lExtend1stAreaPDF lExtend1stRRProb lExtend2ndAreaPDF
      lExtend2ndRRProb eyeVertices numEVtx minEyeVertices recMISWeight with
  | none => none
  | some recMISWeight =>
    let minLightVertices := 0
    extendAndShortenR rnd eExtend1stAreaPDF eExtend1stRRProb eExtend2ndAreaPDF eExtend2ndRRProb
      lightVertices numLVtx minLightVertices recMISWeight

/-- `calculateMISWeight` (lines 357-403) in rounded arithmetic: the rounded quotient
`1.0f / recMISWeight`. -/
def calculateMISWeightR (rnd : ℚ → F32) (eyeVertices lightVertices : List BPTVertex)
    (lExtend1stAreaPDF lExtend1stRRProb lExtend2ndAreaPDF lExtend2ndRRProb : F32)
    (eExtend1stAreaPDF eExtend1stRRProb eExtend2ndAreaPDF eExtend2ndRRProb : F32)
    (numLVtx numEVtx : Nat) : Option F32 :=
  match recMISWeightSumR rnd eyeVertices lightVertices
      lExtend1stAreaPDF lExtend1stRRProb lExtend2ndAreaPDF lExtend2ndRRProb
      eExtend1stAreaPDF eExtend1stRRProb eExtend2ndAreaPDF eExtend2ndRRProb numLVtx numEVtx with
  | none => none
  | some recMISWeight => some (F32.rdiv rnd 1 recMISWeight)

/-- The running sum is NaN or at least 1; it may be infinite. -/
def F32.isSumValue (x : F32) : Bool := F32.isnan x || F32.le 1 x

/-- The value is NaN or lies between 0 and 1, bounds included. -/
def F32.isWeightValue (x : F32) : Bool := F32.isnan x || (F32.le 0 x && F32.le x 1)

/-- Instrumentation: the directional densities that the loop of `generateSubPath` carries at
its successive iterations when it is started in the state `st` with the bound `fuel`: the
density of `st` first, then that of each state with which an iteration continues. -/
def walkDensities (env : Env) (adjoint : Bool) : Nat → WalkState → List F32
  | 0, _ => []
  | fuel + 1, st =>
    st.dirPDF ::
      match walkIter env adjoint st with
      | IterResult.next st2 => walkDensities env adjoint fuel st2
      | _ => []

/-- The vertex of index `n0 + k` of `vs` stores as area density the directional density
`ds[k]`, times the absolute cosine between its stored incoming direction and its stored
geometric normal, over the squared distance to the vertex before it, for every `k`. -/
def PinnedDensityChain (n0 : Nat) (ds : List F32) (vs : List BPTVertex) : Prop :=
  ∀ k prev v, vs[n0 + k - 1]? = some prev → vs[n0 + k]? = some v →
    ∃ d, ds[k]? = some d ∧
      v.areaPDF = d * absDot v.dirIn_sn v.gNormal_sn / squaredDistance prev.surfPt v.surfPt

/-- The throughput that the loop of `generateSubPath` carries after `n` further iterations
started in the state `st`: the throughput `alpha` of the loop state reached, and the zero
spectrum, of as many components, when one of the iterations ends the walk, after which
nothing is carried on. -/
def carriedThroughput (env : Env) (adjoint : Bool) : Nat → WalkState → SampledSpectrum
  | 0, st => st.alpha
  | n + 1, st =>
    match walkIter env adjoint st with
    | IterResult.next st2 => carriedThroughput env adjoint n st2
    | _ => ⟨st.alpha.values.map fun _ => 0⟩

/-- The iteration started in the state `st` reaches the roulette (lines 332-339): the scene
is hit at a point that is not at infinity, the scattering sampled there is not rejected, the
weight `fs * (cosIn / dirPDF)` is `weight`, the survival probability
`min(importance(weight), 1)` is the finite value `p` and the termination sample is the finite
value `u`. -/
def RouletteAt (env : Env) (adjoint : Bool) (st : WalkState) (weight : SampledSpectrum)
    (p u : ℚ) : Prop :=
  ∃ (si : SurfaceInteraction) (prev : BPTVertex) (bsdfSmp : BSDFSample)
    (ps1 ps2 : IndependentLightPathSampler) (fs : SampledSpectrum) (fsResult : BSDFQueryResult),
    env.intersect st.ray = some si ∧
    (st.job.vertices adjoint).getLast? = some prev ∧
    (env.getSurfacePoint si).atInfinity = false ∧
    env.getBSDFSample st.pathSampler = (bsdfSmp, ps1) ∧
    env.bsdfSample (env.createBSDF (env.getSurfacePoint si) st.wls)
      ⟨(env.getSurfacePoint si).toLocal (-st.ray.dir),
        (env.getSurfacePoint si).getLocalGeometricNormal, st.wls.selectedLambda, adjoint⟩
      bsdfSmp = (fs, fsResult) ∧
    (fs.isZero || F32.eq fsResult.dirPDF 0) = false ∧
    weight = fs.scale (absDot fsResult.dirLocal (env.getSurfacePoint si).getLocalGeometricNormal /
      fsResult.dirPDF) ∧
    F32.min (env.importance weight st.job.wlHint) 1 = F32.fin p ∧
    env.getPathTerminationSample ps1 = (F32.fin u, ps2)

/-- The first two loop states of the eye walk of the roulette example. -/
def rouletteStates : Nat → WalkState
  | 0 => twoPlaneStart
  | _ => ((walkIter rouletteEnv false twoPlaneStart).state?).getD twoPlaneStart

/-! # Theorems -/

/-! ## Arithmetic of the value model -/

namespace F32

@[simp] theorem fin_mul_fin (a b : ℚ) : fin a * fin b = fin (a * b) := rfl

@[simp] theorem fin_add_fin (a b : ℚ) : fin a + fin b = fin (a + b) := rfl

theorem fin_div_fin (a : ℚ) {b : ℚ} (hb : b ≠ 0) : fin a / fin b = fin (a / b) := by
  show div (fin a) (fin b) = _
  simp [div, hb]

theorem one_eq : (1 : F32) = fin 1 := by
  show fin ((1 : Nat) : ℚ) = fin 1
  simp

theorem zero_eq : (0 : F32) = fin 0 := by
  show fin ((0 : Nat) : ℚ) = fin 0
  simp

theorem one_mul_left (x : F32) : (1 : F32) * x = x := by
  rw [one_eq]
  cases x with
  | fin a => simp
  | inf s => show mul (fin 1) (inf s) = _; cases s <;> simp [mul]
  | nan => rfl

theorem add_zero_right (x : F32) : x + 0 = x := by
  rw [zero_eq]
  cases x with
  | fin a => simp
  | inf s => rfl
  | nan => rfl

theorem add_zero_left (x : F32) : 0 + x = x := by
  rw [zero_eq]
  cases x with
  | fin a => simp
  | inf s => rfl
  | nan => rfl

theorem add_assoc3 (x y z : F32) : x + y + z = x + (y + z) := by
  rcases x with a | s | _ <;> rcases y with b | t | _ <;> rcases z with c | u | _ <;>
    first
    | rfl
    | (show fin (a + b + c) = fin (a + (b + c)); rw [add_assoc])
    | (cases s <;> cases t <;> rfl)
    | (cases t <;> cases u <;> rfl)
    | (cases s <;> cases t <;> cases u <;> rfl)

end F32

/-! ## Rounded arithmetic -/

theorem F32.rounded_exact (x : F32) : F32.rounded F32.fin x = x := by
  cases x <;> rfl

theorem rmul_exact (a b : F32) : F32.rmul F32.fin a b = a * b := F32.rounded_exact _

theorem rdiv_exact (a b : F32) : F32.rdiv F32.fin a b = a / b := F32.rounded_exact _

theorem radd_exact (a b : F32) : F32.radd F32.fin a b = a + b := F32.rounded_exact _

theorem shortenLoopR_exact (sub : List BPTVertex) (m : Nat) :
    ∀ (i : Nat) (ratio : F32) (prev : Bool) (r : F32),
      shortenLoopR F32.fin sub m i ratio prev r = shortenLoop sub m i ratio prev r := by
  intro i
  induction i with
  | zero => intro _ _ _; rfl
  | succ i ih =>
    intro ratio prev r
    unfold shortenLoopR shortenLoop
    simp only [rmul_exact, rdiv_exact, radd_exact, ih]

theorem extendAndShortenR_exact (x1A x1R x2A x2R : F32) (sub : List BPTVertex) (n m : Nat)
    (r : F32) :
    extendAndShortenR F32.fin x1A x1R x2A x2R sub n m r
      = extendAndShorten x1A x1R x2A x2R sub n m r := by
  unfold extendAndShortenR extendAndShorten
  simp only [rmul_exact, rdiv_exact, radd_exact, shortenLoopR_exact]

theorem isRounding_exact : IsRounding F32.fin :=
  ⟨rfl, rfl, fun _ => rfl, fun p q h => by simpa [F32.le] using h⟩

theorem isRounding_overflowRound : IsRounding overflowRound := by
  refine ⟨by decide!, by decide!, ?_, ?_⟩
  · intro q
    unfold overflowRound
    split_ifs <;> rfl
  · intro p q h
    unfold overflowRound
    split_ifs <;> simp [F32.le] <;> linarith

/-! ## `extendAndShorten` computes the running sum of the specification -/

theorem stepVertex_eq {sub : List BPTVertex} {n k i : Nat} {v : BPTVertex}
    (hi : n - k = i) (hv : sub[i]? = some v) : stepVertex sub n k = v := by
  simp [stepVertex, hi, hv]

/-- Invariant of the loop of `extendAndShorten`: entered at `i` after `k = n - i` steps with the
cumulative ratio, the delta flag of the last removed vertex and the running sum of those `k`
steps, it ends with the running sum of all `n - minNumVertices` steps. -/
theorem shortenLoop_eq (x1A x1R x2A x2R : F32) (sub : List BPTVertex) (n m : Nat) (r : F32)
    (hn : n ≤ sub.length) :
    ∀ i k, i + k = n → m ≤ i → 2 ≤ k →
      shortenLoop sub m i (cumRatio x1A x1R x2A x2R sub n k)
        (stepVertex sub n k).sampledType.isDelta (sumSteps x1A x1R x2A x2R sub n r k)
        = some (sumSteps x1A x1R x2A x2R sub n r (n - m)) := by
  intro i
  induction i with
  | zero =>
    intro k hk hm _
    have hm0 : m = 0 := by omega
    have hkn : k = n := by omega
    subst hm0 hkn
    simp [shortenLoop]
  | succ i ih =>
    intro k hk hm h2
    unfold shortenLoop
    by_cases hgt : i + 1 > m
    · have hlt : i < sub.length := by omega
      have hv : sub[i]? = some sub[i] := List.getElem?_eq_getElem hlt
      have hsv : stepVertex sub n (k + 1) = sub[i] := stepVertex_eq (by omega) hv
      have hstep := ih (k + 1) (by omega) (by omega) (by omega)
      rw [if_pos hgt, hv]
      simp only []
      have hratio : cumRatio x1A x1R x2A x2R sub n (k + 1)
          = cumRatio x1A x1R x2A x2R sub n k *
            (sub[i].revAreaPDF * sub[i].revRRProb / (sub[i].areaPDF * sub[i].RRProb)) := by
        have h1 : ¬ (k + 1 = 1) := by omega
        have h2 : ¬ (k + 1 = 2) := by omega
        simp only [cumRatio, stepRatio, hsv, if_neg h1, if_neg h2]
      have hsum : sumSteps x1A x1R x2A x2R sub n r (k + 1)
          = if (!sub[i].sampledType.isDelta && !(stepVertex sub n k).sampledType.isDelta) = true
            then sumSteps x1A x1R x2A x2R sub n r k +
              cumRatio x1A x1R x2A x2R sub n (k + 1) * cumRatio x1A x1R x2A x2R sub n (k + 1)
            else sumSteps x1A x1R x2A x2R sub n r k := by
        have h2k : 2 ≤ k + 1 := by omega
        simp only [sumSteps, stepSuppressed, hsv, Nat.add_sub_cancel, h2k, decide_True,
          Bool.true_and]
        cases sub[i].sampledType.isDelta <;> cases (stepVertex sub n k).sampledType.isDelta <;>
          simp
      rw [← hratio, ← hsum, ← hsv]
      exact hstep
    · rw [if_neg hgt]
      have : n - m = k := by omega
      rw [this]

/-- Refinement: for a chain that holds at least `n` vertices, `extendAndShorten` returns the
running sum of the `n - minNumVertices` shortening steps. -/
theorem extendAndShorten_eq (x1A x1R x2A x2R : F32) (sub : List BPTVertex) (n m : Nat) (r : F32)
    (hn : n ≤ sub.length) :
    extendAndShorten x1A x1R x2A x2R sub n m r
      = some (sumSteps x1A x1R x2A x2R sub n r (n - m)) := by
  unfold extendAndShorten
  by_cases hgt : n > m
  · have hv1 : sub[n - 1]? = some sub[n - 1] := List.getElem?_eq_getElem (by omega)
    have hs1 : stepVertex sub n 1 = sub[n - 1] := stepVertex_eq rfl hv1
    have hc1 : cumRatio x1A x1R x2A x2R sub n 1
        = x1A * x1R / (sub[n - 1].areaPDF * sub[n - 1].RRProb) := by
      simp [cumRatio, stepRatio, hs1, F32.one_mul_left]
    have hsum1 : sumSteps x1A x1R x2A x2R sub n r 1
        = if (!sub[n - 1].sampledType.isDelta) = true
          then r + cumRatio x1A x1R x2A x2R sub n 1 * cumRatio x1A x1R x2A x2R sub n 1
          else r := by
      simp only [sumSteps, stepSuppressed, hs1]
      cases sub[n - 1].sampledType.isDelta <;> simp
    rw [if_pos hgt, hv1]
    simp only []
    rw [← hc1, ← hsum1]
    by_cases hgt2 : n - 1 > m
    · have hv2 : sub[n - 2]? = some sub[n - 2] := List.getElem?_eq_getElem (by omega)
      have hs2 : stepVertex sub n 2 = sub[n - 2] := stepVertex_eq rfl hv2
      have hc2 : cumRatio x1A x1R x2A x2R sub n 2
          = cumRatio x1A x1R x2A x2R sub n 1 *
            (x2A * x2R / (sub[n - 2].areaPDF * sub[n - 2].RRProb)) := by
        simp [cumRatio, stepRatio, hs2]
      have hsum2 : sumSteps x1A x1R x2A x2R sub n r 2
          = if (!sub[n - 2].sampledType.isDelta && !sub[n - 1].sampledType.isDelta) = true
            then sumSteps x1A x1R x2A x2R sub n r 1 +
              cumRatio x1A x1R x2A x2R sub n 2 * cumRatio x1A x1R x2A x2R sub n 2
            else sumSteps x1A x1R x2A x2R sub n r 1 := by
        rw [← hs1]
        simp only [sumSteps, stepSuppressed, hs2, Nat.add_sub_cancel, le_refl, decide_True,
          Bool.true_and]
        cases sub[n - 2].sampledType.isDelta <;>
          cases (stepVertex sub n 1).sampledType.isDelta <;> simp [sumSteps, stepSuppressed]
      rw [if_pos hgt2, hv2]
      simp only []
      rw [← hc2, ← hsum2, ← hs2]
      exact shortenLoop_eq x1A x1R x2A x2R sub n m r hn (n - 2) 2 (by omega) (by omega)
        (le_refl 2)
    · rw [if_neg hgt2]
      have : n - m = 1 := by omega
      rw [this]
  · rw [if_neg hgt]
    have : n - m = 0 := by omega
    rw [this]
    rfl

/-! ## What `extendAndShorten` reads -/

theorem fwdKey_eq {v w : BPTVertex} (h : v.fwdKey = w.fwdKey) :
    v.areaPDF = w.areaPDF ∧ v.RRProb = w.RRProb ∧
      v.sampledType.isDelta = w.sampledType.isDelta := by
  simp only [BPTVertex.fwdKey, Prod.mk.injEq] at h
  exact h

theorem revKey_eq {v w : BPTVertex} (h : v.revKey = w.revKey) :
    v.revAreaPDF = w.revAreaPDF ∧ v.revRRProb = w.revRRProb := by
  simp only [BPTVertex.revKey, Prod.mk.injEq] at h
  exact h

/-- The loop reads the forward and reverse keys of the vertices of index `m ≤ j < i` only. -/
theorem shortenLoop_congr (sub sub2 : List BPTVertex) (m : Nat) :
    ∀ i, (∀ j, m ≤ j → j < i →
        (sub[j]?).map BPTVertex.fwdKey = (sub2[j]?).map BPTVertex.fwdKey ∧
        (sub[j]?).map BPTVertex.revKey = (sub2[j]?).map BPTVertex.revKey) →
      ∀ R p r, shortenLoop sub m i R p r = shortenLoop sub2 m i R p r := by
  intro i
  induction i with
  | zero => intro _ R p r; simp [shortenLoop]
  | succ i ih =>
    intro h R p r
    unfold shortenLoop
    by_cases hgt : i + 1 > m
    · rw [if_pos hgt, if_pos hgt]
      have hi := h i (by omega) (by omega)
      have ih2 := ih (fun j hj1 hj2 => h j hj1 (by omega))
      cases h1 : sub[i]? with
      | none =>
        cases h2 : sub2[i]? with
        | none => rfl
        | some w => rw [h1, h2] at hi; simp at hi
      | some v =>
        cases h2 : sub2[i]? with
        | none => rw [h1, h2] at hi; simp at hi
        | some w =>
          rw [h1, h2] at hi
          simp only [Option.map_some', Option.some.injEq] at hi
          obtain ⟨ha, hp, hd⟩ := fwdKey_eq hi.1
          obtain ⟨hra, hrp⟩ := revKey_eq hi.2
          simp only [ha, hp, hd, hra, hrp]
          exact ih2 _ _ _
    · rw [if_neg hgt, if_neg hgt]

/-- The lambda `extendAndShorten` reads, of the chain, only the forward keys of the vertices
of index `m ≤ j < n` and the reverse fields of the vertices of index `m ≤ j < n - 2`. -/
theorem extendAndShorten_congr (x1A x1R x2A x2R : F32) (sub sub2 : List BPTVertex) (n m : Nat)
    (hf : ∀ j, m ≤ j → j < n →
      (sub[j]?).map BPTVertex.fwdKey = (sub2[j]?).map BPTVertex.fwdKey)
    (hr : ∀ j, m ≤ j → j + 2 < n →
      (sub[j]?).map BPTVertex.revKey = (sub2[j]?).map BPTVertex.revKey) (r : F32) :
    extendAndShorten x1A x1R x2A x2R sub n m r = extendAndShorten x1A x1R x2A x2R sub2 n m r := by
  unfold extendAndShorten
  by_cases hgt : n > m
  · rw [if_pos hgt, if_pos hgt]
    have h1 := hf (n - 1) (by omega) (by omega)
    cases e1 : sub[n - 1]? with
    | none =>
      cases e2 : sub2[n - 1]? with
      | none => rfl
      | some w => rw [e1, e2] at h1; simp at h1
    | some v =>
      cases e2 : sub2[n - 1]? with
      | none => rw [e1, e2] at h1; simp at h1
      | some w =>
        rw [e1, e2] at h1
        simp only [Option.map_some', Option.some.injEq] at h1
        obtain ⟨ha, hp, hd⟩ := fwdKey_eq h1
        simp only [ha, hp, hd]
        by_cases hgt2 : n - 1 > m
        · rw [if_pos hgt2, if_pos hgt2]
          have h2 := hf (n - 2) (by omega) (by omega)
          cases e3 : sub[n - 2]? with
          | none =>
            cases e4 : sub2[n - 2]? with
            | none => rfl
            | some w2 => rw [e3, e4] at h2; simp at h2
          | some v2 =>
            cases e4 : sub2[n - 2]? with
            | none => rw [e3, e4] at h2; simp at h2
            | some w2 =>
              rw [e3, e4] at h2
              simp only [Option.map_some', Option.some.injEq] at h2
              obtain ⟨ha2, hp2, hd2⟩ := fwdKey_eq h2
              simp only [ha2, hp2, hd2]
              exact shortenLoop_congr sub sub2 m (n - 2)
                (fun j hj1 hj2 => ⟨hf j hj1 (by omega), hr j hj1 (by omega)⟩) _ _ _
        · rw [if_neg hgt2, if_neg hgt2]
  · rw [if_neg hgt, if_neg hgt]

/-! ## Chains without delta-sampled vertices: the running sum is a sum of squares -/

theorem F32.isfinite_elim {x : F32} (h : F32.isfinite x = true) : ∃ q, x = F32.fin q := by
  cases x with
  | fin q => exact ⟨q, rfl⟩
  | inf s => simp [F32.isfinite] at h
  | nan => simp [F32.isfinite] at h

/-- A property that the vertices of a chain have by index holds of the vertices that the
steps remove. -/
theorem stepVertex_of_index (sub : List BPTVertex) (n m : Nat) (hn : n ≤ sub.length)
    (P : BPTVertex → Prop) (lo : Nat)
    (h : ∀ i v, m ≤ i → i + lo < n → sub[i]? = some v → P v) :
    ∀ k, lo + 1 ≤ k → k ≤ n - m → P (stepVertex sub n k) := by
  intro k hk1 hk2
  have hlt : n - k < sub.length := by omega
  have hv : sub[n - k]? = some sub[n - k] := List.getElem?_eq_getElem hlt
  rw [stepVertex_eq rfl hv]
  exact h (n - k) _ (by omega) (by omega) hv

/-- Without delta-sampled vertices no step is suppressed, and the running sum is the start
value plus the sum of the squared cumulative ratios. -/
theorem sumSteps_noDelta (x1A x1R x2A x2R : F32) (sub : List BPTVertex) (n : Nat) (r : F32)
    (hd : ∀ v ∈ sub, v.sampledType.isDelta = false) :
    ∀ k, sumSteps x1A x1R x2A x2R sub n r k = r + sumSquares x1A x1R x2A x2R sub n k := by
  have hnd : ∀ k, (stepVertex sub n k).sampledType.isDelta = false := by
    intro k
    unfold stepVertex
    cases h : sub[n - k]? with
    | none => rfl
    | some v => exact hd v (List.getElem?_mem h)
  intro k
  induction k with
  | zero => simp [sumSteps, sumSquares, F32.add_zero_right]
  | succ k ih =>
    simp only [sumSteps, sumSquares, stepSuppressed, hnd, Bool.and_false, Bool.or_false,
      Bool.false_eq_true, if_false, ih, F32.add_assoc3]

/-! ## C1: range of the weight -/

/-- C1, as stated, fails: on the eye chain (lens, grazing hit) with `t = 2`, `s = 0` and the
finite extension values `0, 1, 0, 1, 0, 0, 0, 0` the ratio of the first step is `0 / 0`, so the
running sum and the returned weight are NaN, which is neither `≥ 1` nor inside `[0, 1]`. -/
theorem calculateMISWeight_range_counterexample :
    recMISWeightSum [originVertex, grazingVertex] [] 0 1 0 1 0 0 0 0 0 2 = some F32.nan ∧
    calculateMISWeight [originVertex, grazingVertex] [] 0 1 0 1 0 0 0 0 0 2 = some F32.nan ∧
    F32.le 1 F32.nan = false ∧ F32.le 0 F32.nan = false ∧ F32.le F32.nan 1 = false := by
  refine ⟨?_, ?_, rfl, rfl, rfl⟩ <;> decide!

/-- A rounded square is NaN or not negative. -/
theorem rmul_self_nonneg {rnd : ℚ → F32} (hr : IsRounding rnd) (x : F32) :
    F32.isnan (F32.rmul rnd x x) = true ∨ F32.le 0 (F32.rmul rnd x x) = true := by
  obtain ⟨h0, _, _, hmono⟩ := hr
  rcases x with q | s | _
  · right
    have h := hmono 0 (q * q) (mul_self_nonneg q)
    rw [h0] at h
    rw [F32.zero_eq]
    exact h
  · right
    cases s <;> rfl
  · left
    rfl

/-- A rounded sum of a value that is NaN or at least 1 and a value that is NaN or not negative
is NaN or at least 1. -/
theorem radd_isSumValue {rnd : ℚ → F32} (hr : IsRounding rnd) {a b : F32}
    (ha : F32.isSumValue a = true)
    (hb : F32.isnan b = true ∨ F32.le 0 b = true) :
    F32.isSumValue (F32.radd rnd a b) = true := by
  obtain ⟨_, h1, _, hmono⟩ := hr
  simp only [F32.isSumValue, Bool.or_eq_true] at ha ⊢
  rw [F32.one_eq] at ha ⊢
  rw [F32.zero_eq] at hb
  rcases a with qa | s | _ <;> rcases b with qb | t | _ <;>
    simp only [F32.isnan, F32.le, Bool.false_eq_true, false_or, or_false, decide_eq_true_eq,
      Bool.not_eq_true', true_or, or_true] at ha hb ⊢
  · right
    have h := hmono 1 (qa + qb) (by linarith)
    rw [h1] at h
    exact h
  · subst hb
    right
    rfl
  · left; rfl
  · subst ha
    right
    rfl
  · subst ha
    subst hb
    right
    rfl
  · left; rfl
  · left; rfl
  · left; rfl
  · left; rfl

/-- The addition of a rounded square, made or skipped, keeps a running sum that is NaN or at
least 1 such. -/
theorem cond_radd_isSumValue {rnd : ℚ → F32} (hr : IsRounding rnd) (c : Bool) (r x : F32)
    (hsum : F32.isSumValue r = true) :
    F32.isSumValue (if c = true then F32.radd rnd r (F32.rmul rnd x x) else r) = true := by
  cases c
  · exact hsum
  · exact radd_isSumValue hr hsum (rmul_self_nonneg hr x)

/-- The loop of `extendAndShorten` in rounded arithmetic makes no access outside a vector of
at least `i` vertices, and it keeps a running sum that is NaN or at least 1 such. -/
theorem shortenLoopR_spec {rnd : ℚ → F32} (hr : IsRounding rnd) (sub : List BPTVertex)
    (m : Nat) :
    ∀ (i : Nat) (ratio : F32) (prev : Bool) (r : F32), i ≤ sub.length →
      F32.isSumValue r = true →
      ∃ r2, shortenLoopR rnd sub m i ratio prev r = some r2 ∧ F32.isSumValue r2 = true := by
  intro i
  induction i with
  | zero => intro _ _ r _ hsum; exact ⟨r, rfl, hsum⟩
  | succ i ih =>
    intro ratio prev r hi hsum
    unfold shortenLoopR
    by_cases hgt : i + 1 > m
    · rw [if_pos hgt, List.getElem?_eq_getElem (by omega)]
      simp only []
      exact ih _ _ _ (by omega) (cond_radd_isSumValue hr _ _ _ hsum)
    · rw [if_neg hgt]
      exact ⟨r, rfl, hsum⟩

theorem extendAndShortenR_spec {rnd : ℚ → F32} (hr : IsRounding rnd)
    (x1A x1R x2A x2R : F32) (sub : List BPTVertex) (n m : Nat) (r : F32)
    (hn : n ≤ sub.length) (hsum : F32.isSumValue r = true) :
    ∃ r2, extendAndShortenR rnd x1A x1R x2A x2R sub n m r = some r2 ∧
      F32.isSumValue r2 = true := by
  unfold extendAndShortenR
  by_cases h1 : n > m
  · rw [if_pos h1, List.getElem?_eq_getElem (by omega)]
    simp only []
    by_cases h2 : n - 1 > m
    · rw [if_pos h2, List.getElem?_eq_getElem (by omega)]
      simp only []
      exact shortenLoopR_spec hr sub m _ _ _ _ (by omega)
        (cond_radd_isSumValue hr _ _ _ (cond_radd_isSumValue hr _ _ _ hsum))
    · rw [if_neg h2]
      exact ⟨_, rfl, cond_radd_isSumValue hr _ _ _ hsum⟩
  · rw [if_neg h1]
    exact ⟨r, rfl, hsum⟩

/-- The rounded quotient of 1 by a running sum that is NaN or at least 1 is NaN or lies
between 0 and 1. -/
theorem rdiv_one_isWeightValue {rnd : ℚ → F32} (hr : IsRounding rnd) {x : F32}
    (hx : F32.isSumValue x = true) :
    F32.isWeightValue (F32.rdiv rnd 1 x) = true ∧
      (F32.isnan (F32.rdiv rnd 1 x) = F32.isnan x) := by
  obtain ⟨h0, h1, hnan, hmono⟩ := hr
  simp only [F32.isSumValue, Bool.or_eq_true] at hx
  simp only [F32.isWeightValue, Bool.or_eq_true, Bool.and_eq_true]
  rw [F32.one_eq] at hx ⊢
  rw [F32.zero_eq]
  rcases x with q | s | _
  · simp only [F32.isnan, F32.le, Bool.false_eq_true, false_or, decide_eq_true_eq] at hx
    have hq0 : q ≠ 0 := by intro h; rw [h] at hx; norm_num at hx
    have hval : F32.rdiv rnd (F32.fin 1) (F32.fin q) = rnd (1 / q) := by
      unfold F32.rdiv
      rw [F32.fin_div_fin 1 hq0]
      rfl
    rw [hval]
    have hlo := hmono 0 (1 / q) (by positivity)
    have hhi := hmono (1 / q) 1 (by rw [div_le_one (by linarith)]; exact hx)
    rw [h0] at hlo
    rw [h1] at hhi
    exact ⟨Or.inr ⟨hlo, hhi⟩, by rw [hnan]; rfl⟩
  · simp only [F32.isnan, F32.le, Bool.false_eq_true, false_or, Bool.not_eq_true'] at hx
    subst hx
    have hval : F32.rdiv rnd (F32.fin 1) (F32.inf false) = rnd 0 := rfl
    rw [hval, h0]
    exact ⟨Or.inr ⟨by simp [F32.le], by simp [F32.le]⟩, rfl⟩
  · exact ⟨Or.inl rfl, rfl⟩

/-- C1 (amended).  (1) In rounded arithmetic, whatever the rounding (overflow to an infinity
and underflow to zero included), for every light list and eye list, every `s ≤ |lightVertices|`,
every `t ≤ |eyeVertices|` and all eight extension values: `calculateMISWeight` makes no access
outside a vector, the running reciprocal sum is NaN or at least 1 (it may be infinite), the
returned weight is the rounded quotient of 1 by the sum, it is NaN exactly when the sum is,
and otherwise it lies in `[0, 1]`, bounds included.  (2) The rounding that changes nothing is
such a rounding, and with it the rounded sum and weight are `recMISWeightSum` and
`calculateMISWeight`. -/
theorem calculateMISWeight_range :
    (∀ (rnd : ℚ → F32) (eyeVertices lightVertices : List BPTVertex)
      (l1A l1R l2A l2R e1A e1R e2A e2R : F32) (s t : Nat),
      IsRounding rnd → s ≤ lightVertices.length → t ≤ eyeVertices.length →
      ∃ sum, recMISWeightSumR rnd eyeVertices lightVertices l1A l1R l2A l2R e1A e1R e2A e2R s t
          = some sum ∧
        F32.isSumValue sum = true ∧
        calculateMISWeightR rnd eyeVertices lightVertices l1A l1R l2A l2R e1A e1R e2A e2R s t
          = some (F32.rdiv rnd 1 sum) ∧
        F32.isWeightValue (F32.rdiv rnd 1 sum) = true ∧
        F32.isnan (F32.rdiv rnd 1 sum) = F32.isnan sum) ∧
    (IsRounding F32.fin ∧
      ∀ (eyeVertices lightVertices : List BPTVertex)
        (l1A l1R l2A l2R e1A e1R e2A e2R : F32) (s t : Nat),
        recMISWeightSumR F32.fin eyeVertices lightVertices l1A l1R l2A l2R e1A e1R e2A e2R s t
          = recMISWeightSum eyeVertices lightVertices l1A l1R l2A l2R e1A e1R e2A e2R s t ∧
        calculateMISWeightR F32.fin eyeVertices lightVertices l1A l1R l2A l2R e1A e1R e2A e2R
            s t
          = calculateMISWeight eyeVertices lightVertices l1A l1R l2A l2R e1A e1R e2A e2R s t) := by
  constructor
  · intro rnd eyeVertices lightVertices l1A l1R l2A l2R e1A e1R e2A e2R s t hr hs ht
    obtain ⟨r1, h1, hs1⟩ := extendAndShortenR_spec hr l1A l1R l2A l2R eyeVertices t 1 1 ht
      (by decide!)
    obtain ⟨r2, h2, hs2⟩ := extendAndShortenR_spec hr e1A e1R e2A e2R lightVertices s 0 r1 hs
      hs1
    have hsum : recMISWeightSumR rnd eyeVertices lightVertices l1A l1R l2A l2R e1A e1R e2A e2R
        s t = some r2 := by
      unfold recMISWeightSumR
      simp only [h1, h2]
    refine ⟨r2, hsum, hs2, ?_, (rdiv_one_isWeightValue hr hs2).1,
      (rdiv_one_isWeightValue hr hs2).2⟩
    unfold calculateMISWeightR
    rw [hsum]
  · refine ⟨isRounding_exact, ?_⟩
    intro eyeVertices lightVertices l1A l1R l2A l2R e1A e1R e2A e2R s t
    have hsum : recMISWeightSumR F32.fin eyeVertices lightVertices l1A l1R l2A l2R e1A e1R e2A
        e2R s t
        = recMISWeightSum eyeVertices lightVertices l1A l1R l2A l2R e1A e1R e2A e2R s t := by
      unfold recMISWeightSumR recMISWeightSum
      simp only [extendAndShortenR_exact]
    refine ⟨hsum, ?_⟩
    unfold calculateMISWeightR calculateMISWeight
    rw [hsum]
    simp only [rdiv_exact]

/-- C1 (amended) at a concrete input: the eye chain of two vertices of density 1 with `t = 2`,
`s = 0` and the first extension density `2 ^ 70`, in the arithmetic that overflows beyond
`2 ^ 128`.  The squared ratio `2 ^ 140` overflows: the sum is infinite and the weight is 0,
which lies in `[0, 1]` and not in `(0, 1]`. -/
theorem calculateMISWeight_range_witness :
    (∃ sum, recMISWeightSumR overflowRound [originVertex, originVertex] []
          (F32.fin (2 ^ 70)) 1 1 1 1 1 1 1 0 2 = some sum ∧
        F32.isSumValue sum = true ∧
        calculateMISWeightR overflowRound [originVertex, originVertex] []
          (F32.fin (2 ^ 70)) 1 1 1 1 1 1 1 0 2 = some (F32.rdiv overflowRound 1 sum) ∧
        F32.isWeightValue (F32.rdiv overflowRound 1 sum) = true ∧
        F32.isnan (F32.rdiv overflowRound 1 sum) = F32.isnan sum) ∧
    recMISWeightSumR overflowRound [originVertex, originVertex] []
      (F32.fin (2 ^ 70)) 1 1 1 1 1 1 1 0 2 = some (F32.inf false) ∧
    calculateMISWeightR overflowRound [originVertex, originVertex] []
      (F32.fin (2 ^ 70)) 1 1 1 1 1 1 1 0 2 = some (F32.fin 0) ∧
    calculateMISWeight [originVertex, originVertex] []
      (F32.fin (2 ^ 70)) 1 1 1 1 1 1 1 0 2 = some (F32.fin (1 / (1 + 2 ^ 140))) :=
  ⟨calculateMISWeight_range.1 overflowRound [originVertex, originVertex] []
      (F32.fin (2 ^ 70)) 1 1 1 1 1 1 1 0 2 isRounding_overflowRound (by decide) (by decide),
    by decide!, by decide!, by decide!⟩

/-! ## C2: the closed form without delta-sampled vertices -/

/-- C2: when no vertex of either chain is delta-sampled, `calculateMISWeight(s, t)` returns
`1 / (1 + Σ_{k=1..t-1} (Π_{j=1..k} e_j)² + Σ_{k=1..s} (Π_{j=1..k} l_j)²)`, where `e_j` is the
step ratio of the eye chain built from the `lExtend` values and `l_j` the step ratio of the
light chain built from the `eExtend` values (`stepRatio`, `cumRatio`, `sumSquares`). -/
theorem calculateMISWeight_closed_form (eyeVertices lightVertices : List BPTVertex)
    (lExtend1stAreaPDF lExtend1stRRProb lExtend2ndAreaPDF lExtend2ndRRProb : F32)
    (eExtend1stAreaPDF eExtend1stRRProb eExtend2ndAreaPDF eExtend2ndRRProb : F32) (s t : Nat)
    (hs : s ≤ lightVertices.length) (ht : t ≤ eyeVertices.length)
    (hde : ∀ v ∈ eyeVertices, v.sampledType.isDelta = false)
    (hdl : ∀ v ∈ lightVertices, v.sampledType.isDelta = false) :
    calculateMISWeight eyeVertices lightVertices
        lExtend1stAreaPDF lExtend1stRRProb lExtend2ndAreaPDF lExtend2ndRRProb
        eExtend1stAreaPDF eExtend1stRRProb eExtend2ndAreaPDF eExtend2ndRRProb s t
      = some (1 / (1 +
          sumSquares lExtend1stAreaPDF lExtend1stRRProb lExtend2ndAreaPDF lExtend2ndRRProb
            eyeVertices t (t - 1) +
          sumSquares eExtend1stAreaPDF eExtend1stRRProb eExtend2ndAreaPDF eExtend2ndRRProb
            lightVertices s s)) := by
  unfold calculateMISWeight recMISWeightSum
  simp only [extendAndShorten_eq _ _ _ _ eyeVertices t 1 _ ht,
    extendAndShorten_eq _ _ _ _ lightVertices s 0 _ hs,
    sumSteps_noDelta _ _ _ _ eyeVertices t _ hde, sumSteps_noDelta _ _ _ _ lightVertices s _ hdl,
    Nat.sub_zero]

/-- C2 at a concrete input: the four-vertex eye chain and the one-vertex light chain of the
examples, `s = 1`, `t = 4`; the value of the closed form there is `4 / 25`. -/
theorem calculateMISWeight_closed_form_witness :
    calculateMISWeight sampleEye sampleLight 1 1 1 1 1 1 1 1 1 4
      = some (1 / (1 + sumSquares 1 1 1 1 sampleEye 4 (4 - 1) + sumSquares 1 1 1 1 sampleLight 1 1))
    ∧ (1 / (1 + sumSquares 1 1 1 1 sampleEye 4 (4 - 1) + sumSquares 1 1 1 1 sampleLight 1 1)
      : F32) = F32.fin (4 / 25) :=
  ⟨calculateMISWeight_closed_form sampleEye sampleLight 1 1 1 1 1 1 1 1 1 4 (by decide)
    (by decide) (by decide!) (by decide!), by decide!⟩

/-! ## C3: delta-sampled vertices -/

theorem sumSteps_allDelta (x1A x1R x2A x2R : F32) (sub : List BPTVertex) (n K : Nat) (r : F32)
    (hd : ∀ k, 1 ≤ k → k ≤ K → (stepVertex sub n k).sampledType.isDelta = true) :
    ∀ k, k ≤ K → sumSteps x1A x1R x2A x2R sub n r k = r := by
  intro k
  induction k with
  | zero => intro _; rfl
  | succ k ih =>
    intro hk
    simp only [sumSteps, stepSuppressed, hd (k + 1) (by omega) hk, Bool.true_or, if_true]
    exact ih (by omega)

/-- C3.  First part: the running sum after step `k` of the shortening of a chain used with
`n` vertices is what `extendAndShorten` returns when it is told to stop at `n - k` vertices;
if the vertex removed at step `k` (index `n - k`) is delta-sampled, or `k ≥ 2` and the vertex
removed at step `k - 1` (index `n - k + 1`) is, that sum equals the sum after step `k - 1`,
whatever the densities are (NaN and infinities included).  Second part: when every eye
vertex of index `1..t-1` and every light vertex of index `0..s-1` is delta-sampled, the
returned weight is exactly 1. -/
theorem delta_step_adds_nothing :
    (∀ (x1A x1R x2A x2R : F32) (sub : List BPTVertex) (n k : Nat) (r : F32),
      n ≤ sub.length → 1 ≤ k → k ≤ n →
      ((∃ v, sub[n - k]? = some v ∧ v.sampledType.isDelta = true) ∨
        (2 ≤ k ∧ ∃ v, sub[n - k + 1]? = some v ∧ v.sampledType.isDelta = true)) →
      extendAndShorten x1A x1R x2A x2R sub n (n - k) r
        = extendAndShorten x1A x1R x2A x2R sub n (n - k + 1) r) ∧
    (∀ (eyeVertices lightVertices : List BPTVertex)
      (lExtend1stAreaPDF lExtend1stRRProb lExtend2ndAreaPDF lExtend2ndRRProb : F32)
      (eExtend1stAreaPDF eExtend1stRRProb eExtend2ndAreaPDF eExtend2ndRRProb : F32)
      (s t : Nat), s ≤ lightVertices.length → t ≤ eyeVertices.length →
      (∀ i v, 1 ≤ i → i < t → eyeVertices[i]? = some v → v.sampledType.isDelta = true) →
      (∀ i v, i < s → lightVertices[i]? = some v → v.sampledType.isDelta = true) →
      calculateMISWeight eyeVertices lightVertices
          lExtend1stAreaPDF lExtend1stRRProb lExtend2ndAreaPDF lExtend2ndRRProb
          eExtend1stAreaPDF eExtend1stRRProb eExtend2ndAreaPDF eExtend2ndRRProb s t
        = some (F32.fin 1)) := by
  constructor
  · intro x1A x1R x2A x2R sub n k r hn hk1 hkn hd
    rw [extendAndShorten_eq _ _ _ _ sub n (n - k) r hn,
      extendAndShorten_eq _ _ _ _ sub n (n - k + 1) r hn]
    have h1 : n - (n - k) = (k - 1) + 1 := by omega
    have h2 : n - (n - k + 1) = k - 1 := by omega
    rw [h1, h2]
    have hsup : stepSuppressed sub n (k - 1 + 1) = true := by
      unfold stepSuppressed
      rcases hd with ⟨v, hv, hdel⟩ | ⟨hk2, v, hv, hdel⟩
      · rw [stepVertex_eq (by omega) hv, hdel]
        rfl
      · have hk2b : 2 ≤ k - 1 + 1 := by omega
        rw [@stepVertex_eq sub n (k - 1 + 1 - 1) (n - k + 1) v (by omega) hv, hdel]
        simp [hk2b]
    simp only [sumSteps, hsup, if_true]
  · intro eye light l1A l1R l2A l2R e1A e1R e2A e2R s t hs ht hde hdl
    have e1 := stepVertex_of_index eye t 1 ht (fun v => v.sampledType.isDelta = true) 0
      (fun i v h1 h2 hv => hde i v h1 (by omega) hv)
    have l1 := stepVertex_of_index light s 0 hs (fun v => v.sampledType.isDelta = true) 0
      (fun i v _ h2 hv => hdl i v (by omega) hv)
    unfold calculateMISWeight recMISWeightSum
    simp only [extendAndShorten_eq _ _ _ _ eye t 1 _ ht,
      extendAndShorten_eq _ _ _ _ light s 0 _ hs,
      sumSteps_allDelta _ _ _ _ eye t (t - 1) _ e1 (t - 1) (le_refl _),
      sumSteps_allDelta _ _ _ _ light s (s - 0) _ l1 (s - 0) (le_refl _)]
    rw [F32.one_eq, F32.fin_div_fin 1 one_ne_zero]
    norm_num

/-- C3 at concrete inputs: in the eye chain whose third vertex (index 2) is delta-sampled,
used with `n = 4`, step 2 removes that vertex and step 3 follows it, and both add nothing
even though the extension densities are NaN and infinite; and a chain (lens, delta hit) with
no light vertex has weight 1. -/
theorem delta_step_adds_nothing_witness :
    extendAndShorten F32.nan 1 (F32.inf false) 1 deltaEye 4 (4 - 2) 1
        = extendAndShorten F32.nan 1 (F32.inf false) 1 deltaEye 4 (4 - 2 + 1) 1 ∧
    extendAndShorten F32.nan 1 (F32.inf false) 1 deltaEye 4 (4 - 3) 1
        = extendAndShorten F32.nan 1 (F32.inf false) 1 deltaEye 4 (4 - 3 + 1) 1 ∧
    calculateMISWeight [originVertex, mkVertex 0 0 F32.nan F32.nan true] []
        F32.nan (F32.inf true) 0 0 0 0 0 0 0 2 = some (F32.fin 1) :=
  ⟨delta_step_adds_nothing.1 F32.nan 1 (F32.inf false) 1 deltaEye 4 2 1 (by decide) (by decide)
      (by decide) (Or.inl ⟨_, rfl, rfl⟩),
    delta_step_adds_nothing.1 F32.nan 1 (F32.inf false) 1 deltaEye 4 3 1 (by decide) (by decide)
      (by decide) (Or.inr ⟨by decide, _, rfl, rfl⟩),
    delta_step_adds_nothing.2 [originVertex, mkVertex 0 0 F32.nan F32.nan true] []
      F32.nan (F32.inf true) 0 0 0 0 0 0 0 2 (by decide) (by decide)
      (by
        intro i v h1 h2 hv
        have hi : i = 1 := by omega
        subst hi
        simp at hv
        subst hv
        rfl)
      (by intro i v h; omega)⟩

/-! ## C4: how far each subpath is shortened -/

theorem getElem?_cons_eq_of_pos {α β : Type} (f : α → β) (a b : α) (l : List α) (j : Nat)
    (hj : 1 ≤ j) : ((a :: l)[j]?).map f = ((b :: l)[j]?).map f := by
  cases j with
  | zero => omega
  | succ j => simp

/-- C4.  (1) The weight does not depend on eye vertex 0: replacing the lens vertex by any
other vertex leaves the result unchanged, for every `s`, `t`.  (2) With no delta-sampled
vertex the running sum is the initial 1 plus the `t - 1` squared ratios of the eye chain
plus the `s` squared ratios of the light chain.  (3) The last of the `s` light steps removes
light vertex 0 and the last of the `t - 1` eye steps removes eye vertex 1.  (4) The density
of light vertex 0 does change the weight of `s = 1`, `t = 1`.  (5) For `s = 0`, `t = 1` the
weight is exactly 1. -/
theorem calculateMISWeight_minimum_lengths :
    (∀ (v0 w0 : BPTVertex) (rest lightVertices : List BPTVertex)
      (l1A l1R l2A l2R e1A e1R e2A e2R : F32) (s t : Nat),
      calculateMISWeight (v0 :: rest) lightVertices l1A l1R l2A l2R e1A e1R e2A e2R s t
        = calculateMISWeight (w0 :: rest) lightVertices l1A l1R l2A l2R e1A e1R e2A e2R s t) ∧
    (∀ (eyeVertices lightVertices : List BPTVertex)
      (l1A l1R l2A l2R e1A e1R e2A e2R : F32) (s t : Nat),
      s ≤ lightVertices.length → t ≤ eyeVertices.length →
      (∀ v ∈ eyeVertices, v.sampledType.isDelta = false) →
      (∀ v ∈ lightVertices, v.sampledType.isDelta = false) →
      recMISWeightSum eyeVertices lightVertices l1A l1R l2A l2R e1A e1R e2A e2R s t
        = some (1 + sumSquares l1A l1R l2A l2R eyeVertices t (t - 1)
            + sumSquares e1A e1R e2A e2R lightVertices s s)) ∧
    (∀ (lightVertices : List BPTVertex) (s : Nat) (v : BPTVertex),
      1 ≤ s → lightVertices[0]? = some v → stepVertex lightVertices s s = v) ∧
    (∀ (eyeVertices : List BPTVertex) (t : Nat) (v : BPTVertex),
      2 ≤ t → eyeVertices[1]? = some v → stepVertex eyeVertices t (t - 1) = v) ∧
    (calculateMISWeight [originVertex] [mkVertex 1 1 F32.nan F32.nan false] 1 1 1 1 1 1 1 1 1 1
        = some (F32.fin (1 / 2)) ∧
      calculateMISWeight [originVertex] [mkVertex 2 1 F32.nan F32.nan false] 1 1 1 1 1 1 1 1 1 1
        = some (F32.fin (4 / 5))) ∧
    (∀ (eyeVertices lightVertices : List BPTVertex) (l1A l1R l2A l2R e1A e1R e2A e2R : F32),
      calculateMISWeight eyeVertices lightVertices l1A l1R l2A l2R e1A e1R e2A e2R 0 1
        = some (F32.fin 1)) := by
  refine ⟨?_, ?_, ?_, ?_, ⟨by decide!, by decide!⟩, ?_⟩
  · intro v0 w0 rest light l1A l1R l2A l2R e1A e1R e2A e2R s t
    simp only [calculateMISWeight, recMISWeightSum]
    rw [extendAndShorten_congr l1A l1R l2A l2R (v0 :: rest) (w0 :: rest) t 1
      (fun j hj _ => getElem?_cons_eq_of_pos _ v0 w0 rest j hj)
      (fun j hj _ => getElem?_cons_eq_of_pos _ v0 w0 rest j hj)]
  · intro eye light l1A l1R l2A l2R e1A e1R e2A e2R s t hs ht hde hdl
    unfold recMISWeightSum
    simp only [extendAndShorten_eq _ _ _ _ eye t 1 _ ht,
      extendAndShorten_eq _ _ _ _ light s 0 _ hs,
      sumSteps_noDelta _ _ _ _ eye t _ hde, sumSteps_noDelta _ _ _ _ light s _ hdl,
      Nat.sub_zero]
  · intro light s v _ hv
    exact stepVertex_eq (by omega) hv
  · intro eye t v ht hv
    exact stepVertex_eq (by omega) hv
  · intro eye light l1A l1R l2A l2R e1A e1R e2A e2R
    simp only [calculateMISWeight, recMISWeightSum, extendAndShorten, gt_iff_lt, lt_irrefl,
      if_false]
    rw [F32.one_eq, F32.fin_div_fin 1 one_ne_zero]
    norm_num

/-- C4 at a concrete input: the eye chain of the examples with its lens vertex replaced by a
grazing vertex gives the same weight, and the running sum of the examples has the closed
form with `3 + 1` terms. -/
theorem calculateMISWeight_minimum_lengths_witness :
    calculateMISWeight (originVertex :: sampleEye.tail) sampleLight 1 1 1 1 1 1 1 1 1 4
        = calculateMISWeight (grazingVertex :: sampleEye.tail) sampleLight 1 1 1 1 1 1 1 1 1 4 ∧
    recMISWeightSum sampleEye sampleLight 1 1 1 1 1 1 1 1 1 4
        = some (1 + sumSquares 1 1 1 1 sampleEye 4 (4 - 1) + sumSquares 1 1 1 1 sampleLight 1 1) ∧
    stepVertex sampleLight 1 1 = originVertex :=
  ⟨calculateMISWeight_minimum_lengths.1 originVertex grazingVertex sampleEye.tail sampleLight
      1 1 1 1 1 1 1 1 1 4,
    calculateMISWeight_minimum_lengths.2.1 sampleEye sampleLight 1 1 1 1 1 1 1 1 1 4
      (by decide) (by decide) (by decide!) (by decide!),
    calculateMISWeight_minimum_lengths.2.2.1 sampleLight 1 originVertex (by decide) rfl⟩

/-! ## C5: the weight is a function of the stored densities and delta flags -/

theorem misKey_fwd {a b : Option BPTVertex}
    (h : a.map BPTVertex.misKey = b.map BPTVertex.misKey) :
    a.map BPTVertex.fwdKey = b.map BPTVertex.fwdKey := by
  cases a <;> cases b <;> simp_all [BPTVertex.misKey, BPTVertex.fwdKey]

theorem misKey_rev {a b : Option BPTVertex}
    (h : a.map BPTVertex.misKey = b.map BPTVertex.misKey) :
    a.map BPTVertex.revKey = b.map BPTVertex.revKey := by
  cases a <;> cases b <;> simp_all [BPTVertex.misKey, BPTVertex.revKey]

/-- C5: the model of `calculateMISWeight` is a function of its arguments (the two chains are
inputs only and no state is kept between calls), and of the chains it uses nothing but the
stored densities, probabilities and delta flags of the first `t` eye vertices and the first
`s` light vertices: two pairs of chains that agree on those give the same result. -/
theorem calculateMISWeight_pure (eyeVertices eyeVertices2 lightVertices lightVertices2 :
    List BPTVertex) (l1A l1R l2A l2R e1A e1R e2A e2R : F32) (s t : Nat)
    (he : ∀ i, i < t →
      (eyeVertices[i]?).map BPTVertex.misKey = (eyeVertices2[i]?).map BPTVertex.misKey)
    (hl : ∀ i, i < s →
      (lightVertices[i]?).map BPTVertex.misKey = (lightVertices2[i]?).map BPTVertex.misKey) :
    calculateMISWeight eyeVertices lightVertices l1A l1R l2A l2R e1A e1R e2A e2R s t
      = calculateMISWeight eyeVertices2 lightVertices2 l1A l1R l2A l2R e1A e1R e2A e2R s t := by
  simp only [calculateMISWeight, recMISWeightSum]
  rw [extendAndShorten_congr l1A l1R l2A l2R eyeVertices eyeVertices2 t 1
    (fun j _ hj => misKey_fwd (he j hj)) (fun j _ hj => misKey_rev (he j (by omega)))]
  cases extendAndShorten l1A l1R l2A l2R eyeVertices2 t 1 1 with
  | none => rfl
  | some r =>
    simp only []
    rw [extendAndShorten_congr e1A e1R e2A e2R lightVertices lightVertices2 s 0
      (fun j _ hj => misKey_fwd (hl j hj)) (fun j _ hj => misKey_rev (hl j (by omega)))]

/-- C5 at a concrete input: the eye chain of the examples and its relabelled copy (other
members changed, one vertex more), with `s = 1`, `t = 4`. -/
theorem calculateMISWeight_pure_witness :
    calculateMISWeight sampleEye sampleLight 1 1 1 1 1 1 1 1 1 4
      = calculateMISWeight sampleEyeRelabelled (sampleLight ++ [grazingVertex])
          1 1 1 1 1 1 1 1 1 4 :=
  calculateMISWeight_pure sampleEye sampleEyeRelabelled sampleLight
    (sampleLight ++ [grazingVertex]) 1 1 1 1 1 1 1 1 1 4
    (by intro i hi; interval_cases i <;> rfl)
    (by intro i hi; interval_cases i; rfl)

/-! ## The effect of one iteration of the walk -/

@[simp] theorem Job.vertices_setVertices (job : Job) (adjoint : Bool) (vs : List BPTVertex) :
    (job.setVertices adjoint vs).vertices adjoint = vs := by
  cases adjoint <;> simp [Job.vertices, Job.setVertices]

@[simp] theorem Job.vertices_setVertices_other (job : Job) (adjoint : Bool)
    (vs : List BPTVertex) :
    (job.setVertices adjoint vs).vertices (!adjoint) = job.vertices (!adjoint) := by
  cases adjoint <;> simp [Job.vertices, Job.setVertices]

@[simp] theorem Job.trace_setVertices (job : Job) (adjoint : Bool) (vs : List BPTVertex) :
    (job.setVertices adjoint vs).trace = job.trace := by
  cases adjoint <;> simp [Job.setVertices]

@[simp] theorem Job.sensor_setVertices (job : Job) (adjoint : Bool) (vs : List BPTVertex) :
    (job.setVertices adjoint vs).sensor = job.sensor := by
  cases adjoint <;> simp [Job.setVertices]

@[simp] theorem Job.wlHint_setVertices (job : Job) (adjoint : Bool) (vs : List BPTVertex) :
    (job.setVertices adjoint vs).wlHint = job.wlHint := by
  cases adjoint <;> simp [Job.setVertices]

/-- The implicit path leaves both vectors as they are; it records at most one call of
`calculateMISWeight`, and only on an eye subpath. -/
theorem implicitPath_spec (env : Env) (job : Job) (st : WalkState) (adjoint : Bool)
    (si : SurfaceInteraction) (surfPt : SurfacePoint) (dirOut_sn : Vector3D) (dist2 : F32)
    (job2 : Job) (h : implicitPath env job st adjoint si surfPt dirOut_sn dist2 = some job2) :
    job2.eyeVertices = job.eyeVertices ∧ job2.lightVertices = job.lightVertices ∧
    job2.wlHint = job.wlHint ∧
    (job2.trace = job.trace ∨
      (adjoint = false ∧ job2.trace = job.trace ++
        [Event.calculateMISWeight 0 (job.vertices adjoint).length
          (job.eyeVertices.map BPTVertex.revWrites)
          (job.lightVertices.map BPTVertex.revWrites)])) := by
  unfold implicitPath at h
  by_cases hc : (!adjoint && env.isEmitting surfPt) = true
  · rw [if_pos hc] at h
    have hadj : adjoint = false := by
      cases adjoint
      · rfl
      · simp at hc
    simp only [] at h
    split at h
    · exact absurd h (by simp)
    · rename_i w hw
      split at h <;> (simp only [Option.some.injEq] at h; subst h; simp [hadj, Job.vertices])
  · rw [if_neg hc] at h
    simp only [Option.some.injEq] at h
    subst h
    simp

/-- The scattering step either ends the walk with the job as it is, or continues after one
write of the reverse fields of the vertex next to the last, with a directional density that
does not compare equal to zero. -/
theorem scatterStep_spec (env : Env) (job : Job) (st : WalkState) (adjoint : Bool)
    (surfPt : SurfacePoint) (dirOut_sn : Vector3D) (gNorm_sn : Normal3D) (bsdf : Nat)
    (dist2 : F32) :
    match scatterStep env job st adjoint surfPt dirOut_sn gNorm_sn bsdf dist2 with
    | IterResult.fault => True
    | IterResult.done job2 _ => job2 = job
    | IterResult.next st2 =>
      F32.eq st2.dirPDF 0 = false ∧
      ∃ prev ra rp, 2 ≤ (job.vertices adjoint).length ∧
        (job.vertices adjoint)[(job.vertices adjoint).length - 2]? = some prev ∧
        st2.job = job.setVertices adjoint
          ((job.vertices adjoint).set ((job.vertices adjoint).length - 2)
            { prev with revAreaPDF := ra, revRRProb := rp, revWrites := prev.revWrites + 1 }) := by
  unfold scatterStep
  simp only []
  split_ifs with h1 h2 h3 <;> try trivial
  all_goals
    cases hprev : (job.vertices adjoint)[(job.vertices adjoint).length - 2]? with
    | none => trivial
    | some prev =>
      simp only []
      refine ⟨?_, prev, _, _, h3, rfl, rfl⟩
      simp only [Bool.or_eq_true, not_or, Bool.not_eq_true] at h1
      exact h1.2

theorem getElem?_penultimate {α : Type} (init : List α) (a b : α) :
    (init ++ [a] ++ [b])[(init ++ [a] ++ [b]).length - 2]? = some a := by
  have h : (init ++ [a] ++ [b]).length - 2 = init.length := by simp
  rw [h, List.append_assoc, List.getElem?_append_right (le_refl _)]
  simp

theorem set_penultimate {α : Type} (init : List α) (a b x : α) :
    (init ++ [a] ++ [b]).set ((init ++ [a] ++ [b]).length - 2) x = init ++ [x, b] := by
  have h : (init ++ [a] ++ [b]).length - 2 = init.length := by simp
  rw [h, List.append_assoc, List.set_append_right _ _ (le_refl _)]
  simp

theorem eq_dropLast_append_of_getLast? {α : Type} {l : List α} {a : α}
    (h : l.getLast? = some a) : l = l.dropLast ++ [a] :=
  (List.dropLast_append_getLast? a h).symm

/-- What one iteration of the loop does to the two vectors and to the trace. -/
theorem walkIter_spec (env : Env) (adjoint : Bool) (st : WalkState) :
    match walkIter env adjoint st with
    | IterResult.fault => True
    | IterResult.done job2 _ =>
      job2.vertices (!adjoint) = st.job.vertices (!adjoint) ∧
      (job2.vertices adjoint = st.job.vertices adjoint ∨
        ∃ prev si, (st.job.vertices adjoint).getLast? = some prev ∧
          env.intersect st.ray = some si ∧
          job2.vertices adjoint
            = st.job.vertices adjoint ++ [hitVertex env st prev (env.getSurfacePoint si)]) ∧
      StepTrace st adjoint job2.trace
    | IterResult.next st2 =>
      st2.job.vertices (!adjoint) = st.job.vertices (!adjoint) ∧
      F32.eq st2.dirPDF 0 = false ∧
      (∃ prev si ra rp, (st.job.vertices adjoint).getLast? = some prev ∧
        env.intersect st.ray = some si ∧
        st2.job.vertices adjoint = (st.job.vertices adjoint).dropLast ++
          [{ prev with revAreaPDF := ra, revRRProb := rp, revWrites := prev.revWrites + 1 },
            hitVertex env st prev (env.getSurfacePoint si)]) ∧
      StepTrace st adjoint st2.job.trace := by
  unfold walkIter
  simp only []
  cases hsi : env.intersect st.ray with
  | none =>
    simp only []
    refine ⟨?_, Or.inl ?_, Or.inl rfl⟩ <;> cases adjoint <;> rfl
  | some si =>
    simp only []
    have hvs : ∀ a, ({ st.job with trace := st.job.trace ++ [Event.intersect st.ray] } : Job).vertices a
        = st.job.vertices a := by
      intro a; cases a <;> rfl
    rw [hvs]
    cases hprev : (st.job.vertices adjoint).getLast? with
    | none => trivial
    | some prev =>
      simp only []
      cases himp : implicitPath env
          (({ st.job with trace := st.job.trace ++ [Event.intersect st.ray] } : Job).setVertices
            adjoint (st.job.vertices adjoint ++ [hitVertex env st prev (env.getSurfacePoint si)]))
          st adjoint si (env.getSurfacePoint si) ((env.getSurfacePoint si).toLocal (-st.ray.dir))
          (squaredDistance prev.surfPt (env.getSurfacePoint si)) with
      | none => trivial
      | some job3 =>
        simp only []
        obtain ⟨he, hl, _, htr⟩ := implicitPath_spec _ _ _ _ _ _ _ _ _ himp
        have hsame : ∀ a, job3.vertices a
            = (({ st.job with trace := st.job.trace ++ [Event.intersect st.ray] } :
                Job).setVertices adjoint
                (st.job.vertices adjoint ++ [hitVertex env st prev (env.getSurfacePoint si)])).vertices
                a := by
          intro a; cases a <;> simp [Job.vertices, he, hl]
        have hmain : job3.vertices adjoint
            = st.job.vertices adjoint ++ [hitVertex env st prev (env.getSurfacePoint si)] := by
          rw [hsame, Job.vertices_setVertices]
        have hother : job3.vertices (!adjoint) = st.job.vertices (!adjoint) := by
          rw [hsame, Job.vertices_setVertices_other, hvs]
        have htrace : StepTrace st adjoint job3.trace := by
          rcases htr with htr | ⟨hadj, htr⟩
          · left
            rw [htr, Job.trace_setVertices]
          · right
            refine ⟨hadj, hitVertex env st prev (env.getSurfacePoint si), rfl, ?_⟩
            rw [htr, Job.trace_setVertices, Job.vertices_setVertices]
            subst hadj
            simp [Job.vertices, Job.setVertices]
        by_cases hinf : (env.getSurfacePoint si).atInfinity = true
        · rw [if_pos hinf]
          simp only []
          refine ⟨?_, Or.inl ?_, ?_⟩
          · rw [Job.vertices_setVertices_other, hother]
          · rw [Job.vertices_setVertices, hmain, List.dropLast_concat]
          · rw [Job.trace_setVertices]
            exact htrace
        · rw [if_neg hinf]
          have hs := scatterStep_spec env job3 st adjoint (env.getSurfacePoint si)
            ((env.getSurfacePoint si).toLocal (-st.ray.dir))
            (env.getSurfacePoint si).getLocalGeometricNormal
            (env.createBSDF (env.getSurfacePoint si) st.wls)
            (squaredDistance prev.surfPt (env.getSurfacePoint si))
          cases hres : scatterStep env job3 st adjoint (env.getSurfacePoint si)
              ((env.getSurfacePoint si).toLocal (-st.ray.dir))
              (env.getSurfacePoint si).getLocalGeometricNormal
              (env.createBSDF (env.getSurfacePoint si) st.wls)
              (squaredDistance prev.surfPt (env.getSurfacePoint si)) with
          | fault => trivial
          | done job4 ps4 =>
            rw [hres] at hs
            simp only [] at hs
            subst hs
            exact ⟨hother, Or.inr ⟨prev, si, rfl, rfl, hmain⟩, htrace⟩
          | next st4 =>
            rw [hres] at hs
            simp only [] at hs
            obtain ⟨hd, p0, ra, rp, _, hp0, hjob⟩ := hs
            have hinit := eq_dropLast_append_of_getLast? hprev
            rw [hmain] at hp0 hjob
            rw [hinit, getElem?_penultimate] at hp0
            simp only [Option.some.injEq] at hp0
            subst hp0
            refine ⟨?_, hd, ⟨prev, si, ra, rp, rfl, rfl, ?_⟩, ?_⟩
            · rw [hjob, Job.vertices_setVertices_other, hother]
            · rw [hjob, Job.vertices_setVertices]
              conv_lhs => rw [hinit]
              rw [set_penultimate]
            · rw [hjob, Job.trace_setVertices]
              exact htrace

/-! ## Invariants of the whole walk -/

/-- Induction over the loop: a property of the loop state that every continuing iteration
preserves, and that gives `Post` whenever an iteration ends the walk, gives `Post` for every
walk that ends normally. -/
theorem walkLoop_induct (env : Env) (adjoint : Bool) (Inv : WalkState → Prop)
    (Post : Job → Prop)
    (hnext : ∀ st st2, Inv st → walkIter env adjoint st = IterResult.next st2 → Inv st2)
    (hdone : ∀ st job2 ps, Inv st → walkIter env adjoint st = IterResult.done job2 ps →
      Post job2) :
    ∀ fuel st job2 ps, Inv st → walkLoop env adjoint fuel st = Outcome.ok (job2, ps) →
      Post job2 := by
  intro fuel
  induction fuel with
  | zero => intro st job2 ps _ h; simp [walkLoop] at h
  | succ fuel ih =>
    intro st job2 ps hinv h
    unfold walkLoop at h
    cases hres : walkIter env adjoint st with
    | next st2 =>
      rw [hres] at h
      exact ih st2 job2 ps (hnext st st2 hinv hres) h
    | done job3 ps3 =>
      rw [hres] at h
      simp only [Outcome.ok.injEq, Prod.mk.injEq] at h
      rw [← h.1]
      exact hdone st job3 ps3 hinv hres
    | fault =>
      rw [hres] at h
      simp at h

/-- Within the two chains `calculateMISWeight` makes no access outside a vector. -/
theorem calculateMISWeight_isSome (eyeVertices lightVertices : List BPTVertex)
    (l1A l1R l2A l2R e1A e1R e2A e2R : F32) (s t : Nat)
    (hs : s ≤ lightVertices.length) (ht : t ≤ eyeVertices.length) :
    ∃ w, calculateMISWeight eyeVertices lightVertices l1A l1R l2A l2R e1A e1R e2A e2R s t
      = some w := by
  simp only [calculateMISWeight, recMISWeightSum,
    extendAndShorten_eq _ _ _ _ eyeVertices t 1 _ ht,
    extendAndShorten_eq _ _ _ _ lightVertices s 0 _ hs]
  exact ⟨_, rfl⟩

/-- The implicit path of the walk never faults: it calls the weighter with `s = 0` and `t`
the length of the eye vector. -/
theorem implicitPath_isSome (env : Env) (job : Job) (st : WalkState) (adjoint : Bool)
    (si : SurfaceInteraction) (surfPt : SurfacePoint) (dirOut_sn : Vector3D) (dist2 : F32) :
    ∃ job2, implicitPath env job st adjoint si surfPt dirOut_sn dist2 = some job2 := by
  unfold implicitPath
  by_cases hc : (!adjoint && env.isEmitting surfPt) = true
  · rw [if_pos hc]
    have hadj : adjoint = false := by
      cases adjoint
      · rfl
      · simp at hc
    subst hadj
    simp only []
    obtain ⟨w, hw⟩ := calculateMISWeight_isSome job.eyeVertices job.lightVertices
      (si.getLightProb * env.evaluateAreaPDF surfPt) 1
      (env.edfEvaluatePDF (env.createEDF surfPt st.wls) dirOut_sn * st.cosLast / dist2) 1
      0 0 0 0 0 (job.vertices false).length (Nat.zero_le _) (le_refl _)
    rw [hw]
    simp only []
    split_ifs <;> exact ⟨_, rfl⟩
  · rw [if_neg hc]
    exact ⟨_, rfl⟩

/-- At a hit, an iteration appends the hit vertex, evaluates the implicit path, and then
either removes the vertex again (hit at infinity) or goes on with the scattering step. -/
theorem walkIter_hit (env : Env) (adjoint : Bool) (st : WalkState) (si : SurfaceInteraction)
    (prev : BPTVertex) (hsi : env.intersect st.ray = some si)
    (hprev : (st.job.vertices adjoint).getLast? = some prev) :
    ∃ job3 : Job,
      job3.vertices adjoint
        = st.job.vertices adjoint ++ [hitVertex env st prev (env.getSurfacePoint si)] ∧
      job3.vertices (!adjoint) = st.job.vertices (!adjoint) ∧
      job3.wlHint = st.job.wlHint ∧
      walkIter env adjoint st =
        if (env.getSurfacePoint si).atInfinity then
          IterResult.done (job3.setVertices adjoint (job3.vertices adjoint).dropLast)
            st.pathSampler
        else
          scatterStep env job3 st adjoint (env.getSurfacePoint si)
            ((env.getSurfacePoint si).toLocal (-st.ray.dir))
            (env.getSurfacePoint si).getLocalGeometricNormal
            (env.createBSDF (env.getSurfacePoint si) st.wls)
            (squaredDistance prev.surfPt (env.getSurfacePoint si)) := by
  have hvs : ∀ a, ({ st.job with trace := st.job.trace ++ [Event.intersect st.ray] } : Job).vertices a
      = st.job.vertices a := by
    intro a; cases a <;> rfl
  obtain ⟨job3, himp⟩ := implicitPath_isSome env
    (({ st.job with trace := st.job.trace ++ [Event.intersect st.ray] } : Job).setVertices
      adjoint (st.job.vertices adjoint ++ [hitVertex env st prev (env.getSurfacePoint si)]))
    st adjoint si (env.getSurfacePoint si) ((env.getSurfacePoint si).toLocal (-st.ray.dir))
    (squaredDistance prev.surfPt (env.getSurfacePoint si))
  obtain ⟨he, hl, hw, _⟩ := implicitPath_spec _ _ _ _ _ _ _ _ _ himp
  have hsame : ∀ a, job3.vertices a
      = (({ st.job with trace := st.job.trace ++ [Event.intersect st.ray] } :
          Job).setVertices adjoint
          (st.job.vertices adjoint ++ [hitVertex env st prev (env.getSurfacePoint si)])).vertices
          a := by
    intro a; cases a <;> simp [Job.vertices, he, hl]
  refine ⟨job3, ?_, ?_, ?_, ?_⟩
  · rw [hsame, Job.vertices_setVertices]
  · rw [hsame, Job.vertices_setVertices_other, hvs]
  · rw [hw, Job.wlHint_setVertices]
  · unfold walkIter
    simp only [hsi, hvs, hprev, himp]

/-! ## C6: a zero initial density gives an empty walk -/

/-- C6: when `dirPDF == 0`, `generateSubPath` returns at once, for either direction and every
ray, throughput, sampler state and bound on the loop: the job it leaves is the job it was
given (both vertex vectors, the sensor and the trace of scene queries are unchanged, so no
vertex is appended, the scene is not intersected and nothing is added to the sensor), and
the sampler has not been advanced. -/
theorem generateSubPath_zero_dirPDF (env : Env) (job : Job) (initWLs : WavelengthSamples)
    (initAlpha : SampledSpectrum) (initRay : Ray) (dirPDF : F32) (sampledType : DirectionType)
    (cosLast : F32) (adjoint : Bool) (pathSampler : IndependentLightPathSampler) (fuel : Nat)
    (h : F32.eq dirPDF 0 = true) :
    generateSubPath env job initWLs initAlpha initRay dirPDF sampledType cosLast adjoint
      pathSampler fuel = Outcome.ok (job, pathSampler) := by
  unfold generateSubPath
  rw [if_pos h]

/-- C6 at a concrete input: in the scene of the two planes the walk from `(0, 0, 1)`
downwards appends two vertices when its density is 1 (second line) and none when it is 0. -/
theorem generateSubPath_zero_dirPDF_witness :
    generateSubPath twoPlaneEnv (eyeJobAt ⟨0, 0, 1⟩) default ⟨[1]⟩
        (mkRay ⟨0, 0, 1⟩ ⟨0, 0, F32.fin (-1)⟩) 0 default 1 false ⟨0⟩ 5
      = Outcome.ok (eyeJobAt ⟨0, 0, 1⟩, ⟨0⟩) ∧
    ((generateSubPath twoPlaneEnv (eyeJobAt ⟨0, 0, 1⟩) default ⟨[1]⟩
        (mkRay ⟨0, 0, 1⟩ ⟨0, 0, F32.fin (-1)⟩) 1 default 1 false ⟨0⟩ 5).vertices false).map
      List.length = some 3 :=
  ⟨generateSubPath_zero_dirPDF twoPlaneEnv (eyeJobAt ⟨0, 0, 1⟩) default ⟨[1]⟩
      (mkRay ⟨0, 0, 1⟩ ⟨0, 0, F32.fin (-1)⟩) 0 default 1 false ⟨0⟩ 5 (by decide!),
    by decide!⟩

/-! ## The scattering step in full -/

/-- When the vector holds at least two vertices the scattering step makes no access outside
it.  With `(fs, fsResult)` the sampled scattering and `u` the termination sample, it is the
following choice between ending and continuing the walk. -/
theorem scatterStep_eqns (env : Env) (job : Job) (st : WalkState) (adjoint : Bool)
    (surfPt : SurfacePoint) (dirOut_sn : Vector3D) (gNorm_sn : Normal3D) (bsdf : Nat)
    (dist2 : F32) (prev : BPTVertex) (bsdfSmp : BSDFSample)
    (ps1 ps2 : IndependentLightPathSampler) (fs : SampledSpectrum) (fsResult : BSDFQueryResult)
    (u : F32) (h2 : 2 ≤ (job.vertices adjoint).length)
    (hp : (job.vertices adjoint)[(job.vertices adjoint).length - 2]? = some prev)
    (hsmp : env.getBSDFSample st.pathSampler = (bsdfSmp, ps1))
    (hfs : env.bsdfSample bsdf ⟨dirOut_sn, gNorm_sn, st.wls.selectedLambda, adjoint⟩ bsdfSmp
      = (fs, fsResult))
    (hu : env.getPathTerminationSample ps1 = (u, ps2)) :
    scatterStep env job st adjoint surfPt dirOut_sn gNorm_sn bsdf dist2 =
      if (fs.isZero || F32.eq fsResult.dirPDF 0) = true then IterResult.done job ps1
      else if F32.lt u (F32.min (env.importance
          (fs.scale (absDot fsResult.dirLocal gNorm_sn / fsResult.dirPDF)) job.wlHint) 1)
          = true then
        IterResult.next
          { job := job.setVertices adjoint
              ((job.vertices adjoint).set ((job.vertices adjoint).length - 2)
                { prev with
                  revAreaPDF := fsResult.reverse.dirPDF * st.cosLast / dist2,
                  revRRProb := F32.min (env.importance
                    ((fsResult.reverse.fs.scale (absDot dirOut_sn gNorm_sn)).divF
                      fsResult.reverse.dirPDF) job.wlHint) 1,
                  revWrites := prev.revWrites + 1 }),
            pathSampler := ps2,
            wls :=
              if fsResult.sampledType.isDispersive = true then
                { st.wls with flags := st.wls.flags ||| env.LambdaIsSelected }
              else st.wls,
            ray := ⟨surfPt.getPosition, surfPt.fromLocal fsResult.dirLocal, st.ray.time,
              Ray.Epsilon, F32.inf false⟩,
            alpha := st.alpha.mul
              ((fs.scale (absDot fsResult.dirLocal gNorm_sn / fsResult.dirPDF)).divF
                (F32.min (env.importance
                  (fs.scale (absDot fsResult.dirLocal gNorm_sn / fsResult.dirPDF))
                  job.wlHint) 1)),
            RRProb := F32.min (env.importance
              (fs.scale (absDot fsResult.dirLocal gNorm_sn / fsResult.dirPDF)) job.wlHint) 1,
            dirPDF := fsResult.dirPDF,
            sampledType := fsResult.sampledType,
            cosLast := absDot fsResult.dirLocal gNorm_sn }
      else IterResult.done job ps2 := by
  unfold scatterStep
  simp only [hsmp, hfs, hu, h2, hp, if_true]

theorem F32.pos_of_lt_of_nonneg {u r : F32} (h : F32.lt u r = true) (h0 : F32.le 0 u = true) :
    F32.lt 0 r = true := by
  rw [F32.zero_eq] at *
  cases u with
  | fin a =>
    cases r with
    | fin b =>
      simp only [F32.lt, F32.le, decide_eq_true_eq] at *
      exact lt_of_le_of_lt h0 h
    | inf s => simpa [F32.lt] using h
    | nan => simp [F32.lt] at h
  | inf s =>
    cases s with
    | false => cases r <;> simp [F32.lt] at h
    | true => simp [F32.le] at h0
  | nan => simp [F32.le] at h0

/-- At a hit that follows a nonempty vector, the vector holds at least two vertices once
the hit vertex is appended, and the vertex next to the last is the former last one. -/
theorem penultimate_after_append {vs : List BPTVertex} {prev : BPTVertex} (hv : BPTVertex)
    (hprev : vs.getLast? = some prev) :
    2 ≤ (vs ++ [hv]).length ∧ (vs ++ [hv])[(vs ++ [hv]).length - 2]? = some prev := by
  have hinit := eq_dropLast_append_of_getLast? hprev
  constructor
  · rw [hinit]; simp
  · rw [hinit]
    exact getElem?_penultimate _ _ _

/-! ## C7: the stored area density -/

/-- C7, as stated, fails: in the scene of the sphere the walk along the x axis, sampled with
density 1, touches the sphere at grazing incidence; the vertex it appends and keeps has
`areaPDF = 1 * 0 / 1 = 0`, which is not `> 0`. -/
theorem areaPDF_positive_counterexample :
    ((generateSubPath grazingEnv (eyeJobAt ⟨0, 0, 0⟩) default ⟨[1]⟩
        (mkRay ⟨0, 0, 0⟩ ⟨1, 0, 0⟩) 1 default 1 false ⟨0⟩ 2).vertices false).map
      (fun vs => vs.map (fun v => (v.areaPDF, F32.lt 0 v.areaPDF)))
      = some [(F32.fin 1, true), (F32.fin 0, false)] := by
  decide!

/-- The loop of `generateSubPath`, entered with a density that is not zero and a vector that
is not empty: every density it carries is not zero, at most one vertex is appended per
iteration, the vertices held on entry keep their geometry and their density, and each
appended vertex stores the density of its iteration times the cosine over the squared
distance. -/
theorem walkLoop_density (env : Env) (adjoint : Bool) :
    ∀ (fuel : Nat) (st : WalkState) (job2 : Job) (ps2 : IndependentLightPathSampler),
      walkLoop env adjoint fuel st = Outcome.ok (job2, ps2) →
      F32.eq st.dirPDF 0 = false → st.job.vertices adjoint ≠ [] →
      (∀ d ∈ walkDensities env adjoint fuel st, F32.eq d 0 = false) ∧
      (job2.vertices adjoint).length
        ≤ (st.job.vertices adjoint).length + (walkDensities env adjoint fuel st).length ∧
      (∀ i, i < (st.job.vertices adjoint).length →
        ((job2.vertices adjoint)[i]?).map BPTVertex.geomKey
          = ((st.job.vertices adjoint)[i]?).map BPTVertex.geomKey) ∧
      PinnedDensityChain (st.job.vertices adjoint).length (walkDensities env adjoint fuel st)
        (job2.vertices adjoint) := by
  intro fuel
  induction fuel with
  | zero => intro st job2 ps2 h; simp [walkLoop] at h
  | succ fuel ih =>
    intro st job2 ps2 h hd hne
    have hs := walkIter_spec env adjoint st
    unfold walkLoop at h
    unfold walkDensities
    cases hres : walkIter env adjoint st with
    | fault =>
      rw [hres] at h
      simp at h
    | done job3 ps3 =>
      rw [hres] at h hs
      simp only [Outcome.ok.injEq, Prod.mk.injEq] at h
      obtain ⟨rfl, _⟩ := h
      simp only [] at hs ⊢
      obtain ⟨_, hvs, _⟩ := hs
      rcases hvs with hvs | ⟨prev, si, hprev, _, hvs⟩
      · rw [hvs]
        refine ⟨?_, by simp, fun i _ => rfl, ?_⟩
        · intro d hmem
          simp only [List.mem_singleton] at hmem
          rw [hmem]
          exact hd
        · intro k prev v _ hv
          rcases List.getElem?_eq_some_iff.mp hv with ⟨hlt, _⟩
          omega
      · rw [hvs]
        refine ⟨?_, by simp, ?_, ?_⟩
        · intro d hmem
          simp only [List.mem_singleton] at hmem
          rw [hmem]
          exact hd
        · intro i hi
          rw [List.getElem?_append_left hi]
        · intro k prev2 v hp hv
          have hk : k = 0 := by
            rcases List.getElem?_eq_some_iff.mp hv with ⟨hlt, _⟩
            simp only [List.length_append, List.length_singleton] at hlt
            omega
          subst hk
          have hlen : 0 < (st.job.vertices adjoint).length := List.length_pos.mpr hne
          simp only [Nat.add_zero] at hp hv
          rw [List.getElem?_append_right (le_refl _), Nat.sub_self] at hv
          simp only [List.getElem?_cons_zero, Option.some.injEq] at hv
          rw [List.getElem?_append_left (by omega)] at hp
          have hlast : (st.job.vertices adjoint)[(st.job.vertices adjoint).length - 1]?
              = some prev := by
            rw [← List.getLast?_eq_getElem?]
            exact hprev
          rw [hlast] at hp
          simp only [Option.some.injEq] at hp
          subst hp
          subst hv
          exact ⟨st.dirPDF, List.getElem?_cons_zero, rfl⟩
    | next st2 =>
      rw [hres] at h hs
      simp only [] at hs h ⊢
      obtain ⟨_, hd2, ⟨prev, si, ra, rp, hprev, _, hvs⟩, _⟩ := hs
      have hlen : 0 < (st.job.vertices adjoint).length := List.length_pos.mpr hne
      have hlen2 : (st2.job.vertices adjoint).length = (st.job.vertices adjoint).length + 1 := by
        rw [hvs]
        simp only [List.length_append, List.length_dropLast, List.length_cons, List.length_nil]
        omega
      have hne2 : st2.job.vertices adjoint ≠ [] := by
        intro hnil
        rw [hnil] at hlen2
        simp at hlen2
      obtain ⟨i1, i2, i3, i4⟩ := ih st2 job2 ps2 h hd2 hne2
      have hkeys : (st2.job.vertices adjoint).map BPTVertex.geomKey
          = (st.job.vertices adjoint).map BPTVertex.geomKey ++
            [(hitVertex env st prev (env.getSurfacePoint si)).geomKey] := by
        rw [hvs]
        conv_rhs => rw [eq_dropLast_append_of_getLast? hprev]
        simp [BPTVertex.geomKey]
      have hkey : ∀ i : Nat, ((st2.job.vertices adjoint)[i]?).map BPTVertex.geomKey
          = ((st.job.vertices adjoint).map BPTVertex.geomKey ++
            [(hitVertex env st prev (env.getSurfacePoint si)).geomKey])[i]? := by
        intro i
        rw [← hkeys, List.getElem?_map]
      refine ⟨?_, ?_, ?_, ?_⟩
      · intro d hmem
        simp only [List.mem_cons] at hmem
        rcases hmem with rfl | hmem
        · exact hd
        · exact i1 d hmem
      · simp only [List.length_cons]
        omega
      · intro i hi
        rw [i3 i (by omega), hkey i, List.getElem?_append_left (by simpa using hi),
          List.getElem?_map]
      · intro k prev2 v hp hv
        cases k with
        | zero =>
          simp only [Nat.add_zero] at hp hv
          have e1 := i3 ((st.job.vertices adjoint).length - 1) (by omega)
          have e2 := i3 (st.job.vertices adjoint).length (by omega)
          rw [hp, hkey, List.getElem?_append_left (by simp; omega), List.getElem?_map,
            ← List.getLast?_eq_getElem?, hprev] at e1
          rw [hv, hkey, List.getElem?_append_right (by simp)] at e2
          simp only [List.length_map, Nat.sub_self, List.getElem?_cons_zero, Option.map_some',
            Option.some.injEq, BPTVertex.geomKey, Prod.mk.injEq] at e1 e2
          obtain ⟨p1, _, _, _⟩ := e1
          obtain ⟨q1, q2, q3, q4⟩ := e2
          refine ⟨st.dirPDF, List.getElem?_cons_zero, ?_⟩
          rw [q4, q1, q2, q3, p1]
          rfl
        | succ k =>
          have hp2 : (job2.vertices adjoint)[(st2.job.vertices adjoint).length + k - 1]?
              = some prev2 := by
            rw [hlen2]
            have : (st.job.vertices adjoint).length + 1 + k - 1
                = (st.job.vertices adjoint).length + (k + 1) - 1 := by omega
            rw [this]
            exact hp
          have hv2 : (job2.vertices adjoint)[(st2.job.vertices adjoint).length + k]?
              = some v := by
            rw [hlen2]
            have : (st.job.vertices adjoint).length + 1 + k
                = (st.job.vertices adjoint).length + (k + 1) := by omega
            rw [this]
            exact hv
          obtain ⟨d, hdk, hval⟩ := i4 k prev2 v hp2 hv2
          exact ⟨d, by simpa using hdk, hval⟩

/-- C7 (amended).  What is rejected before insertion is a directional density that compares
equal to zero; the area density that a vertex stores is not checked.
(1) Let an iteration hit the scene at a point that is not at infinity, sample a scattering
that is not rejected and pass the roulette.  The walk continues with the directional density
of that sample, which does not compare equal to zero, and the vertex appended by the
iteration, now the last one, stores the directional density that the loop carried into the
iteration, times the absolute cosine, over the squared distance to the vertex before it.
(2) A call of `generateSubPath` that ends normally on a vector that is not empty leaves the
job as it is when `dirPDF == 0`.  Otherwise the directional densities that the loop carries
at its iterations are `dirPDF` at the first and none of them compares equal to zero; the
vertices held on entry keep their geometry and their stored density; at most one vertex is
appended per iteration; and the `k`-th appended vertex stores the density of the `k`-th
iteration times the absolute cosine between its incoming direction and its geometric normal,
over the squared distance to the vertex before it. -/
theorem generateSubPath_densityChain :
    (∀ (env : Env) (adjoint : Bool) (st : WalkState) (si : SurfaceInteraction)
      (prev : BPTVertex) (bsdfSmp : BSDFSample) (ps1 ps2 : IndependentLightPathSampler)
      (fs : SampledSpectrum) (fsResult : BSDFQueryResult) (u : F32),
      env.intersect st.ray = some si →
      (st.job.vertices adjoint).getLast? = some prev →
      (env.getSurfacePoint si).atInfinity = false →
      env.getBSDFSample st.pathSampler = (bsdfSmp, ps1) →
      env.bsdfSample (env.createBSDF (env.getSurfacePoint si) st.wls)
        ⟨(env.getSurfacePoint si).toLocal (-st.ray.dir),
          (env.getSurfacePoint si).getLocalGeometricNormal, st.wls.selectedLambda, adjoint⟩
        bsdfSmp = (fs, fsResult) →
      (fs.isZero || F32.eq fsResult.dirPDF 0) = false →
      env.getPathTerminationSample ps1 = (u, ps2) →
      F32.lt u (F32.min (env.importance
        (fs.scale (absDot fsResult.dirLocal (env.getSurfacePoint si).getLocalGeometricNormal /
          fsResult.dirPDF)) st.job.wlHint) 1) = true →
      ∃ st2 v, walkIter env adjoint st = IterResult.next st2 ∧
        st2.dirPDF = fsResult.dirPDF ∧ F32.eq st2.dirPDF 0 = false ∧
        (st2.job.vertices adjoint).getLast? = some v ∧
        v.surfPt = env.getSurfacePoint si ∧
        v.areaPDF = st.dirPDF * absDot v.dirIn_sn v.gNormal_sn /
          squaredDistance prev.surfPt v.surfPt) ∧
    (∀ (env : Env) (job : Job) (initWLs : WavelengthSamples) (initAlpha : SampledSpectrum)
      (initRay : Ray) (dirPDF : F32) (sampledType : DirectionType) (cosLast : F32)
      (adjoint : Bool) (pathSampler : IndependentLightPathSampler) (fuel : Nat) (job2 : Job)
      (ps2 : IndependentLightPathSampler),
      generateSubPath env job initWLs initAlpha initRay dirPDF sampledType cosLast adjoint
        pathSampler fuel = Outcome.ok (job2, ps2) →
      job.vertices adjoint ≠ [] →
      (F32.eq dirPDF 0 = true → job2 = job) ∧
      (F32.eq dirPDF 0 = false →
        (walkDensities env adjoint fuel
          { job := job, pathSampler := pathSampler, wls := initWLs, ray := initRay, alpha := initAlpha, RRProb := 1, dirPDF := dirPDF, sampledType := sampledType, cosLast := cosLast }).head?
          = some dirPDF ∧
        (∀ d ∈ walkDensities env adjoint fuel
          { job := job, pathSampler := pathSampler, wls := initWLs, ray := initRay, alpha := initAlpha, RRProb := 1, dirPDF := dirPDF, sampledType := sampledType, cosLast := cosLast },
          F32.eq d 0 = false) ∧
        (job2.vertices adjoint).length ≤ (job.vertices adjoint).length +
          (walkDensities env adjoint fuel
            { job := job, pathSampler := pathSampler, wls := initWLs, ray := initRay, alpha := initAlpha, RRProb := 1, dirPDF := dirPDF, sampledType := sampledType, cosLast := cosLast }).length ∧
        (∀ i, i < (job.vertices adjoint).length →
          ((job2.vertices adjoint)[i]?).map BPTVertex.geomKey
            = ((job.vertices adjoint)[i]?).map BPTVertex.geomKey) ∧
        PinnedDensityChain (job.vertices adjoint).length
          (walkDensities env adjoint fuel
            { job := job, pathSampler := pathSampler, wls := initWLs, ray := initRay, alpha := initAlpha, RRProb := 1, dirPDF := dirPDF, sampledType := sampledType, cosLast := cosLast })
          (job2.vertices adjoint))) := by
  constructor
  · intro env adjoint st si prev bsdfSmp ps1 ps2 fs fsResult u hsi hprev hinf hsmp hfs hnz hu hlt
    obtain ⟨job3, hmain, _, hwl, hiter⟩ := walkIter_hit env adjoint st si prev hsi hprev
    have hinf2 : ¬ (env.getSurfacePoint si).atInfinity = true := by simp [hinf]
    rw [if_neg hinf2] at hiter
    obtain ⟨h2, hp⟩ := penultimate_after_append
      (hitVertex env st prev (env.getSurfacePoint si)) hprev
    rw [← hmain] at h2 hp
    have hnz2 : ¬ (fs.isZero || F32.eq fsResult.dirPDF 0) = true := by simp [hnz]
    rw [scatterStep_eqns env job3 st adjoint _ _ _ _ _ prev bsdfSmp ps1 ps2 fs fsResult u h2 hp
      hsmp hfs hu, if_neg hnz2, hwl, if_pos hlt] at hiter
    refine ⟨_, hitVertex env st prev (env.getSurfacePoint si), hiter, rfl, ?_, ?_, rfl, rfl⟩
    · simp only [Bool.or_eq_false_iff] at hnz
      exact hnz.2
    · simp only [Job.vertices_setVertices]
      rw [hmain]
      conv_lhs => rw [eq_dropLast_append_of_getLast? hprev]
      rw [set_penultimate]
      simp
  · intro env job initWLs initAlpha initRay dirPDF sampledType cosLast adjoint pathSampler fuel
      job2 ps2 h hne
    unfold generateSubPath at h
    constructor
    · intro hz
      rw [if_pos hz] at h
      simp only [Outcome.ok.injEq, Prod.mk.injEq] at h
      exact h.1.symm
    · intro hz
      have hz2 : ¬ F32.eq dirPDF 0 = true := by simp [hz]
      rw [if_neg hz2] at h
      obtain ⟨h1, h2, h3, h4⟩ := walkLoop_density env adjoint fuel _ job2 ps2 h hz hne
      refine ⟨?_, h1, h2, h3, h4⟩
      cases fuel with
      | zero => simp [walkLoop] at h
      | succ fuel => rfl

/-- C7 (amended) at a concrete input: the walk in the scene of the two planes, entered with
the density 1, which ends normally with two vertices appended to the origin vertex.  The
densities carried at its three iterations are 1, 1 and 1. -/
theorem generateSubPath_densityChain_witness :
    ((F32.eq 1 0 = true → (twoPlaneWalk.getD (eyeJobAt ⟨0, 0, 1⟩, ⟨0⟩)).1 = eyeJobAt ⟨0, 0, 1⟩) ∧
      (F32.eq 1 0 = false →
        (walkDensities twoPlaneEnv false 5 twoPlaneStart).head? = some 1 ∧
        (∀ d ∈ walkDensities twoPlaneEnv false 5 twoPlaneStart, F32.eq d 0 = false) ∧
        ((twoPlaneWalk.getD (eyeJobAt ⟨0, 0, 1⟩, ⟨0⟩)).1.vertices false).length
          ≤ ((eyeJobAt ⟨0, 0, 1⟩).vertices false).length +
            (walkDensities twoPlaneEnv false 5 twoPlaneStart).length ∧
        (∀ i, i < ((eyeJobAt ⟨0, 0, 1⟩).vertices false).length →
          (((twoPlaneWalk.getD (eyeJobAt ⟨0, 0, 1⟩, ⟨0⟩)).1.vertices false)[i]?).map
              BPTVertex.geomKey
            = (((eyeJobAt ⟨0, 0, 1⟩).vertices false)[i]?).map BPTVertex.geomKey) ∧
        PinnedDensityChain ((eyeJobAt ⟨0, 0, 1⟩).vertices false).length
          (walkDensities twoPlaneEnv false 5 twoPlaneStart)
          ((twoPlaneWalk.getD (eyeJobAt ⟨0, 0, 1⟩, ⟨0⟩)).1.vertices false))) ∧
    walkDensities twoPlaneEnv false 5 twoPlaneStart = [1, 1, 1] ∧
    ((twoPlaneWalk.getD (eyeJobAt ⟨0, 0, 1⟩, ⟨0⟩)).1.vertices false).map BPTVertex.areaPDF
      = [1, 1, F32.fin (1 / 4)] :=
  ⟨generateSubPath_densityChain.2 twoPlaneEnv (eyeJobAt ⟨0, 0, 1⟩) default ⟨[1]⟩
      (mkRay ⟨0, 0, 1⟩ ⟨0, 0, F32.fin (-1)⟩) 1 default 1 false ⟨0⟩ 5
      (twoPlaneWalk.getD (eyeJobAt ⟨0, 0, 1⟩, ⟨0⟩)).1
      (twoPlaneWalk.getD (eyeJobAt ⟨0, 0, 1⟩, ⟨0⟩)).2 (by decide!) (by decide!),
    by decide!, by decide!⟩

/-! ## C9: the stored area density of an appended vertex -/

/-- C9.  Let an iteration of the walk start with the ray `st.ray`, sampled with the
directional density `st.dirPDF`, and let the ray hit the scene at `surfPt` while `prev` is
the last vertex of the vector.  The vertex `v` that the iteration appends has
`areaPDF = dirPDF * |dot(dirOut_sn, gNorm_sn)| / dist2`, with `dirOut_sn` the reversed ray
direction and `gNorm_sn` the geometric normal, both in the local frame of the hit, and
`dist2` the squared distance between the points of `prev` and of `v`, taken as 1 when one
of them is at infinity.  The iteration never faults: it ends the walk with `v` appended (or
removed again after a hit at infinity), or it continues with `v` as last vertex, and then
the next ray and the next `dirPDF` are the direction and the density of one and the same
BSDF sample. -/
theorem appended_vertex_areaPDF (env : Env) (adjoint : Bool) (st : WalkState)
    (si : SurfaceInteraction) (prev : BPTVertex) (hsi : env.intersect st.ray = some si)
    (hprev : (st.job.vertices adjoint).getLast? = some prev) :
    ∃ v : BPTVertex,
      v.surfPt = env.getSurfacePoint si ∧
      v.areaPDF = st.dirPDF *
        F32.abs (dot ((env.getSurfacePoint si).toLocal (-st.ray.dir))
          (env.getSurfacePoint si).getLocalGeometricNormal) /
        (if prev.surfPt.atInfinity || (env.getSurfacePoint si).atInfinity then 1
          else sqDistance prev.surfPt.getPosition (env.getSurfacePoint si).getPosition) ∧
      ((∃ job2 ps2, walkIter env adjoint st = IterResult.done job2 ps2 ∧
          (job2.vertices adjoint = st.job.vertices adjoint ++ [v] ∨
            ((env.getSurfacePoint si).atInfinity = true ∧
              job2.vertices adjoint = st.job.vertices adjoint))) ∨
        (∃ st2 bsdfSmp ps1 fs fsResult,
          walkIter env adjoint st = IterResult.next st2 ∧
          (st2.job.vertices adjoint).getLast? = some v ∧
          (st2.job.vertices adjoint).length = (st.job.vertices adjoint).length + 1 ∧
          env.getBSDFSample st.pathSampler = (bsdfSmp, ps1) ∧
          env.bsdfSample (env.createBSDF (env.getSurfacePoint si) st.wls)
            ⟨(env.getSurfacePoint si).toLocal (-st.ray.dir),
              (env.getSurfacePoint si).getLocalGeometricNormal, st.wls.selectedLambda, adjoint⟩
            bsdfSmp = (fs, fsResult) ∧
          st2.dirPDF = fsResult.dirPDF ∧
          st2.ray = ⟨(env.getSurfacePoint si).getPosition,
            (env.getSurfacePoint si).fromLocal fsResult.dirLocal, st.ray.time, Ray.Epsilon,
            F32.inf false⟩)) := by
  obtain ⟨job3, hmain, _, _, hiter⟩ := walkIter_hit env adjoint st si prev hsi hprev
  refine ⟨hitVertex env st prev (env.getSurfacePoint si), rfl, rfl, ?_⟩
  by_cases hinf : (env.getSurfacePoint si).atInfinity = true
  · rw [if_pos hinf] at hiter
    left
    refine ⟨_, _, hiter, Or.inr ⟨hinf, ?_⟩⟩
    rw [Job.vertices_setVertices, hmain, List.dropLast_concat]
  · rw [if_neg hinf] at hiter
    obtain ⟨h2, hp⟩ := penultimate_after_append
      (hitVertex env st prev (env.getSurfacePoint si)) hprev
    rw [← hmain] at h2 hp
    rw [scatterStep_eqns env job3 st adjoint _ _ _ _ _ prev
      (env.getBSDFSample st.pathSampler).1 (env.getBSDFSample st.pathSampler).2
      (env.getPathTerminationSample (env.getBSDFSample st.pathSampler).2).2 _ _
      (env.getPathTerminationSample (env.getBSDFSample st.pathSampler).2).1 h2 hp rfl rfl rfl]
      at hiter
    have hlast : ∀ x : BPTVertex,
        (((st.job.vertices adjoint ++ [hitVertex env st prev (env.getSurfacePoint si)]).set
          ((st.job.vertices adjoint ++
            [hitVertex env st prev (env.getSurfacePoint si)]).length - 2) x).getLast?
          = some (hitVertex env st prev (env.getSurfacePoint si))) := by
      intro x
      conv_lhs => rw [eq_dropLast_append_of_getLast? hprev]
      rw [set_penultimate]
      simp
    split_ifs at hiter
    all_goals first
      | exact Or.inl ⟨_, _, hiter, Or.inl hmain⟩
      | (right
         refine ⟨_, _, _, _, _, hiter, ?_, ?_, rfl, rfl, rfl, rfl⟩
         · simp only [Job.vertices_setVertices]
           rw [hmain]
           exact hlast _
         · simp only [Job.vertices_setVertices, List.length_set]
           rw [hmain]
           simp)

/-- C9 at a concrete input: the first iteration of the eye walk in the scene of the two
planes; the ray of density 1 hits the floor at distance 1 head-on. -/
theorem appended_vertex_areaPDF_witness :
    ∃ v : BPTVertex,
      v.surfPt = twoPlaneEnv.getSurfacePoint (mkInteraction 1 ⟨0, 0, 0⟩ ⟨0, 0, 1⟩ 1) ∧
      v.areaPDF = twoPlaneStart.dirPDF *
        F32.abs (dot ((twoPlaneEnv.getSurfacePoint
              (mkInteraction 1 ⟨0, 0, 0⟩ ⟨0, 0, 1⟩ 1)).toLocal (-twoPlaneStart.ray.dir))
          (twoPlaneEnv.getSurfacePoint
            (mkInteraction 1 ⟨0, 0, 0⟩ ⟨0, 0, 1⟩ 1)).getLocalGeometricNormal) /
        (if (originAt ⟨0, 0, 1⟩).surfPt.atInfinity ||
            (twoPlaneEnv.getSurfacePoint (mkInteraction 1 ⟨0, 0, 0⟩ ⟨0, 0, 1⟩ 1)).atInfinity
          then 1
          else sqDistance (originAt ⟨0, 0, 1⟩).surfPt.getPosition
            (twoPlaneEnv.getSurfacePoint
              (mkInteraction 1 ⟨0, 0, 0⟩ ⟨0, 0, 1⟩ 1)).getPosition) :=
  match appended_vertex_areaPDF twoPlaneEnv false twoPlaneStart
      (mkInteraction 1 ⟨0, 0, 0⟩ ⟨0, 0, 1⟩ 1) (originAt ⟨0, 0, 1⟩) (by decide!) (by decide!) with
  | ⟨v, h1, h2, _⟩ => ⟨v, h1, h2⟩

/-! ## C10: Russian roulette -/

/-- C10.  Let an iteration hit the scene at a point that is not at infinity, let
`(fs, fsResult)` be the scattering sampled there, with `fs` not the zero spectrum and
`fsResult.dirPDF` not zero, let `weight = fs * (cosIn / dirPDF)`, let
`RRProb = min(importance(weight), 1)` and let `u` be the termination sample.  If `u < RRProb`
the walk continues: the next loop state has `alpha * (weight / RRProb)` as throughput and
`RRProb` as survival probability, and `RRProb > 0` as soon as `u ≥ 0`.  Otherwise the
iteration ends the walk: the vector is the one that held the hit vertex before the roulette,
the other vector is unchanged, and no loop state (throughput, ray) is carried on. -/
theorem russian_roulette (env : Env) (adjoint : Bool) (st : WalkState)
    (si : SurfaceInteraction) (prev : BPTVertex) (bsdfSmp : BSDFSample)
    (ps1 ps2 : IndependentLightPathSampler) (fs : SampledSpectrum) (fsResult : BSDFQueryResult)
    (u cosIn RRProb : F32) (weight : SampledSpectrum)
    (hsi : env.intersect st.ray = some si)
    (hprev : (st.job.vertices adjoint).getLast? = some prev)
    (hinf : (env.getSurfacePoint si).atInfinity = false)
    (hsmp : env.getBSDFSample st.pathSampler = (bsdfSmp, ps1))
    (hfs : env.bsdfSample (env.createBSDF (env.getSurfacePoint si) st.wls)
      ⟨(env.getSurfacePoint si).toLocal (-st.ray.dir),
        (env.getSurfacePoint si).getLocalGeometricNormal, st.wls.selectedLambda, adjoint⟩
      bsdfSmp = (fs, fsResult))
    (hnz : (fs.isZero || F32.eq fsResult.dirPDF 0) = false)
    (hcos : cosIn = absDot fsResult.dirLocal (env.getSurfacePoint si).getLocalGeometricNormal)
    (hw : weight = fs.scale (cosIn / fsResult.dirPDF))
    (hR : RRProb = F32.min (env.importance weight st.job.wlHint) 1)
    (hu : env.getPathTerminationSample ps1 = (u, ps2)) :
    (F32.lt u RRProb = true →
      (F32.le 0 u = true → F32.lt 0 RRProb = true) ∧
      ∃ st2, walkIter env adjoint st = IterResult.next st2 ∧
        st2.RRProb = RRProb ∧ st2.alpha = st.alpha.mul (weight.divF RRProb) ∧
        (st2.job.vertices adjoint).length = (st.job.vertices adjoint).length + 1) ∧
    (F32.lt u RRProb = false →
      ∃ job2, walkIter env adjoint st = IterResult.done job2 ps2 ∧
        job2.vertices adjoint
          = st.job.vertices adjoint ++ [hitVertex env st prev (env.getSurfacePoint si)] ∧
        job2.vertices (!adjoint) = st.job.vertices (!adjoint)) := by
  obtain ⟨job3, hmain, hother, hwl, hiter⟩ := walkIter_hit env adjoint st si prev hsi hprev
  have hinf2 : ¬ (env.getSurfacePoint si).atInfinity = true := by simp [hinf]
  rw [if_neg hinf2] at hiter
  obtain ⟨h2, hp⟩ := penultimate_after_append
    (hitVertex env st prev (env.getSurfacePoint si)) hprev
  rw [← hmain] at h2 hp
  have hnz2 : ¬ (fs.isZero || F32.eq fsResult.dirPDF 0) = true := by simp [hnz]
  rw [scatterStep_eqns env job3 st adjoint _ _ _ _ _ prev bsdfSmp ps1 ps2 fs fsResult u h2 hp
    hsmp hfs hu, if_neg hnz2, hwl, ← hcos, ← hw, ← hR] at hiter
  constructor
  · intro hlt
    rw [if_pos hlt] at hiter
    refine ⟨F32.pos_of_lt_of_nonneg hlt, _, hiter, rfl, rfl, ?_⟩
    simp only [Job.vertices_setVertices, List.length_set]
    rw [hmain]
    simp
  · intro hge
    have hge2 : ¬ F32.lt u RRProb = true := by simp [hge]
    rw [if_neg hge2] at hiter
    exact ⟨job3, hiter, hmain, hother⟩

/-- C10 at a concrete input: the first iteration of the eye walk in the scene of the two
planes.  The sampled weight is 1, so `RRProb = 1`, and the termination sample `1/2` lets the
walk continue with the throughput `alpha * (weight / 1)`. -/
theorem russian_roulette_witness :
    (F32.le 0 (F32.fin (1 / 2)) = true → F32.lt 0 (F32.fin 1) = true) ∧
    ∃ st2, walkIter twoPlaneEnv false twoPlaneStart = IterResult.next st2 ∧
      st2.RRProb = F32.fin 1 ∧
      st2.alpha = twoPlaneStart.alpha.mul (SampledSpectrum.divF ⟨[1]⟩ (F32.fin 1)) ∧
      (st2.job.vertices false).length = (twoPlaneStart.job.vertices false).length + 1 :=
  (russian_roulette twoPlaneEnv false twoPlaneStart (mkInteraction 1 ⟨0, 0, 0⟩ ⟨0, 0, 1⟩ 1)
    (originAt ⟨0, 0, 1⟩) ⟨0, 0, 0⟩ ⟨1⟩ ⟨2⟩ ⟨[1]⟩ ⟨⟨0, 0, 1⟩, 1, ⟨false, false, 0⟩, ⟨⟨[1]⟩, 1⟩⟩
    (F32.fin (1 / 2)) (F32.fin 1) (F32.fin 1) ⟨[1]⟩
    (by decide!) (by decide!) (by decide!) (by decide!) (by decide!) (by decide!) (by decide!)
    (by decide!) (by decide!) (by decide!)).1 (by decide!)

/-! ## C8: the reverse fields are written once, and before they are read -/

theorem EventsOk_append {a b : List Event} (ha : EventsOk a) (hb : EventsOk b) :
    EventsOk (a ++ b) := by
  intro s t ew lw hmem
  rcases List.mem_append.mp hmem with h | h
  · exact ha s t ew lw h
  · exact hb s t ew lw h

theorem EventsOk_nil : EventsOk [] := by
  intro s t ew lw hmem
  simp at hmem

theorem RevEntry_getLast? {vs init : List BPTVertex} {last prev : BPTVertex}
    (h : vs = init ++ [last]) (hprev : vs.getLast? = some prev) :
    prev = last ∧ vs.dropLast = init := by
  subst h
  rw [List.getLast?_concat] at hprev
  simp only [Option.some.injEq] at hprev
  exact ⟨hprev.symm, List.dropLast_concat⟩

theorem RevFinal_of_RevEntry {vs : List BPTVertex} (h : RevEntry vs) : RevFinal vs := by
  obtain ⟨init, last, hvs, hl, hi⟩ := h
  subst hvs
  constructor
  · intro v hv
    rcases List.mem_append.mp hv with h1 | h1
    · rw [hi v h1]
    · simp only [List.mem_singleton] at h1
      rw [h1, hl]
      exact Nat.zero_le _
  · intro j v hj hv
    simp only [List.length_append, List.length_singleton] at hj
    rw [List.getElem?_append_left (by omega)] at hv
    exact hi v (List.getElem?_mem hv)

theorem RevFinal_concat_of_RevEntry {vs : List BPTVertex} {hv : BPTVertex} (h : RevEntry vs)
    (h0 : hv.revWrites = 0) : RevFinal (vs ++ [hv]) := by
  obtain ⟨init, last, hvs, hl, hi⟩ := h
  subst hvs
  constructor
  · intro v hmem
    simp only [List.mem_append, List.mem_singleton] at hmem
    rcases hmem with (h1 | h1) | h1
    · rw [hi v h1]
    · rw [h1, hl]; exact Nat.zero_le _
    · rw [h1, h0]; exact Nat.zero_le _
  · intro j v hj hv2
    simp only [List.length_append, List.length_singleton] at hj
    rw [List.append_assoc, List.getElem?_append_left (by omega)] at hv2
    exact hi v (List.getElem?_mem hv2)

/-- The events of one iteration that starts with the write counts in their entry state. -/
theorem StepTrace_ok {st : WalkState} {adjoint : Bool} {tr : List Event}
    (hre : RevEntry (st.job.vertices adjoint)) (h : StepTrace st adjoint tr) :
    ∃ evs, tr = st.job.trace ++ evs ∧ EventsOk evs := by
  rcases h with h | ⟨_, hv, hv0, h⟩
  · refine ⟨_, h, ?_⟩
    intro s t ew lw hmem
    simp at hmem
  · refine ⟨_, h, ?_⟩
    intro s t ew lw hmem
    rcases List.mem_cons.mp hmem with h1 | h1
    · cases h1
    rw [List.mem_singleton] at h1
    injection h1 with hs0 ht hew _
    refine ⟨hs0, ?_⟩
    intro j hj
    obtain ⟨init, last, hvs, _, hi⟩ := hre
    rw [ht, hvs] at hj
    rw [hew, hvs]
    simp only [List.length_append, List.length_singleton] at hj
    rw [List.getElem?_map, List.append_assoc, List.getElem?_append_left (by omega)]
    have hlt : j < init.length := by omega
    rw [List.getElem?_eq_getElem hlt]
    simp only [Option.map_some', Option.some.injEq]
    exact hi _ (List.getElem_mem hlt)

/-- The invariant of the walk for the write counts. -/
theorem walkLoop_revWrites (env : Env) (adjoint : Bool) (other : List BPTVertex)
    (tr0 : List Event) (fuel : Nat) (st : WalkState) (job2 : Job)
    (ps2 : IndependentLightPathSampler)
    (hre : RevEntry (st.job.vertices adjoint))
    (hother : st.job.vertices (!adjoint) = other)
    (htr : ∃ evs, st.job.trace = tr0 ++ evs ∧ EventsOk evs)
    (h : walkLoop env adjoint fuel st = Outcome.ok (job2, ps2)) :
    RevFinal (job2.vertices adjoint) ∧ job2.vertices (!adjoint) = other ∧
      ∃ evs, job2.trace = tr0 ++ evs ∧ EventsOk evs := by
  refine walkLoop_induct env adjoint
    (fun st => RevEntry (st.job.vertices adjoint) ∧ st.job.vertices (!adjoint) = other ∧
      ∃ evs, st.job.trace = tr0 ++ evs ∧ EventsOk evs)
    (fun j => RevFinal (j.vertices adjoint) ∧ j.vertices (!adjoint) = other ∧
      ∃ evs, j.trace = tr0 ++ evs ∧ EventsOk evs)
    ?_ ?_ fuel st job2 ps2 ⟨hre, hother, htr⟩ h
  · intro st st2 ⟨hre, hother, evs, htr, hok⟩ hres
    have hs := walkIter_spec env adjoint st
    rw [hres] at hs
    simp only [] at hs
    obtain ⟨ho2, _, ⟨prev, si, ra, rp, hprev, _, hvs⟩, hstep⟩ := hs
    obtain ⟨evs2, htr2, hok2⟩ := StepTrace_ok hre hstep
    refine ⟨?_, by rw [ho2, hother], evs ++ evs2, ?_, EventsOk_append hok hok2⟩
    · obtain ⟨init, last, hinit, hl, hi⟩ := hre
      obtain ⟨hpl, hdl⟩ := RevEntry_getLast? hinit hprev
      subst hpl
      have hx : ∃ pw : BPTVertex, pw.revWrites = prev.revWrites + 1 ∧
          st2.job.vertices adjoint
            = init ++ [pw, hitVertex env st prev (env.getSurfacePoint si)] :=
        ⟨_, rfl, by rw [hvs, hdl]⟩
      obtain ⟨pw, hpw, hvs2⟩ := hx
      refine ⟨init ++ [pw], hitVertex env st prev (env.getSurfacePoint si), ?_, rfl, ?_⟩
      · rw [hvs2]
        simp
      · intro v hv
        rcases List.mem_append.mp hv with h1 | h1
        · exact hi v h1
        · simp only [List.mem_singleton] at h1
          rw [h1, hpw, hl]
    · rw [htr2, htr, List.append_assoc]
  · intro st j ps ⟨hre, hother, evs, htr, hok⟩ hres
    have hs := walkIter_spec env adjoint st
    rw [hres] at hs
    simp only [] at hs
    obtain ⟨ho2, hvs, hstep⟩ := hs
    obtain ⟨evs2, htr2, hok2⟩ := StepTrace_ok hre hstep
    refine ⟨?_, by rw [ho2, hother], evs ++ evs2, ?_, EventsOk_append hok hok2⟩
    · rcases hvs with hvs | ⟨prev, si, _, _, hvs⟩
      · rw [hvs]
        exact RevFinal_of_RevEntry hre
      · rw [hvs]
        exact RevFinal_concat_of_RevEntry hre rfl
    · rw [htr2, htr, List.append_assoc]

/-- The write counts after a call of `generateSubPath` on a vector in its entry state. -/
theorem generateSubPath_revWrites (env : Env) (job : Job) (initWLs : WavelengthSamples)
    (initAlpha : SampledSpectrum) (initRay : Ray) (dirPDF : F32) (sampledType : DirectionType)
    (cosLast : F32) (adjoint : Bool) (pathSampler : IndependentLightPathSampler) (fuel : Nat)
    (job2 : Job) (ps2 : IndependentLightPathSampler)
    (hre : RevEntry (job.vertices adjoint))
    (h : generateSubPath env job initWLs initAlpha initRay dirPDF sampledType cosLast adjoint
      pathSampler fuel = Outcome.ok (job2, ps2)) :
    RevFinal (job2.vertices adjoint) ∧ job2.vertices (!adjoint) = job.vertices (!adjoint) ∧
      ∃ evs, job2.trace = job.trace ++ evs ∧ EventsOk evs := by
  unfold generateSubPath at h
  by_cases hz : F32.eq dirPDF 0 = true
  · rw [if_pos hz] at h
    simp only [Outcome.ok.injEq, Prod.mk.injEq] at h
    rw [← h.1]
    exact ⟨RevFinal_of_RevEntry hre, rfl, [], by simp, EventsOk_nil⟩
  · rw [if_neg hz] at h
    exact walkLoop_revWrites env adjoint (job.vertices (!adjoint)) job.trace fuel _ job2 ps2
      hre rfl ⟨[], by simp, EventsOk_nil⟩ h

theorem RevEntry_singleton (v : BPTVertex) (h : v.revWrites = 0) : RevEntry [v] :=
  ⟨[], v, rfl, h, by intro w hw; simp at hw⟩

/-- C8.  After the two walks of a pixel (`kernelSubPaths`, ended normally):
(1) no vertex has had its reverse fields written more than once;
(2), (3) for every `t ≤ |eyeVertices|` and `s ≤ |lightVertices|`, the range of the connection
loop, every eye vertex of index `≤ t - 3` and every light vertex of index `≤ s - 3` has had
them written exactly once;
(4) every call of `calculateMISWeight` made inside the walks was made with `s = 0` and, at
the time of the call, every eye vertex of index `≤ t - 3` had them written exactly once;
(5) these indices are the only ones whose reverse fields `extendAndShorten` reads: used
with `n` vertices, it gives the same result on two chains that differ only in the reverse
fields of vertices of index `> n - 3`. -/
theorem reverse_fields_written_before_read (env : Env) (job : Job) (px py : F32)
    (wls : WavelengthSamples) (selectWLPDF : F32)
    (sampleLight : IndependentLightPathSampler → LightRaySample × IndependentLightPathSampler)
    (sampleLens : IndependentLightPathSampler → LensRaySample × IndependentLightPathSampler)
    (pathSampler : IndependentLightPathSampler) (fuel : Nat) (job2 : Job)
    (ps2 : IndependentLightPathSampler)
    (h : kernelSubPaths env job px py wls selectWLPDF sampleLight sampleLens pathSampler fuel
      = Outcome.ok (job2, ps2)) :
    (∀ v ∈ job2.eyeVertices ++ job2.lightVertices, v.revWrites ≤ 1) ∧
    (∀ t j v, t ≤ job2.eyeVertices.length → j + 2 < t → job2.eyeVertices[j]? = some v →
      v.revWrites = 1) ∧
    (∀ s j v, s ≤ job2.lightVertices.length → j + 2 < s → job2.lightVertices[j]? = some v →
      v.revWrites = 1) ∧
    (∃ evs, job2.trace = job.trace ++ evs ∧ EventsOk evs) ∧
    (∀ (x1A x1R x2A x2R : F32) (sub sub2 : List BPTVertex) (n m : Nat) (r : F32),
      (∀ j : Nat, (sub[j]?).map BPTVertex.fwdKey = (sub2[j]?).map BPTVertex.fwdKey) →
      (∀ j : Nat, j + 2 < n →
        (sub[j]?).map BPTVertex.revKey = (sub2[j]?).map BPTVertex.revKey) →
      extendAndShorten x1A x1R x2A x2R sub n m r
        = extendAndShorten x1A x1R x2A x2R sub2 n m r) := by
  unfold kernelSubPaths at h
  simp only [] at h
  split at h
  case h_2 => simp at h
  case h_3 => simp at h
  case h_1 job1 ps1 hl =>
    unfold lightSubPath at hl
    simp only [List.nil_append] at hl
    have key1 := fun hre => generateSubPath_revWrites env _ wls _ _ _ _ _ true
      _ fuel job1 ps1 hre hl
    obtain ⟨hlf, hle, evs1, htr1, hok1⟩ := key1 (RevEntry_singleton _ rfl)
    unfold eyeSubPath at h
    simp only [] at h
    have heye : job1.eyeVertices = [] := hle
    rw [heye] at h
    simp only [List.nil_append] at h
    have key2 := fun hre => generateSubPath_revWrites env _ wls _ _ _ _ _ false
      _ fuel job2 ps2 hre h
    obtain ⟨hef, hel, evs2, htr2, hok2⟩ := key2 (RevEntry_singleton _ rfl)
    have hlight : job2.lightVertices = job1.lightVertices := hel
    have hlf2 : RevFinal job2.lightVertices := by rw [hlight]; exact hlf
    have hef2 : RevFinal job2.eyeVertices := hef
    refine ⟨?_, ?_, ?_, ⟨evs1 ++ evs2, ?_, EventsOk_append hok1 hok2⟩, ?_⟩
    · intro v hv
      rcases List.mem_append.mp hv with h1 | h1
      · exact hef2.1 v h1
      · exact hlf2.1 v h1
    · intro t j v ht hj hv
      exact hef2.2 j v (by omega) hv
    · intro s j v hs hj hv
      exact hlf2.2 j v (by omega) hv
    · rw [htr2]
      simp only []
      rw [htr1]
      simp only [List.append_assoc]
    · intro x1A x1R x2A x2R sub sub2 n m r hf hr
      exact extendAndShorten_congr x1A x1R x2A x2R sub sub2 n m (fun j _ _ => hf j)
        (fun j _ hj => hr j hj) r

/-- C8 at a concrete input: the pixel of the examples, whose two walks end normally with
three vertices each. -/
theorem reverse_fields_written_before_read_witness :
    (∀ v ∈ (twoPlanePixel.getD (eyeJobAt ⟨0, 0, 1⟩, ⟨0⟩)).1.eyeVertices ++
        (twoPlanePixel.getD (eyeJobAt ⟨0, 0, 1⟩, ⟨0⟩)).1.lightVertices, v.revWrites ≤ 1) ∧
    ((twoPlanePixel.getD (eyeJobAt ⟨0, 0, 1⟩, ⟨0⟩)).1.eyeVertices.map BPTVertex.revWrites,
      (twoPlanePixel.getD (eyeJobAt ⟨0, 0, 1⟩, ⟨0⟩)).1.lightVertices.map BPTVertex.revWrites)
      = ([1, 1, 0], [1, 1, 0]) :=
  ⟨(reverse_fields_written_before_read twoPlaneEnv (eyeJobAt ⟨0, 0, 1⟩) 0 0 default 1
      lightSampleDown lensSampleDown ⟨0⟩ 5 (twoPlanePixel.getD (eyeJobAt ⟨0, 0, 1⟩, ⟨0⟩)).1
      (twoPlanePixel.getD (eyeJobAt ⟨0, 0, 1⟩, ⟨0⟩)).2 (by decide!)).1,
    by decide!⟩

/-! ## C13: only an eye subpath adds to the sensor -/

@[simp] theorem Job.curPx_setVertices (job : Job) (adjoint : Bool) (vs : List BPTVertex) :
    (job.setVertices adjoint vs).curPx = job.curPx := by
  cases adjoint <;> simp [Job.setVertices]

@[simp] theorem Job.curPy_setVertices (job : Job) (adjoint : Bool) (vs : List BPTVertex) :
    (job.setVertices adjoint vs).curPy = job.curPy := by
  cases adjoint <;> simp [Job.setVertices]

/-- The implicit path adds at most one contribution to the sensor, at the current pixel of
the job and through the shared `add`, and only on an eye subpath at an emitting point. -/
theorem implicitPath_sensor (env : Env) (job : Job) (st : WalkState) (adjoint : Bool)
    (si : SurfaceInteraction) (surfPt : SurfacePoint) (dirOut_sn : Vector3D) (dist2 : F32)
    (job2 : Job) (h : implicitPath env job st adjoint si surfPt dirOut_sn dist2 = some job2) :
    job2.curPx = job.curPx ∧ job2.curPy = job.curPy ∧
    (job2.sensor = job.sensor ∨
      (adjoint = false ∧ env.isEmitting surfPt = true ∧
        ∃ c, job2.sensor = job.sensor ++ [⟨none, job.curPx, job.curPy, st.wls, c⟩])) := by
  unfold implicitPath at h
  by_cases hc : (!adjoint && env.isEmitting surfPt) = true
  · rw [if_pos hc] at h
    have hadj : adjoint = false ∧ env.isEmitting surfPt = true := by
      cases adjoint
      · exact ⟨rfl, by simpa using hc⟩
      · simp at hc
    simp only [] at h
    split at h
    · exact absurd h (by simp)
    · split at h
      · simp only [Option.some.injEq] at h
        subst h
        exact ⟨rfl, rfl, Or.inr ⟨hadj.1, hadj.2, _, rfl⟩⟩
      · simp only [Option.some.injEq] at h
        subst h
        exact ⟨rfl, rfl, Or.inl rfl⟩
  · rw [if_neg hc] at h
    simp only [Option.some.injEq] at h
    subst h
    exact ⟨rfl, rfl, Or.inl rfl⟩

/-- What one iteration of the loop does to the sensor and to the current pixel. -/
theorem walkIter_sensor (env : Env) (adjoint : Bool) (st : WalkState) :
    match walkIter env adjoint st with
    | IterResult.fault => True
    | IterResult.done job2 _ =>
      job2.curPx = st.job.curPx ∧ job2.curPy = st.job.curPy ∧
      (job2.sensor = st.job.sensor ∨
        (adjoint = false ∧ ∃ si c, env.intersect st.ray = some si ∧
          env.isEmitting (env.getSurfacePoint si) = true ∧
          job2.sensor = st.job.sensor ++ [⟨none, st.job.curPx, st.job.curPy, st.wls, c⟩]))
    | IterResult.next st2 =>
      st2.job.curPx = st.job.curPx ∧ st2.job.curPy = st.job.curPy ∧
      (st2.job.sensor = st.job.sensor ∨
        (adjoint = false ∧ ∃ si c, env.intersect st.ray = some si ∧
          env.isEmitting (env.getSurfacePoint si) = true ∧
          st2.job.sensor = st.job.sensor ++ [⟨none, st.job.curPx, st.job.curPy, st.wls, c⟩])) := by
  rcases Option.eq_none_or_eq_some (env.intersect st.ray) with hsi | ⟨si, hsi⟩
  · have hiter : walkIter env adjoint st = IterResult.done
        { st.job with trace := st.job.trace ++ [Event.intersect st.ray] } st.pathSampler := by
      unfold walkIter
      simp only [hsi]
    rw [hiter]
    exact ⟨rfl, rfl, Or.inl rfl⟩
  ·
    have hvs : ∀ a, ({ st.job with trace := st.job.trace ++ [Event.intersect st.ray] } : Job).vertices a
        = st.job.vertices a := by
      intro a; cases a <;> rfl
    rcases Option.eq_none_or_eq_some (st.job.vertices adjoint).getLast? with hprev | ⟨prev, hprev⟩
    · have hiter : walkIter env adjoint st = IterResult.fault := by
        unfold walkIter
        simp only [hsi, hvs, hprev]
      rw [hiter]
      trivial
    ·
      obtain ⟨job3, himp⟩ := implicitPath_isSome env
        (({ st.job with trace := st.job.trace ++ [Event.intersect st.ray] } : Job).setVertices
          adjoint (st.job.vertices adjoint ++ [hitVertex env st prev (env.getSurfacePoint si)]))
        st adjoint si (env.getSurfacePoint si) ((env.getSurfacePoint si).toLocal (-st.ray.dir))
        (squaredDistance prev.surfPt (env.getSurfacePoint si))
      obtain ⟨hx, hy, hsens⟩ := implicitPath_sensor _ _ _ _ _ _ _ _ _ himp
      simp only [Job.curPx_setVertices, Job.curPy_setVertices, Job.sensor_setVertices]
        at hx hy hsens
      have hsens2 : job3.sensor = st.job.sensor ∨
          (adjoint = false ∧ ∃ si c, env.intersect st.ray = some si ∧
            env.isEmitting (env.getSurfacePoint si) = true ∧
            job3.sensor = st.job.sensor ++ [⟨none, st.job.curPx, st.job.curPy, st.wls, c⟩]) := by
        rcases hsens with h1 | ⟨h1, h2, c, h3⟩
        · exact Or.inl h1
        · exact Or.inr ⟨h1, si, c, hsi, h2, h3⟩
      have hiter : walkIter env adjoint st =
          if (env.getSurfacePoint si).atInfinity then
            IterResult.done (job3.setVertices adjoint (job3.vertices adjoint).dropLast)
              st.pathSampler
          else
            scatterStep env job3 st adjoint (env.getSurfacePoint si)
              ((env.getSurfacePoint si).toLocal (-st.ray.dir))
              (env.getSurfacePoint si).getLocalGeometricNormal
              (env.createBSDF (env.getSurfacePoint si) st.wls)
              (squaredDistance prev.surfPt (env.getSurfacePoint si)) := by
        unfold walkIter
        simp only [hsi, hvs, hprev, himp]
      rw [hiter]
      by_cases hinf : (env.getSurfacePoint si).atInfinity = true
      · rw [if_pos hinf]
        simp only [Job.curPx_setVertices, Job.curPy_setVertices, Job.sensor_setVertices]
        exact ⟨hx, hy, hsens2⟩
      · rw [if_neg hinf]
        have hs := scatterStep_spec env job3 st adjoint (env.getSurfacePoint si)
          ((env.getSurfacePoint si).toLocal (-st.ray.dir))
          (env.getSurfacePoint si).getLocalGeometricNormal
          (env.createBSDF (env.getSurfacePoint si) st.wls)
          (squaredDistance prev.surfPt (env.getSurfacePoint si))
        cases hres : scatterStep env job3 st adjoint (env.getSurfacePoint si)
            ((env.getSurfacePoint si).toLocal (-st.ray.dir))
            (env.getSurfacePoint si).getLocalGeometricNormal
            (env.createBSDF (env.getSurfacePoint si) st.wls)
            (squaredDistance prev.surfPt (env.getSurfacePoint si)) with
        | fault => trivial
        | done job4 ps4 =>
          rw [hres] at hs
          simp only [] at hs
          subst hs
          exact ⟨hx, hy, hsens2⟩
        | next st4 =>
          rw [hres] at hs
          simp only [] at hs
          obtain ⟨_, p0, ra, rp, _, _, hjob⟩ := hs
          simp only []
          rw [hjob]
          simp only [Job.curPx_setVertices, Job.curPy_setVertices, Job.sensor_setVertices]
          exact ⟨hx, hy, hsens2⟩

/-- The sensor and the current pixel along a whole walk. -/
theorem generateSubPath_sensor (env : Env) (job : Job) (initWLs : WavelengthSamples)
    (initAlpha : SampledSpectrum) (initRay : Ray) (dirPDF : F32) (sampledType : DirectionType)
    (cosLast : F32) (adjoint : Bool) (pathSampler : IndependentLightPathSampler) (fuel : Nat)
    (job2 : Job) (ps2 : IndependentLightPathSampler)
    (h : generateSubPath env job initWLs initAlpha initRay dirPDF sampledType cosLast adjoint
      pathSampler fuel = Outcome.ok (job2, ps2)) :
    ∃ adds, job2.sensor = job.sensor ++ adds ∧
      (∀ a ∈ adds, a.threadID = none ∧ a.px = job.curPx ∧ a.py = job.curPy) ∧
      (adjoint = true → adds = []) := by
  unfold generateSubPath at h
  by_cases hz : F32.eq dirPDF 0 = true
  · rw [if_pos hz] at h
    simp only [Outcome.ok.injEq, Prod.mk.injEq] at h
    rw [← h.1]
    exact ⟨[], by simp, by simp, fun _ => rfl⟩
  · rw [if_neg hz] at h
    have key := walkLoop_induct env adjoint
      (fun st => st.job.curPx = job.curPx ∧ st.job.curPy = job.curPy ∧
        ∃ adds, st.job.sensor = job.sensor ++ adds ∧
          (∀ a ∈ adds, a.threadID = none ∧ a.px = job.curPx ∧ a.py = job.curPy) ∧
          (adjoint = true → adds = []))
      (fun j => ∃ adds, j.sensor = job.sensor ++ adds ∧
          (∀ a ∈ adds, a.threadID = none ∧ a.px = job.curPx ∧ a.py = job.curPy) ∧
          (adjoint = true → adds = []))
      ?_ ?_ fuel _ job2 ps2 ⟨rfl, rfl, [], by simp, by simp, fun _ => rfl⟩ h
    · exact key
    · intro st st2 ⟨hx, hy, adds, hs, hall, hadj⟩ hres
      have hw := walkIter_sensor env adjoint st
      rw [hres] at hw
      simp only [] at hw
      obtain ⟨hx2, hy2, hs2⟩ := hw
      refine ⟨hx2.trans hx, hy2.trans hy, ?_⟩
      rcases hs2 with hs2 | ⟨ha, si, c, _, _, hs2⟩
      · exact ⟨adds, hs2.trans hs, hall, hadj⟩
      · refine ⟨adds ++ [⟨none, st.job.curPx, st.job.curPy, st.wls, c⟩], ?_, ?_, ?_⟩
        · rw [hs2, hs, List.append_assoc]
        · intro a hmem
          rcases List.mem_append.mp hmem with h1 | h1
          · exact hall a h1
          · simp only [List.mem_singleton] at h1
            rw [h1]
            exact ⟨rfl, hx, hy⟩
        · intro htrue
          rw [ha] at htrue
          exact absurd htrue (by simp)
    · intro st j ps ⟨hx, hy, adds, hs, hall, hadj⟩ hres
      have hw := walkIter_sensor env adjoint st
      rw [hres] at hw
      simp only [] at hw
      obtain ⟨hx2, hy2, hs2⟩ := hw
      rcases hs2 with hs2 | ⟨ha, si, c, _, _, hs2⟩
      · exact ⟨adds, hs2.trans hs, hall, hadj⟩
      · refine ⟨adds ++ [⟨none, st.job.curPx, st.job.curPy, st.wls, c⟩], ?_, ?_, ?_⟩
        · rw [hs2, hs, List.append_assoc]
        · intro a hmem
          rcases List.mem_append.mp hmem with h1 | h1
          · exact hall a h1
          · simp only [List.mem_singleton] at h1
            rw [h1]
            exact ⟨rfl, hx, hy⟩
        · intro htrue
          rw [ha] at htrue
          exact absurd htrue (by simp)

/-- C13.  (1) A call of `generateSubPath` for a light subpath (`adjoint = true`) that ends
normally leaves the sensor exactly as it was, whatever the scene (emitting or not).
(2) For either direction, everything the call adds is added through the shared `add` at
the current pixel `(curPx, curPy)` of the job.  (3), (4) An iteration of the walk changes
the sensor only if `adjoint` is false and the ray hits a point that is emitting. -/
theorem light_subpath_adds_nothing :
    (∀ (env : Env) (job : Job) (initWLs : WavelengthSamples) (initAlpha : SampledSpectrum)
      (initRay : Ray) (dirPDF : F32) (sampledType : DirectionType) (cosLast : F32)
      (pathSampler : IndependentLightPathSampler) (fuel : Nat) (job2 : Job)
      (ps2 : IndependentLightPathSampler),
      generateSubPath env job initWLs initAlpha initRay dirPDF sampledType cosLast true
        pathSampler fuel = Outcome.ok (job2, ps2) → job2.sensor = job.sensor) ∧
    (∀ (env : Env) (job : Job) (initWLs : WavelengthSamples) (initAlpha : SampledSpectrum)
      (initRay : Ray) (dirPDF : F32) (sampledType : DirectionType) (cosLast : F32)
      (adjoint : Bool) (pathSampler : IndependentLightPathSampler) (fuel : Nat) (job2 : Job)
      (ps2 : IndependentLightPathSampler),
      generateSubPath env job initWLs initAlpha initRay dirPDF sampledType cosLast adjoint
        pathSampler fuel = Outcome.ok (job2, ps2) →
      ∃ adds, job2.sensor = job.sensor ++ adds ∧
        ∀ a ∈ adds, a.threadID = none ∧ a.px = job.curPx ∧ a.py = job.curPy) ∧
    (∀ (env : Env) (adjoint : Bool) (st : WalkState) (job2 : Job)
      (ps2 : IndependentLightPathSampler),
      walkIter env adjoint st = IterResult.done job2 ps2 → job2.sensor ≠ st.job.sensor →
      adjoint = false ∧ ∃ si, env.intersect st.ray = some si ∧
        env.isEmitting (env.getSurfacePoint si) = true) ∧
    (∀ (env : Env) (adjoint : Bool) (st st2 : WalkState),
      walkIter env adjoint st = IterResult.next st2 → st2.job.sensor ≠ st.job.sensor →
      adjoint = false ∧ ∃ si, env.intersect st.ray = some si ∧
        env.isEmitting (env.getSurfacePoint si) = true) := by
  refine ⟨?_, ?_, ?_, ?_⟩
  · intro env job wls alpha ray dirPDF sType cosLast ps fuel job2 ps2 h
    obtain ⟨adds, hs, _, hadj⟩ := generateSubPath_sensor env job wls alpha ray dirPDF sType
      cosLast true ps fuel job2 ps2 h
    rw [hs, hadj rfl, List.append_nil]
  · intro env job wls alpha ray dirPDF sType cosLast adjoint ps fuel job2 ps2 h
    obtain ⟨adds, hs, hall, _⟩ := generateSubPath_sensor env job wls alpha ray dirPDF sType
      cosLast adjoint ps fuel job2 ps2 h
    exact ⟨adds, hs, hall⟩
  · intro env adjoint st job2 ps2 hres hne
    have hw := walkIter_sensor env adjoint st
    rw [hres] at hw
    simp only [] at hw
    rcases hw.2.2 with h1 | ⟨ha, si, c, hsi, hem, _⟩
    · exact absurd h1 hne
    · exact ⟨ha, si, hsi, hem⟩
  · intro env adjoint st st2 hres hne
    have hw := walkIter_sensor env adjoint st
    rw [hres] at hw
    simp only [] at hw
    rcases hw.2.2 with h1 | ⟨ha, si, c, hsi, hem, _⟩
    · exact absurd h1 hne
    · exact ⟨ha, si, hsi, hem⟩

/-- C13 at concrete inputs: in the scene with the emitting floor the walk made as a light
subpath leaves the sensor empty, and the same walk made as an eye subpath adds one
contribution, at the current pixel. -/
theorem light_subpath_adds_nothing_witness :
    (emitterLightWalk.getD (lightJobAt ⟨0, 0, 1⟩, ⟨0⟩)).1.sensor = (lightJobAt ⟨0, 0, 1⟩).sensor ∧
    (∃ adds, (emitterEyeWalk.getD (eyeJobAt ⟨0, 0, 1⟩, ⟨0⟩)).1.sensor
        = (eyeJobAt ⟨0, 0, 1⟩).sensor ++ adds ∧
      ∀ a ∈ adds, a.threadID = none ∧ a.px = (eyeJobAt ⟨0, 0, 1⟩).curPx ∧
        a.py = (eyeJobAt ⟨0, 0, 1⟩).curPy) ∧
    (emitterEyeWalk.getD (eyeJobAt ⟨0, 0, 1⟩, ⟨0⟩)).1.sensor.length = 1 :=
  ⟨light_subpath_adds_nothing.1 emitterEnv (lightJobAt ⟨0, 0, 1⟩) default ⟨[1]⟩
      (mkRay ⟨0, 0, 1⟩ ⟨0, 0, F32.fin (-1)⟩) 1 default 1 ⟨0⟩ 5
      (emitterLightWalk.getD (lightJobAt ⟨0, 0, 1⟩, ⟨0⟩)).1
      (emitterLightWalk.getD (lightJobAt ⟨0, 0, 1⟩, ⟨0⟩)).2 (by decide!),
    light_subpath_adds_nothing.2.1 emitterEnv (eyeJobAt ⟨0, 0, 1⟩) default ⟨[1]⟩
      (mkRay ⟨0, 0, 1⟩ ⟨0, 0, F32.fin (-1)⟩) 1 default 1 false ⟨0⟩ 5
      (emitterEyeWalk.getD (eyeJobAt ⟨0, 0, 1⟩, ⟨0⟩)).1
      (emitterEyeWalk.getD (eyeJobAt ⟨0, 0, 1⟩, ⟨0⟩)).2 (by decide!),
    by decide!⟩

/-! ## C14: the weight of the implicit path at the first hit -/

theorem F32.mul_one_right (x : F32) : x * 1 = x := by
  rw [F32.one_eq]
  cases x with
  | fin a => simp
  | inf s => show F32.mul (F32.inf s) (F32.fin 1) = _; cases s <;> simp [F32.mul]
  | nan => rfl

/-- C14.  Let the eye vector hold the lens vertex and the vertex `hv` of a first hit that
was reached by a direction that is not delta-sampled, in the first iteration of the walk
(`RRProb = 1`).  With `pL = lightProb * evaluateAreaPDF` and `pE = hv.areaPDF * hv.RRProb`,
where `hv.RRProb = 1`, the weight that `calculateMISWeight` returns for `s = 0`, `t = 2` is
`1 / (1 + (pL / pE)²)`, whatever the light vector, the second extension values and the four
eye-extension values are (first part); and this is the weight with which `implicitPath`
deposits the contribution `MISWeight * alpha * Le0 * Le1` at an emitting point (second
part). -/
theorem implicit_first_hit_weight (env : Env) (st : WalkState) (lens : BPTVertex)
    (si : SurfaceInteraction) (hdelta : st.sampledType.isDelta = false)
    (hRR : st.RRProb = 1) :
    (hitVertex env st lens (env.getSurfacePoint si)).RRProb = 1 ∧
    (∀ (lightVertices : List BPTVertex) (x2A x2R e1A e1R e2A e2R : F32),
      calculateMISWeight [lens, hitVertex env st lens (env.getSurfacePoint si)] lightVertices
          (si.getLightProb * env.evaluateAreaPDF (env.getSurfacePoint si)) 1 x2A x2R
          e1A e1R e2A e2R 0 2
        = some (1 / (1 +
            si.getLightProb * env.evaluateAreaPDF (env.getSurfacePoint si) /
              ((hitVertex env st lens (env.getSurfacePoint si)).areaPDF *
                (hitVertex env st lens (env.getSurfacePoint si)).RRProb) *
            (si.getLightProb * env.evaluateAreaPDF (env.getSurfacePoint si) /
              ((hitVertex env st lens (env.getSurfacePoint si)).areaPDF *
                (hitVertex env st lens (env.getSurfacePoint si)).RRProb))))) ∧
    (∀ (job : Job) (dirOut_sn : Vector3D) (dist2 w : F32),
      job.eyeVertices = [lens, hitVertex env st lens (env.getSurfacePoint si)] →
      env.isEmitting (env.getSurfacePoint si) = true →
      w = 1 / (1 +
            si.getLightProb * env.evaluateAreaPDF (env.getSurfacePoint si) /
              ((hitVertex env st lens (env.getSurfacePoint si)).areaPDF *
                (hitVertex env st lens (env.getSurfacePoint si)).RRProb) *
            (si.getLightProb * env.evaluateAreaPDF (env.getSurfacePoint si) /
              ((hitVertex env st lens (env.getSurfacePoint si)).areaPDF *
                (hitVertex env st lens (env.getSurfacePoint si)).RRProb))) →
      (!F32.isinf w && !F32.isnan w) = true →
      ∃ job2, implicitPath env job st false si (env.getSurfacePoint si) dirOut_sn dist2
          = some job2 ∧
        job2.sensor = job.sensor ++ [⟨none, job.curPx, job.curPy, st.wls,
          if st.wls.flags &&& env.LambdaIsSelected ≠ 0 then
            (((st.alpha.scale w).mul (env.emittance (env.getSurfacePoint si) st.wls)).mul
              (env.edfEvaluate (env.createEDF (env.getSurfacePoint si) st.wls)
                dirOut_sn)).scale (F32.fin env.NumComponents)
          else
            ((st.alpha.scale w).mul (env.emittance (env.getSurfacePoint si) st.wls)).mul
              (env.edfEvaluate (env.createEDF (env.getSurfacePoint si) st.wls) dirOut_sn)⟩]) := by
  have hd : (hitVertex env st lens (env.getSurfacePoint si)).sampledType.isDelta = false :=
    hdelta
  have hw : ∀ (lightVertices : List BPTVertex) (x2A x2R e1A e1R e2A e2R : F32),
      calculateMISWeight [lens, hitVertex env st lens (env.getSurfacePoint si)] lightVertices
          (si.getLightProb * env.evaluateAreaPDF (env.getSurfacePoint si)) 1 x2A x2R
          e1A e1R e2A e2R 0 2
        = some (1 / (1 +
            si.getLightProb * env.evaluateAreaPDF (env.getSurfacePoint si) /
              ((hitVertex env st lens (env.getSurfacePoint si)).areaPDF *
                (hitVertex env st lens (env.getSurfacePoint si)).RRProb) *
            (si.getLightProb * env.evaluateAreaPDF (env.getSurfacePoint si) /
              ((hitVertex env st lens (env.getSurfacePoint si)).areaPDF *
                (hitVertex env st lens (env.getSurfacePoint si)).RRProb)))) := by
    intro light x2A x2R e1A e1R e2A e2R
    simp [calculateMISWeight, recMISWeightSum, extendAndShorten, hd, F32.mul_one_right]
  refine ⟨hRR, hw, ?_⟩
  intro job dirOut_sn dist2 w hjob hem hwdef hfin
  have hcall := hw job.lightVertices
    (env.edfEvaluatePDF (env.createEDF (env.getSurfacePoint si) st.wls) dirOut_sn *
      st.cosLast / dist2) 1 0 0 0 0
  rw [← hwdef] at hcall
  unfold implicitPath
  simp only [Bool.not_false, Bool.true_and, hem, if_true, Job.vertices, Bool.false_eq_true,
    if_false, hjob, List.length_cons, List.length_nil, Nat.zero_add, Nat.reduceAdd, hcall, hfin]
  exact ⟨_, rfl, rfl⟩

/-- C14 at a concrete input: the first iteration of the eye walk in the scene with the
emitting floor: `pL = 1`, `pE = 1`, and the weight is `1 / 2`. -/
theorem implicit_first_hit_weight_witness :
    (hitVertex emitterEnv twoPlaneStart (originAt ⟨0, 0, 1⟩)
      (emitterEnv.getSurfacePoint (mkInteraction 1 ⟨0, 0, 0⟩ ⟨0, 0, 1⟩ 1))).RRProb = 1 ∧
    calculateMISWeight [originAt ⟨0, 0, 1⟩, hitVertex emitterEnv twoPlaneStart
          (originAt ⟨0, 0, 1⟩)
          (emitterEnv.getSurfacePoint (mkInteraction 1 ⟨0, 0, 0⟩ ⟨0, 0, 1⟩ 1))] []
        ((mkInteraction 1 ⟨0, 0, 0⟩ ⟨0, 0, 1⟩ 1).getLightProb *
          emitterEnv.evaluateAreaPDF
            (emitterEnv.getSurfacePoint (mkInteraction 1 ⟨0, 0, 0⟩ ⟨0, 0, 1⟩ 1))) 1 1 1
        0 0 0 0 0 2
      = some (F32.fin (1 / 2)) :=
  ⟨(implicit_first_hit_weight emitterEnv twoPlaneStart (originAt ⟨0, 0, 1⟩)
      (mkInteraction 1 ⟨0, 0, 0⟩ ⟨0, 0, 1⟩ 1) (by decide!) (by decide!)).1,
    ((implicit_first_hit_weight emitterEnv twoPlaneStart (originAt ⟨0, 0, 1⟩)
      (mkInteraction 1 ⟨0, 0, 0⟩ ⟨0, 0, 1⟩ 1) (by decide!) (by decide!)).2.1 [] 1 1
      0 0 0 0).trans (by decide!)⟩

/-! ## C12: the stored survival probability -/

/-- C12, as stated, fails.  In the scene where the floor scatters with value `3/4`, the
iteration that appends the floor vertex applies a roulette of acceptance probability `3/4`
to extend the walk from that vertex, and continues; the floor vertex (index 1) nevertheless
stores 1.  At the end of the walk the stored probabilities are `1, 1, 3/4`: the `3/4` applied
at the floor is stored in its successor, the ceiling vertex, at which the roulette applied
had acceptance probability 1. -/
theorem stored_RRProb_counterexample :
    ((walkIter rouletteEnv false twoPlaneStart).state?).map
        (fun st2 => (st2.RRProb, (st2.job.vertices false).map BPTVertex.RRProb))
      = some (F32.fin (3 / 4), [1, 1]) ∧
    (((walkIter rouletteEnv false twoPlaneStart).state?).bind
        (fun st2 => (walkIter rouletteEnv false st2).state?)).map
        (fun st3 => (st3.RRProb, (st3.job.vertices false).map BPTVertex.RRProb))
      = some (1, [1, 1, F32.fin (3 / 4)]) ∧
    (rouletteWalk.vertices false).map (fun vs => vs.map BPTVertex.RRProb)
      = some [1, 1, F32.fin (3 / 4)] := by
  decide!

/-- An iteration leaves the stored survival probabilities as they are and, when it appends
a vertex, stores in it the survival probability that the loop carries. -/
theorem walkIter_RRProb (env : Env) (adjoint : Bool) (st : WalkState) :
    match walkIter env adjoint st with
    | IterResult.fault => True
    | IterResult.done job2 _ =>
      (job2.vertices adjoint).map BPTVertex.RRProb
          = (st.job.vertices adjoint).map BPTVertex.RRProb ∨
        (job2.vertices adjoint).map BPTVertex.RRProb
          = (st.job.vertices adjoint).map BPTVertex.RRProb ++ [st.RRProb]
    | IterResult.next st2 =>
      (st2.job.vertices adjoint).map BPTVertex.RRProb
        = (st.job.vertices adjoint).map BPTVertex.RRProb ++ [st.RRProb] := by
  have hs := walkIter_spec env adjoint st
  cases hres : walkIter env adjoint st with
  | fault => trivial
  | done job2 ps2 =>
    rw [hres] at hs
    simp only [] at hs ⊢
    rcases hs.2.1 with h1 | ⟨prev, si, _, _, h1⟩
    · exact Or.inl (by rw [h1])
    · right
      rw [h1, List.map_append]
      rfl
  | next st2 =>
    rw [hres] at hs
    simp only [] at hs ⊢
    obtain ⟨_, _, ⟨prev, si, ra, rp, hprev, _, hvs⟩, _⟩ := hs
    rw [hvs]
    conv_rhs => rw [eq_dropLast_append_of_getLast? hprev]
    simp only [List.map_append, List.map_cons, List.map_nil, List.append_assoc,
      List.singleton_append]
    rfl

/-- Along a walk that starts from a vector holding one vertex of survival probability 1,
the first two stored survival probabilities stay 1. -/
theorem generateSubPath_RRProb_head (env : Env) (job : Job) (initWLs : WavelengthSamples)
    (initAlpha : SampledSpectrum) (initRay : Ray) (dirPDF : F32) (sampledType : DirectionType)
    (cosLast : F32) (adjoint : Bool) (pathSampler : IndependentLightPathSampler) (fuel : Nat)
    (job2 : Job) (ps2 : IndependentLightPathSampler)
    (hstart : (job.vertices adjoint).map BPTVertex.RRProb = [1])
    (h : generateSubPath env job initWLs initAlpha initRay dirPDF sampledType cosLast adjoint
      pathSampler fuel = Outcome.ok (job2, ps2)) :
    ∃ tail, (job2.vertices adjoint).map BPTVertex.RRProb = 1 :: tail ∧
      ∀ x, tail.head? = some x → x = 1 := by
  unfold generateSubPath at h
  by_cases hz : F32.eq dirPDF 0 = true
  · rw [if_pos hz] at h
    simp only [Outcome.ok.injEq, Prod.mk.injEq] at h
    rw [← h.1]
    exact ⟨[], hstart, by simp⟩
  · rw [if_neg hz] at h
    refine walkLoop_induct env adjoint
      (fun st => ∃ tail, (st.job.vertices adjoint).map BPTVertex.RRProb = 1 :: tail ∧
        (tail = [] → st.RRProb = 1) ∧ ∀ x, tail.head? = some x → x = 1)
      (fun j => ∃ tail, (j.vertices adjoint).map BPTVertex.RRProb = 1 :: tail ∧
        ∀ x, tail.head? = some x → x = 1)
      ?_ ?_ fuel _ job2 ps2 ⟨[], hstart, fun _ => rfl, by simp⟩ h
    · intro st st2 ⟨tail, hm, h1, h2⟩ hres
      have hw := walkIter_RRProb env adjoint st
      rw [hres] at hw
      simp only [] at hw
      refine ⟨tail ++ [st.RRProb], by rw [hw, hm]; rfl, by simp, ?_⟩
      intro x hx
      cases tail with
      | nil =>
        simp only [List.nil_append, List.head?_cons, Option.some.injEq] at hx
        rw [← hx]
        exact h1 rfl
      | cons y ys =>
        simp only [List.cons_append, List.head?_cons, Option.some.injEq] at hx
        exact h2 x (by simp [hx])
    · intro st j ps ⟨tail, hm, h1, h2⟩ hres
      have hw := walkIter_RRProb env adjoint st
      rw [hres] at hw
      simp only [] at hw
      rcases hw with hw | hw
      · exact ⟨tail, by rw [hw, hm], h2⟩
      · refine ⟨tail ++ [st.RRProb], by rw [hw, hm]; rfl, ?_⟩
        intro x hx
        cases tail with
        | nil =>
          simp only [List.nil_append, List.head?_cons, Option.some.injEq] at hx
          rw [← hx]
          exact h1 rfl
        | cons y ys =>
          simp only [List.cons_append, List.head?_cons, Option.some.injEq] at hx
          exact h2 x (by simp [hx])

/-- C12 (amended).  The survival probability stored in a vertex is the acceptance
probability of the roulette that was applied at the vertex before it, when the walk was
extended to this vertex, not the one applied at this vertex.
(1) Let an iteration hit the scene while the loop carries the survival probability
`st.RRProb`, let `RRProb = min(importance(fs * (cosIn / dirPDF)), 1)` be the acceptance
probability of the roulette applied at the hit vertex, and let the roulette succeed.  The
hit vertex stores `st.RRProb`; the walk continues with a loop state that carries `RRProb`,
in which the hit vertex, now the last one, still stores `st.RRProb`, and every vertex
appended from that state, the successor of the hit vertex, stores `RRProb`.
(2) In each of the two walks of a pixel the origin vertex and the first vertex that the
walk appends store 1. -/
theorem stored_RRProb_of_predecessor :
    (∀ (env : Env) (adjoint : Bool) (st : WalkState) (si : SurfaceInteraction)
      (prev : BPTVertex) (bsdfSmp : BSDFSample) (ps1 ps2 : IndependentLightPathSampler)
      (fs : SampledSpectrum) (fsResult : BSDFQueryResult) (u cosIn RRProb : F32)
      (weight : SampledSpectrum),
      env.intersect st.ray = some si →
      (st.job.vertices adjoint).getLast? = some prev →
      (env.getSurfacePoint si).atInfinity = false →
      env.getBSDFSample st.pathSampler = (bsdfSmp, ps1) →
      env.bsdfSample (env.createBSDF (env.getSurfacePoint si) st.wls)
        ⟨(env.getSurfacePoint si).toLocal (-st.ray.dir),
          (env.getSurfacePoint si).getLocalGeometricNormal, st.wls.selectedLambda, adjoint⟩
        bsdfSmp = (fs, fsResult) →
      (fs.isZero || F32.eq fsResult.dirPDF 0) = false →
      cosIn = absDot fsResult.dirLocal (env.getSurfacePoint si).getLocalGeometricNormal →
      weight = fs.scale (cosIn / fsResult.dirPDF) →
      RRProb = F32.min (env.importance weight st.job.wlHint) 1 →
      env.getPathTerminationSample ps1 = (u, ps2) →
      F32.lt u RRProb = true →
      (hitVertex env st prev (env.getSurfacePoint si)).RRProb = st.RRProb ∧
      ∃ st2 v, walkIter env adjoint st = IterResult.next st2 ∧ st2.RRProb = RRProb ∧
        (st2.job.vertices adjoint).getLast? = some v ∧ v.RRProb = st.RRProb ∧
        v.surfPt = env.getSurfacePoint si ∧
        ∀ (si2 : SurfaceInteraction) (prev2 : BPTVertex),
          (hitVertex env st2 prev2 (env.getSurfacePoint si2)).RRProb = RRProb) ∧
    (∀ (env : Env) (job : Job) (wls : WavelengthSamples) (smp : LightRaySample)
      (pathSampler : IndependentLightPathSampler) (fuel : Nat) (job2 : Job)
      (ps2 : IndependentLightPathSampler),
      job.lightVertices = [] →
      lightSubPath env job wls smp pathSampler fuel = Outcome.ok (job2, ps2) →
      ∃ tail, job2.lightVertices.map BPTVertex.RRProb = 1 :: tail ∧
        ∀ x, tail.head? = some x → x = 1) ∧
    (∀ (env : Env) (job : Job) (wls : WavelengthSamples) (selectWLPDF : F32)
      (smp : LensRaySample) (pathSampler : IndependentLightPathSampler) (fuel : Nat)
      (job2 : Job) (ps2 : IndependentLightPathSampler),
      job.eyeVertices = [] →
      eyeSubPath env job wls selectWLPDF smp pathSampler fuel = Outcome.ok (job2, ps2) →
      ∃ tail, job2.eyeVertices.map BPTVertex.RRProb = 1 :: tail ∧
        ∀ x, tail.head? = some x → x = 1) := by
  refine ⟨?_, ?_, ?_⟩
  · intro env adjoint st si prev bsdfSmp ps1 ps2 fs fsResult u cosIn RRProb weight hsi hprev
      hinf hsmp hfs hnz hcos hw hR hu hlt
    refine ⟨rfl, ?_⟩
    obtain ⟨job3, hmain, _, hwl, hiter⟩ := walkIter_hit env adjoint st si prev hsi hprev
    have hinf2 : ¬ (env.getSurfacePoint si).atInfinity = true := by simp [hinf]
    rw [if_neg hinf2] at hiter
    obtain ⟨h2, hp⟩ := penultimate_after_append
      (hitVertex env st prev (env.getSurfacePoint si)) hprev
    rw [← hmain] at h2 hp
    have hnz2 : ¬ (fs.isZero || F32.eq fsResult.dirPDF 0) = true := by simp [hnz]
    rw [scatterStep_eqns env job3 st adjoint _ _ _ _ _ prev bsdfSmp ps1 ps2 fs fsResult u h2 hp
      hsmp hfs hu, if_neg hnz2, hwl, ← hcos, ← hw, ← hR, if_pos hlt] at hiter
    refine ⟨_, hitVertex env st prev (env.getSurfacePoint si), hiter, rfl, ?_, rfl, rfl, ?_⟩
    · simp only [Job.vertices_setVertices]
      rw [hmain]
      conv_lhs => rw [eq_dropLast_append_of_getLast? hprev]
      rw [set_penultimate]
      simp
    · intro si2 prev2
      rfl
  · intro env job wls smp ps fuel job2 ps2 hempty h
    unfold lightSubPath at h
    simp only [hempty, List.nil_append] at h
    have key := fun hstart => generateSubPath_RRProb_head env _ wls _ _ _ _ _ true ps fuel
      job2 ps2 hstart h
    exact key rfl
  · intro env job wls selectWLPDF smp ps fuel job2 ps2 hempty h
    unfold eyeSubPath at h
    simp only [hempty, List.nil_append] at h
    have key := fun hstart => generateSubPath_RRProb_head env _ wls _ _ _ _ _ false ps fuel
      job2 ps2 hstart h
    exact key rfl

/-- C12 (amended) at concrete inputs: in the scene of the roulette example the first
iteration of the eye walk stores 1 in the floor vertex and carries on the acceptance
probability `3/4` of the roulette applied at the floor, which the next appended vertex
stores; the eye walk of a pixel stores 1 in its origin and in its first appended vertex. -/
theorem stored_RRProb_of_predecessor_witness :
    ((hitVertex rouletteEnv twoPlaneStart (originAt ⟨0, 0, 1⟩)
        (rouletteEnv.getSurfacePoint (mkInteraction 1 ⟨0, 0, 0⟩ ⟨0, 0, 1⟩ 1))).RRProb
        = twoPlaneStart.RRProb ∧
      ∃ st2 v, walkIter rouletteEnv false twoPlaneStart = IterResult.next st2 ∧
        st2.RRProb = F32.fin (3 / 4) ∧
        (st2.job.vertices false).getLast? = some v ∧ v.RRProb = twoPlaneStart.RRProb ∧
        v.surfPt = rouletteEnv.getSurfacePoint (mkInteraction 1 ⟨0, 0, 0⟩ ⟨0, 0, 1⟩ 1) ∧
        ∀ (si2 : SurfaceInteraction) (prev2 : BPTVertex),
          (hitVertex rouletteEnv st2 prev2 (rouletteEnv.getSurfacePoint si2)).RRProb
            = F32.fin (3 / 4)) ∧
    (∃ tail, (rouletteEyeSubPath.getD (emptyJob, ⟨0⟩)).1.eyeVertices.map BPTVertex.RRProb
        = 1 :: tail ∧ ∀ x, tail.head? = some x → x = 1) ∧
    (rouletteEyeSubPath.getD (emptyJob, ⟨0⟩)).1.eyeVertices.map BPTVertex.RRProb
      = [1, 1, F32.fin (3 / 4)] :=
  ⟨stored_RRProb_of_predecessor.1 rouletteEnv false twoPlaneStart
      (mkInteraction 1 ⟨0, 0, 0⟩ ⟨0, 0, 1⟩ 1) (originAt ⟨0, 0, 1⟩) ⟨0, 0, 0⟩ ⟨1⟩ ⟨2⟩
      ⟨[F32.fin (3 / 4)]⟩ ⟨⟨0, 0, 1⟩, 1, ⟨false, false, 0⟩, ⟨⟨[1]⟩, 1⟩⟩
      (F32.fin (1 / 2)) (F32.fin 1) (F32.fin (3 / 4)) ⟨[F32.fin (3 / 4)]⟩
      (by decide!) (by decide!) (by decide!) (by decide!) (by decide!) (by decide!) (by decide!)
      (by decide!) (by decide!) (by decide!) (by decide!),
    stored_RRProb_of_predecessor.2.2 rouletteEnv emptyJob default 1 (lensSampleDown ⟨0⟩).1 ⟨1⟩ 5
      (rouletteEyeSubPath.getD (emptyJob, ⟨0⟩)).1 (rouletteEyeSubPath.getD (emptyJob, ⟨0⟩)).2
      rfl (by decide!),
    by decide!⟩


/-! ## The connection loop -/

theorem deposit_vertices (env : ConnectEnv) (job : Job) (threadID : Nat)
    (wls : WavelengthSamples) (p : PixelPosition) (c : Connection) (eVtx : BPTVertex) (t : Nat)
    (contribution : SampledSpectrum) :
    (deposit env job threadID wls p c eVtx t contribution).eyeVertices = job.eyeVertices ∧
    (deposit env job threadID wls p c eVtx t contribution).lightVertices = job.lightVertices ∧
    (deposit env job threadID wls p c eVtx t contribution).wlHint = job.wlHint ∧
    (deposit env job threadID wls p c eVtx t contribution).trace = job.trace := by
  unfold deposit
  split_ifs <;> exact ⟨rfl, rfl, rfl, rfl⟩

/-- Within the bounds of the loop, the weight of a connection is computed without an access
outside a vector. -/
theorem connectionWeight_isSome (env : ConnectEnv) (job : Job) (c : Connection)
    (eVtx lVtx : BPTVertex) (t s : Nat) (ht : t ≤ job.eyeVertices.length)
    (hs : s ≤ job.lightVertices.length) :
    ∃ w, connectionWeight env job c eVtx lVtx t s = some w := by
  have hl : ∃ x, lExtend2nd env job c eVtx t = some x := by
    unfold lExtend2nd
    by_cases h : t > 1
    · rw [if_pos h]
      have hlt : t - 2 < job.eyeVertices.length := by omega
      rw [List.getElem?_eq_getElem hlt]
      exact ⟨_, rfl⟩
    · rw [if_neg h]
      exact ⟨_, rfl⟩
  have he : ∃ x, eExtend2nd env job c lVtx s = some x := by
    unfold eExtend2nd
    by_cases h : s > 1
    · rw [if_pos h]
      have hlt : s - 2 < job.lightVertices.length := by omega
      rw [List.getElem?_eq_getElem hlt]
      exact ⟨_, rfl⟩
    · rw [if_neg h]
      exact ⟨_, rfl⟩
  obtain ⟨⟨l2A, l2R⟩, hl⟩ := hl
  obtain ⟨⟨e2A, e2R⟩, he⟩ := he
  unfold connectionWeight
  simp only [hl, he]
  exact calculateMISWeight_isSome _ _ _ _ _ _ _ _ _ _ s t hs ht

/-- What the body of the connection loop does for a pair of vertices, case by case. -/
theorem connectPair_eqns (env : ConnectEnv) (job : Job) (threadID : Nat) (time : F32)
    (wls : WavelengthSamples) (p : PixelPosition) (t s : Nat) (eVtx lVtx : BPTVertex)
    (he : job.eyeVertices[t - 1]? = some eVtx) (hl : job.lightVertices[s - 1]? = some lVtx) :
    connectPair env job threadID time wls p t s =
      if (connection env job.wlHint eVtx lVtx).connectionTerm.isZero = true then some job
      else if env.testVisibility eVtx.surfPt lVtx.surfPt time = false then
        some { job with trace := job.trace ++ [Event.testVisibility eVtx.surfPt lVtx.surfPt time] }
      else
        match connectionWeight env job (connection env job.wlHint eVtx lVtx) eVtx lVtx t s with
        | none => none
        | some MISWeight =>
          if (F32.isinf MISWeight || F32.isnan MISWeight) = true then
            some { job with trace := job.trace ++ [Event.testVisibility eVtx.surfPt lVtx.surfPt time, Event.calculateMISWeight s t (job.eyeVertices.map BPTVertex.revWrites) (job.lightVertices.map BPTVertex.revWrites)] }
          else
            some (deposit env { job with trace := job.trace ++ [Event.testVisibility eVtx.surfPt lVtx.surfPt time, Event.calculateMISWeight s t (job.eyeVertices.map BPTVertex.revWrites) (job.lightVertices.map BPTVertex.revWrites)] } threadID wls p (connection env job.wlHint eVtx lVtx) eVtx t
              (((lVtx.alpha.scale MISWeight).mul
                (connection env job.wlHint eVtx lVtx).connectionTerm).mul eVtx.alpha)) := by
  unfold connectPair
  simp only [he, hl]
  have hw : ∀ (tr : List Event) (c : Connection),
      connectionWeight env { job with trace := tr } c eVtx lVtx t s
        = connectionWeight env job c eVtx lVtx t s := fun _ _ => rfl
  by_cases hz : (connection env job.wlHint eVtx lVtx).connectionTerm.isZero = true
  · simp only [hz, if_true]
  · simp only [hz, if_false, hw]
    by_cases hv : env.testVisibility eVtx.surfPt lVtx.surfPt time = false
    · simp [hv]
    · have hv2 : env.testVisibility eVtx.surfPt lVtx.surfPt time = true := by simpa using hv
      simp only [hv2, Bool.not_true, if_false, Bool.false_eq_true]
      cases connectionWeight env job (connection env job.wlHint eVtx lVtx) eVtx lVtx t s with
      | none => rfl
      | some w =>
        simp only [List.append_assoc, List.singleton_append]
        rw [if_neg (show ¬ (true = false) by decide)]

/-- The body of the connection loop leaves the two vectors and the wavelength hint as they
are, and within the bounds of the loop it makes no access outside a vector. -/
theorem connectPair_isSome (env : ConnectEnv) (job : Job) (threadID : Nat) (time : F32)
    (wls : WavelengthSamples) (p : PixelPosition) (t s : Nat) (ht1 : 1 ≤ t)
    (ht : t ≤ job.eyeVertices.length) (hs1 : 1 ≤ s) (hs : s ≤ job.lightVertices.length) :
    ∃ job2, connectPair env job threadID time wls p t s = some job2 ∧
      job2.eyeVertices = job.eyeVertices ∧ job2.lightVertices = job.lightVertices := by
  have he : job.eyeVertices[t - 1]? = some (job.eyeVertices[t - 1]) :=
    List.getElem?_eq_getElem (by omega)
  have hl : job.lightVertices[s - 1]? = some (job.lightVertices[s - 1]) :=
    List.getElem?_eq_getElem (by omega)
  rw [connectPair_eqns env job threadID time wls p t s _ _ he hl]
  obtain ⟨w, hw⟩ := connectionWeight_isSome env job
    (connection env job.wlHint job.eyeVertices[t - 1] job.lightVertices[s - 1])
    job.eyeVertices[t - 1] job.lightVertices[s - 1] t s ht hs
  rw [hw]
  simp only []
  split_ifs
  · exact ⟨_, rfl, rfl, rfl⟩
  · exact ⟨_, rfl, rfl, rfl⟩
  · exact ⟨_, rfl, rfl, rfl⟩
  · exact ⟨_, rfl, (deposit_vertices _ _ _ _ _ _ _ _ _).1, (deposit_vertices _ _ _ _ _ _ _ _ _).2.1⟩

theorem connectLight_isSome (env : ConnectEnv) (threadID : Nat) (time : F32)
    (wls : WavelengthSamples) (p : PixelPosition) (t : Nat) (n s : Nat) (job : Job)
    (ht1 : 1 ≤ t) (ht : t ≤ job.eyeVertices.length) (hs1 : 1 ≤ s)
    (hs : s + n = job.lightVertices.length + 1) :
    ∃ job2, connectLight env threadID time wls p t n s job = some job2 ∧
      job2.eyeVertices = job.eyeVertices ∧ job2.lightVertices = job.lightVertices := by
  induction n generalizing s job with
  | zero => exact ⟨job, rfl, rfl, rfl⟩
  | succ n ih =>
    obtain ⟨job1, h1, he1, hl1⟩ := connectPair_isSome env job threadID time wls p t s ht1 ht hs1
      (by omega)
    obtain ⟨job2, h2, he2, hl2⟩ := ih (s + 1) job1 (by rw [he1]; exact ht) (by omega)
      (by rw [hl1]; omega)
    refine ⟨job2, ?_, he2.trans he1, hl2.trans hl1⟩
    simp only [connectLight, h1, h2]

theorem connectEye_isSome (env : ConnectEnv) (threadID : Nat) (time : F32)
    (wls : WavelengthSamples) (p : PixelPosition) (n t : Nat) (job : Job)
    (ht1 : 1 ≤ t) (ht : t + n = job.eyeVertices.length + 1) :
    ∃ job2, connectEye env threadID time wls p n t job = some job2 ∧
      job2.eyeVertices = job.eyeVertices ∧ job2.lightVertices = job.lightVertices := by
  induction n generalizing t job with
  | zero => exact ⟨job, rfl, rfl, rfl⟩
  | succ n ih =>
    obtain ⟨job1, h1, he1, hl1⟩ := connectLight_isSome env threadID time wls p t
      job.lightVertices.length 1 job ht1 (by omega) (le_refl _) (by omega)
    obtain ⟨job2, h2, he2, hl2⟩ := ih (t + 1) job1 (by omega) (by rw [he1]; omega)
    refine ⟨job2, ?_, he2.trans he1, hl2.trans hl1⟩
    simp only [connectEye, h1, h2]

/-- The connection loop ends without an access outside a vector, whatever the two vectors
hold, and leaves them as they are. -/
theorem connectionLoop_isSome (env : ConnectEnv) (job : Job) (threadID : Nat) (time : F32)
    (wls : WavelengthSamples) (p : PixelPosition) :
    ∃ job2, connectionLoop env job threadID time wls p = some job2 ∧
      job2.eyeVertices = job.eyeVertices ∧ job2.lightVertices = job.lightVertices :=
  connectEye_isSome env threadID time wls p job.eyeVertices.length 1 job (le_refl _) (by omega)

/-! ## C15: pairs that are skipped -/

/-- C15.  Let `eVtx` and `lVtx` be the vertices of the pair `(s, t)` in the body of the
connection loop, and `c` the locals computed for them, whose connection term is
`lDDF * (G / wlProb) * eDDF`.  (1) When every component of the connection term compares
equal to zero, the body ends with the job exactly as it was: nothing is appended to the
record of the calls to the scene and to the weighter (no visibility test, no call of
`calculateMISWeight`) and nothing is added to the sensor.  (2) When the connection term is
not zero and the visibility test fails, the body ends with a job that differs only by the
record of that one visibility test: the weighter is not called and nothing is added to the
sensor. -/
theorem zero_or_occluded_pair_skipped (env : ConnectEnv) (job : Job) (threadID : Nat)
    (time : F32) (wls : WavelengthSamples) (p : PixelPosition) (t s : Nat)
    (eVtx lVtx : BPTVertex) (c : Connection)
    (he : job.eyeVertices[t - 1]? = some eVtx) (hl : job.lightVertices[s - 1]? = some lVtx)
    (hc : c = connection env job.wlHint eVtx lVtx) :
    c.connectionTerm = (c.lDDF.scale (c.G / c.wlProb)).mul c.eDDF ∧
    (c.connectionTerm.isZero = true →
      connectPair env job threadID time wls p t s = some job) ∧
    (c.connectionTerm.isZero = false → env.testVisibility eVtx.surfPt lVtx.surfPt time = false →
      ∃ job2, connectPair env job threadID time wls p t s = some job2 ∧
        job2.sensor = job.sensor ∧
        job2.trace = job.trace ++ [Event.testVisibility eVtx.surfPt lVtx.surfPt time] ∧
        job2.eyeVertices = job.eyeVertices ∧ job2.lightVertices = job.lightVertices) := by
  subst hc
  refine ⟨rfl, ?_, ?_⟩
  · intro hz
    rw [connectPair_eqns env job threadID time wls p t s eVtx lVtx he hl, if_pos hz]
  · intro hz hv
    have hz2 : ¬ (connection env job.wlHint eVtx lVtx).connectionTerm.isZero = true := by
      simp [hz]
    rw [connectPair_eqns env job threadID time wls p t s eVtx lVtx he hl, if_neg hz2, if_pos hv]
    exact ⟨_, rfl, rfl, rfl, rfl, rfl⟩

/-- C15 at concrete inputs: a light vertex whose distribution evaluates to zero is skipped
with the job unchanged, and a light vertex that is occluded is skipped after the one
visibility test. -/
theorem zero_or_occluded_pair_skipped_witness :
    connectPair connectExampleEnv (connectJob 3 (DDFProxy.edf 8)) 7 0 default ⟨5, 6⟩ 1 1
      = some (connectJob 3 (DDFProxy.edf 8)) ∧
    ∃ job2, connectPair connectExampleEnv (connectJob 9 (DDFProxy.edf 3)) 7 0 default ⟨5, 6⟩ 2 1
        = some job2 ∧
      job2.sensor = (connectJob 9 (DDFProxy.edf 3)).sensor ∧
      job2.trace = (connectJob 9 (DDFProxy.edf 3)).trace ++
        [Event.testVisibility floorVertex.surfPt (lightVertexOn 9 (DDFProxy.edf 3)).surfPt 0] ∧
      job2.eyeVertices = (connectJob 9 (DDFProxy.edf 3)).eyeVertices ∧
      job2.lightVertices = (connectJob 9 (DDFProxy.edf 3)).lightVertices :=
  ⟨(zero_or_occluded_pair_skipped connectExampleEnv (connectJob 3 (DDFProxy.edf 8)) 7 0 default
      ⟨5, 6⟩ 1 1 lensVertex (lightVertexOn 3 (DDFProxy.edf 8))
      (connection connectExampleEnv 0 lensVertex (lightVertexOn 3 (DDFProxy.edf 8)))
      (by decide!) (by decide!) rfl).2.1 (by decide!),
    (zero_or_occluded_pair_skipped connectExampleEnv (connectJob 9 (DDFProxy.edf 3)) 7 0 default
      ⟨5, 6⟩ 2 1 floorVertex (lightVertexOn 9 (DDFProxy.edf 3))
      (connection connectExampleEnv 0 floorVertex (lightVertexOn 9 (DDFProxy.edf 3)))
      (by decide!) (by decide!) rfl).2.2 (by decide!) (by decide!)⟩


/-! ## C16: the value of a connection -/

/-- C16.  Let `eVtx` and `lVtx` be the vertices of the pair `(s, t)` in the body of the
connection loop and `c` the locals computed for them.  If the connection term is not zero,
the two points are mutually visible and the weight `MISWeight` that `calculateMISWeight`
returns for the connection is neither infinite nor NaN, the body adds exactly one value to
the sensor, and this value is `MISWeight * lVtx.alpha * (lDDF * (G / wlProb) * eDDF) *
eVtx.alpha`, in the grouping of the program.  Here `G = cosEyeEnd * cosLightEnd /
connectDist2`, the two cosines being those of the connection direction at the two points
and `connectDist2` the squared distance that `getDirectionFrom` reports; `lDDF` and `eDDF`
are the values of the distributions of the two vertices for the connection direction; and
`wlProb` is 1 when neither vertex carries the flag `LambdaIsSelected` and
`1 / NumComponents` otherwise. -/
theorem connection_contribution (env : ConnectEnv) (job : Job) (threadID : Nat)
    (time : F32) (wls : WavelengthSamples) (p : PixelPosition) (t s : Nat)
    (eVtx lVtx : BPTVertex) (c : Connection) (MISWeight : F32)
    (he : job.eyeVertices[t - 1]? = some eVtx) (hl : job.lightVertices[s - 1]? = some lVtx)
    (hc : c = connection env job.wlHint eVtx lVtx)
    (hnz : c.connectionTerm.isZero = false)
    (hvis : env.testVisibility eVtx.surfPt lVtx.surfPt time = true)
    (hw : connectionWeight env job c eVtx lVtx t s = some MISWeight)
    (hfin : (F32.isinf MISWeight || F32.isnan MISWeight) = false) :
    (∃ job2 a, connectPair env job threadID time wls p t s = some job2 ∧
      job2.sensor = job.sensor ++ [a] ∧
      a.contribution = ((lVtx.alpha.scale MISWeight).mul
        ((c.lDDF.scale (c.G / c.wlProb)).mul c.eDDF)).mul eVtx.alpha ∧
      a.wls = wls) ∧
    c.G = c.cosEyeEnd * c.cosLightEnd / c.connectDist2 ∧
    c.wlProb = (if (lVtx.wlFlags ||| eVtx.wlFlags) &&& env.LambdaIsSelected = 0 then 1
      else 1 / F32.fin env.NumComponents) ∧
    (c.connectionVector, c.connectDist2)
      = lVtx.surfPt.getDirectionFrom env eVtx.surfPt.getPosition ∧
    c.cosEyeEnd = eVtx.surfPt.calcCosTerm c.connectionVector ∧
    c.cosLightEnd = lVtx.surfPt.calcCosTerm c.connectionVector ∧
    c.lDDF = (env.ddfEvaluate lVtx.ddf ⟨lVtx.dirIn_sn, lVtx.gNormal_sn, job.wlHint, true⟩
      (lVtx.surfPt.toLocal (-c.connectionVector))).1 ∧
    c.eDDF = (env.ddfEvaluate eVtx.ddf ⟨eVtx.dirIn_sn, eVtx.gNormal_sn, job.wlHint, false⟩
      (eVtx.surfPt.toLocal c.connectionVector)).1 := by
  subst hc
  have hz2 : ¬ (connection env job.wlHint eVtx lVtx).connectionTerm.isZero = true := by
    simp [hnz]
  have hv2 : ¬ env.testVisibility eVtx.surfPt lVtx.surfPt time = false := by simp [hvis]
  have hf2 : ¬ (F32.isinf MISWeight || F32.isnan MISWeight) = true := by simp [hfin]
  refine ⟨?_, rfl, ?_, rfl, rfl, rfl, rfl, rfl⟩
  · rw [connectPair_eqns env job threadID time wls p t s eVtx lVtx he hl, if_neg hz2,
      if_neg hv2, hw]
    simp only []
    rw [if_neg hf2]
    unfold deposit
    split_ifs
    · exact ⟨_, _, rfl, rfl, rfl, rfl⟩
    · exact ⟨_, _, rfl, rfl, rfl, rfl⟩
  · simp only [connection]
    split_ifs <;> first | rfl | contradiction

/-- C16 at a concrete input: the floor vertex of throughput 2 connected to the light vertex
of throughput 3 at distance 1, head-on, with unit distributions: `G = 1`, `wlProb = 1`, the
weight is `1/3` and the value added is `(3 * 1/3) * 1 * 2 = 2`. -/
theorem connection_contribution_witness :
    (∃ job2 a, connectPair connectExampleEnv (connectJob 3 (DDFProxy.edf 3)) 7 0 default
        ⟨5, 6⟩ 2 1 = some job2 ∧
      job2.sensor = (connectJob 3 (DDFProxy.edf 3)).sensor ++ [a] ∧
      a.contribution = (((lightVertexOn 3 (DDFProxy.edf 3)).alpha.scale (F32.fin (1 / 3))).mul
        (((connection connectExampleEnv 0 floorVertex
            (lightVertexOn 3 (DDFProxy.edf 3))).lDDF.scale
          ((connection connectExampleEnv 0 floorVertex (lightVertexOn 3 (DDFProxy.edf 3))).G /
            (connection connectExampleEnv 0 floorVertex
              (lightVertexOn 3 (DDFProxy.edf 3))).wlProb)).mul
          (connection connectExampleEnv 0 floorVertex
            (lightVertexOn 3 (DDFProxy.edf 3))).eDDF)).mul floorVertex.alpha ∧
      a.wls = default) ∧
    (((lightVertexOn 3 (DDFProxy.edf 3)).alpha.scale (F32.fin (1 / 3))).mul
        (((connection connectExampleEnv 0 floorVertex
            (lightVertexOn 3 (DDFProxy.edf 3))).lDDF.scale
          ((connection connectExampleEnv 0 floorVertex (lightVertexOn 3 (DDFProxy.edf 3))).G /
            (connection connectExampleEnv 0 floorVertex
              (lightVertexOn 3 (DDFProxy.edf 3))).wlProb)).mul
          (connection connectExampleEnv 0 floorVertex
            (lightVertexOn 3 (DDFProxy.edf 3))).eDDF)).mul floorVertex.alpha = ⟨[2]⟩ :=
  ⟨(connection_contribution connectExampleEnv (connectJob 3 (DDFProxy.edf 3)) 7 0 default
      ⟨5, 6⟩ 2 1 floorVertex (lightVertexOn 3 (DDFProxy.edf 3))
      (connection connectExampleEnv 0 floorVertex (lightVertexOn 3 (DDFProxy.edf 3)))
      (F32.fin (1 / 3)) (by decide!) (by decide!) rfl (by decide!) (by decide!) (by decide!)
      (by decide!)).1,
    by decide!⟩

/-! ## C17: where a connection is deposited -/

/-- C17.  Let `eVtx` and `lVtx` be the vertices of the pair `(s, t)` in the body of the
connection loop and `c` the locals computed for them.  (1) Whatever the body adds to the
sensor, it adds with `t > 1` by the shared `add` at the pixel `(p.x, p.y)` being rendered,
and with `t ≤ 1` by the `add` of the thread `threadID` at the pixel that `calculatePixel`
of the distribution of the eye vertex returns for the connection direction in the frame of
the eye vertex; so with `t == 1` nothing is added by the shared `add`.  (2) When the
connection term is not zero, the points are mutually visible and the weight `MISWeight` is
neither infinite nor NaN, the body adds exactly one `contribution`: with `t > 1` the call
is `sensor->add(p.x, p.y, wls, contribution)`, and with `t == 1` it is
`sensor->add(threadID, hitPx, hitPy, wls, contribution)`. -/
theorem connection_deposit_location (env : ConnectEnv) (job : Job) (threadID : Nat)
    (time : F32) (wls : WavelengthSamples) (p : PixelPosition) (t s : Nat)
    (eVtx lVtx : BPTVertex) (c : Connection)
    (he : job.eyeVertices[t - 1]? = some eVtx) (hl : job.lightVertices[s - 1]? = some lVtx)
    (hc : c = connection env job.wlHint eVtx lVtx) :
    (∀ job2, connectPair env job threadID time wls p t s = some job2 →
      ∃ adds, job2.sensor = job.sensor ++ adds ∧ adds.length ≤ 1 ∧
        ∀ a ∈ adds,
          (1 < t → a.threadID = none ∧ a.px = p.x ∧ a.py = p.y) ∧
          (t ≤ 1 → a.threadID = some threadID ∧
            (a.px, a.py) = env.calculatePixel eVtx.ddf (eVtx.surfPt.toLocal c.connectionVector))) ∧
    (∀ MISWeight, c.connectionTerm.isZero = false →
      env.testVisibility eVtx.surfPt lVtx.surfPt time = true →
      connectionWeight env job c eVtx lVtx t s = some MISWeight →
      (F32.isinf MISWeight || F32.isnan MISWeight) = false →
      ∃ job2, connectPair env job threadID time wls p t s = some job2 ∧
        (1 < t → job2.sensor = job.sensor ++
          [⟨none, p.x, p.y, wls,
            ((lVtx.alpha.scale MISWeight).mul c.connectionTerm).mul eVtx.alpha⟩]) ∧
        (t = 1 → job2.sensor = job.sensor ++
          [⟨some threadID,
            (env.calculatePixel eVtx.ddf (eVtx.surfPt.toLocal c.connectionVector)).1,
            (env.calculatePixel eVtx.ddf (eVtx.surfPt.toLocal c.connectionVector)).2, wls,
            ((lVtx.alpha.scale MISWeight).mul c.connectionTerm).mul eVtx.alpha⟩])) := by
  subst hc
  have heqn := connectPair_eqns env job threadID time wls p t s eVtx lVtx he hl
  constructor
  · intro job2 h
    rw [heqn] at h
    by_cases hz : (connection env job.wlHint eVtx lVtx).connectionTerm.isZero = true
    · rw [if_pos hz] at h
      simp only [Option.some.injEq] at h
      subst h
      exact ⟨[], by simp, by simp, by simp⟩
    · rw [if_neg hz] at h
      by_cases hv : env.testVisibility eVtx.surfPt lVtx.surfPt time = false
      · rw [if_pos hv] at h
        simp only [Option.some.injEq] at h
        subst h
        exact ⟨[], by simp, by simp, by simp⟩
      · rw [if_neg hv] at h
        cases hw : connectionWeight env job (connection env job.wlHint eVtx lVtx) eVtx lVtx
            t s with
        | none => rw [hw] at h; simp at h
        | some w =>
          rw [hw] at h
          simp only [] at h
          by_cases hf : (F32.isinf w || F32.isnan w) = true
          · rw [if_pos hf] at h
            simp only [Option.some.injEq] at h
            subst h
            exact ⟨[], by simp, by simp, by simp⟩
          · rw [if_neg hf] at h
            simp only [Option.some.injEq] at h
            subst h
            unfold deposit
            by_cases ht : t > 1
            · rw [if_pos ht]
              refine ⟨[_], rfl, by simp, ?_⟩
              intro a ha
              simp only [List.mem_singleton] at ha
              subst ha
              exact ⟨fun _ => ⟨rfl, rfl, rfl⟩, fun h1 => absurd ht (by omega)⟩
            · rw [if_neg ht]
              refine ⟨[_], rfl, by simp, ?_⟩
              intro a ha
              simp only [List.mem_singleton] at ha
              subst ha
              exact ⟨fun h1 => absurd h1 ht, fun _ => ⟨rfl, rfl⟩⟩
  · intro MISWeight hnz hvis hw hfin
    have hz2 : ¬ (connection env job.wlHint eVtx lVtx).connectionTerm.isZero = true := by
      simp [hnz]
    have hv2 : ¬ env.testVisibility eVtx.surfPt lVtx.surfPt time = false := by simp [hvis]
    have hf2 : ¬ (F32.isinf MISWeight || F32.isnan MISWeight) = true := by simp [hfin]
    rw [heqn, if_neg hz2, if_neg hv2, hw]
    simp only []
    rw [if_neg hf2]
    refine ⟨_, rfl, ?_, ?_⟩
    · intro ht
      unfold deposit
      rw [if_pos ht]
    · intro ht
      unfold deposit
      rw [if_neg (by omega)]
      rfl

/-- C17 at concrete inputs: the connection of the floor vertex (`t = 2`) is added by the
shared `add` at the rendered pixel `(5, 6)`, and the connection of the lens vertex
(`t = 1`) is added by the `add` of thread 7 at the pixel `(3, 4)` of the camera. -/
theorem connection_deposit_location_witness :
    (∃ job2, connectPair connectExampleEnv (connectJob 3 (DDFProxy.edf 3)) 7 0 default
        ⟨5, 6⟩ 2 1 = some job2 ∧
      job2.sensor = [⟨none, 5, 6, default, ⟨[2]⟩⟩]) ∧
    (∃ job2, connectPair connectExampleEnv (connectJob 3 (DDFProxy.edf 3)) 7 0 default
        ⟨5, 6⟩ 1 1 = some job2 ∧
      job2.sensor = [⟨some 7, 3, 4, default, ⟨[F32.fin (3 / 2)]⟩⟩]) :=
  ⟨match (connection_deposit_location connectExampleEnv (connectJob 3 (DDFProxy.edf 3)) 7 0
      default ⟨5, 6⟩ 2 1 floorVertex (lightVertexOn 3 (DDFProxy.edf 3))
      (connection connectExampleEnv 0 floorVertex (lightVertexOn 3 (DDFProxy.edf 3)))
      (by decide!) (by decide!) rfl).2 (F32.fin (1 / 3)) (by decide!) (by decide!) (by decide!)
      (by decide!) with
    | ⟨job2, h, h2, _⟩ => ⟨job2, h, (h2 (by decide)).trans (by decide!)⟩,
   match (connection_deposit_location connectExampleEnv (connectJob 3 (DDFProxy.edf 3)) 7 0
      default ⟨5, 6⟩ 1 1 lensVertex (lightVertexOn 3 (DDFProxy.edf 3))
      (connection connectExampleEnv 0 lensVertex (lightVertexOn 3 (DDFProxy.edf 3)))
      (by decide!) (by decide!) rfl).2 (F32.fin (1 / 2)) (by decide!) (by decide!) (by decide!)
      (by decide!) with
    | ⟨job2, h, _, h1⟩ => ⟨job2, h, (h1 rfl).trans (by decide!)⟩⟩


/-! ## The rounds of `render` -/

theorem cumulativeSensor_succ (cfg : RenderConfig) (kernelAdds : Task → List SensorAdd)
    (n : Nat) :
    cumulativeSensor cfg kernelAdds (n + 1)
      = cumulativeSensor cfg kernelAdds n ++ (roundTasks cfg n).flatMap kernelAdds := by
  simp [cumulativeSensor, List.range_succ, List.flatMap_append]

/-- The loop of `render`, started in a state that `s` rounds with the schedule of doubling
lead to, ends normally when the number of samples per pixel is below `2 ^ 31`: all rounds
have run, and the exports are the checkpoints of the powers of two up to the number of
samples per pixel. -/
theorem renderLoop_spec (cfg : RenderConfig) (kernelAdds : Task → List SensorAdd)
    (hpos : 1 ≤ cfg.samplesPerPixel) (hspp : cfg.samplesPerPixel < 2 ^ 31)
    (fuel : Nat) (st : RenderState) (K : Nat)
    (hfuel : cfg.samplesPerPixel - st.s < fuel)
    (hs : st.s ≤ cfg.samplesPerPixel)
    (hK : st.imgIdx = K) (hE : st.exportPass = 2 ^ K) (hlt : st.s < 2 ^ K)
    (hge : K = 0 ∨ 2 ^ (K - 1) ≤ st.s)
    (hsens : st.sensor = cumulativeSensor cfg kernelAdds st.s)
    (hexp : st.exports = (List.range K).map (checkpoint cfg kernelAdds))
    (henq : st.enqueued = (List.range st.s).flatMap (roundTasks cfg))
    (hrnd : st.rounds = List.range st.s) :
    ∃ final, renderLoop cfg kernelAdds fuel st = Outcome.ok final ∧
      final.sensor = cumulativeSensor cfg kernelAdds cfg.samplesPerPixel ∧
      final.exports
        = (List.range (Nat.log 2 cfg.samplesPerPixel + 1)).map (checkpoint cfg kernelAdds) ∧
      final.enqueued = (List.range cfg.samplesPerPixel).flatMap (roundTasks cfg) ∧
      final.rounds = List.range cfg.samplesPerPixel := by
  induction fuel generalizing st K with
  | zero => omega
  | succ fuel ih =>
    unfold renderLoop
    by_cases hlt2 : st.s < cfg.samplesPerPixel
    · rw [if_pos hlt2]
      simp only [renderRound]
      have hno : ¬ 2 ^ 31 ≤ st.s + 1 := by omega
      rw [if_neg hno]
      have hsens2 : st.sensor ++ (roundTasks cfg st.s).flatMap kernelAdds
          = cumulativeSensor cfg kernelAdds (st.s + 1) := by
        rw [cumulativeSensor_succ, hsens]
      have henq2 : st.enqueued ++ roundTasks cfg st.s
          = (List.range (st.s + 1)).flatMap (roundTasks cfg) := by
        rw [List.range_succ, List.flatMap_append, henq]
        simp
      have hrnd2 : st.rounds ++ [st.s] = List.range (st.s + 1) := by
        rw [List.range_succ, hrnd]
      rw [hsens2, henq2, hrnd2]
      by_cases hex : st.s + 1 = st.exportPass
      · rw [if_pos hex]
        have hpow : st.s + 1 = 2 ^ K := by rw [hex, hE]
        have hexp2 : st.exports ++
            [(⟨st.imgIdx, st.s + 1, cfg.brightness / F32.fin ((st.s + 1 : Nat) : ℚ),
              cumulativeSensor cfg kernelAdds (st.s + 1)⟩ : Export)]
            = (List.range (K + 1)).map (checkpoint cfg kernelAdds) := by
          rw [List.range_succ, List.map_append, hexp, hK, hpow]
          rfl
        rw [hexp2]
        by_cases hend : st.s + 1 = cfg.samplesPerPixel
        · rw [if_pos hend]
          refine ⟨_, rfl, ?_, ?_, ?_, ?_⟩
          · simp only [hend]
          · have hlog : Nat.log 2 cfg.samplesPerPixel = K := by
              rw [← hend, hpow]
              exact Nat.log_pow (by norm_num) K
            simp only [hlog]
          · simp only [hend]
          · simp only [hend]
        · rw [if_neg hend]
          have hKlt : K < 2 ^ K := Nat.lt_two_pow K
          have h2K : 2 ^ (K + 1) < 2 ^ 32 := by
            have : 2 ^ (K + 1) = 2 * 2 ^ K := by ring
            omega
          refine ih _ (K + 1) ?_ ?_ ?_ ?_ ?_ ?_ ?_ ?_ ?_ rfl
          · simp only []; omega
          · simp only []; omega
          · simp only [hK]
            exact Nat.mod_eq_of_lt (by omega)
          · simp only [hE]
            rw [Nat.mod_eq_of_lt (by omega)]
            ring
          · simp only []
            have : 2 ^ (K + 1) = 2 * 2 ^ K := by ring
            omega
          · right
            simp only [Nat.add_sub_cancel]
            omega
          · rfl
          · rfl
          · rfl
      · rw [if_neg hex]
        refine ih _ K ?_ ?_ hK hE ?_ ?_ rfl hexp rfl rfl
        · simp only []; omega
        · simp only []; omega
        · simp only []
          rw [hE] at hex
          omega
        · rcases hge with h0 | h1
          · exact Or.inl h0
          · right
            simp only []
            omega
    · rw [if_neg hlt2]
      have hseq : st.s = cfg.samplesPerPixel := by omega
      have hK1 : 1 ≤ K := by
        rcases hge with h0 | h1
        · subst h0
          simp at hlt
          omega
        · by_contra hc
          have : K = 0 := by omega
          subst this
          simp at hlt
          omega
      have hlog : Nat.log 2 cfg.samplesPerPixel = K - 1 := by
        apply Nat.log_eq_of_pow_le_of_lt_pow
        · rcases hge with h0 | h1
          · omega
          · omega
        · rw [Nat.sub_add_cancel hK1, ← hseq]
          exact hlt
      refine ⟨st, rfl, ?_, ?_, ?_, ?_⟩
      · rw [hsens, hseq]
      · rw [hexp, hlog, Nat.sub_add_cancel hK1]
      · rw [henq, hseq]
      · rw [hrnd, hseq]

/-- The function `render` ends normally when the number of samples per pixel is at least 1
and below `2 ^ 31`, whatever the sensor held before: all rounds have run on a sensor
emptied once, and the exports are the checkpoints of the powers of two up to the number of
samples per pixel. -/
theorem render_spec (cfg : RenderConfig) (kernelAdds : Task → List SensorAdd)
    (sensor : List SensorAdd)
    (hpos : 1 ≤ cfg.samplesPerPixel) (hspp : cfg.samplesPerPixel < 2 ^ 31) :
    ∃ final, render cfg kernelAdds sensor = Outcome.ok final ∧
      final.sensor = cumulativeSensor cfg kernelAdds cfg.samplesPerPixel ∧
      final.exports
        = (List.range (Nat.log 2 cfg.samplesPerPixel + 1)).map (checkpoint cfg kernelAdds) ∧
      final.enqueued = (List.range cfg.samplesPerPixel).flatMap (roundTasks cfg) ∧
      final.rounds = List.range cfg.samplesPerPixel :=
  renderLoop_spec cfg kernelAdds hpos hspp _ _ 0 (by simp) (by simp) rfl rfl (by simp)
    (Or.inl rfl) rfl rfl rfl rfl

/-! ## C18: the schedule of the checkpoint images -/

/-- C18.  For every number `spp` of samples per pixel with `1 ≤ spp < 2 ^ 31`, `render`
ends normally after it has run the rounds `s = 0, ..., spp - 1`, each once and in order.
Its exports are, in order, those of number `k = 0, 1, ..., floor(log2(spp))`, the export
of number `k` being made after `2 ^ k` rounds.  So there are `floor(log2(spp)) + 1`
exports, an image is exported after `n` rounds if and only if `n` is a power of two with
`n ≤ spp`, and no image is exported after `spp` rounds unless `spp` is a power of two. -/
theorem export_schedule (cfg : RenderConfig) (kernelAdds : Task → List SensorAdd)
    (sensor : List SensorAdd)
    (hpos : 1 ≤ cfg.samplesPerPixel) (hspp : cfg.samplesPerPixel < 2 ^ 31) :
    ∃ final, render cfg kernelAdds sensor = Outcome.ok final ∧
      final.rounds = List.range cfg.samplesPerPixel ∧
      final.exports.map (fun e => (e.imgIdx, e.sampleCount))
        = (List.range (Nat.log 2 cfg.samplesPerPixel + 1)).map (fun k => (k, 2 ^ k)) ∧
      final.exports.length = Nat.log 2 cfg.samplesPerPixel + 1 ∧
      (∀ n, (∃ e ∈ final.exports, e.sampleCount = n) ↔
        ∃ k, n = 2 ^ k ∧ n ≤ cfg.samplesPerPixel) ∧
      ((¬ ∃ k, cfg.samplesPerPixel = 2 ^ k) →
        ∀ e ∈ final.exports, e.sampleCount ≠ cfg.samplesPerPixel) := by
  obtain ⟨final, hfin, _, hexp, _, hrnd⟩ := render_spec cfg kernelAdds sensor hpos hspp
  have hmem : ∀ n, (∃ e ∈ final.exports, e.sampleCount = n) ↔
      ∃ k, n = 2 ^ k ∧ n ≤ cfg.samplesPerPixel := by
    intro n
    rw [hexp]
    constructor
    · rintro ⟨e, he, hn⟩
      simp only [List.mem_map, List.mem_range] at he
      obtain ⟨k, hk, rfl⟩ := he
      refine ⟨k, hn.symm, ?_⟩
      rw [← hn]
      exact Nat.pow_le_of_le_log (by omega) (by omega)
    · rintro ⟨k, rfl, hle⟩
      refine ⟨checkpoint cfg kernelAdds k, ?_, rfl⟩
      simp only [List.mem_map, List.mem_range]
      refine ⟨k, ?_, rfl⟩
      have := Nat.le_log_of_pow_le (by norm_num : 1 < 2) hle
      omega
  refine ⟨final, hfin, hrnd, ?_, ?_, hmem, ?_⟩
  · rw [hexp, List.map_map]
    rfl
  · rw [hexp]
    simp
  · intro hnp e he hc
    obtain ⟨k, hk, _⟩ := (hmem cfg.samplesPerPixel).mp ⟨e, he, hc⟩
    exact hnp ⟨k, hk⟩

/-- C18 at a concrete input: with 5 samples per pixel the images 0, 1 and 2 are exported
after 1, 2 and 4 rounds, and none after the fifth round. -/
theorem export_schedule_witness :
    (∃ final, render exampleConfig exampleKernel [] = Outcome.ok final ∧
      final.rounds = List.range exampleConfig.samplesPerPixel ∧
      final.exports.map (fun e => (e.imgIdx, e.sampleCount))
        = (List.range (Nat.log 2 exampleConfig.samplesPerPixel + 1)).map (fun k => (k, 2 ^ k)) ∧
      final.exports.length = Nat.log 2 exampleConfig.samplesPerPixel + 1 ∧
      (∀ n, (∃ e ∈ final.exports, e.sampleCount = n) ↔
        ∃ k, n = 2 ^ k ∧ n ≤ exampleConfig.samplesPerPixel) ∧
      ((¬ ∃ k, exampleConfig.samplesPerPixel = 2 ^ k) →
        ∀ e ∈ final.exports, e.sampleCount ≠ exampleConfig.samplesPerPixel)) ∧
    (Outcome.exports (render exampleConfig exampleKernel [])).map
      (fun e => (e.imgIdx, e.sampleCount)) = [(0, 1), (1, 2), (2, 4)] :=
  ⟨export_schedule exampleConfig exampleKernel [] (by decide) (by decide), by decide!⟩

/-! ## C19: what a checkpoint image holds -/

/-- C19.  For `1 ≤ spp < 2 ^ 31`, `render` ends normally, it exports at least one image,
and every image it exports, after `n` rounds, holds the contributions of the rounds
`0, ..., n - 1` added to a sensor that was emptied once before the first round, whatever it
held before the call, and is exported with the scale `brightness / n`. -/
theorem checkpoint_cumulative (cfg : RenderConfig) (kernelAdds : Task → List SensorAdd)
    (sensor : List SensorAdd)
    (hpos : 1 ≤ cfg.samplesPerPixel) (hspp : cfg.samplesPerPixel < 2 ^ 31) :
    ∃ final, render cfg kernelAdds sensor = Outcome.ok final ∧
      final.exports ≠ [] ∧
      ∀ e ∈ final.exports,
        e.image = (List.range e.sampleCount).flatMap
          (fun s => (roundTasks cfg s).flatMap kernelAdds) ∧
        e.scale = cfg.brightness / F32.fin ((e.sampleCount : Nat) : ℚ) := by
  obtain ⟨final, hfin, _, hexp, _, _⟩ := render_spec cfg kernelAdds sensor hpos hspp
  refine ⟨final, hfin, ?_, ?_⟩
  · rw [hexp, List.range_succ]
    simp
  · intro e he
    rw [hexp] at he
    simp only [List.mem_map, List.mem_range] at he
    obtain ⟨k, _, rfl⟩ := he
    exact ⟨rfl, rfl⟩

/-- C19 at a concrete input: with brightness 3, 5 samples per pixel and 6 tiles whose
kernels add one contribution each, on a sensor that held something before the call, the
three images hold 6, 12 and 24 contributions and are exported with the scales 3, 3/2 and
3/4. -/
theorem checkpoint_cumulative_witness :
    (∃ final, render exampleConfig exampleKernel [staleAdd] = Outcome.ok final ∧
      final.exports ≠ [] ∧
      ∀ e ∈ final.exports,
        e.image = (List.range e.sampleCount).flatMap
          (fun s => (roundTasks exampleConfig s).flatMap exampleKernel) ∧
        e.scale = exampleConfig.brightness / F32.fin ((e.sampleCount : Nat) : ℚ)) ∧
    (Outcome.exports (render exampleConfig exampleKernel [staleAdd])).map
      (fun e => (e.sampleCount, e.image.length, e.scale))
      = [(1, 6, F32.fin 3), (2, 12, F32.fin (3 / 2)), (4, 24, F32.fin (3 / 4))] :=
  ⟨checkpoint_cumulative exampleConfig exampleKernel [staleAdd] (by decide) (by decide),
    by decide!⟩

/-! ## C20: the tiles and the pixels of a round -/

theorem tile_index_unique {w a b i j : Nat} (hi : i < w) (hj : j < w)
    (h : a * w + i = b * w + j) : a = b ∧ i = j := by
  have hab : a = b := by
    by_contra hne
    rcases Nat.lt_or_gt_of_ne hne with hlt | hgt
    · have h1 : (a + 1) * w ≤ b * w := Nat.mul_le_mul_right w hlt
      rw [Nat.add_mul, Nat.one_mul] at h1
      omega
    · have h1 : (b + 1) * w ≤ a * w := Nat.mul_le_mul_right w hgt
      rw [Nat.add_mul, Nat.one_mul] at h1
      omega
  subst hab
  exact ⟨rfl, by omega⟩

theorem tile_index_lt {w n a i : Nat} (ha : a < n) (hi : i < w) : a * w + i < n * w := by
  have h1 : (a + 1) * w ≤ n * w := Nat.mul_le_mul_right w ha
  rw [Nat.add_mul, Nat.one_mul] at h1
  omega

/-- The pixels of a round belong to the tasks of the tiles. -/
theorem mem_roundPixels (cfg : RenderConfig) (s x y : Nat) :
    (x, y) ∈ roundPixels cfg s ↔
      ∃ tx ty lx ly, tx < cfg.numTileX ∧ ty < cfg.numTileY ∧ lx < cfg.tileWidth ∧
        ly < cfg.tileHeight ∧ x = tx * cfg.tileWidth + lx ∧ y = ty * cfg.tileHeight + ly := by
  simp only [roundPixels, roundTasks, kernelPixels, List.mem_flatMap, List.mem_map,
    List.mem_range, Prod.mk.injEq]
  constructor
  · rintro ⟨task, ⟨ty, hty, tx, htx, rfl⟩, ly, hly, lx, hlx, hx, hy⟩
    exact ⟨tx, ty, lx, ly, htx, hty, hlx, hly, hx.symm, hy.symm⟩
  · rintro ⟨tx, ty, lx, ly, htx, hty, hlx, hly, hx, hy⟩
    exact ⟨_, ⟨ty, hty, tx, htx, rfl⟩, ly, hly, lx, hlx, hx.symm, hy.symm⟩

/-- A list made by two nested loops over ranges has no duplicates when the values made for
different pairs of indices differ. -/
theorem nodup_range_flatMap {β : Type} (m : Nat) (g : Nat → List β)
    (hg : ∀ a, a < m → (g a).Nodup)
    (hd : ∀ a b, a < m → b < m → a ≠ b → ∀ z, z ∈ g a → z ∈ g b → False) :
    ((List.range m).flatMap g).Nodup := by
  rw [List.nodup_flatMap]
  constructor
  · intro a ha
    exact hg a (List.mem_range.mp ha)
  · have hp : List.Pairwise (fun a b => a ≠ b) (List.range m) := List.nodup_range m
    have hall : List.Pairwise (fun a b => a < m ∧ b < m ∧ a ≠ b) (List.range m) := by
      rw [List.pairwise_iff_forall_sublist] at hp ⊢
      intro a b hab
      have ha : a ∈ List.range m := hab.subset (by simp)
      have hb : b ∈ List.range m := hab.subset (by simp)
      exact ⟨List.mem_range.mp ha, List.mem_range.mp hb, hp hab⟩
    refine hall.imp ?_
    intro a b ⟨ha, hb, hne⟩
    intro z hza hzb
    exact hd a b ha hb hne z hza hzb

theorem mem_kernelPixels (task : Task) (x y : Nat) :
    (x, y) ∈ kernelPixels task ↔
      ∃ lx ly, lx < task.numPixelX ∧ ly < task.numPixelY ∧ x = task.basePixelX + lx ∧
        y = task.basePixelY + ly := by
  simp only [kernelPixels, List.mem_flatMap, List.mem_map, List.mem_range, Prod.mk.injEq]
  constructor
  · rintro ⟨ly, hly, lx, hlx, hx, hy⟩
    exact ⟨lx, ly, hlx, hly, hx.symm, hy.symm⟩
  · rintro ⟨lx, ly, hlx, hly, hx, hy⟩
    exact ⟨ly, hly, lx, hlx, hx.symm, hy.symm⟩

/-- A task hands no pixel twice to the sampler. -/
theorem kernelPixels_nodup (task : Task) : (kernelPixels task).Nodup := by
  unfold kernelPixels
  apply nodup_range_flatMap
  · intro ly _
    refine (List.nodup_range _).map ?_
    intro a b hab
    simp only [Prod.mk.injEq] at hab
    omega
  · intro a b _ _ hne z hza hzb
    simp only [List.mem_map, List.mem_range] at hza hzb
    obtain ⟨la, _, rfl⟩ := hza
    obtain ⟨lb, _, hz⟩ := hzb
    simp only [Prod.mk.injEq] at hz
    omega

/-- The tasks of a round hand no pixel twice to the sampler. -/
theorem roundPixels_nodup (cfg : RenderConfig) (s : Nat) : (roundPixels cfg s).Nodup := by
  unfold roundPixels roundTasks
  rw [List.flatMap_assoc]
  apply nodup_range_flatMap
  · intro ty _
    rw [List.flatMap_def, List.map_map, ← List.flatMap_def]
    apply nodup_range_flatMap
    · intro tx _
      exact kernelPixels_nodup _
    · intro a b _ _ hne z hza hzb
      obtain ⟨x, y⟩ := z
      simp only [Function.comp, mem_kernelPixels] at hza hzb
      obtain ⟨lx, ly, hlx, _, hx, _⟩ := hza
      obtain ⟨lx2, ly2, hlx2, _, hx2, _⟩ := hzb
      exact hne (tile_index_unique hlx hlx2 (by rw [← hx, ← hx2])).1
  · intro a b _ _ hne z hza hzb
    obtain ⟨x, y⟩ := z
    simp only [List.mem_flatMap, List.mem_map, List.mem_range] at hza hzb
    obtain ⟨_, ⟨tx, _, rfl⟩, hza⟩ := hza
    obtain ⟨_, ⟨tx2, _, rfl⟩, hzb⟩ := hzb
    rw [mem_kernelPixels] at hza hzb
    obtain ⟨lx, ly, _, hly, _, hy⟩ := hza
    obtain ⟨lx2, ly2, _, hly2, _, hy2⟩ := hzb
    exact hne (tile_index_unique hly hly2 (by rw [← hy, ← hy2])).1

theorem range_flatMap_map_length {β : Type} (m n : Nat) (f : Nat → Nat → β) :
    ((List.range m).flatMap fun a => (List.range n).map (f a)).length = m * n := by
  induction m with
  | zero => simp
  | succ m ih =>
    rw [List.range_succ, List.flatMap_append, List.length_append, ih]
    simp [Nat.succ_mul]

theorem range_flatMap_map_getElem? {β : Type} (m n : Nat) (f : Nat → Nat → β) (a b : Nat)
    (ha : a < m) (hb : b < n) :
    ((List.range m).flatMap fun a => (List.range n).map (f a))[a * n + b]? = some (f a b) := by
  induction m with
  | zero => omega
  | succ m ih =>
    rw [List.range_succ, List.flatMap_append]
    by_cases ham : a < m
    · rw [List.getElem?_append_left (by
        rw [range_flatMap_map_length]
        exact tile_index_lt ham hb)]
      exact ih ham
    · have hae : a = m := by omega
      subst hae
      rw [List.getElem?_append_right (by rw [range_flatMap_map_length]; omega),
        range_flatMap_map_length]
      simp [hb]

theorem count_eq_one_of_nodup {α : Type} [BEq α] [LawfulBEq α] {l : List α} {a : α}
    (hn : l.Nodup) (h : a ∈ l) : l.count a = 1 := by
  induction l with
  | nil => simp at h
  | cons b l ih =>
    rw [List.nodup_cons] at hn
    rw [List.count_cons]
    by_cases hba : b = a
    · subst hba
      rw [List.count_eq_zero_of_not_mem hn.1]
      simp
    · have hmem : a ∈ l := by
        rcases List.mem_cons.mp h with h1 | h1
        · exact absurd h1.symm hba
        · exact h1
      rw [ih hn.2 hmem]
      simp [hba]

/-- A pixel is processed in a round exactly when it lies on the sensor area that the tiles
cover. -/
theorem mem_roundPixels_iff (cfg : RenderConfig) (s x y : Nat) :
    (x, y) ∈ roundPixels cfg s ↔
      x < cfg.numTileX * cfg.tileWidth ∧ y < cfg.numTileY * cfg.tileHeight := by
  rw [mem_roundPixels]
  constructor
  · rintro ⟨tx, ty, lx, ly, htx, hty, hlx, hly, rfl, rfl⟩
    exact ⟨tile_index_lt htx hlx, tile_index_lt hty hly⟩
  · rintro ⟨hx, hy⟩
    have hw : 0 < cfg.tileWidth := by
      rcases Nat.eq_zero_or_pos cfg.tileWidth with h | h
      · rw [h] at hx; simp at hx
      · exact h
    have hh : 0 < cfg.tileHeight := by
      rcases Nat.eq_zero_or_pos cfg.tileHeight with h | h
      · rw [h] at hy; simp at hy
      · exact h
    refine ⟨x / cfg.tileWidth, y / cfg.tileHeight, x % cfg.tileWidth, y % cfg.tileHeight,
      ?_, ?_, Nat.mod_lt _ hw, Nat.mod_lt _ hh, ?_, ?_⟩
    · exact Nat.div_lt_of_lt_mul (by rw [Nat.mul_comm]; exact hx)
    · exact Nat.div_lt_of_lt_mul (by rw [Nat.mul_comm]; exact hy)
    · rw [Nat.mul_comm]; exact (Nat.div_add_mod x cfg.tileWidth).symm
    · rw [Nat.mul_comm]; exact (Nat.div_add_mod y cfg.tileHeight).symm

/-- C20.  (1) Each round of `render` enqueues the tasks of `roundTasks`, and when
`1 ≤ spp < 2 ^ 31` the tasks enqueued by `render` are those of the rounds
`0, ..., spp - 1`.  (2) The tasks of a round are `numTileX * numTileY` in number, one per
tile: the task of index `ty * numTileX + tx` has the base pixel
`(tx * tileWidth, ty * tileHeight)` and the size of a tile.  (3) The pixels that the tasks
of a round process hold every integer pixel `(x, y)` with `x < numTileX * tileWidth` and
`y < numTileY * tileHeight` exactly once and no other pixel.  (4) Each such pixel is
`(tx * tileWidth + lx, ty * tileHeight + ly)` for exactly one tile `(tx, ty)` and one
offset `(lx, ly)` with `lx < tileWidth` and `ly < tileHeight`. -/
theorem tiles_and_pixels_once (cfg : RenderConfig) (kernelAdds : Task → List SensorAdd) :
    ((∀ st, (renderRound cfg kernelAdds st).enqueued = st.enqueued ++ roundTasks cfg st.s) ∧
      ∀ sensor, 1 ≤ cfg.samplesPerPixel → cfg.samplesPerPixel < 2 ^ 31 →
        ∃ final, render cfg kernelAdds sensor = Outcome.ok final ∧
          final.enqueued = (List.range cfg.samplesPerPixel).flatMap (roundTasks cfg)) ∧
    ∀ s,
      (roundTasks cfg s).length = cfg.numTileX * cfg.numTileY ∧
      (∀ tx ty, tx < cfg.numTileX → ty < cfg.numTileY →
        (roundTasks cfg s)[ty * cfg.numTileX + tx]?
          = some ⟨s, tx * cfg.tileWidth, ty * cfg.tileHeight, cfg.tileWidth, cfg.tileHeight⟩) ∧
      (∀ x y, (roundPixels cfg s).count (x, y)
        = if x < cfg.numTileX * cfg.tileWidth ∧ y < cfg.numTileY * cfg.tileHeight then 1
          else 0) ∧
      (∀ x y, x < cfg.numTileX * cfg.tileWidth → y < cfg.numTileY * cfg.tileHeight →
        ∃! q : (Nat × Nat) × (Nat × Nat),
          q.1.1 < cfg.numTileX ∧ q.1.2 < cfg.numTileY ∧ q.2.1 < cfg.tileWidth ∧
          q.2.2 < cfg.tileHeight ∧ x = q.1.1 * cfg.tileWidth + q.2.1 ∧
          y = q.1.2 * cfg.tileHeight + q.2.2) := by
  refine ⟨⟨fun _ => rfl, ?_⟩, ?_⟩
  · intro sensor hpos hspp
    obtain ⟨final, hfin, _, _, henq, _⟩ := render_spec cfg kernelAdds sensor hpos hspp
    exact ⟨final, hfin, henq⟩
  · intro s
    refine ⟨?_, ?_, ?_, ?_⟩
    · unfold roundTasks
      rw [range_flatMap_map_length, Nat.mul_comm]
    · intro tx ty htx hty
      unfold roundTasks
      rw [range_flatMap_map_getElem? cfg.numTileY cfg.numTileX _ ty tx hty htx]
    · intro x y
      by_cases h : x < cfg.numTileX * cfg.tileWidth ∧ y < cfg.numTileY * cfg.tileHeight
      · rw [if_pos h]
        exact count_eq_one_of_nodup (roundPixels_nodup cfg s)
          ((mem_roundPixels_iff cfg s x y).mpr h)
      · rw [if_neg h]
        exact List.count_eq_zero_of_not_mem (fun hm => h ((mem_roundPixels_iff cfg s x y).mp hm))
    · intro x y hx hy
      obtain ⟨tx, ty, lx, ly, htx, hty, hlx, hly, hxe, hye⟩ :=
        (mem_roundPixels cfg s x y).mp ((mem_roundPixels_iff cfg s x y).mpr ⟨hx, hy⟩)
      refine ⟨((tx, ty), (lx, ly)), ⟨htx, hty, hlx, hly, hxe, hye⟩, ?_⟩
      rintro ⟨⟨tx2, ty2⟩, ⟨lx2, ly2⟩⟩ ⟨_, _, hlx2, hly2, hxe2, hye2⟩
      simp only at hlx2 hly2 hxe2 hye2
      obtain ⟨h1, h2⟩ := tile_index_unique hlx2 hlx (by rw [← hxe2, ← hxe])
      obtain ⟨h3, h4⟩ := tile_index_unique hly2 hly (by rw [← hye2, ← hye])
      rw [h1, h2, h3, h4]

/-- C20 at a concrete input: 3 by 2 tiles of 2 by 2 pixels.  A round enqueues 6 tasks, the
task of the tile `(2, 1)` has the index 5 and the base pixel `(4, 2)`, the pixel `(5, 3)`
is processed once and the pixel `(6, 3)`, outside the area, is not processed; over the 5
rounds of `render` 30 tasks are enqueued. -/
theorem tiles_and_pixels_once_witness :
    (∃ final, render exampleConfig exampleKernel [] = Outcome.ok final ∧
      final.enqueued
        = (List.range exampleConfig.samplesPerPixel).flatMap (roundTasks exampleConfig)) ∧
    (roundTasks exampleConfig 0).length = 3 * 2 ∧
    (roundTasks exampleConfig 0)[1 * 3 + 2]? = some ⟨0, 2 * 2, 1 * 2, 2, 2⟩ ∧
    (roundPixels exampleConfig 0).count (5, 3) = 1 ∧
    (roundPixels exampleConfig 0).count (6, 3) = 0 ∧
    (Outcome.enqueued (render exampleConfig exampleKernel [])).length = 30 :=
  ⟨(tiles_and_pixels_once exampleConfig exampleKernel).1.2 [] (by decide) (by decide),
    ((tiles_and_pixels_once exampleConfig exampleKernel).2 0).1,
    ((tiles_and_pixels_once exampleConfig exampleKernel).2 0).2.1 2 1 (by decide) (by decide),
    (((tiles_and_pixels_once exampleConfig exampleKernel).2 0).2.2.1 5 3).trans (by decide),
    (((tiles_and_pixels_once exampleConfig exampleKernel).2 0).2.2.1 6 3).trans (by decide),
    by decide!⟩


/-! ## C11: Russian roulette is unbiased -/

section RouletteExpectation

open MeasureTheory

theorem rouletteFactor_indicator (p w : ℝ) (hp1 : p ≤ 1) :
    (Set.Ico (0 : ℝ) 1).indicator (rouletteFactor p w)
      = (Set.Ico (0 : ℝ) p).indicator (fun _ => w / p) := by
  funext u
  by_cases h : u ∈ Set.Ico (0 : ℝ) p
  · have h1 : u ∈ Set.Ico (0 : ℝ) 1 := ⟨h.1, lt_of_lt_of_le h.2 hp1⟩
    rw [Set.indicator_of_mem h, Set.indicator_of_mem h1, rouletteFactor, if_pos h.2]
  · rw [Set.indicator_of_not_mem h]
    by_cases h1 : u ∈ Set.Ico (0 : ℝ) 1
    · rw [Set.indicator_of_mem h1, rouletteFactor, if_neg]
      intro hlt
      exact h ⟨h1.1, hlt⟩
    · rw [Set.indicator_of_not_mem h1]

theorem integral_rouletteFactor (p w : ℝ) (hp : 0 < p) (hp1 : p ≤ 1) :
    ∫ u, (Set.Ico (0 : ℝ) 1).indicator (rouletteFactor p w) u = w := by
  rw [rouletteFactor_indicator p w hp1, integral_indicator measurableSet_Ico,
    setIntegral_const, Real.volume_Ico]
  simp only [sub_zero, smul_eq_mul]
  rw [ENNReal.toReal_ofReal hp.le]
  field_simp

theorem indicator_pi_prod {ι E : Type} [Fintype ι] (C : ι → Set E) (f : ι → E → ℝ)
    (x : ι → E) :
    (Set.pi Set.univ C).indicator (fun x => ∏ i, f i (x i)) x
      = ∏ i, (C i).indicator (f i) (x i) := by
  by_cases h : x ∈ Set.pi Set.univ C
  · rw [Set.indicator_of_mem h]
    refine Finset.prod_congr rfl ?_
    intro i _
    rw [Set.indicator_of_mem (h i (Set.mem_univ i))]
  · rw [Set.indicator_of_not_mem h]
    simp only [Set.mem_pi, Set.mem_univ, true_implies, not_forall] at h
    obtain ⟨i, hi⟩ := h
    exact (Finset.prod_eq_zero (Finset.mem_univ i) (Set.indicator_of_not_mem hi _)).symm

theorem measurableSet_unitCube (N : Nat) : MeasurableSet (unitCube N) :=
  MeasurableSet.univ_pi (fun _ => measurableSet_Ico)

theorem expectation_rouletteThroughput (N : Nat) (p w : Fin N → ℝ)
    (hp : ∀ i, 0 < p i ∧ p i ≤ 1) :
    ∫ u in unitCube N, rouletteThroughput p w u = ∏ i, w i := by
  rw [← integral_indicator (measurableSet_unitCube N)]
  have h : (unitCube N).indicator (fun u => rouletteThroughput p w u)
      = fun u => ∏ i, (Set.Ico (0 : ℝ) 1).indicator (rouletteFactor (p i) (w i)) (u i) := by
    funext u
    exact indicator_pi_prod (fun _ => Set.Ico (0 : ℝ) 1) (fun i => rouletteFactor (p i) (w i)) u
  rw [h, integral_fintype_prod_eq_prod (Fin N)
    (fun i => (Set.Ico (0 : ℝ) 1).indicator (rouletteFactor (p i) (w i)))]
  refine Finset.prod_congr rfl ?_
  intro i _
  exact integral_rouletteFactor (p i) (w i) (hp i).1 (hp i).2


/-- On independent samples of a set of measure 1, the integral of a product of two
coordinates. -/
theorem integral_coordinate_mul {E : Type} [MeasureSpace E]
    [SigmaFinite (volume : Measure E)] (C : Set E) (hC : MeasurableSet C)
    (hvol : volume C = 1) (Y : E → ℝ) (h0 : ∫ u in C, Y u = 0) (M : Nat) (j k : Fin M) :
    ∫ x in Set.pi Set.univ (fun _ : Fin M => C), Y (x j) * Y (x k)
      = if j = k then ∫ u in C, Y u * Y u else 0 := by
  rw [← integral_indicator (MeasurableSet.univ_pi (fun _ => hC))]
  have hprod : ∀ x : Fin M → E, Y (x j) * Y (x k)
      = ∏ i, ((if i = j then Y (x i) else 1) * (if i = k then Y (x i) else 1)) := by
    intro x
    rw [Finset.prod_mul_distrib, Finset.prod_ite_eq' Finset.univ j (fun i => Y (x i)),
      Finset.prod_ite_eq' Finset.univ k (fun i => Y (x i))]
    simp
  have h : (Set.pi Set.univ (fun _ : Fin M => C)).indicator (fun x => Y (x j) * Y (x k))
      = fun x => ∏ i, C.indicator
          (fun u => (if i = j then Y u else 1) * (if i = k then Y u else 1)) (x i) := by
    funext x
    rw [← indicator_pi_prod (fun _ => C)
      (fun i u => (if i = j then Y u else 1) * (if i = k then Y u else 1)) x]
    congr 1
    funext x
    exact hprod x
  rw [h, integral_fintype_prod_eq_prod (Fin M)
    (fun i => C.indicator (fun u => (if i = j then Y u else 1) * (if i = k then Y u else 1)))]
  have hone : ∫ u, C.indicator (fun _ => (1 : ℝ)) u = 1 := by
    rw [integral_indicator hC, setIntegral_const, hvol]
    simp
  by_cases hjk : j = k
  · subst hjk
    rw [if_pos rfl]
    rw [Finset.prod_eq_single j]
    · rw [integral_indicator hC]
      simp
    · intro i _ hij
      simp only [if_neg hij, mul_one]
      exact hone
    · intro hj
      exact absurd (Finset.mem_univ j) hj
  · rw [if_neg hjk]
    refine Finset.prod_eq_zero (Finset.mem_univ j) ?_
    rw [integral_indicator hC]
    simp only [if_true, if_neg hjk, mul_one]
    exact h0


theorem integrableOn_coordinate_mul {E : Type} [MeasureSpace E]
    [SigmaFinite (volume : Measure E)] (C : Set E) (hC : MeasurableSet C)
    (hvol : volume C = 1) (Y : E → ℝ) (hY : IntegrableOn Y C)
    (hY2 : IntegrableOn (fun u => Y u * Y u) C) (M : Nat) (j k : Fin M) :
    IntegrableOn (fun x : Fin M → E => Y (x j) * Y (x k))
      (Set.pi Set.univ (fun _ : Fin M => C)) := by
  rw [← integrable_indicator_iff (MeasurableSet.univ_pi (fun _ => hC))]
  have hprod : ∀ x : Fin M → E, Y (x j) * Y (x k)
      = ∏ i, ((if i = j then Y (x i) else 1) * (if i = k then Y (x i) else 1)) := by
    intro x
    rw [Finset.prod_mul_distrib, Finset.prod_ite_eq' Finset.univ j (fun i => Y (x i)),
      Finset.prod_ite_eq' Finset.univ k (fun i => Y (x i))]
    simp
  have h : (Set.pi Set.univ (fun _ : Fin M => C)).indicator (fun x => Y (x j) * Y (x k))
      = fun x => ∏ i, C.indicator
          (fun u => (if i = j then Y u else 1) * (if i = k then Y u else 1)) (x i) := by
    funext x
    rw [← indicator_pi_prod (fun _ => C)
      (fun i u => (if i = j then Y u else 1) * (if i = k then Y u else 1)) x]
    congr 1
    funext x
    exact hprod x
  rw [h]
  have hone : IntegrableOn (fun _ : E => (1 : ℝ)) C :=
    integrableOn_const.mpr (Or.inr (by rw [hvol]; exact ENNReal.one_lt_top))
  apply Integrable.fintype_prod
  intro i
  rw [integrable_indicator_iff hC]
  by_cases hij : i = j
  · by_cases hik : i = k
    · simp only [if_pos hij, if_pos hik]
      exact hY2
    · simp only [if_pos hij, if_neg hik, mul_one]
      exact hY
  · by_cases hik : i = k
    · simp only [if_neg hij, if_pos hik, one_mul]
      exact hY
    · simp only [if_neg hij, if_neg hik, mul_one]
      exact hone

/-- The second moment of a sum over independent samples of a set of measure 1, for a
function of mean zero. -/
theorem integral_sq_sum {E : Type} [MeasureSpace E]
    [SigmaFinite (volume : Measure E)] (C : Set E) (hC : MeasurableSet C)
    (hvol : volume C = 1) (Y : E → ℝ) (hY : IntegrableOn Y C)
    (hY2 : IntegrableOn (fun u => Y u * Y u) C) (h0 : ∫ u in C, Y u = 0) (M : Nat) :
    ∫ x in Set.pi Set.univ (fun _ : Fin M => C), (∑ j, Y (x j)) ^ 2
      = M * ∫ u in C, Y u * Y u := by
  have hsq : ∀ x : Fin M → E, (∑ j, Y (x j)) ^ 2 = ∑ j, ∑ k, Y (x j) * Y (x k) := by
    intro x
    rw [sq, Finset.sum_mul_sum]
  simp only [hsq]
  rw [integral_finset_sum]
  · have hinner : ∀ j : Fin M,
        ∫ x in Set.pi Set.univ (fun _ : Fin M => C), ∑ k, Y (x j) * Y (x k)
          = ∫ u in C, Y u * Y u := by
      intro j
      rw [integral_finset_sum]
      · simp only [integral_coordinate_mul C hC hvol Y h0 M j]
        rw [Finset.sum_ite_eq Finset.univ j]
        simp
      · intro k _
        exact integrableOn_coordinate_mul C hC hvol Y hY hY2 M j k
    simp only [hinner]
    rw [Finset.sum_const, Finset.card_univ, Fintype.card_fin]
    simp
  · intro j _
    apply integrable_finset_sum
    intro k _
    exact integrableOn_coordinate_mul C hC hvol Y hY hY2 M j k


theorem volume_unitCube (N : Nat) : volume (unitCube N) = 1 := by
  rw [unitCube, volume_pi_pi]
  simp [Real.volume_Ico]

theorem integrableOn_rouletteFactor (p w : ℝ) (hp1 : p ≤ 1) :
    IntegrableOn (rouletteFactor p w) (Set.Ico (0 : ℝ) 1) := by
  rw [← integrable_indicator_iff measurableSet_Ico, rouletteFactor_indicator p w hp1,
    integrable_indicator_iff measurableSet_Ico]
  exact integrableOn_const.mpr (Or.inr (by rw [Real.volume_Ico]; exact ENNReal.ofReal_lt_top))

theorem integrableOn_unitCube_prod (N : Nat) (g : Fin N → ℝ → ℝ)
    (hg : ∀ i, IntegrableOn (g i) (Set.Ico (0 : ℝ) 1)) :
    IntegrableOn (fun u : Fin N → ℝ => ∏ i, g i (u i)) (unitCube N) := by
  rw [← integrable_indicator_iff (measurableSet_unitCube N)]
  have h : (unitCube N).indicator (fun u : Fin N → ℝ => ∏ i, g i (u i))
      = fun u => ∏ i, (Set.Ico (0 : ℝ) 1).indicator (g i) (u i) := by
    funext u
    exact indicator_pi_prod (fun _ => Set.Ico (0 : ℝ) 1) g u
  rw [h]
  apply Integrable.fintype_prod
  intro i
  rw [integrable_indicator_iff measurableSet_Ico]
  exact hg i

theorem rouletteFactor_mul_self (p w u : ℝ) :
    rouletteFactor p w u * rouletteFactor p w u = rouletteFactor p (w * (w / p)) u := by
  unfold rouletteFactor
  split_ifs
  · ring
  · ring

theorem integrableOn_rouletteThroughput (N : Nat) (p w : Fin N → ℝ) (hp : ∀ i, p i ≤ 1) :
    IntegrableOn (fun u => rouletteThroughput p w u) (unitCube N) :=
  integrableOn_unitCube_prod N (fun i => rouletteFactor (p i) (w i))
    (fun i => integrableOn_rouletteFactor (p i) (w i) (hp i))

theorem integrableOn_rouletteThroughput_sq (N : Nat) (p w : Fin N → ℝ) (hp : ∀ i, p i ≤ 1) :
    IntegrableOn (fun u => rouletteThroughput p w u * rouletteThroughput p w u)
      (unitCube N) := by
  have h : (fun u => rouletteThroughput p w u * rouletteThroughput p w u)
      = fun u : Fin N → ℝ => ∏ i, rouletteFactor (p i) (w i * (w i / p i)) (u i) := by
    funext u
    simp only [rouletteThroughput]
    rw [← Finset.prod_mul_distrib]
    exact Finset.prod_congr rfl (fun i _ => rouletteFactor_mul_self _ _ _)
  rw [h]
  exact integrableOn_unitCube_prod N (fun i => rouletteFactor (p i) (w i * (w i / p i)))
    (fun i => integrableOn_rouletteFactor (p i) _ (hp i))

/-- The mean square error of the average of `M` independent runs. -/
theorem mean_square_error_average (N : Nat) (p w : Fin N → ℝ)
    (hp : ∀ i, 0 < p i ∧ p i ≤ 1) (M : Nat) (hM : 1 ≤ M) :
    ∫ x in Set.pi Set.univ (fun _ : Fin M => unitCube N),
        (sampleAverage (rouletteThroughput p w) x - ∏ i, w i) ^ 2
      = (∫ u in unitCube N, (rouletteThroughput p w u - ∏ i, w i) ^ 2) / M := by
  have hT := integrableOn_rouletteThroughput N p w (fun i => (hp i).2)
  have hT2 := integrableOn_rouletteThroughput_sq N p w (fun i => (hp i).2)
  have hc : ∀ c : ℝ, IntegrableOn (fun _ : Fin N → ℝ => c) (unitCube N) := fun c =>
    integrableOn_const.mpr (Or.inr (by rw [volume_unitCube]; exact ENNReal.one_lt_top))
  have hY : IntegrableOn (fun u => rouletteThroughput p w u - ∏ i, w i) (unitCube N) :=
    hT.sub (hc _)
  have hY2 : IntegrableOn (fun u => (rouletteThroughput p w u - ∏ i, w i) *
      (rouletteThroughput p w u - ∏ i, w i)) (unitCube N) := by
    have h : (fun u => (rouletteThroughput p w u - ∏ i, w i) *
        (rouletteThroughput p w u - ∏ i, w i))
        = fun u => rouletteThroughput p w u * rouletteThroughput p w u
          - (2 * ∏ i, w i) * rouletteThroughput p w u + (∏ i, w i) * (∏ i, w i) := by
      funext u
      ring
    rw [h]
    exact (hT2.sub (hT.const_mul _)).add (hc _)
  have h0 : ∫ u in unitCube N, (rouletteThroughput p w u - ∏ i, w i) = 0 := by
    rw [integral_sub hT (hc _), expectation_rouletteThroughput N p w hp, setIntegral_const,
      volume_unitCube]
    simp
  have hmain := integral_sq_sum (unitCube N) (measurableSet_unitCube N) (volume_unitCube N)
    (fun u => rouletteThroughput p w u - ∏ i, w i) hY hY2 h0 M
  have hM0 : (M : ℝ) ≠ 0 := by
    have : (0 : ℝ) < M := by exact_mod_cast hM
    exact ne_of_gt this
  have havg : ∀ x : Fin M → (Fin N → ℝ),
      (sampleAverage (rouletteThroughput p w) x - ∏ i, w i) ^ 2
        = (∑ j, (rouletteThroughput p w (x j) - ∏ i, w i)) ^ 2 * (1 / (M : ℝ) ^ 2) := by
    intro x
    unfold sampleAverage
    rw [Finset.sum_sub_distrib, Finset.sum_const, Finset.card_univ, Fintype.card_fin]
    simp only [nsmul_eq_mul]
    field_simp
  simp only [havg]
  rw [integral_mul_right, hmain]
  have hsq : ∀ u : Fin N → ℝ, (rouletteThroughput p w u - ∏ i, w i) ^ 2
      = (rouletteThroughput p w u - ∏ i, w i) * (rouletteThroughput p w u - ∏ i, w i) :=
    fun u => sq _
  simp only [hsq]
  field_simp
  ring

theorem mean_square_error_tendsto (N : Nat) (p w : Fin N → ℝ)
    (hp : ∀ i, 0 < p i ∧ p i ≤ 1) :
    Filter.Tendsto (fun M : Nat =>
      ∫ x in Set.pi Set.univ (fun _ : Fin M => unitCube N),
        (sampleAverage (rouletteThroughput p w) x - ∏ i, w i) ^ 2) Filter.atTop (nhds 0) := by
  have h := tendsto_const_div_atTop_nhds_zero_nat
    (∫ u in unitCube N, (rouletteThroughput p w u - ∏ i, w i) ^ 2)
  refine Filter.Tendsto.congr' ?_ h
  filter_upwards [Filter.eventually_ge_atTop 1] with M hM
  exact (mean_square_error_average N p w hp M hM).symm

/-- One iteration that reaches the roulette: if the termination sample is below the survival
probability the walk continues with the throughput multiplied, component by component, by the
weight over the survival probability, and otherwise the iteration ends the walk. -/
theorem walkIter_roulette {env : Env} {adjoint : Bool} {st : WalkState}
    {weight : SampledSpectrum} {p u : ℚ} (h : RouletteAt env adjoint st weight p u) :
    (u < p → ∃ st2, walkIter env adjoint st = IterResult.next st2 ∧
      st2.alpha = st.alpha.mul (weight.divF (F32.fin p))) ∧
    (¬ u < p → ∃ job2 ps2, walkIter env adjoint st = IterResult.done job2 ps2) := by
  obtain ⟨si, prev, bsdfSmp, ps1, ps2, fs, fsResult, hsi, hprev, hinf, hsmp, hfs, hnz, hw, hR,
    hu⟩ := h
  obtain ⟨job3, hmain, _, hwl, hiter⟩ := walkIter_hit env adjoint st si prev hsi hprev
  have hinf2 : ¬ (env.getSurfacePoint si).atInfinity = true := by simp [hinf]
  rw [if_neg hinf2] at hiter
  obtain ⟨h2, hp⟩ := penultimate_after_append
    (hitVertex env st prev (env.getSurfacePoint si)) hprev
  rw [← hmain] at h2 hp
  have hnz2 : ¬ (fs.isZero || F32.eq fsResult.dirPDF 0) = true := by simp [hnz]
  rw [scatterStep_eqns env job3 st adjoint _ _ _ _ _ prev bsdfSmp ps1 ps2 fs fsResult
    (F32.fin u) h2 hp hsmp hfs hu, if_neg hnz2, hwl, ← hw, hR] at hiter
  constructor
  · intro hlt
    have hlt2 : F32.lt (F32.fin u) (F32.fin p) = true := by simpa [F32.lt] using hlt
    rw [if_pos hlt2] at hiter
    exact ⟨_, hiter, rfl⟩
  · intro hge
    have hge2 : ¬ F32.lt (F32.fin u) (F32.fin p) = true := by simpa [F32.lt] using hge
    rw [if_neg hge2] at hiter
    exact ⟨_, _, hiter⟩

/-- The throughput carried after `N` iterations that reach the roulette is, in each
component, the throughput at the start times the factor that the `N` decisions leave of it:
the product of the weights over the survival probabilities when all are survived, and zero
as soon as one decision ends the walk. -/
theorem carriedThroughput_component (env : Env) (adjoint : Bool) (c : Nat) :
    ∀ (N : Nat) (sts : Nat → WalkState) (W : Nat → SampledSpectrum) (p u wc : Nat → ℚ) (a : ℚ),
      (sts 0).alpha.values[c]? = some (F32.fin a) →
      (∀ i, i < N → p i ≠ 0 ∧ RouletteAt env adjoint (sts i) (W i) (p i) (u i) ∧
        (W i).values[c]? = some (F32.fin (wc i)) ∧
        ∀ st2, walkIter env adjoint (sts i) = IterResult.next st2 → st2 = sts (i + 1)) →
      (carriedThroughput env adjoint N (sts 0)).values[c]?
        = some (F32.fin (a * rouletteThroughput (fun i : Fin N => p i) (fun i : Fin N => wc i)
            (fun i : Fin N => u i))) := by
  intro N
  induction N with
  | zero =>
    intro sts W p u wc a ha _
    simp [carriedThroughput, rouletteThroughput, ha]
  | succ N ih =>
    intro sts W p u wc a ha hall
    obtain ⟨hp0, hR, hw, hnext⟩ := hall 0 (by omega)
    obtain ⟨hsurv, hend⟩ := walkIter_roulette hR
    have hprod : rouletteThroughput (fun i : Fin (N + 1) => p i) (fun i : Fin (N + 1) => wc i)
        (fun i : Fin (N + 1) => u i)
        = rouletteFactor (p 0) (wc 0) (u 0) *
          rouletteThroughput (fun i : Fin N => p (i + 1)) (fun i : Fin N => wc (i + 1))
            (fun i : Fin N => u (i + 1)) := by
      simp only [rouletteThroughput, Fin.prod_univ_succ]
      rfl
    rw [hprod]
    unfold carriedThroughput
    by_cases hlt : u 0 < p 0
    · obtain ⟨st2, hres, halpha⟩ := hsurv hlt
      rw [hres]
      simp only []
      have h1 : st2 = sts 1 := hnext st2 hres
      have ha2 : (sts 1).alpha.values[c]? = some (F32.fin (a * (wc 0 / p 0))) := by
        rw [← h1, halpha]
        simp only [SampledSpectrum.mul, SampledSpectrum.divF, List.getElem?_zipWith,
          List.getElem?_map, ha, hw, Option.map_some', Option.some.injEq]
        rw [F32.fin_div_fin _ hp0, F32.fin_mul_fin]
      have := ih (fun i => sts (i + 1)) (fun i => W (i + 1)) (fun i => p (i + 1))
        (fun i => u (i + 1)) (fun i => wc (i + 1)) (a * (wc 0 / p 0)) ha2
        (fun i hi => hall (i + 1) (by omega))
      rw [h1]
      rw [this]
      simp only [rouletteFactor, if_pos hlt]
      congr 2
      ring
    · obtain ⟨job2, ps2, hres⟩ := hend hlt
      rw [hres]
      simp only [List.getElem?_map, ha, Option.map_some', rouletteFactor, if_neg hlt, zero_mul,
        mul_zero, F32.zero_eq]

/-- The factor of the decisions on rational values is the one on real values. -/
theorem rouletteThroughput_cast (N : Nat) (p w u : Fin N → ℚ) :
    ((rouletteThroughput p w u : ℚ) : ℝ)
      = rouletteThroughput (fun i => (p i : ℝ)) (fun i => (w i : ℝ)) (fun i => (u i : ℝ)) := by
  simp only [rouletteThroughput, rouletteFactor, Rat.cast_prod]
  refine Finset.prod_congr rfl (fun i _ => ?_)
  by_cases h : u i < p i
  · rw [if_pos h, if_pos (by exact_mod_cast h)]
    push_cast
    rfl
  · rw [if_neg h, if_neg (by exact_mod_cast h)]
    simp

/-- C11.  (1) Let `p i` in `(0, 1]` be the survival probability and `w i` the weight of the
decision `i` of `N` roulette decisions, and let the `N` termination samples be independent
and uniform on `[0, 1)`, that is, let them be drawn from the unit cube, which has volume 1,
with the Lebesgue measure.  The expectation of the factor that the decisions leave of the
throughput (`w i / p i` for each decision survived, 0 as soon as one decision ends the walk)
is the factor `∏ i, w i` of the walk that is never ended.  For the average over `M ≥ 1`
independent runs of the `N` decisions, the expectation of the squared distance to `∏ i, w i`
is the variance of one run over `M`; it tends to 0 as `M` grows, which is the convergence of
the average in mean square.  (2) This factor is the one of the loop of `generateSubPath`:
when `N` successive iterations reach the roulette with finite weights `W i`, finite survival
probabilities `p i`, not zero, and finite termination samples `u i`, each component of the
throughput that the loop carries after them is the component at the start times the factor
of the decisions for the weights of that component.  (3) One such iteration continues the
walk with the throughput `alpha * (weight / p)` when `u < p` and ends the walk otherwise.
(4) The factor on rational values is the factor on real values. -/
theorem russian_roulette_unbiased :
    (∀ (N : Nat) (p w : Fin N → ℝ), (∀ i, 0 < p i ∧ p i ≤ 1) →
      volume (unitCube N) = 1 ∧
      ∫ u in unitCube N, rouletteThroughput p w u = ∏ i, w i ∧
      (∀ M : Nat, 1 ≤ M →
        ∫ x in Set.pi Set.univ (fun _ : Fin M => unitCube N),
            (sampleAverage (rouletteThroughput p w) x - ∏ i, w i) ^ 2
          = (∫ u in unitCube N, (rouletteThroughput p w u - ∏ i, w i) ^ 2) / M) ∧
      Filter.Tendsto (fun M : Nat =>
        ∫ x in Set.pi Set.univ (fun _ : Fin M => unitCube N),
          (sampleAverage (rouletteThroughput p w) x - ∏ i, w i) ^ 2) Filter.atTop (nhds 0)) ∧
    (∀ (env : Env) (adjoint : Bool) (c N : Nat) (sts : Nat → WalkState)
      (W : Nat → SampledSpectrum) (p u wc : Nat → ℚ) (a : ℚ),
      (sts 0).alpha.values[c]? = some (F32.fin a) →
      (∀ i, i < N → p i ≠ 0 ∧ RouletteAt env adjoint (sts i) (W i) (p i) (u i) ∧
        (W i).values[c]? = some (F32.fin (wc i)) ∧
        ∀ st2, walkIter env adjoint (sts i) = IterResult.next st2 → st2 = sts (i + 1)) →
      (carriedThroughput env adjoint N (sts 0)).values[c]?
        = some (F32.fin (a * rouletteThroughput (fun i : Fin N => p i) (fun i : Fin N => wc i)
            (fun i : Fin N => u i)))) ∧
    (∀ (env : Env) (adjoint : Bool) (st : WalkState) (weight : SampledSpectrum) (p u : ℚ),
      RouletteAt env adjoint st weight p u →
      (u < p → ∃ st2, walkIter env adjoint st = IterResult.next st2 ∧
        st2.alpha = st.alpha.mul (weight.divF (F32.fin p))) ∧
      (¬ u < p → ∃ job2 ps2, walkIter env adjoint st = IterResult.done job2 ps2)) ∧
    (∀ (N : Nat) (p w u : Fin N → ℚ),
      ((rouletteThroughput p w u : ℚ) : ℝ)
        = rouletteThroughput (fun i => (p i : ℝ)) (fun i => (w i : ℝ))
            (fun i => (u i : ℝ))) := by
  refine ⟨?_, ?_, ?_, rouletteThroughput_cast⟩
  · intro N p w hp
    exact ⟨volume_unitCube N, expectation_rouletteThroughput N p w hp,
      mean_square_error_average N p w hp, mean_square_error_tendsto N p w hp⟩
  · intro env adjoint c N sts W p u wc a ha hall
    exact carriedThroughput_component env adjoint c N sts W p u wc a ha hall
  · intro env adjoint st weight p u h
    exact walkIter_roulette h

/-- C11 at concrete inputs.  Two decisions with the survival probabilities `1/2` and `1` and
the weights 3 and 5: the expectation of the factor is `3 * 5`; a run in which both decisions
are survived has the factor `(3 / (1/2)) * (5 / 1) = 30`, and a run in which the first
decision ends the walk has the factor 0.  In the scene of the roulette example the first
iteration of the eye walk reaches the roulette with the weight `3/4`, the survival
probability `3/4` and the termination sample `1/2`: the loop carries on the throughput
`1 * ((3/4) / (3/4)) = 1`. -/
theorem russian_roulette_unbiased_witness :
    ∫ u in unitCube 2, rouletteThroughput ![1 / 2, 1] ![3, 5] u = ∏ i, (![3, 5] : Fin 2 → ℝ) i ∧
    rouletteThroughput (![1 / 2, 1] : Fin 2 → ℚ) ![3, 5] ![1 / 4, 3 / 4] = 30 ∧
    rouletteThroughput (![1 / 2, 1] : Fin 2 → ℚ) ![3, 5] ![3 / 4, 0] = 0 ∧
    (carriedThroughput rouletteEnv false 1 (rouletteStates 0)).values[0]?
      = some (F32.fin (1 * rouletteThroughput (fun _ : Fin 1 => (3 / 4 : ℚ))
          (fun _ : Fin 1 => (3 / 4 : ℚ)) (fun _ : Fin 1 => (1 / 2 : ℚ)))) ∧
    carriedThroughput rouletteEnv false 1 twoPlaneStart = ⟨[1]⟩ ∧
    carriedThroughput rouletteEnv false 2 twoPlaneStart = ⟨[1]⟩ ∧
    carriedThroughput rouletteEnv false 3 twoPlaneStart = ⟨[0]⟩ :=
  ⟨(russian_roulette_unbiased.1 2 ![1 / 2, 1] ![3, 5]
      (by intro i; fin_cases i <;> norm_num)).2.1,
    by decide!, by decide!,
    russian_roulette_unbiased.2.1 rouletteEnv false 0 1 rouletteStates
      (fun _ => ⟨[F32.fin (3 / 4)]⟩) (fun _ => 3 / 4) (fun _ => 1 / 2) (fun _ => 3 / 4) 1
      (by decide!)
      (fun i hi => by
        have hi0 : i = 0 := by omega
        subst hi0
        refine ⟨by norm_num, ⟨mkInteraction 1 ⟨0, 0, 0⟩ ⟨0, 0, 1⟩ 1, originAt ⟨0, 0, 1⟩,
          ⟨0, 0, 0⟩, ⟨1⟩, ⟨2⟩, ⟨[F32.fin (3 / 4)]⟩,
          ⟨⟨0, 0, 1⟩, 1, ⟨false, false, 0⟩, ⟨⟨[1]⟩, 1⟩⟩, by decide!, by decide!, by decide!,
          by decide!, by decide!, by decide!, by decide!, by decide!, by decide!⟩,
          by decide!, ?_⟩
        intro st2 h
        show st2 = ((walkIter rouletteEnv false twoPlaneStart).state?).getD twoPlaneStart
        have h2 : walkIter rouletteEnv false twoPlaneStart = IterResult.next st2 := h
        rw [h2]
        rfl),
    by decide!, by decide!, by decide!⟩

end RouletteExpectation

/-! ## C21: the barrier at the end of a round -/

theorem running_split {w : Workers} {k : Nat} {e : PoolEntry} (h : w.running[k]? = some e) :
    w.running = w.running.take k ++ e :: w.running.drop (k + 1) := by
  obtain ⟨hk, he⟩ := List.getElem?_eq_some_iff.mp h
  rw [← he, ← List.drop_eq_getElem_cons hk, List.take_append_drop]

/-- What a step of a worker keeps: the contributions added or still to add, the tasks complete
or running, the tasks that were complete, and the rounds of the running tasks. -/
theorem workerStep_spec (k : Nat) (w : Workers) :
    List.Perm ((workerStep k w).sensor ++ (workerStep k w).running.flatMap PoolEntry.todo)
      (w.sensor ++ w.running.flatMap PoolEntry.todo) ∧
    List.Perm ((workerStep k w).completed ++ (workerStep k w).running.map PoolEntry.task)
      (w.completed ++ w.running.map PoolEntry.task) ∧
    (∀ t ∈ w.completed, t ∈ (workerStep k w).completed) ∧
    (∀ e ∈ (workerStep k w).running, ∃ e0 ∈ w.running, e0.task = e.task) := by
  unfold workerStep
  rcases Option.eq_none_or_eq_some (w.running[k]?) with h | ⟨e, h⟩
  · rw [h]
    exact ⟨List.Perm.refl _, List.Perm.refl _, fun t ht => ht, fun e he => ⟨e, he, rfl⟩⟩
  · rw [h]
    have hsplit := running_split h
    obtain ⟨task, todo⟩ := e
    cases todo with
    | nil =>
      simp only []
      refine ⟨?_, ?_, ?_, ?_⟩
      · nth_rewrite 3 [hsplit]
        simp [List.flatMap_append]
      · nth_rewrite 3 [hsplit]
        simp only [List.map_append, List.map_cons, List.append_assoc]
        refine List.Perm.append_left _ ?_
        simp only [List.singleton_append]
        exact List.perm_middle.symm
      · intro t ht
        exact List.mem_append_left _ ht
      · intro e he
        rw [hsplit]
        simp only [List.mem_append, List.mem_cons] at he ⊢
        rcases he with he | he
        · exact ⟨e, Or.inl he, rfl⟩
        · exact ⟨e, Or.inr (Or.inr he), rfl⟩
    | cons a rest =>
      simp only []
      refine ⟨?_, ?_, ?_, ?_⟩
      · nth_rewrite 3 [hsplit]
        simp only [List.flatMap_append, List.flatMap_cons, List.append_assoc]
        refine List.Perm.append_left _ ?_
        simp only [List.singleton_append, List.cons_append, List.nil_append]
        exact List.perm_middle.symm
      · nth_rewrite 3 [hsplit]
        simp
      · intro t ht
        exact ht
      · intro e he
        rw [hsplit]
        simp only [List.mem_append, List.mem_cons] at he ⊢
        rcases he with he | he | he
        · exact ⟨e, Or.inl he, rfl⟩
        · exact ⟨_, Or.inr (Or.inl rfl), by rw [he]⟩
        · exact ⟨e, Or.inr (Or.inr he), rfl⟩

theorem workerSteps_spec (ks : List Nat) (w : Workers) :
    List.Perm ((workerSteps ks w).sensor ++ (workerSteps ks w).running.flatMap PoolEntry.todo)
      (w.sensor ++ w.running.flatMap PoolEntry.todo) ∧
    List.Perm ((workerSteps ks w).completed ++ (workerSteps ks w).running.map PoolEntry.task)
      (w.completed ++ w.running.map PoolEntry.task) ∧
    (∀ t ∈ w.completed, t ∈ (workerSteps ks w).completed) ∧
    (∀ e ∈ (workerSteps ks w).running, ∃ e0 ∈ w.running, e0.task = e.task) := by
  induction ks generalizing w with
  | nil =>
    exact ⟨List.Perm.refl _, List.Perm.refl _, fun t ht => ht, fun e he => ⟨e, he, rfl⟩⟩
  | cons k ks ih =>
    obtain ⟨h1, h2, h3, h4⟩ := workerStep_spec k w
    obtain ⟨i1, i2, i3, i4⟩ := ih (workerStep k w)
    refine ⟨i1.trans h1, i2.trans h2, fun t ht => i3 t (h3 t ht), ?_⟩
    intro e he
    obtain ⟨e1, he1, h5⟩ := i4 e he
    obtain ⟨e0, he0, h6⟩ := h4 e1 he1
    exact ⟨e0, he0, h6.trans h5⟩

/-- With no task running the workers change nothing that `render` can see. -/
theorem workerSteps_idle (ks : List Nat) (w : Workers) (h : w.running = []) :
    (workerSteps ks w).running = [] ∧ List.Perm (workerSteps ks w).sensor w.sensor ∧
      List.Perm (workerSteps ks w).completed w.completed := by
  obtain ⟨h1, h2, _, h4⟩ := workerSteps_spec ks w
  have hr : (workerSteps ks w).running = [] := by
    apply List.eq_nil_iff_forall_not_mem.mpr
    intro e he
    obtain ⟨e0, he0, _⟩ := h4 e he
    rw [h] at he0
    exact absurd he0 (List.not_mem_nil _)
  rw [hr, h] at h1 h2
  simp only [List.flatMap_nil, List.map_nil, List.append_nil] at h1 h2
  exact ⟨hr, h1, h2⟩

theorem roundTasks_round {cfg : RenderConfig} {s : Nat} {t : Task} (h : t ∈ roundTasks cfg s) :
    t.round = s := by
  simp only [roundTasks, List.mem_flatMap, List.mem_map, List.mem_range] at h
  obtain ⟨_, _, _, _, rfl⟩ := h
  rfl

theorem tasksOfRounds_succ (cfg : RenderConfig) (n : Nat) :
    tasksOfRounds cfg (n + 1) = tasksOfRounds cfg n ++ roundTasks cfg n := by
  simp [tasksOfRounds, List.range_succ, List.flatMap_append]

theorem mem_tasksOfRounds {cfg : RenderConfig} {n r : Nat} {t : Task} (hr : r < n)
    (ht : t ∈ roundTasks cfg r) : t ∈ tasksOfRounds cfg n := by
  simp only [tasksOfRounds, List.mem_flatMap, List.mem_range]
  exact ⟨r, hr, ht⟩

/-- The calls of `enqueue` of a list of tasks: what they change. -/
theorem enqueueAll_spec (kernelAdds : Task → List SensorAdd) (sched : Nat → List Nat)
    (ts : List Task) (c : ThreadedState) :
    (enqueueAll kernelAdds sched ts c).s = c.s ∧
    (enqueueAll kernelAdds sched ts c).imgIdx = c.imgIdx ∧
    (enqueueAll kernelAdds sched ts c).exportPass = c.exportPass ∧
    (enqueueAll kernelAdds sched ts c).exports = c.exports ∧
    List.Perm ((enqueueAll kernelAdds sched ts c).workers.sensor ++
        (enqueueAll kernelAdds sched ts c).workers.running.flatMap PoolEntry.todo)
      (c.workers.sensor ++ c.workers.running.flatMap PoolEntry.todo ++ ts.flatMap kernelAdds) ∧
    List.Perm ((enqueueAll kernelAdds sched ts c).workers.completed ++
        (enqueueAll kernelAdds sched ts c).workers.running.map PoolEntry.task)
      (c.workers.completed ++ c.workers.running.map PoolEntry.task ++ ts) ∧
    (∀ e ∈ (enqueueAll kernelAdds sched ts c).workers.running,
      e.task ∈ ts ∨ ∃ e0 ∈ c.workers.running, e0.task = e.task) ∧
    (enqueueAll kernelAdds sched ts c).enqueues.map EnqueueCall.task =
      c.enqueues.map EnqueueCall.task ++ ts ∧
    (∀ q ∈ (enqueueAll kernelAdds sched ts c).enqueues,
      q ∈ c.enqueues ∨ (q.task ∈ ts ∧ ∀ t ∈ c.workers.completed, t ∈ q.completed)) := by
  induction ts generalizing c with
  | nil =>
    refine ⟨rfl, rfl, rfl, rfl, ?_, ?_, fun e he => Or.inr ⟨e, he, rfl⟩, ?_,
      fun q hq => Or.inl hq⟩
    · simp [enqueueAll]
    · simp [enqueueAll]
    · simp [enqueueAll]
  | cons task rest ih =>
    obtain ⟨h1, h2, h3, h4⟩ := workerSteps_spec (sched c.clock) c.workers
    simp only [enqueueAll]
    obtain ⟨i1, i2, i3, i4, i5, i6, i7, i8, i9⟩ := ih
      { c with workers := poolEnqueue (sched c.clock) task (kernelAdds task) c.workers,
               clock := c.clock + 1,
               enqueues := c.enqueues ++ [(⟨task, (poolEnqueue (sched c.clock) task (kernelAdds task) c.workers).completed⟩ : EnqueueCall)] }
    refine ⟨i1, i2, i3, i4, ?_, ?_, ?_, ?_, ?_⟩
    · refine i5.trans ?_
      simp only [poolEnqueue, List.flatMap_append, List.flatMap_cons, List.flatMap_nil,
        List.append_nil, ← List.append_assoc]
      exact List.Perm.append_right _ (List.Perm.append_right _ h1)
    · refine i6.trans ?_
      simp only [poolEnqueue, List.map_append, List.map_cons, List.map_nil,
        ← List.append_assoc]
      have : task :: rest = [task] ++ rest := rfl
      rw [this, ← List.append_assoc]
      exact List.Perm.append_right _ (List.Perm.append_right _ h2)
    · intro e he
      rcases i7 e he with h | ⟨e1, he1, h5⟩
      · exact Or.inl (List.mem_cons_of_mem _ h)
      · simp only [poolEnqueue, List.mem_append, List.mem_singleton] at he1
        rcases he1 with he1 | he1
        · obtain ⟨e0, he0, h6⟩ := h4 e1 he1
          exact Or.inr ⟨e0, he0, h6.trans h5⟩
        · left
          rw [← h5, he1]
          exact List.mem_cons_self _ _
    · rw [i8]
      simp
    · intro q hq
      rcases i9 q hq with h | ⟨h5, h6⟩
      · simp only [List.mem_append, List.mem_singleton] at h
        rcases h with h | h
        · exact Or.inl h
        · right
          rw [h]
          exact ⟨List.mem_cons_self _ _, fun t ht => h3 t ht⟩
      · right
        refine ⟨List.mem_cons_of_mem _ h5, fun t ht => h6 t ?_⟩
        exact h3 t ht

/-- One round that starts with no task running: at the return of `wait` no task is running,
the sensor has received the contributions of the tasks of the round, all of them, and these
tasks are complete. -/
theorem threadedRound_spec (cfg : RenderConfig) (kernelAdds : Task → List SensorAdd)
    (sched : Nat → List Nat) (c : ThreadedState) (hrun : c.workers.running = []) :
    (threadedRound cfg kernelAdds sched c).s = c.s ∧
    (threadedRound cfg kernelAdds sched c).imgIdx = c.imgIdx ∧
    (threadedRound cfg kernelAdds sched c).exportPass = c.exportPass ∧
    (threadedRound cfg kernelAdds sched c).exports = c.exports ∧
    (threadedRound cfg kernelAdds sched c).workers.running = [] ∧
    List.Perm (threadedRound cfg kernelAdds sched c).workers.sensor
      (c.workers.sensor ++ (roundTasks cfg c.s).flatMap kernelAdds) ∧
    List.Perm (threadedRound cfg kernelAdds sched c).workers.completed
      (c.workers.completed ++ roundTasks cfg c.s) ∧
    (threadedRound cfg kernelAdds sched c).enqueues.map EnqueueCall.task =
      c.enqueues.map EnqueueCall.task ++ roundTasks cfg c.s ∧
    (∀ q ∈ (threadedRound cfg kernelAdds sched c).enqueues,
      q ∈ c.enqueues ∨
        (q.task ∈ roundTasks cfg c.s ∧ ∀ t ∈ c.workers.completed, t ∈ q.completed)) := by
  obtain ⟨e1, e2, e3, e4, e5, e6, e7, e8, e9⟩ :=
    enqueueAll_spec kernelAdds sched (roundTasks cfg c.s) c
  obtain ⟨h1, h2, _, h4⟩ := workerSteps_spec
    (sched (enqueueAll kernelAdds sched (roundTasks cfg c.s) c).clock)
    (enqueueAll kernelAdds sched (roundTasks cfg c.s) c).workers
  have hall : ∀ e ∈ (workerSteps (sched (enqueueAll kernelAdds sched (roundTasks cfg c.s) c).clock)
      (enqueueAll kernelAdds sched (roundTasks cfg c.s) c).workers).running,
      e.task.round = (enqueueAll kernelAdds sched (roundTasks cfg c.s) c).s := by
    intro e he
    obtain ⟨e0, he0, h5⟩ := h4 e he
    rcases e7 e0 he0 with h | ⟨e00, he00, _⟩
    · rw [e1, ← h5]
      exact roundTasks_round h
    · rw [hrun] at he00
      exact absurd he00 (List.not_mem_nil _)
  have hmine : (workerSteps (sched (enqueueAll kernelAdds sched (roundTasks cfg c.s) c).clock)
      (enqueueAll kernelAdds sched (roundTasks cfg c.s) c).workers).running.filter
        (fun e => e.task.round = (enqueueAll kernelAdds sched (roundTasks cfg c.s) c).s) =
      (workerSteps (sched (enqueueAll kernelAdds sched (roundTasks cfg c.s) c).clock)
      (enqueueAll kernelAdds sched (roundTasks cfg c.s) c).workers).running := by
    apply List.filter_eq_self.mpr
    intro e he
    simpa using hall e he
  have hother : (workerSteps (sched (enqueueAll kernelAdds sched (roundTasks cfg c.s) c).clock)
      (enqueueAll kernelAdds sched (roundTasks cfg c.s) c).workers).running.filter
        (fun e => ¬ e.task.round = (enqueueAll kernelAdds sched (roundTasks cfg c.s) c).s) =
      [] := by
    apply List.filter_eq_nil_iff.mpr
    intro e he
    simpa using hall e he
  rw [hrun] at e5 e6
  simp only [List.flatMap_nil, List.map_nil, List.append_nil] at e5 e6
  simp only [threadedRound, poolWait, hmine, hother]
  exact ⟨e1, e2, e3, e4, trivial, h1.trans e5, h2.trans e6, e8, e9⟩

/-- One round that starts from the invariant of the loop: at the return of `wait` no task is
running, and the sensor and the complete tasks are those of one round more. -/
theorem threadedRound_inv (cfg : RenderConfig) (kernelAdds : Task → List SensorAdd)
    (sched : Nat → List Nat) (c : ThreadedState) (hinv : BarrierInv cfg kernelAdds c) :
    (threadedRound cfg kernelAdds sched c).s = c.s ∧
    (threadedRound cfg kernelAdds sched c).exportPass = c.exportPass ∧
    (threadedRound cfg kernelAdds sched c).exports = c.exports ∧
    (threadedRound cfg kernelAdds sched c).workers.running = [] ∧
    List.Perm (threadedRound cfg kernelAdds sched c).workers.sensor
      (cumulativeSensor cfg kernelAdds (c.s + 1)) ∧
    List.Perm (threadedRound cfg kernelAdds sched c).workers.completed
      (tasksOfRounds cfg (c.s + 1)) ∧
    (threadedRound cfg kernelAdds sched c).enqueues.map EnqueueCall.task =
      tasksOfRounds cfg (c.s + 1) ∧
    (∀ q ∈ (threadedRound cfg kernelAdds sched c).enqueues,
      ∀ r, r < q.task.round → ∀ t ∈ roundTasks cfg r, t ∈ q.completed) := by
  obtain ⟨hrun, hsens, hcomp, henq, _, hlogq, _⟩ := hinv
  obtain ⟨r1, _, r3, r4, r5, r6, r7, r8, r9⟩ := threadedRound_spec cfg kernelAdds sched c hrun
  refine ⟨r1, r3, r4, r5, ?_, ?_, ?_, ?_⟩
  · rw [cumulativeSensor_succ]
    exact r6.trans (List.Perm.append_right _ hsens)
  · rw [tasksOfRounds_succ]
    exact r7.trans (List.Perm.append_right _ hcomp)
  · rw [tasksOfRounds_succ, r8, henq]
  · intro q hq r hr t ht
    rcases r9 q hq with h | ⟨h1, h2⟩
    · exact hlogq q h r hr t ht
    · rw [roundTasks_round h1] at hr
      exact h2 t (hcomp.mem_iff.mpr (mem_tasksOfRounds hr ht))

/-- The loop of `render` with the worker threads, started from its invariant, ends normally
when the number of samples per pixel is below `2 ^ 31`, whatever the scheduler does, and the
calls it has recorded satisfy the barrier. -/
theorem renderLoopThreaded_spec (cfg : RenderConfig) (kernelAdds : Task → List SensorAdd)
    (sched : Nat → List Nat)
    (hpos : 1 ≤ cfg.samplesPerPixel) (hspp : cfg.samplesPerPixel < 2 ^ 31)
    (fuel : Nat) (c : ThreadedState)
    (hfuel : cfg.samplesPerPixel - c.s < fuel) (hs : c.s ≤ cfg.samplesPerPixel)
    (hinv : BarrierInv cfg kernelAdds c) :
    ∃ final, renderLoopThreaded cfg kernelAdds sched fuel c = Outcome.ok final ∧
      final.workers.running = [] ∧
      List.Perm final.workers.sensor (cumulativeSensor cfg kernelAdds cfg.samplesPerPixel) ∧
      final.enqueues.map EnqueueCall.task = tasksOfRounds cfg cfg.samplesPerPixel ∧
      (∃ v ∈ final.exports, v.image.sampleCount = 1) ∧
      BarrierLog cfg kernelAdds final := by
  induction fuel generalizing c with
  | zero => omega
  | succ fuel ih =>
    unfold renderLoopThreaded
    by_cases hlt : c.s < cfg.samplesPerPixel
    · rw [if_pos hlt]
      obtain ⟨r1, r2, r3, r4, r5, r6, r7, r8⟩ := threadedRound_inv cfg kernelAdds sched c hinv
      obtain ⟨_, _, _, _, hfirst, _, hlogv⟩ := hinv
      generalize threadedRound cfg kernelAdds sched c = c2 at r1 r2 r3 r4 r5 r6 r7 r8
      simp only []
      have hno : ¬ 2 ^ 31 ≤ c2.s + 1 := by omega
      have hf2 : cfg.samplesPerPixel - (c2.s + 1) < fuel := by omega
      have hs2 : c2.s + 1 ≤ cfg.samplesPerPixel := by omega
      rw [if_neg hno]
      by_cases hex : c2.s + 1 = c2.exportPass
      · rw [if_pos hex]
        obtain ⟨w1, w2, w3⟩ := workerSteps_idle (sched c2.clock) c2.workers r4
        have hlog : BarrierLog cfg kernelAdds
            { c2 with
              workers := workerSteps (sched c2.clock) c2.workers, clock := c2.clock + 1,
              exports := c2.exports ++ [(⟨⟨c2.imgIdx, c2.s + 1, cfg.brightness / F32.fin ((c2.s + 1 : Nat) : ℚ), (workerSteps (sched c2.clock) c2.workers).sensor⟩, (workerSteps (sched c2.clock) c2.workers).completed⟩ : SaveImageCall)] } := by
          refine ⟨r8, ?_⟩
          intro v hv
          simp only [List.mem_append, List.mem_singleton] at hv
          rcases hv with hv | hv
          · rw [r3] at hv
            exact hlogv v hv
          · rw [hv]
            simp only [r1]
            exact ⟨w3.trans r6, w2.trans r5⟩
        have hone : ∃ v ∈ c2.exports ++ [(⟨⟨c2.imgIdx, c2.s + 1, cfg.brightness / F32.fin ((c2.s + 1 : Nat) : ℚ), (workerSteps (sched c2.clock) c2.workers).sensor⟩, (workerSteps (sched c2.clock) c2.workers).completed⟩ : SaveImageCall)],
            v.image.sampleCount = 1 := by
          rcases hfirst with ⟨h0, _⟩ | ⟨v, hv, hv1⟩
          · exact ⟨_, List.mem_append_right _ (List.mem_singleton_self _), by simp only [r1, h0]⟩
          · exact ⟨v, List.mem_append_left _ (by rw [r3]; exact hv), hv1⟩
        by_cases hend : c2.s + 1 = cfg.samplesPerPixel
        · rw [if_pos hend]
          refine ⟨_, rfl, w1, ?_, ?_, hone, ?_⟩
          · simp only []
            rw [← hend, r1]
            exact w2.trans r5
          · simp only []
            rw [← hend, r1]
            exact r7
          · exact hlog
        · rw [if_neg hend]
          refine ih _ hf2 hs2 ?_
          · refine ⟨w1, ?_, ?_, ?_, Or.inr hone, hlog⟩
            · simp only [r1]
              exact w2.trans r5
            · simp only [r1]
              exact w3.trans r6
            · simp only [r1]
              exact r7
      · rw [if_neg hex]
        refine ih _ hf2 hs2 ?_
        · refine ⟨r4, ?_, ?_, ?_, ?_, r8, ?_⟩
          · simp only [r1]
            exact r5
          · simp only [r1]
            exact r6
          · simp only [r1]
            exact r7
          · right
            rcases hfirst with ⟨h0, h1⟩ | ⟨v, hv, hv1⟩
            · exact absurd (by rw [r1, r2, h0, h1]) hex
            · exact ⟨v, by rw [r3]; exact hv, hv1⟩
          · intro v hv
            rw [r3] at hv
            exact hlogv v hv
    · rw [if_neg hlt]
      have hseq : c.s = cfg.samplesPerPixel := by omega
      obtain ⟨h1, h2, _, h4, hfirst, hlog⟩ := hinv
      refine ⟨c, rfl, h1, ?_, ?_, ?_, hlog⟩
      · rw [← hseq]
        exact h2
      · rw [← hseq]
        exact h4
      · rcases hfirst with ⟨h0, _⟩ | h
        · omega
        · exact h

/-- C21.  For every scheduler of the worker threads and every number of samples per pixel
from 1 to `2 ^ 31 - 1`, `render` ends normally with no task running, and the calls it made
satisfy the barrier at the end of every round: when a task of a round was enqueued, every task
of every earlier round was complete; when an image was exported after `n` rounds, the complete
tasks were the tasks of the rounds `0, ..., n - 1`, and the sensor that the export read held
the contributions of these rounds, all of them and no other (in some order).  The tasks are
enqueued round after round, and an image is exported after the first round. -/
theorem round_barrier (cfg : RenderConfig) (kernelAdds : Task → List SensorAdd)
    (sched : Nat → List Nat) (sensor : List SensorAdd)
    (hpos : 1 ≤ cfg.samplesPerPixel) (hspp : cfg.samplesPerPixel < 2 ^ 31) :
    ∃ final, renderThreaded cfg kernelAdds sched sensor = Outcome.ok final ∧
      final.workers.running = [] ∧
      final.enqueues.map EnqueueCall.task = tasksOfRounds cfg cfg.samplesPerPixel ∧
      (∀ q ∈ final.enqueues, ∀ r, r < q.task.round → ∀ t ∈ roundTasks cfg r,
        t ∈ q.completed) ∧
      (∃ v ∈ final.exports, v.image.sampleCount = 1) ∧
      (∀ v ∈ final.exports,
        List.Perm v.completed (tasksOfRounds cfg v.image.sampleCount) ∧
        (∀ r, r < v.image.sampleCount → ∀ t ∈ roundTasks cfg r, t ∈ v.completed) ∧
        List.Perm v.image.image (cumulativeSensor cfg kernelAdds v.image.sampleCount)) := by
  obtain ⟨final, h1, h2, _, h4, h5, h6, h7⟩ :=
    renderLoopThreaded_spec cfg kernelAdds sched hpos hspp (cfg.samplesPerPixel + 1)
      { s := 0, imgIdx := 0, exportPass := 1,
        workers := { running := [], sensor := ImageSensor.init sensor, completed := [] },
        clock := 0, enqueues := [], exports := [] }
      (by simp) (by simp)
      ⟨rfl, List.Perm.refl _, List.Perm.refl _, rfl, Or.inl ⟨rfl, rfl⟩,
        fun _ hq => absurd hq (List.not_mem_nil _), fun _ hv => absurd hv (List.not_mem_nil _)⟩
  refine ⟨final, h1, h2, h4, h6, h5, ?_⟩
  intro v hv
  obtain ⟨h8, h9⟩ := h7 v hv
  exact ⟨h8, fun r hr t ht => h8.mem_iff.mpr (mem_tasksOfRounds hr ht), h9⟩

/-- C21 at a concrete input: 5 samples per pixel on 3 by 2 tiles, with a scheduler under
which the contributions of the first round are not added in the order of the tasks. -/
theorem round_barrier_witness :
    (∃ final, renderThreaded exampleConfig exampleKernel exampleSched [staleAdd] =
        Outcome.ok final ∧
      final.workers.running = [] ∧
      final.enqueues.map EnqueueCall.task = tasksOfRounds exampleConfig 5 ∧
      (∀ q ∈ final.enqueues, ∀ r, r < q.task.round → ∀ t ∈ roundTasks exampleConfig r,
        t ∈ q.completed) ∧
      (∃ v ∈ final.exports, v.image.sampleCount = 1) ∧
      (∀ v ∈ final.exports,
        List.Perm v.completed (tasksOfRounds exampleConfig v.image.sampleCount) ∧
        (∀ r, r < v.image.sampleCount → ∀ t ∈ roundTasks exampleConfig r, t ∈ v.completed) ∧
        List.Perm v.image.image
          (cumulativeSensor exampleConfig exampleKernel v.image.sampleCount))) ∧
    (renderThreaded exampleConfig exampleKernel exampleSched [staleAdd]).savedImages.map
        (fun v => (v.image.sampleCount, v.completed.length, v.image.image.length)) =
      [(1, 6, 6), (2, 12, 12), (4, 24, 24)] ∧
    ((renderThreaded exampleConfig exampleKernel exampleSched [staleAdd]).savedImages.map
        (fun v => v.image.image)).head? ≠ some (cumulativeSensor exampleConfig exampleKernel 1) :=
  ⟨round_barrier exampleConfig exampleKernel exampleSched [staleAdd] (by decide) (by decide),
    by decide!, by decide!⟩

/-! ## C22: a delta-sampled vertex suppresses the adjacent terms only -/

theorem stepVertex_setDelta (sub : List BPTVertex) (i : Nat) (b : Bool) (n k : Nat) :
    stepVertex (setDelta sub i b) n k
      = if n - k = i ∧ i < sub.length then (stepVertex sub n k).withDelta b
        else stepVertex sub n k := by
  unfold stepVertex setDelta
  rw [List.getElem?_set]
  by_cases h : i = n - k
  · subst h
    by_cases hl : n - k < sub.length
    · simp [hl]
    · have hnone : sub[n - k]? = none := List.getElem?_eq_none (by omega)
      simp [hl, hnone]
  · have h2 : ¬ n - k = i := fun h3 => h h3.symm
    simp [h, h2]

theorem stepRatio_setDelta (x1A x1R x2A x2R : F32) (sub : List BPTVertex) (i : Nat) (b : Bool)
    (n j : Nat) :
    stepRatio x1A x1R x2A x2R (setDelta sub i b) n j = stepRatio x1A x1R x2A x2R sub n j := by
  unfold stepRatio
  rw [stepVertex_setDelta]
  split_ifs <;> rfl

theorem cumRatio_setDelta (x1A x1R x2A x2R : F32) (sub : List BPTVertex) (i : Nat) (b : Bool)
    (n k : Nat) :
    cumRatio x1A x1R x2A x2R (setDelta sub i b) n k = cumRatio x1A x1R x2A x2R sub n k := by
  induction k with
  | zero => rfl
  | succ k ih => simp only [cumRatio, ih, stepRatio_setDelta]

theorem stepSuppressed_setDelta (sub : List BPTVertex) (n m k : Nat) (b : Bool)
    (hkn : k ≤ n) (hmn : m ≤ n) (hm : k ≠ m) (hm1 : k ≠ m + 1) :
    stepSuppressed (setDelta sub (n - m) b) n k = stepSuppressed sub n k := by
  unfold stepSuppressed
  rw [stepVertex_setDelta, stepVertex_setDelta]
  have h1 : ¬ (n - k = n - m ∧ n - m < sub.length) := by
    intro h
    omega
  rw [if_neg h1]
  by_cases h2 : 2 ≤ k
  · have h3 : ¬ (n - (k - 1) = n - m ∧ n - m < sub.length) := by
      intro h
      omega
    rw [if_neg h3]
  · simp [h2]

theorem sumSteps_setDelta_lt (x1A x1R x2A x2R : F32) (sub : List BPTVertex) (n m : Nat) (b : Bool)
    (r : F32) (hmn : m ≤ n) (k : Nat) (hk : k < m) :
    sumSteps x1A x1R x2A x2R (setDelta sub (n - m) b) n r k
      = sumSteps x1A x1R x2A x2R sub n r k := by
  induction k with
  | zero => rfl
  | succ k ih =>
    simp only [sumSteps, cumRatio_setDelta]
    rw [stepSuppressed_setDelta sub n m (k + 1) b (by omega) hmn (by omega) (by omega),
      ih (by omega)]

/-- C22.  Let a chain be shortened from `n` vertices, and let the delta flag of the vertex
that step `m` removes (index `n - m`) be set to any value `b`; the running sum after step
`k` is what `extendAndShorten` returns when told to stop at `n - k` vertices.  (1) The
cumulative ratio of every step is the one of the unchanged chain: it is the product of the
ratios of the steps `1..k`, so from step `m` on it includes the ratio of step `m`, whatever
the flag.  (2) Every step `k` other than `m` and `m + 1` is suppressed in the changed chain
exactly when it is in the unchanged one.  (3) Every step `k` other than `m` and `m + 1`
whose own vertex (index `n - k`) and, for `k ≥ 2`, preceding vertex (index `n - k + 1`) are
not delta-sampled adds the square of that cumulative ratio to the running sum of the
changed chain, and every other such step adds nothing.  (4) The running sum before step
`m` is that of the unchanged chain.  So the flag of step `m` decides on the terms of the
steps `m` and `m + 1` only. -/
theorem delta_suppresses_adjacent_only (x1A x1R x2A x2R : F32) (sub : List BPTVertex)
    (n m : Nat) (b : Bool) (r : F32) (hn : n ≤ sub.length) (hmn : m ≤ n) :
    (∀ k, cumRatio x1A x1R x2A x2R (setDelta sub (n - m) b) n k
        = cumRatio x1A x1R x2A x2R sub n k ∧
      cumRatio x1A x1R x2A x2R sub n (k + 1)
        = cumRatio x1A x1R x2A x2R sub n k * stepRatio x1A x1R x2A x2R sub n (k + 1)) ∧
    (∀ k, 1 ≤ k → k ≤ n → k ≠ m → k ≠ m + 1 →
      stepSuppressed (setDelta sub (n - m) b) n k = stepSuppressed sub n k) ∧
    (∀ k, 1 ≤ k → k ≤ n → k ≠ m → k ≠ m + 1 →
      ((∃ v, sub[n - k]? = some v ∧ v.sampledType.isDelta = false) ∧
        (2 ≤ k → ∃ v, sub[n - k + 1]? = some v ∧ v.sampledType.isDelta = false) →
        extendAndShorten x1A x1R x2A x2R (setDelta sub (n - m) b) n (n - k) r
          = (extendAndShorten x1A x1R x2A x2R (setDelta sub (n - m) b) n (n - k + 1) r).map
            (fun s => s + cumRatio x1A x1R x2A x2R sub n k * cumRatio x1A x1R x2A x2R sub n k)) ∧
      (¬ ((∃ v, sub[n - k]? = some v ∧ v.sampledType.isDelta = false) ∧
          (2 ≤ k → ∃ v, sub[n - k + 1]? = some v ∧ v.sampledType.isDelta = false)) →
        extendAndShorten x1A x1R x2A x2R (setDelta sub (n - m) b) n (n - k) r
          = extendAndShorten x1A x1R x2A x2R (setDelta sub (n - m) b) n (n - k + 1) r)) ∧
    (∀ k, k < m →
      extendAndShorten x1A x1R x2A x2R (setDelta sub (n - m) b) n (n - k) r
        = extendAndShorten x1A x1R x2A x2R sub n (n - k) r) := by
  have hlen : n ≤ (setDelta sub (n - m) b).length := by
    unfold setDelta
    rw [List.length_set]
    exact hn
  refine ⟨fun k => ⟨cumRatio_setDelta _ _ _ _ _ _ _ _ _, rfl⟩, ?_, ?_, ?_⟩
  · intro k hk1 hkn hkm hkm1
    exact stepSuppressed_setDelta sub n m k b hkn hmn hkm hkm1
  · intro k hk1 hkn hkm hkm1
    have hsup := stepSuppressed_setDelta sub n m k b hkn hmn hkm hkm1
    have h1 : n - (n - k) = (k - 1) + 1 := by omega
    have h2 : n - (n - k + 1) = k - 1 := by omega
    have hk : k - 1 + 1 = k := by omega
    have hown : sub[n - k]? = some sub[n - k] := List.getElem?_eq_getElem (by omega)
    have hsv : stepVertex sub n k = sub[n - k] := stepVertex_eq rfl hown
    have hval : stepSuppressed sub n k = false ↔
        ((∃ v, sub[n - k]? = some v ∧ v.sampledType.isDelta = false) ∧
          (2 ≤ k → ∃ v, sub[n - k + 1]? = some v ∧ v.sampledType.isDelta = false)) := by
      unfold stepSuppressed
      rw [hsv]
      by_cases hk2 : 2 ≤ k
      · have hprev : sub[n - k + 1]? = some sub[n - k + 1] :=
          List.getElem?_eq_getElem (by omega)
        have hsp : stepVertex sub n (k - 1) = sub[n - k + 1] :=
          stepVertex_eq (by omega) hprev
        rw [hsp]
        simp only [hk2, decide_True, Bool.true_and, Bool.or_eq_false_iff, hown,
          Option.some.injEq, exists_eq_left', hprev, true_implies]
      · simp only [hk2, decide_False, Bool.false_and, Bool.or_false, hown, Option.some.injEq,
          exists_eq_left', false_implies, and_true]
    rw [extendAndShorten_eq _ _ _ _ _ n (n - k) r hlen,
      extendAndShorten_eq _ _ _ _ _ n (n - k + 1) r hlen, h1, h2]
    constructor
    · intro hnd
      have hs : stepSuppressed (setDelta sub (n - m) b) n k = false := by
        rw [hsup]
        exact hval.mpr hnd
      simp only [sumSteps, hk, hs, Bool.false_eq_true, if_false, Option.map_some',
        cumRatio_setDelta]
    · intro hnd
      have hs : stepSuppressed (setDelta sub (n - m) b) n k = true := by
        rw [hsup]
        cases hc : stepSuppressed sub n k
        · exact absurd (hval.mp hc) hnd
        · rfl
      simp only [sumSteps, hk, hs, if_true]
  · intro k hk
    rw [extendAndShorten_eq _ _ _ _ _ n (n - k) r hlen,
      extendAndShorten_eq _ _ _ _ sub n (n - k) r hn]
    have h1 : n - (n - k) = k := by omega
    rw [h1, sumSteps_setDelta_lt x1A x1R x2A x2R sub n m b r hmn k hk]

/-- C22 at a concrete input: in the eye chain of the examples, used with 4 vertices, the
vertex removed at step 1 (index 3) is made delta-sampled.  Step 3, whose own vertex
(index 1) and preceding vertex (index 2) are not delta-sampled, still adds the square of
the cumulative ratio `(2 * 1 / 1) * (1 * 1 / 1) * (3 * 1 / 2) = 3`, which includes the
ratio 2 of step 1. -/
theorem delta_suppresses_adjacent_only_witness :
    extendAndShorten 2 1 1 1 (setDelta sampleEye (4 - 1) true) 4 (4 - 3) 1
      = (extendAndShorten 2 1 1 1 (setDelta sampleEye (4 - 1) true) 4 (4 - 3 + 1) 1).map
        (fun s => s + cumRatio 2 1 1 1 sampleEye 4 3 * cumRatio 2 1 1 1 sampleEye 4 3) ∧
    cumRatio 2 1 1 1 sampleEye 4 3 = 3 ∧
    extendAndShorten 2 1 1 1 (setDelta sampleEye (4 - 1) true) 4 (4 - 3) 1 = some 10 :=
  ⟨((delta_suppresses_adjacent_only 2 1 1 1 sampleEye 4 1 true 1 (by decide) (by decide)).2.2.1
      3 (by decide) (by decide) (by decide) (by decide)).1
      ⟨⟨mkVertex 2 1 3 1 false, by decide!, by decide!⟩,
        fun _ => ⟨mkVertex 1 1 F32.nan F32.nan false, by decide!, by decide!⟩⟩,
    by decide!, by decide!⟩


/-! ## The cases of one iteration -/

/-- The outcome of one iteration, case by case.  It faults only when the vector is empty at
a hit.  It ends the walk with the vector as it was (no hit, or a hit at infinity) or with
the hit vertex, not at infinity, appended.  It continues only after a hit that is not at
infinity, with the hit vertex appended, the reverse fields of the former last vertex
written, the sampled type of the scattering sample as next sampled type, and the flag
`LambdaIsSelected` added to the wavelength flags when that sample is dispersive. -/
theorem walkIter_cases (env : Env) (adjoint : Bool) (st : WalkState) :
    match walkIter env adjoint st with
    | IterResult.fault => (st.job.vertices adjoint) = []
    | IterResult.done job2 _ =>
      job2.vertices adjoint = st.job.vertices adjoint ∨
        ∃ prev si, (st.job.vertices adjoint).getLast? = some prev ∧
          env.intersect st.ray = some si ∧
          (env.getSurfacePoint si).atInfinity = false ∧
          job2.vertices adjoint
            = st.job.vertices adjoint ++ [hitVertex env st prev (env.getSurfacePoint si)]
    | IterResult.next st2 =>
      ∃ prev si ra rp ty, (st.job.vertices adjoint).getLast? = some prev ∧
        env.intersect st.ray = some si ∧
        (env.getSurfacePoint si).atInfinity = false ∧
        st2.job.vertices adjoint = (st.job.vertices adjoint).dropLast ++
          [{ prev with revAreaPDF := ra, revRRProb := rp, revWrites := prev.revWrites + 1 },
            hitVertex env st prev (env.getSurfacePoint si)] ∧
        st2.sampledType = ty ∧
        st2.wls = (if ty.isDispersive = true then
          { st.wls with flags := st.wls.flags ||| env.LambdaIsSelected } else st.wls) := by
  rcases Option.eq_none_or_eq_some (env.intersect st.ray) with hsi | ⟨si, hsi⟩
  · have hiter : walkIter env adjoint st = IterResult.done
        { st.job with trace := st.job.trace ++ [Event.intersect st.ray] } st.pathSampler := by
      unfold walkIter
      simp only [hsi]
    rw [hiter]
    left
    cases adjoint <;> rfl
  · rcases Option.eq_none_or_eq_some ((st.job.vertices adjoint).getLast?) with hprev | ⟨prev, hprev⟩
    · have hvs : ∀ a, ({ st.job with trace := st.job.trace ++ [Event.intersect st.ray] } :
          Job).vertices a = st.job.vertices a := by
        intro a; cases a <;> rfl
      have hiter : walkIter env adjoint st = IterResult.fault := by
        unfold walkIter
        simp only [hsi, hvs, hprev]
      rw [hiter]
      exact List.getLast?_eq_none_iff.mp hprev
    · obtain ⟨job3, hmain, _, _, hiter⟩ := walkIter_hit env adjoint st si prev hsi hprev
      by_cases hinf : (env.getSurfacePoint si).atInfinity = true
      · rw [if_pos hinf] at hiter
        rw [hiter]
        left
        rw [Job.vertices_setVertices, hmain, List.dropLast_concat]
      · rw [if_neg hinf] at hiter
        have hinf2 : (env.getSurfacePoint si).atInfinity = false := by simpa using hinf
        obtain ⟨h2, hp⟩ := penultimate_after_append
          (hitVertex env st prev (env.getSurfacePoint si)) hprev
        rw [← hmain] at h2 hp
        rw [scatterStep_eqns env job3 st adjoint _ _ _ _ _ prev
          (env.getBSDFSample st.pathSampler).1 (env.getBSDFSample st.pathSampler).2
          (env.getPathTerminationSample (env.getBSDFSample st.pathSampler).2).2 _ _
          (env.getPathTerminationSample (env.getBSDFSample st.pathSampler).2).1 h2 hp rfl rfl rfl]
          at hiter
        have hset : ∀ x : BPTVertex,
            (job3.setVertices adjoint ((job3.vertices adjoint).set
              ((job3.vertices adjoint).length - 2) x)).vertices adjoint
              = (st.job.vertices adjoint).dropLast ++
                [x, hitVertex env st prev (env.getSurfacePoint si)] := by
          intro x
          simp only [Job.vertices_setVertices]
          rw [hmain]
          conv_lhs => rw [eq_dropLast_append_of_getLast? hprev]
          rw [set_penultimate]
        split_ifs at hiter
        all_goals rw [hiter]
        all_goals simp only []
        all_goals first
          | exact Or.inr ⟨prev, si, hprev, hsi, hinf2, hmain⟩
          | exact ⟨prev, si, _, _, _, hprev, hsi, hinf2, hset _, rfl, by first | rfl | simp [*]⟩

/-- One iteration keeps the constructor members of the stored vertices, in their order,
and appends at most the hit vertex, which is then not at infinity. -/
theorem walkIter_record (env : Env) (adjoint : Bool) (st : WalkState) :
    match walkIter env adjoint st with
    | IterResult.fault => True
    | IterResult.done job2 _ =>
      (job2.vertices adjoint).map BPTVertex.record
          = (st.job.vertices adjoint).map BPTVertex.record ∨
        ∃ prev si, (env.getSurfacePoint si).atInfinity = false ∧
          (job2.vertices adjoint).map BPTVertex.record
            = (st.job.vertices adjoint).map BPTVertex.record ++
              [(hitVertex env st prev (env.getSurfacePoint si)).record]
    | IterResult.next st2 =>
      ∃ prev si, (env.getSurfacePoint si).atInfinity = false ∧
        (st2.job.vertices adjoint).map BPTVertex.record
          = (st.job.vertices adjoint).map BPTVertex.record ++
            [(hitVertex env st prev (env.getSurfacePoint si)).record] := by
  have hs := walkIter_cases env adjoint st
  cases hres : walkIter env adjoint st with
  | fault => trivial
  | done job2 ps2 =>
    rw [hres] at hs
    simp only [] at hs ⊢
    rcases hs with h1 | ⟨prev, si, _, _, hinf, h1⟩
    · exact Or.inl (by rw [h1])
    · exact Or.inr ⟨prev, si, hinf, by rw [h1, List.map_append]; rfl⟩
  | next st2 =>
    rw [hres] at hs
    simp only [] at hs ⊢
    obtain ⟨prev, si, ra, rp, ty, hprev, _, hinf, hvs, _, _⟩ := hs
    refine ⟨prev, si, hinf, ?_⟩
    rw [hvs]
    conv_rhs => rw [eq_dropLast_append_of_getLast? hprev]
    simp only [List.map_append, List.map_cons, List.map_nil, List.append_assoc,
      List.singleton_append]
    rfl

/-- A walk that ends normally keeps the constructor members of the vertices it was given,
in their order, and leaves after them the vertices it appended, none of them at
infinity. -/
theorem generateSubPath_record (env : Env) (job : Job) (initWLs : WavelengthSamples)
    (initAlpha : SampledSpectrum) (initRay : Ray) (dirPDF : F32) (sampledType : DirectionType)
    (cosLast : F32) (adjoint : Bool) (pathSampler : IndependentLightPathSampler) (fuel : Nat)
    (job2 : Job) (ps2 : IndependentLightPathSampler)
    (h : generateSubPath env job initWLs initAlpha initRay dirPDF sampledType cosLast adjoint
      pathSampler fuel = Outcome.ok (job2, ps2)) :
    ∃ app : List BPTVertex,
      (job2.vertices adjoint).map BPTVertex.record
        = (job.vertices adjoint).map BPTVertex.record ++ app.map BPTVertex.record ∧
      ∀ v ∈ app, v.surfPt.atInfinity = false := by
  unfold generateSubPath at h
  by_cases hz : F32.eq dirPDF 0 = true
  · rw [if_pos hz] at h
    simp only [Outcome.ok.injEq, Prod.mk.injEq] at h
    rw [← h.1]
    exact ⟨[], by simp, by simp⟩
  · rw [if_neg hz] at h
    refine walkLoop_induct env adjoint
      (fun st => ∃ app : List BPTVertex,
        (st.job.vertices adjoint).map BPTVertex.record
          = (job.vertices adjoint).map BPTVertex.record ++ app.map BPTVertex.record ∧
        ∀ v ∈ app, v.surfPt.atInfinity = false)
      (fun j => ∃ app : List BPTVertex,
        (j.vertices adjoint).map BPTVertex.record
          = (job.vertices adjoint).map BPTVertex.record ++ app.map BPTVertex.record ∧
        ∀ v ∈ app, v.surfPt.atInfinity = false)
      ?_ ?_ fuel _ job2 ps2 ⟨[], by simp, by simp⟩ h
    · intro st st2 ⟨app, hm, hinf⟩ hres
      have hw := walkIter_record env adjoint st
      rw [hres] at hw
      simp only [] at hw
      obtain ⟨prev, si, hi, hw⟩ := hw
      refine ⟨app ++ [hitVertex env st prev (env.getSurfacePoint si)], ?_, ?_⟩
      · rw [hw, hm]
        simp
      · intro v hv
        rcases List.mem_append.mp hv with h1 | h1
        · exact hinf v h1
        · rw [List.mem_singleton.mp h1]
          exact hi
    · intro st j ps ⟨app, hm, hinf⟩ hres
      have hw := walkIter_record env adjoint st
      rw [hres] at hw
      simp only [] at hw
      rcases hw with hw | ⟨prev, si, hi, hw⟩
      · exact ⟨app, by rw [hw, hm], hinf⟩
      · refine ⟨app ++ [hitVertex env st prev (env.getSurfacePoint si)], ?_, ?_⟩
        · rw [hw, hm]
          simp
        · intro v hv
          rcases List.mem_append.mp hv with h1 | h1
          · exact hinf v h1
          · rw [List.mem_singleton.mp h1]
            exact hi

/-- On an eye subpath, at an emitting point, the implicit path calls the weighter once, with
`s = 0` and `t` the size of the eye vector it is given. -/
theorem implicitPath_emitting (env : Env) (job : Job) (st : WalkState)
    (si : SurfaceInteraction) (surfPt : SurfacePoint) (dirOut_sn : Vector3D) (dist2 : F32)
    (job2 : Job) (hem : env.isEmitting surfPt = true)
    (h : implicitPath env job st false si surfPt dirOut_sn dist2 = some job2) :
    job2.trace = job.trace ++
      [Event.calculateMISWeight 0 job.eyeVertices.length
        (job.eyeVertices.map BPTVertex.revWrites)
        (job.lightVertices.map BPTVertex.revWrites)] := by
  unfold implicitPath at h
  have hc : (!false && env.isEmitting surfPt) = true := by simp [hem]
  rw [if_pos hc] at h
  simp only [] at h
  split at h
  · exact absurd h (by simp)
  · split at h <;> (simp only [Option.some.injEq] at h; subst h; simp [Job.vertices])

/-! ## C23: a hit at infinity -/

/-- C23.  (1) Let an iteration hit the scene at a point at infinity while `prev` is the last
vertex of the vector.  The implicit path is evaluated on the job whose vector holds the
hit vertex as last vertex; on an eye subpath, at an emitting point, it calls
`calculateMISWeight` with `s = 0` and `t` the size of the vector with the hit vertex,
that is, one more than the size before the hit.  The iteration then ends the walk with the
vector as it was before the hit, the other vector unchanged, and the sampler not advanced:
no scattering direction is sampled.  (2) After a call of `generateSubPath` that ends
normally, the vector holds the constructor members of the vertices it held on entry, in
their order, the origin vertex first, followed by the vertices that the walk appended and
left, none of which is at infinity. -/
theorem hit_at_infinity :
    (∀ (env : Env) (adjoint : Bool) (st : WalkState) (si : SurfaceInteraction)
      (prev : BPTVertex),
      env.intersect st.ray = some si →
      (st.job.vertices adjoint).getLast? = some prev →
      (env.getSurfacePoint si).atInfinity = true →
      ∃ job3 : Job,
        implicitPath env
          (({ st.job with trace := st.job.trace ++ [Event.intersect st.ray] } : Job).setVertices
            adjoint (st.job.vertices adjoint ++ [hitVertex env st prev (env.getSurfacePoint si)]))
          st adjoint si (env.getSurfacePoint si)
          ((env.getSurfacePoint si).toLocal (-st.ray.dir))
          (squaredDistance prev.surfPt (env.getSurfacePoint si)) = some job3 ∧
        walkIter env adjoint st
          = IterResult.done (job3.setVertices adjoint (st.job.vertices adjoint))
              st.pathSampler ∧
        (job3.setVertices adjoint (st.job.vertices adjoint)).vertices adjoint
          = st.job.vertices adjoint ∧
        (job3.setVertices adjoint (st.job.vertices adjoint)).vertices (!adjoint)
          = st.job.vertices (!adjoint) ∧
        (adjoint = false → env.isEmitting (env.getSurfacePoint si) = true →
          job3.trace = st.job.trace ++
            [Event.intersect st.ray,
              Event.calculateMISWeight 0 ((st.job.vertices adjoint).length + 1)
                ((st.job.eyeVertices ++
                  [hitVertex env st prev (env.getSurfacePoint si)]).map BPTVertex.revWrites)
                (st.job.lightVertices.map BPTVertex.revWrites)])) ∧
    (∀ (env : Env) (job : Job) (initWLs : WavelengthSamples) (initAlpha : SampledSpectrum)
      (initRay : Ray) (dirPDF : F32) (sampledType : DirectionType) (cosLast : F32)
      (adjoint : Bool) (pathSampler : IndependentLightPathSampler) (fuel : Nat) (job2 : Job)
      (ps2 : IndependentLightPathSampler),
      generateSubPath env job initWLs initAlpha initRay dirPDF sampledType cosLast adjoint
        pathSampler fuel = Outcome.ok (job2, ps2) →
      ∃ app : List BPTVertex,
        (job2.vertices adjoint).map BPTVertex.record
          = (job.vertices adjoint).map BPTVertex.record ++ app.map BPTVertex.record ∧
        (∀ v ∈ app, v.surfPt.atInfinity = false) ∧
        (∀ i v, (job.vertices adjoint).length ≤ i → (job2.vertices adjoint)[i]? = some v →
          v.surfPt.atInfinity = false) ∧
        (∀ origin, (job.vertices adjoint).head? = some origin →
          ∃ v, (job2.vertices adjoint).head? = some v ∧ v.record = origin.record)) := by
  constructor
  · intro env adjoint st si prev hsi hprev hinf
    have hvs : ∀ a, ({ st.job with trace := st.job.trace ++ [Event.intersect st.ray] } :
        Job).vertices a = st.job.vertices a := by
      intro a; cases a <;> rfl
    obtain ⟨job3, himp⟩ := implicitPath_isSome env
      (({ st.job with trace := st.job.trace ++ [Event.intersect st.ray] } : Job).setVertices
        adjoint (st.job.vertices adjoint ++ [hitVertex env st prev (env.getSurfacePoint si)]))
      st adjoint si (env.getSurfacePoint si) ((env.getSurfacePoint si).toLocal (-st.ray.dir))
      (squaredDistance prev.surfPt (env.getSurfacePoint si))
    obtain ⟨he, hl, _, _⟩ := implicitPath_spec _ _ _ _ _ _ _ _ _ himp
    have hsame : ∀ a, job3.vertices a
        = (({ st.job with trace := st.job.trace ++ [Event.intersect st.ray] } :
            Job).setVertices adjoint
            (st.job.vertices adjoint ++
              [hitVertex env st prev (env.getSurfacePoint si)])).vertices a := by
      intro a; cases a <;> simp [Job.vertices, he, hl]
    have hdrop : (job3.vertices adjoint).dropLast = st.job.vertices adjoint := by
      rw [hsame, Job.vertices_setVertices, List.dropLast_concat]
    refine ⟨job3, himp, ?_, ?_, ?_, ?_⟩
    · unfold walkIter
      simp only [hsi, hvs, hprev, himp, hinf, if_true, hdrop]
    · rw [Job.vertices_setVertices]
    · rw [Job.vertices_setVertices_other, hsame, Job.vertices_setVertices_other, hvs]
    · intro hadj hem
      subst hadj
      rw [implicitPath_emitting env _ st si _ _ _ job3 hem himp]
      simp [Job.setVertices, Job.vertices]
  · intro env job initWLs initAlpha initRay dirPDF sampledType cosLast adjoint pathSampler fuel
      job2 ps2 h
    obtain ⟨app, hrec, hinf⟩ := generateSubPath_record env job initWLs initAlpha initRay dirPDF
      sampledType cosLast adjoint pathSampler fuel job2 ps2 h
    have hlen : (job2.vertices adjoint).length = (job.vertices adjoint).length + app.length := by
      have := congrArg List.length hrec
      simpa using this
    refine ⟨app, hrec, hinf, ?_, ?_⟩
    · intro i v hi hv
      have hr : ((job2.vertices adjoint).map BPTVertex.record)[i]? = some v.record := by
        rw [List.getElem?_map, hv]
        rfl
      rw [hrec, List.getElem?_append_right (by simpa using hi), List.getElem?_map] at hr
      simp only [List.length_map] at hr
      cases ha : app[i - (job.vertices adjoint).length]? with
      | none => rw [ha] at hr; simp at hr
      | some w =>
        rw [ha] at hr
        simp only [Option.map_some', Option.some.injEq] at hr
        have hw := hinf w (List.getElem?_mem ha)
        have hsp : w.surfPt = v.surfPt := congrArg (fun r => r.1) hr
        rw [← hsp]
        exact hw
    · intro origin ho
      cases hvs : job.vertices adjoint with
      | nil => rw [hvs] at ho; simp at ho
      | cons a l =>
        rw [hvs] at ho hrec
        simp only [List.head?_cons, Option.some.injEq] at ho
        subst ho
        cases hvs2 : job2.vertices adjoint with
        | nil => rw [hvs2] at hrec; simp at hrec
        | cons b l2 =>
          rw [hvs2] at hrec
          simp only [List.map_cons, List.cons_append, List.cons.injEq] at hrec
          exact ⟨b, rfl, hrec.1⟩

/-- C23 at concrete inputs: in the scene with the environment the second iteration of the
eye walk hits the environment.  It ends the walk with the vector of two vertices it
started with and with the sampler as it was, after one call of the weighter with `t = 3`;
the whole walk leaves the origin and the floor vertex, in this order, none at infinity. -/
theorem hit_at_infinity_witness :
    (∃ job3 : Job,
      walkIter skyEnv false skyState
        = IterResult.done (job3.setVertices false (skyState.job.vertices false))
            skyState.pathSampler ∧
      (job3.setVertices false (skyState.job.vertices false)).vertices false
        = skyState.job.vertices false ∧
      job3.trace = skyState.job.trace ++
        [Event.intersect skyState.ray,
          Event.calculateMISWeight 0 ((skyState.job.vertices false).length + 1)
            ((skyState.job.eyeVertices ++
              [hitVertex skyEnv skyState skyFloorVertex
                (skyEnv.getSurfacePoint (mkInteraction 2 ⟨0, 0, 2⟩ ⟨0, 0, F32.fin (-1)⟩ 2))]).map
              BPTVertex.revWrites)
            (skyState.job.lightVertices.map BPTVertex.revWrites)]) ∧
    (skyState.job.vertices false).length + 1 = 3 ∧
    (∃ app : List BPTVertex,
      ((skyWalk.getD (eyeJobAt ⟨0, 0, 1⟩, ⟨0⟩)).1.vertices false).map BPTVertex.record
        = ((eyeJobAt ⟨0, 0, 1⟩).vertices false).map BPTVertex.record ++
          app.map BPTVertex.record ∧
      ∀ v ∈ app, v.surfPt.atInfinity = false) ∧
    ((skyWalk.getD (eyeJobAt ⟨0, 0, 1⟩, ⟨0⟩)).1.vertices false).map
      (fun v => (v.surfPt.m_obj, v.surfPt.atInfinity)) = [(0, false), (1, false)] :=
  ⟨match hit_at_infinity.1 skyEnv false skyState
      (mkInteraction 2 ⟨0, 0, 2⟩ ⟨0, 0, F32.fin (-1)⟩ 2) skyFloorVertex
      (by decide!) (by decide!) (by decide!) with
    | ⟨job3, _, hw, hv, _, ht⟩ => ⟨job3, hw, hv, ht rfl (by decide!)⟩,
    by decide!,
    match hit_at_infinity.2 skyEnv (eyeJobAt ⟨0, 0, 1⟩) default ⟨[1]⟩
      (mkRay ⟨0, 0, 1⟩ ⟨0, 0, F32.fin (-1)⟩) 1 default 1 false ⟨0⟩ 5
      (skyWalk.getD (eyeJobAt ⟨0, 0, 1⟩, ⟨0⟩)).1 (skyWalk.getD (eyeJobAt ⟨0, 0, 1⟩, ⟨0⟩)).2
      (by decide!) with
    | ⟨app, h1, h2, _⟩ => ⟨app, h1, h2⟩,
    by decide!⟩


/-! ## C24: the selected-wavelength flag along a walk -/

theorem Nat.lor_land_self_right (a b : Nat) : (a ||| b) &&& b = b := by
  apply Nat.eq_of_testBit_eq
  intro i
  simp only [Nat.testBit_land, Nat.testBit_lor]
  cases a.testBit i <;> cases b.testBit i <;> rfl

theorem flagsAfter_nil (L init : Nat) : flagsAfter L init [] = init := rfl

theorem flagsAfter_concat (L init : Nat) (types : List DirectionType) (ty : DirectionType) :
    flagsAfter L init (types ++ [ty])
      = if ty.isDispersive = true then flagsAfter L init types ||| L
        else flagsAfter L init types := by
  unfold flagsAfter
  rw [List.any_append]
  cases h1 : types.any DirectionType.isDispersive <;> cases h2 : ty.isDispersive <;>
    simp [h2, Nat.lor_assoc]

theorem hasLambdaSelected_flagsAfter (L init : Nat) (hL : L ≠ 0) (types : List DirectionType) :
    hasLambdaSelected L (flagsAfter L init types) = true ↔
      hasLambdaSelected L init = true ∨ ∃ ty ∈ types, ty.isDispersive = true := by
  unfold flagsAfter hasLambdaSelected
  by_cases h : types.any DirectionType.isDispersive = true
  · rw [if_pos h, Nat.lor_land_self_right]
    have hex : ∃ ty ∈ types, ty.isDispersive = true := by
      simpa [List.any_eq_true] using h
    simp [hL, hex]
  · rw [if_neg h]
    have hex : ¬ ∃ ty ∈ types, ty.isDispersive = true := by
      simpa [List.any_eq_true] using h
    simp [hex]

theorem record_after_next {vs : List BPTVertex} {prev : BPTVertex} (hv : BPTVertex)
    (ra rp : F32) (n : Nat) (hprev : vs.getLast? = some prev) :
    (vs.dropLast ++
        [{ prev with revAreaPDF := ra, revRRProb := rp, revWrites := n }, hv]).map
        BPTVertex.record
      = vs.map BPTVertex.record ++ [hv.record] := by
  conv_rhs => rw [eq_dropLast_append_of_getLast? hprev]
  simp only [List.map_append, List.map_cons, List.map_nil, List.append_assoc,
    List.singleton_append]
  rfl

/-- The wavelength flags along a walk: every appended vertex stores the initial flags with
`LambdaIsSelected` added when one of the scattering samples before it was dispersive; the
sampled types of these samples are those stored in the appended vertices after the
first. -/
theorem generateSubPath_flags (env : Env) (job : Job) (initWLs : WavelengthSamples)
    (initAlpha : SampledSpectrum) (initRay : Ray) (dirPDF : F32) (sampledType : DirectionType)
    (cosLast : F32) (adjoint : Bool) (pathSampler : IndependentLightPathSampler) (fuel : Nat)
    (job2 : Job) (ps2 : IndependentLightPathSampler)
    (h : generateSubPath env job initWLs initAlpha initRay dirPDF sampledType cosLast adjoint
      pathSampler fuel = Outcome.ok (job2, ps2)) :
    ∃ app : List BPTVertex,
      (job2.vertices adjoint).map BPTVertex.record
        = (job.vertices adjoint).map BPTVertex.record ++ app.map BPTVertex.record ∧
      ∀ k v, app[k]? = some v →
        v.wlFlags = flagsAfter env.LambdaIsSelected initWLs.flags
          (((app.take (k + 1)).drop 1).map BPTVertex.sampledType) := by
  unfold generateSubPath at h
  by_cases hz : F32.eq dirPDF 0 = true
  · rw [if_pos hz] at h
    simp only [Outcome.ok.injEq, Prod.mk.injEq] at h
    rw [← h.1]
    exact ⟨[], by simp, by simp⟩
  · rw [if_neg hz] at h
    have hstep : ∀ (app : List BPTVertex) (hv : BPTVertex) (f : Nat) (ty : DirectionType),
        (∀ k v, app[k]? = some v →
          v.wlFlags = flagsAfter env.LambdaIsSelected initWLs.flags
            (((app.take (k + 1)).drop 1).map BPTVertex.sampledType)) →
        f = flagsAfter env.LambdaIsSelected initWLs.flags
          ((app.map BPTVertex.sampledType ++ [ty]).drop 1) →
        hv.wlFlags = f → hv.sampledType = ty →
        ∀ k v, (app ++ [hv])[k]? = some v →
          v.wlFlags = flagsAfter env.LambdaIsSelected initWLs.flags
            ((((app ++ [hv]).take (k + 1)).drop 1).map BPTVertex.sampledType) := by
      intro app hv f ty hall hf hfl hty k v hk
      by_cases hlt : k < app.length
      · rw [List.getElem?_append_left hlt] at hk
        rw [List.take_append_of_le_length (by omega)]
        exact hall k v hk
      · have hlen : k < (app ++ [hv]).length := (List.getElem?_eq_some.mp hk).1
        simp only [List.length_append, List.length_singleton] at hlen
        have hke : k = app.length := by omega
        subst hke
        rw [List.getElem?_append_right (le_refl _)] at hk
        simp only [Nat.sub_self, List.getElem?_cons_zero, Option.some.injEq] at hk
        subst hk
        rw [List.take_of_length_le (by simp), hfl, hf, ← hty]
        simp [List.map_drop]
    refine walkLoop_induct env adjoint
      (fun st => ∃ app : List BPTVertex,
        (st.job.vertices adjoint).map BPTVertex.record
          = (job.vertices adjoint).map BPTVertex.record ++ app.map BPTVertex.record ∧
        (∀ k v, app[k]? = some v →
          v.wlFlags = flagsAfter env.LambdaIsSelected initWLs.flags
            (((app.take (k + 1)).drop 1).map BPTVertex.sampledType)) ∧
        st.wls.flags = flagsAfter env.LambdaIsSelected initWLs.flags
          ((app.map BPTVertex.sampledType ++ [st.sampledType]).drop 1))
      (fun j => ∃ app : List BPTVertex,
        (j.vertices adjoint).map BPTVertex.record
          = (job.vertices adjoint).map BPTVertex.record ++ app.map BPTVertex.record ∧
        ∀ k v, app[k]? = some v →
          v.wlFlags = flagsAfter env.LambdaIsSelected initWLs.flags
            (((app.take (k + 1)).drop 1).map BPTVertex.sampledType))
      ?_ ?_ fuel _ job2 ps2 ⟨[], by simp, by simp, by simp [flagsAfter_nil]⟩ h
    · intro st st2 ⟨app, hm, hall, hfl⟩ hres
      have hw := walkIter_cases env adjoint st
      rw [hres] at hw
      simp only [] at hw
      obtain ⟨prev, si, ra, rp, ty, hprev, _, _, hvs, hty, hwls⟩ := hw
      refine ⟨app ++ [hitVertex env st prev (env.getSurfacePoint si)], ?_, ?_, ?_⟩
      · rw [hvs, record_after_next _ ra rp _ hprev, hm]
        simp
      · exact hstep app _ _ st.sampledType hall hfl rfl rfl
      · rw [hwls, hty]
        have hne : (app.map BPTVertex.sampledType ++ [st.sampledType]) ≠ [] := by simp
        have hdrop : ((app ++ [hitVertex env st prev (env.getSurfacePoint si)]).map
            BPTVertex.sampledType ++ [ty]).drop 1
            = (app.map BPTVertex.sampledType ++ [st.sampledType]).drop 1 ++ [ty] := by
          rw [List.map_append]
          cases app with
          | nil => rfl
          | cons a l => rfl
        rw [hdrop, flagsAfter_concat, ← hfl]
        split_ifs <;> rfl
    · intro st j ps ⟨app, hm, hall, hfl⟩ hres
      have hw := walkIter_cases env adjoint st
      rw [hres] at hw
      simp only [] at hw
      rcases hw with hw | ⟨prev, si, _, _, _, hw⟩
      · exact ⟨app, by rw [hw, hm], hall⟩
      · refine ⟨app ++ [hitVertex env st prev (env.getSurfacePoint si)], ?_, ?_⟩
        · rw [hw, List.map_append, hm]
          simp
        · exact hstep app _ _ st.sampledType hall hfl rfl rfl

/-- The dispersive samples among the steps `1..k` of a list of vertices, by index. -/
theorem exists_dispersive_iff (W : List BPTVertex) (k : Nat) :
    (∃ ty ∈ ((W.take (k + 1)).drop 1).map BPTVertex.sampledType, ty.isDispersive = true) ↔
      ∃ j w, 1 ≤ j ∧ j ≤ k ∧ W[j]? = some w ∧ w.sampledType.isDispersive = true := by
  constructor
  · rintro ⟨ty, hty, hd⟩
    rw [List.mem_map] at hty
    obtain ⟨w, hw, rfl⟩ := hty
    rw [List.mem_iff_getElem?] at hw
    obtain ⟨i, hi⟩ := hw
    rw [List.getElem?_drop, List.getElem?_take] at hi
    by_cases hlt : 1 + i < k + 1
    · rw [if_pos hlt] at hi
      exact ⟨1 + i, w, by omega, by omega, hi, hd⟩
    · rw [if_neg hlt] at hi
      simp at hi
  · rintro ⟨j, w, hj1, hjk, hw, hd⟩
    refine ⟨w.sampledType, ?_, hd⟩
    rw [List.mem_map]
    refine ⟨w, ?_, rfl⟩
    rw [List.mem_iff_getElem?]
    refine ⟨j - 1, ?_⟩
    rw [List.getElem?_drop, List.getElem?_take]
    have h1 : 1 + (j - 1) = j := by omega
    rw [h1, if_pos (by omega)]
    exact hw

/-- C24.  Let `L` be the flag `LambdaIsSelected`, a nonzero constant.  (1) An iteration
that continues the walk appends a vertex that stores the wavelength flags and the sampled
type which the loop carries, and the loop then carries the sampled type of the scattering
sample of this iteration and the same flags, with `L` added when that sample is
dispersive.  (2) After a walk that ends normally, let `W` be the vertices that the walk
appended and left, in order.  The vertex `W[k]` stores the initial flags, with `L` added
when one of the scattering samples before it was dispersive; the types of these samples
are stored in `W[1], ..., W[k]`.  So `W[k]` carries `L` exactly when the initial flags
carry it or one of these samples was dispersive, and if `W[k]` carries `L` so does every
vertex appended after it. -/
theorem selected_wavelength_monotone :
    (∀ (env : Env) (adjoint : Bool) (st : WalkState) (si : SurfaceInteraction)
      (prev : BPTVertex) (bsdfSmp : BSDFSample) (ps1 ps2 : IndependentLightPathSampler)
      (fs : SampledSpectrum) (fsResult : BSDFQueryResult) (u : F32),
      env.intersect st.ray = some si →
      (st.job.vertices adjoint).getLast? = some prev →
      (env.getSurfacePoint si).atInfinity = false →
      env.getBSDFSample st.pathSampler = (bsdfSmp, ps1) →
      env.bsdfSample (env.createBSDF (env.getSurfacePoint si) st.wls)
        ⟨(env.getSurfacePoint si).toLocal (-st.ray.dir),
          (env.getSurfacePoint si).getLocalGeometricNormal, st.wls.selectedLambda, adjoint⟩
        bsdfSmp = (fs, fsResult) →
      (fs.isZero || F32.eq fsResult.dirPDF 0) = false →
      env.getPathTerminationSample ps1 = (u, ps2) →
      F32.lt u (F32.min (env.importance
        (fs.scale (absDot fsResult.dirLocal (env.getSurfacePoint si).getLocalGeometricNormal /
          fsResult.dirPDF)) st.job.wlHint) 1) = true →
      ∃ st2 v, walkIter env adjoint st = IterResult.next st2 ∧
        (st2.job.vertices adjoint).getLast? = some v ∧
        v.wlFlags = st.wls.flags ∧ v.sampledType = st.sampledType ∧
        st2.sampledType = fsResult.sampledType ∧
        st2.wls.flags = (if fsResult.sampledType.isDispersive = true
          then st.wls.flags ||| env.LambdaIsSelected else st.wls.flags)) ∧
    (∀ (env : Env) (job : Job) (initWLs : WavelengthSamples) (initAlpha : SampledSpectrum)
      (initRay : Ray) (dirPDF : F32) (sampledType : DirectionType) (cosLast : F32)
      (adjoint : Bool) (pathSampler : IndependentLightPathSampler) (fuel : Nat) (job2 : Job)
      (ps2 : IndependentLightPathSampler),
      env.LambdaIsSelected ≠ 0 →
      generateSubPath env job initWLs initAlpha initRay dirPDF sampledType cosLast adjoint
        pathSampler fuel = Outcome.ok (job2, ps2) →
      ∀ k v, ((job2.vertices adjoint).drop (job.vertices adjoint).length)[k]? = some v →
        v.wlFlags = flagsAfter env.LambdaIsSelected initWLs.flags
          (((((job2.vertices adjoint).drop (job.vertices adjoint).length).take (k + 1)).drop
            1).map BPTVertex.sampledType) ∧
        (hasLambdaSelected env.LambdaIsSelected v.wlFlags = true ↔
          hasLambdaSelected env.LambdaIsSelected initWLs.flags = true ∨
          ∃ j w, 1 ≤ j ∧ j ≤ k ∧
            ((job2.vertices adjoint).drop (job.vertices adjoint).length)[j]? = some w ∧
            w.sampledType.isDispersive = true) ∧
        (hasLambdaSelected env.LambdaIsSelected v.wlFlags = true →
          ∀ k2 v2, k ≤ k2 →
            ((job2.vertices adjoint).drop (job.vertices adjoint).length)[k2]? = some v2 →
            hasLambdaSelected env.LambdaIsSelected v2.wlFlags = true)) := by
  constructor
  · intro env adjoint st si prev bsdfSmp ps1 ps2 fs fsResult u hsi hprev hinf hsmp hfs hnz hu hlt
    obtain ⟨job3, hmain, _, hwl, hiter⟩ := walkIter_hit env adjoint st si prev hsi hprev
    have hinf2 : ¬ (env.getSurfacePoint si).atInfinity = true := by simp [hinf]
    rw [if_neg hinf2] at hiter
    obtain ⟨h2, hp⟩ := penultimate_after_append
      (hitVertex env st prev (env.getSurfacePoint si)) hprev
    rw [← hmain] at h2 hp
    have hnz2 : ¬ (fs.isZero || F32.eq fsResult.dirPDF 0) = true := by simp [hnz]
    rw [scatterStep_eqns env job3 st adjoint _ _ _ _ _ prev bsdfSmp ps1 ps2 fs fsResult u h2 hp
      hsmp hfs hu, if_neg hnz2, hwl, if_pos hlt] at hiter
    refine ⟨_, hitVertex env st prev (env.getSurfacePoint si), hiter, ?_, rfl, rfl, rfl, ?_⟩
    · simp only [Job.vertices_setVertices]
      rw [hmain]
      conv_lhs => rw [eq_dropLast_append_of_getLast? hprev]
      rw [set_penultimate]
      simp
    · simp only []
      split_ifs <;> rfl
  · intro env job initWLs initAlpha initRay dirPDF sampledType cosLast adjoint pathSampler fuel
      job2 ps2 hL h
    obtain ⟨app, hrec, hall⟩ := generateSubPath_flags env job initWLs initAlpha initRay dirPDF
      sampledType cosLast adjoint pathSampler fuel job2 ps2 h
    have hW : ((job2.vertices adjoint).drop (job.vertices adjoint).length).map BPTVertex.record
        = app.map BPTVertex.record := by
      rw [List.map_drop, hrec]
      have hl : (job.vertices adjoint).length
          = ((job.vertices adjoint).map BPTVertex.record).length := by simp
      rw [hl, List.drop_left]
    have hST : ((job2.vertices adjoint).drop (job.vertices adjoint).length).map
        BPTVertex.sampledType = app.map BPTVertex.sampledType := by
      have := congrArg (List.map (fun r : SurfacePoint × Vector3D × Normal3D × DDFProxy ×
        SampledSpectrum × F32 × F32 × DirectionType × Nat => r.2.2.2.2.2.2.2.1)) hW
      simpa [List.map_map, Function.comp, BPTVertex.record] using this
    have hval : ∀ k v,
        ((job2.vertices adjoint).drop (job.vertices adjoint).length)[k]? = some v →
        v.wlFlags = flagsAfter env.LambdaIsSelected initWLs.flags
          (((((job2.vertices adjoint).drop (job.vertices adjoint).length).take (k + 1)).drop
            1).map BPTVertex.sampledType) := by
      intro k v hk
      have hr : (app.map BPTVertex.record)[k]? = some v.record := by
        rw [← hW, List.getElem?_map, hk]
        rfl
      rw [List.getElem?_map] at hr
      cases ha : app[k]? with
      | none => rw [ha] at hr; simp at hr
      | some a =>
        rw [ha] at hr
        simp only [Option.map_some', Option.some.injEq] at hr
        have hfl : a.wlFlags = v.wlFlags := congrArg (fun r => r.2.2.2.2.2.2.2.2) hr
        rw [← hfl, hall k a ha]
        simp only [List.map_drop, List.map_take, hST]
    have hiff : ∀ k v,
        ((job2.vertices adjoint).drop (job.vertices adjoint).length)[k]? = some v →
        (hasLambdaSelected env.LambdaIsSelected v.wlFlags = true ↔
          hasLambdaSelected env.LambdaIsSelected initWLs.flags = true ∨
          ∃ j w, 1 ≤ j ∧ j ≤ k ∧
            ((job2.vertices adjoint).drop (job.vertices adjoint).length)[j]? = some w ∧
            w.sampledType.isDispersive = true) := by
      intro k v hk
      rw [hval k v hk, hasLambdaSelected_flagsAfter _ _ hL, exists_dispersive_iff]
    intro k v hk
    refine ⟨hval k v hk, hiff k v hk, ?_⟩
    intro hc k2 v2 hk2 hv2
    rw [hiff k2 v2 hv2]
    rcases (hiff k v hk).mp hc with h0 | ⟨j, w, hj1, hjk, hw, hd⟩
    · exact Or.inl h0
    · exact Or.inr ⟨j, w, hj1, by omega, hw, hd⟩

/-- C24 at a concrete input: in the scene with the dispersive floor the walk appends the
floor vertex, which stores the initial flags 0, and the ceiling vertex, which stores the
sampled type of the dispersive sample drawn at the floor and the flags `0 ||| 1`: it
carries the flag because of that sample, the initial flags do not carry it. -/
theorem selected_wavelength_monotone_witness :
    prismAppended.map (fun v => (v.wlFlags, v.sampledType.isDispersive))
      = [(0, false), (1, true)] ∧
    (hasLambdaSelected prismEnv.LambdaIsSelected (prismAppended.getD 1 default).wlFlags = true ↔
      hasLambdaSelected prismEnv.LambdaIsSelected (default : WavelengthSamples).flags = true ∨
      ∃ j w, 1 ≤ j ∧ j ≤ 1 ∧ prismAppended[j]? = some w ∧ w.sampledType.isDispersive = true) ∧
    hasLambdaSelected prismEnv.LambdaIsSelected (prismAppended.getD 1 default).wlFlags = true ∧
    hasLambdaSelected prismEnv.LambdaIsSelected (default : WavelengthSamples).flags = false :=
  ⟨by decide!,
    (selected_wavelength_monotone.2 prismEnv (eyeJobAt ⟨0, 0, 1⟩) default ⟨[1]⟩
      (mkRay ⟨0, 0, 1⟩ ⟨0, 0, F32.fin (-1)⟩) 1 default 1 false ⟨0⟩ 5
      (prismWalk.getD (eyeJobAt ⟨0, 0, 1⟩, ⟨0⟩)).1 (prismWalk.getD (eyeJobAt ⟨0, 0, 1⟩, ⟨0⟩)).2
      (by decide) (by decide!) 1 (prismAppended.getD 1 default) (by decide!)).2.1,
    by decide!, by decide!⟩


/-! ## C25: stored vertices are not modified -/

theorem getElem?_dropLast_append {α : Type} (vs : List α) (tail : List α) (i : Nat)
    (hi : i + 1 < vs.length) : (vs.dropLast ++ tail)[i]? = vs[i]? := by
  rw [List.getElem?_append_left (by rw [List.length_dropLast]; omega)]
  rw [List.dropLast_eq_take, List.getElem?_take, if_pos (by omega)]

/-- A walk that ends normally leaves the other vector as it is, and leaves as they are the
vertices of its own vector that precede the last vertex it was given. -/
theorem generateSubPath_frame (env : Env) (job : Job) (initWLs : WavelengthSamples)
    (initAlpha : SampledSpectrum) (initRay : Ray) (dirPDF : F32) (sampledType : DirectionType)
    (cosLast : F32) (adjoint : Bool) (pathSampler : IndependentLightPathSampler) (fuel : Nat)
    (job2 : Job) (ps2 : IndependentLightPathSampler)
    (h : generateSubPath env job initWLs initAlpha initRay dirPDF sampledType cosLast adjoint
      pathSampler fuel = Outcome.ok (job2, ps2)) :
    job2.vertices (!adjoint) = job.vertices (!adjoint) ∧
    (job.vertices adjoint).length ≤ (job2.vertices adjoint).length ∧
    ∀ i, i + 1 < (job.vertices adjoint).length →
      (job2.vertices adjoint)[i]? = (job.vertices adjoint)[i]? := by
  unfold generateSubPath at h
  by_cases hz : F32.eq dirPDF 0 = true
  · rw [if_pos hz] at h
    simp only [Outcome.ok.injEq, Prod.mk.injEq] at h
    rw [← h.1]
    exact ⟨rfl, le_refl _, fun _ _ => rfl⟩
  · rw [if_neg hz] at h
    refine walkLoop_induct env adjoint
      (fun st => st.job.vertices (!adjoint) = job.vertices (!adjoint) ∧
        (job.vertices adjoint).length ≤ (st.job.vertices adjoint).length ∧
        ∀ i, i + 1 < (job.vertices adjoint).length →
          (st.job.vertices adjoint)[i]? = (job.vertices adjoint)[i]?)
      (fun j => j.vertices (!adjoint) = job.vertices (!adjoint) ∧
        (job.vertices adjoint).length ≤ (j.vertices adjoint).length ∧
        ∀ i, i + 1 < (job.vertices adjoint).length →
          (j.vertices adjoint)[i]? = (job.vertices adjoint)[i]?)
      ?_ ?_ fuel _ job2 ps2 ⟨rfl, le_refl _, fun _ _ => rfl⟩ h
    · intro st st2 ⟨ho, hlen, hpre⟩ hres
      have hw := walkIter_cases env adjoint st
      have hs := walkIter_spec env adjoint st
      rw [hres] at hw hs
      simp only [] at hw hs
      obtain ⟨prev, si, ra, rp, ty, hprev, _, _, hvs, _, _⟩ := hw
      have hpos : 1 ≤ (st.job.vertices adjoint).length := by
        cases hl : st.job.vertices adjoint with
        | nil => rw [hl] at hprev; simp at hprev
        | cons a l => simp
      refine ⟨hs.1.trans ho, ?_, ?_⟩
      · rw [hvs]
        simp only [List.length_append, List.length_dropLast, List.length_cons,
          List.length_nil]
        omega
      · intro i hi
        rw [hvs, getElem?_dropLast_append _ _ i (by omega)]
        exact hpre i hi
    · intro st j ps ⟨ho, hlen, hpre⟩ hres
      have hw := walkIter_cases env adjoint st
      have hs := walkIter_spec env adjoint st
      rw [hres] at hw hs
      simp only [] at hw hs
      refine ⟨hs.1.trans ho, ?_, ?_⟩
      · rcases hw with hw | ⟨prev, si, _, _, _, hw⟩
        · rw [hw]; exact hlen
        · rw [hw]; simp only [List.length_append, List.length_singleton]; omega
      · intro i hi
        rcases hw with hw | ⟨prev, si, _, _, _, hw⟩
        · rw [hw]; exact hpre i hi
        · rw [hw, List.getElem?_append_left (by omega)]
          exact hpre i hi

/-- C25.  (1) One iteration of the loop of `generateSubPath` leaves the other vector as it
is.  When it ends the walk, its own vector is as it was (no hit, or the vertex just
appended at a hit at infinity removed again) or has one vertex appended at its end.  When
it continues, the vector has one vertex appended at its end, of the vertices it held the
last one has its two reverse members written, all the constructor members of all of them
are as they were, in the same order, and every vertex before the former last one is as it
was in every member.  (2) After a call that ends normally the other vector is as it was,
the vector holds the constructor members (point, incoming direction, geometric normal,
distribution, alpha, areaPDF, RRProb, sampled type, wavelength flags) of the vertices it
held on entry, the origin included, in their order, followed by those of the appended
vertices, and every vertex before the last one held on entry is as it was in every
member. -/
theorem stored_vertices_immutable :
    (∀ (env : Env) (adjoint : Bool) (st : WalkState),
      match walkIter env adjoint st with
      | IterResult.fault => True
      | IterResult.done job2 _ =>
        job2.vertices (!adjoint) = st.job.vertices (!adjoint) ∧
        (job2.vertices adjoint = st.job.vertices adjoint ∨
          ∃ hv, job2.vertices adjoint = st.job.vertices adjoint ++ [hv])
      | IterResult.next st2 =>
        st2.job.vertices (!adjoint) = st.job.vertices (!adjoint) ∧
        ∃ prev ra rp hv, (st.job.vertices adjoint).getLast? = some prev ∧
          st2.job.vertices adjoint = (st.job.vertices adjoint).dropLast ++
            [{ prev with revAreaPDF := ra, revRRProb := rp, revWrites := prev.revWrites + 1 },
              hv] ∧
          (st2.job.vertices adjoint).map BPTVertex.record
            = (st.job.vertices adjoint).map BPTVertex.record ++ [hv.record] ∧
          ∀ i, i + 1 < (st.job.vertices adjoint).length →
            (st2.job.vertices adjoint)[i]? = (st.job.vertices adjoint)[i]?) ∧
    (∀ (env : Env) (job : Job) (initWLs : WavelengthSamples) (initAlpha : SampledSpectrum)
      (initRay : Ray) (dirPDF : F32) (sampledType : DirectionType) (cosLast : F32)
      (adjoint : Bool) (pathSampler : IndependentLightPathSampler) (fuel : Nat) (job2 : Job)
      (ps2 : IndependentLightPathSampler),
      generateSubPath env job initWLs initAlpha initRay dirPDF sampledType cosLast adjoint
        pathSampler fuel = Outcome.ok (job2, ps2) →
      job2.vertices (!adjoint) = job.vertices (!adjoint) ∧
      (∃ app : List BPTVertex,
        (job2.vertices adjoint).map BPTVertex.record
          = (job.vertices adjoint).map BPTVertex.record ++ app.map BPTVertex.record) ∧
      ∀ i, i + 1 < (job.vertices adjoint).length →
        (job2.vertices adjoint)[i]? = (job.vertices adjoint)[i]?) := by
  constructor
  · intro env adjoint st
    have hw := walkIter_cases env adjoint st
    have hs := walkIter_spec env adjoint st
    cases hres : walkIter env adjoint st with
    | fault => trivial
    | done job2 ps2 =>
      rw [hres] at hw hs
      simp only [] at hw hs ⊢
      refine ⟨hs.1, ?_⟩
      rcases hw with hw | ⟨prev, si, _, _, _, hw⟩
      · exact Or.inl hw
      · exact Or.inr ⟨_, hw⟩
    | next st2 =>
      rw [hres] at hw hs
      simp only [] at hw hs ⊢
      obtain ⟨prev, si, ra, rp, ty, hprev, _, _, hvs, _, _⟩ := hw
      refine ⟨hs.1, prev, ra, rp, _, hprev, hvs, ?_, ?_⟩
      · rw [hvs, record_after_next _ ra rp _ hprev]
      · intro i hi
        rw [hvs, getElem?_dropLast_append _ _ i hi]
  · intro env job initWLs initAlpha initRay dirPDF sampledType cosLast adjoint pathSampler fuel
      job2 ps2 h
    obtain ⟨ho, _, hpre⟩ := generateSubPath_frame env job initWLs initAlpha initRay dirPDF
      sampledType cosLast adjoint pathSampler fuel job2 ps2 h
    obtain ⟨app, hrec, _⟩ := generateSubPath_record env job initWLs initAlpha initRay dirPDF
      sampledType cosLast adjoint pathSampler fuel job2 ps2 h
    exact ⟨ho, ⟨app, hrec⟩, hpre⟩

/-- C25 at a concrete input: the eye walk of the examples in the scene of the two planes
keeps the constructor members of the origin vertex, which it was given, and appends two
vertices after it; the reverse members of the origin and of the first appended vertex
have been written once, those of the last vertex not at all. -/
theorem stored_vertices_immutable_witness :
    (twoPlaneWalk.getD (eyeJobAt ⟨0, 0, 1⟩, ⟨0⟩)).1.vertices (!false)
      = (eyeJobAt ⟨0, 0, 1⟩).vertices (!false) ∧
    (∃ app : List BPTVertex,
      ((twoPlaneWalk.getD (eyeJobAt ⟨0, 0, 1⟩, ⟨0⟩)).1.vertices false).map BPTVertex.record
        = ((eyeJobAt ⟨0, 0, 1⟩).vertices false).map BPTVertex.record ++
          app.map BPTVertex.record) ∧
    ((twoPlaneWalk.getD (eyeJobAt ⟨0, 0, 1⟩, ⟨0⟩)).1.vertices false).map BPTVertex.revWrites
      = [1, 1, 0] :=
  ⟨(stored_vertices_immutable.2 twoPlaneEnv (eyeJobAt ⟨0, 0, 1⟩) default ⟨[1]⟩
      (mkRay ⟨0, 0, 1⟩ ⟨0, 0, F32.fin (-1)⟩) 1 default 1 false ⟨0⟩ 5
      (twoPlaneWalk.getD (eyeJobAt ⟨0, 0, 1⟩, ⟨0⟩)).1
      (twoPlaneWalk.getD (eyeJobAt ⟨0, 0, 1⟩, ⟨0⟩)).2 (by decide!)).1,
    (stored_vertices_immutable.2 twoPlaneEnv (eyeJobAt ⟨0, 0, 1⟩) default ⟨[1]⟩
      (mkRay ⟨0, 0, 1⟩ ⟨0, 0, F32.fin (-1)⟩) 1 default 1 false ⟨0⟩ 5
      (twoPlaneWalk.getD (eyeJobAt ⟨0, 0, 1⟩, ⟨0⟩)).1
      (twoPlaneWalk.getD (eyeJobAt ⟨0, 0, 1⟩, ⟨0⟩)).2 (by decide!)).2.1,
    by decide!⟩


/-! ## C26: the accesses to the vertex vectors are in range -/

theorem toUInt32_natCast (j : Nat) (hj : j < 2 ^ 31) : toUInt32 (j : Int) = j := by
  unfold toUInt32
  have h : ((j : Int) % 2 ^ 32) = (j : Int) := Int.emod_eq_of_lt (by omega) (by omega)
  rw [h]
  simp

theorem toSizeT_natCast (j : Nat) (hj : j < 2 ^ 31) : toSizeT (j : Int) = j := by
  unfold toSizeT
  have h : ((j : Int) % 2 ^ 64) = (j : Int) := Int.emod_eq_of_lt (by omega) (by omega)
  rw [h]
  simp

theorem toInt32_of_lt (u : Nat) (hu : u < 2 ^ 31) : toInt32 u = (u : Int) := by
  unfold toInt32
  have h : u % 2 ^ 32 = u := Nat.mod_eq_of_lt (by omega)
  rw [h, if_pos hu]

theorem range_map_succ {β : Type} (f : Nat → β) (k : Nat) :
    (List.range (k + 1)).map f = f 0 :: (List.range k).map (fun i => f (i + 1)) := by
  rw [List.range_succ_eq_map, List.map_cons, List.map_map]
  rfl

/-- The loop of `extendAndShorten`, entered with a counter `j` between `minNumVertices` and
`2 ^ 31`, ends after `j - minNumVertices` iterations; the counter takes the values
`j, j - 1, ..., minNumVertices + 1` and the subscripts are one less. -/
theorem shortenLoopReads_eq (m : Nat) (fuel j : Nat) (hj : j < 2 ^ 31) (hm : m ≤ j)
    (hfuel : j - m < fuel) :
    shortenLoopReads m fuel (j : Int)
      = some ((List.range (j - m)).map (fun k => (((j - k : Nat) : Int), j - 1 - k))) := by
  induction fuel generalizing j with
  | zero => omega
  | succ fuel ih =>
    unfold shortenLoopReads
    rw [toUInt32_natCast j hj]
    by_cases hgt : j > m
    · rw [if_pos hgt]
      have hno : ¬ ((j : Int) - 1 < -(2 ^ 31)) := by omega
      rw [if_neg hno]
      have hcast : (j : Int) - 1 = ((j - 1 : Nat) : Int) := by omega
      rw [hcast, ih (j - 1) (by omega) (by omega) (by omega), toSizeT_natCast (j - 1) (by omega)]
      simp only []
      have hr : j - m = (j - 1 - m) + 1 := by omega
      rw [hr, range_map_succ]
      simp only [Option.some.injEq, List.cons.injEq, Prod.mk.injEq]
      refine ⟨⟨by omega, by omega⟩, ?_⟩
      apply List.map_congr_left
      intro k _
      simp only [Prod.mk.injEq]
      constructor
      · congr 1
        omega
      · omega
    · rw [if_neg hgt]
      have h0 : j - m = 0 := by omega
      rw [h0]
      rfl

/-- The subscripts of `extendAndShorten` for a count of at most `2 ^ 31 + 1`: they are
`numVertices - 1, numVertices - 2, ..., minNumVertices`, each once. -/
theorem extendAndShortenReads_eq (n m : Nat) (hn : n ≤ 2 ^ 31 + 1) :
    extendAndShortenReads n m = some ((List.range (n - m)).map (fun k => n - 1 - k)) := by
  unfold extendAndShortenReads
  by_cases h1 : n > m
  · rw [if_pos h1]
    have hf : (n + 2 ^ 32 - 1) % 2 ^ 32 = n - 1 := by
      have : n + 2 ^ 32 - 1 = (n - 1) + 2 ^ 32 := by omega
      rw [this, Nat.add_mod_right, Nat.mod_eq_of_lt (by omega)]
    dsimp only
    rw [hf]
    by_cases h2 : n - 1 > m
    · rw [if_pos h2]
      have hs : (n + 2 ^ 32 - 2) % 2 ^ 32 = n - 2 := by
        have : n + 2 ^ 32 - 2 = (n - 2) + 2 ^ 32 := by omega
        rw [this, Nat.add_mod_right, Nat.mod_eq_of_lt (by omega)]
      rw [hs, toInt32_of_lt (n - 2) (by omega),
        shortenLoopReads_eq m (n + 1) (n - 2) (by omega) (by omega) (by omega)]
      have hr : n - m = (n - 2 - m) + 1 + 1 := by omega
      rw [hr, range_map_succ, range_map_succ]
      simp only [List.map_map, Option.some.injEq, List.cons.injEq]
      refine ⟨by omega, by omega, ?_⟩
      apply List.map_congr_left
      intro k _
      simp only [Function.comp]
      omega
    · rw [if_neg h2]
      have hr : n - m = 1 := by omega
      rw [hr]
      rfl
  · rw [if_neg h1]
    have hr : n - m = 0 := by omega
    rw [hr]
    rfl

/-- The loop of `generateSubPath` makes no access outside its vector when it is entered
with a vector that is not empty. -/
theorem walkLoop_no_fault (env : Env) (adjoint : Bool) (fuel : Nat) (st : WalkState)
    (hne : st.job.vertices adjoint ≠ []) : walkLoop env adjoint fuel st ≠ Outcome.fault := by
  induction fuel generalizing st with
  | zero => simp [walkLoop]
  | succ fuel ih =>
    unfold walkLoop
    have hw := walkIter_cases env adjoint st
    cases hres : walkIter env adjoint st with
    | fault =>
      rw [hres] at hw
      exact absurd hw hne
    | done job2 ps2 => simp
    | next st2 =>
      rw [hres] at hw
      simp only [] at hw ⊢
      obtain ⟨prev, si, ra, rp, ty, _, _, _, hvs, _, _⟩ := hw
      apply ih
      rw [hvs]
      simp

theorem generateSubPath_no_fault (env : Env) (job : Job) (initWLs : WavelengthSamples)
    (initAlpha : SampledSpectrum) (initRay : Ray) (dirPDF : F32) (sampledType : DirectionType)
    (cosLast : F32) (adjoint : Bool) (pathSampler : IndependentLightPathSampler) (fuel : Nat)
    (hne : job.vertices adjoint ≠ []) :
    generateSubPath env job initWLs initAlpha initRay dirPDF sampledType cosLast adjoint
      pathSampler fuel ≠ Outcome.fault := by
  unfold generateSubPath
  split_ifs
  · simp
  · exact walkLoop_no_fault env adjoint fuel _ hne

/-- C26, as stated, fails for a count that no `int` holds.  With `numVertices = 2 ^ 31 + 2`
and the minimum 1 the first two subscripts are `2 ^ 31 + 1` and `2 ^ 31`, the counter of the
loop starts at `numVertices - 2` converted to `int`, which is `-(2 ^ 31)`, a negative value;
the comparison, made in `uint32_t`, lets the loop run, and the subscript `i - 1` overflows
`int`.  With `numVertices = 2 ^ 31 + 1` the counter starts at `2 ^ 31 - 1` and nothing
wraps. -/
theorem loop_counter_wraps_counterexample :
    (2 ^ 31 + 2 + 2 ^ 32 - 1) % 2 ^ 32 = 2 ^ 31 + 1 ∧
    (2 ^ 31 + 2 + 2 ^ 32 - 2) % 2 ^ 32 = 2 ^ 31 ∧
    toInt32 ((2 ^ 31 + 2 + 2 ^ 32 - 2) % 2 ^ 32) = -(2 ^ 31) ∧
    decide (toUInt32 (-(2 ^ 31)) > 1) = true ∧
    decide ((-(2 ^ 31) : Int) - 1 < -(2 ^ 31)) = true ∧
    extendAndShortenReads (2 ^ 31 + 2) 1 = none ∧
    toInt32 ((2 ^ 31 + 1 + 2 ^ 32 - 2) % 2 ^ 32) = 2 ^ 31 - 1 := by
  decide!

/-- C26 (amended).  (1) An iteration of the loop of `generateSubPath` that starts with a vector that
is not empty makes no access outside it (`vertices.back()` and `vertices[size - 2]`
exist), and leaves at least two vertices when it continues; so a call of `generateSubPath`
with a vector that is not empty never ends in such an access, whatever the bound on the
loop, and neither do the two walks of a pixel, which register the origin vertex first.
(2) In the body of the connection loop, for `1 ≤ t ≤ |eyeVertices|` and
`1 ≤ s ≤ |lightVertices|`, the vertices `eyeVertices[t - 1]` and `lightVertices[s - 1]`
exist, so do `eyeVertices[t - 2]` when `t > 1` and `lightVertices[s - 2]` when `s > 1`, the
body ends without an access outside a vector, and so does the whole loop.  (3) In
`extendAndShorten` with `numVertices` at most `2 ^ 31 + 1` (the range in which the conversion
of `numVertices - 2` to `int` keeps its value), the subscripts computed in the arithmetic of
the program are `numVertices - 1, numVertices - 2, ..., minNumVertices`: each lies between
`minNumVertices` and `numVertices - 1`, hence inside a vector of at least `numVertices`
vertices; the loop ends; its counter takes values from `minNumVertices + 1` up to
`numVertices - 2` only, never a negative one, and each subscript of the loop is the counter
minus one without wrapping.  Accordingly `extendAndShorten` returns a value for every
vector of at least `numVertices` vertices. -/
theorem vertex_accesses_in_range :
    ((∀ (env : Env) (adjoint : Bool) (st : WalkState), st.job.vertices adjoint ≠ [] →
        walkIter env adjoint st ≠ IterResult.fault ∧
        ∀ st2, walkIter env adjoint st = IterResult.next st2 →
          2 ≤ (st2.job.vertices adjoint).length) ∧
      (∀ (env : Env) (job : Job) (initWLs : WavelengthSamples) (initAlpha : SampledSpectrum)
        (initRay : Ray) (dirPDF : F32) (sampledType : DirectionType) (cosLast : F32)
        (adjoint : Bool) (pathSampler : IndependentLightPathSampler) (fuel : Nat),
        job.vertices adjoint ≠ [] →
        generateSubPath env job initWLs initAlpha initRay dirPDF sampledType cosLast adjoint
          pathSampler fuel ≠ Outcome.fault) ∧
      (∀ (env : Env) (job : Job) (wls : WavelengthSamples) (selectWLPDF : F32)
        (lightSmp : LightRaySample) (lensSmp : LensRaySample)
        (pathSampler : IndependentLightPathSampler) (fuel : Nat),
        lightSubPath env job wls lightSmp pathSampler fuel ≠ Outcome.fault ∧
        eyeSubPath env job wls selectWLPDF lensSmp pathSampler fuel ≠ Outcome.fault)) ∧
    (∀ (env : ConnectEnv) (job : Job) (threadID : Nat) (time : F32) (wls : WavelengthSamples)
      (p : PixelPosition),
      (∀ t s, 1 ≤ t → t ≤ job.eyeVertices.length → 1 ≤ s → s ≤ job.lightVertices.length →
        (∃ eVtx, job.eyeVertices[t - 1]? = some eVtx) ∧
        (∃ lVtx, job.lightVertices[s - 1]? = some lVtx) ∧
        (1 < t → ∃ v, job.eyeVertices[t - 2]? = some v) ∧
        (1 < s → ∃ v, job.lightVertices[s - 2]? = some v) ∧
        ∃ job2, connectPair env job threadID time wls p t s = some job2) ∧
      ∃ job2, connectionLoop env job threadID time wls p = some job2) ∧
    (∀ n m : Nat, n ≤ 2 ^ 31 + 1 →
      extendAndShortenReads n m = some ((List.range (n - m)).map (fun k => n - 1 - k)) ∧
      (∀ idx ∈ (List.range (n - m)).map (fun k => n - 1 - k), m ≤ idx ∧ idx ≤ n - 1) ∧
      (m + 2 ≤ n →
        ∃ reads, shortenLoopReads m (n + 1) (toInt32 ((n + 2 ^ 32 - 2) % 2 ^ 32)) = some reads ∧
          ∀ q ∈ reads, (m : Int) + 1 ≤ q.1 ∧ q.1 ≤ (n : Int) - 2 ∧ (q.2 : Int) = q.1 - 1) ∧
      ∀ (x1A x1R x2A x2R r : F32) (sub : List BPTVertex), n ≤ sub.length →
        ∃ r2, extendAndShorten x1A x1R x2A x2R sub n m r = some r2) := by
  refine ⟨⟨?_, ?_, ?_⟩, ?_, ?_⟩
  · intro env adjoint st hne
    have hw := walkIter_cases env adjoint st
    constructor
    · intro hf
      rw [hf] at hw
      exact hne hw
    · intro st2 hres
      rw [hres] at hw
      simp only [] at hw
      obtain ⟨prev, si, ra, rp, ty, _, _, _, hvs, _, _⟩ := hw
      rw [hvs]
      simp
  · intro env job initWLs initAlpha initRay dirPDF sampledType cosLast adjoint pathSampler fuel
      hne
    exact generateSubPath_no_fault env job initWLs initAlpha initRay dirPDF sampledType cosLast
      adjoint pathSampler fuel hne
  · intro env job wls selectWLPDF lightSmp lensSmp pathSampler fuel
    constructor
    · unfold lightSubPath
      exact generateSubPath_no_fault env _ wls _ _ _ _ _ true pathSampler fuel
        (by simp [Job.vertices])
    · unfold eyeSubPath
      exact generateSubPath_no_fault env _ wls _ _ _ _ _ false pathSampler fuel
        (by simp [Job.vertices])
  · intro env job threadID time wls p
    constructor
    · intro t s ht1 ht hs1 hs
      obtain ⟨job2, hj, _, _⟩ := connectPair_isSome env job threadID time wls p t s ht1 ht hs1 hs
      exact ⟨⟨_, List.getElem?_eq_getElem (by omega)⟩, ⟨_, List.getElem?_eq_getElem (by omega)⟩,
        fun _ => ⟨_, List.getElem?_eq_getElem (by omega)⟩,
        fun _ => ⟨_, List.getElem?_eq_getElem (by omega)⟩, job2, hj⟩
    · obtain ⟨job2, hj, _, _⟩ := connectionLoop_isSome env job threadID time wls p
      exact ⟨job2, hj⟩
  · intro n m hn
    refine ⟨extendAndShortenReads_eq n m hn, ?_, ?_, ?_⟩
    · intro idx hidx
      simp only [List.mem_map, List.mem_range] at hidx
      obtain ⟨k, hk, rfl⟩ := hidx
      omega
    · intro hmn
      have hs : (n + 2 ^ 32 - 2) % 2 ^ 32 = n - 2 := by
        have : n + 2 ^ 32 - 2 = (n - 2) + 2 ^ 32 := by omega
        rw [this, Nat.add_mod_right, Nat.mod_eq_of_lt (by omega)]
      rw [hs, toInt32_of_lt (n - 2) (by omega),
        shortenLoopReads_eq m (n + 1) (n - 2) (by omega) (by omega) (by omega)]
      refine ⟨_, rfl, ?_⟩
      intro q hq
      simp only [List.mem_map, List.mem_range] at hq
      obtain ⟨k, hk, rfl⟩ := hq
      simp only []
      omega
    · intro x1A x1R x2A x2R r sub hsub
      exact ⟨_, extendAndShorten_eq x1A x1R x2A x2R sub n m r hsub⟩

/-- C26 at concrete inputs: the eye walk of the examples, whose vector holds the origin
vertex, ends without an access outside a vector; the body of the connection loop ends
normally for the pair `t = 2`, `s = 1` of the connection example; and for 4 vertices with
the minimum 1 the subscripts of `extendAndShorten` are 3, 2 and 1. -/
theorem vertex_accesses_in_range_witness :
    twoPlaneWalk ≠ Outcome.fault ∧
    (∃ job2, connectPair connectExampleEnv (connectJob 3 (DDFProxy.edf 3)) 7 0 default ⟨5, 6⟩
      2 1 = some job2) ∧
    extendAndShortenReads 4 1 = some ((List.range (4 - 1)).map (fun k => 4 - 1 - k)) ∧
    extendAndShortenReads 4 1 = some [3, 2, 1] ∧
    shortenLoopReads 1 5 2 = some [(2, 1)] :=
  ⟨vertex_accesses_in_range.1.2.1 twoPlaneEnv (eyeJobAt ⟨0, 0, 1⟩) default ⟨[1]⟩
      (mkRay ⟨0, 0, 1⟩ ⟨0, 0, F32.fin (-1)⟩) 1 default 1 false ⟨0⟩ 5 (by decide!),
    ((vertex_accesses_in_range.2.1 connectExampleEnv (connectJob 3 (DDFProxy.edf 3)) 7 0 default
      ⟨5, 6⟩).1 2 1 (by decide) (by decide) (by decide) (by decide)).2.2.2.2,
    (vertex_accesses_in_range.2.2 4 1 (by decide)).1,
    by decide!, by decide!⟩


/-! ## C27: the extension values that the kernel leaves unassigned -/

/-- With at most one vertex to remove, `extendAndShorten` does not read its second
extension values. -/
theorem extendAndShorten_second_unused (x1A x1R x2A x2R y2A y2R : F32) (sub : List BPTVertex)
    (n m : Nat) (r : F32) (hn : n ≤ m + 1) :
    extendAndShorten x1A x1R x2A x2R sub n m r = extendAndShorten x1A x1R y2A y2R sub n m r := by
  unfold extendAndShorten
  by_cases h1 : n > m
  · rw [if_pos h1, if_pos h1]
    have h2 : ¬ (n - 1 > m) := by omega
    cases sub[n - 1]? with
    | none => rfl
    | some v =>
      simp only []
      rw [if_neg h2, if_neg h2]
  · rw [if_neg h1, if_neg h1]

/-- With no vertex to remove, `extendAndShorten` reads none of its extension values. -/
theorem extendAndShorten_all_unused (x1A x1R x2A x2R y1A y1R y2A y2R : F32)
    (sub : List BPTVertex) (n m : Nat) (r : F32) (hn : n ≤ m) :
    extendAndShorten x1A x1R x2A x2R sub n m r = extendAndShorten y1A y1R y2A y2R sub n m r := by
  unfold extendAndShorten
  have h1 : ¬ (n > m) := by omega
  rw [if_neg h1, if_neg h1]

theorem calculateMISWeight_lSecond_unused (eye light : List BPTVertex)
    (l1A l1R l2A l2R y2A y2R e1A e1R e2A e2R : F32) (s t : Nat) (ht : t ≤ 2) :
    calculateMISWeight eye light l1A l1R l2A l2R e1A e1R e2A e2R s t
      = calculateMISWeight eye light l1A l1R y2A y2R e1A e1R e2A e2R s t := by
  unfold calculateMISWeight recMISWeightSum
  simp only []
  rw [extendAndShorten_second_unused l1A l1R l2A l2R y2A y2R eye t 1 1 (by omega)]

theorem calculateMISWeight_eSecond_unused (eye light : List BPTVertex)
    (l1A l1R l2A l2R e1A e1R e2A e2R y2A y2R : F32) (s t : Nat) (hs : s ≤ 1) :
    calculateMISWeight eye light l1A l1R l2A l2R e1A e1R e2A e2R s t
      = calculateMISWeight eye light l1A l1R l2A l2R e1A e1R y2A y2R s t := by
  unfold calculateMISWeight recMISWeightSum
  simp only []
  cases extendAndShorten l1A l1R l2A l2R eye t 1 1 with
  | none => rfl
  | some r =>
    simp only []
    rw [extendAndShorten_second_unused e1A e1R e2A e2R y2A y2R light s 0 r (by omega)]

/-- C27.  (1) For `t ≤ 2` the result of `calculateMISWeight` does not depend on
`lExtend2ndAreaPDF` and `lExtend2ndRRProb`.  (2) For `t ≤ 1` it depends on none of the four
`lExtend` values.  (3) For `s ≤ 1` it does not depend on `eExtend2ndAreaPDF` and
`eExtend2ndRRProb`.  (4) The connection loop leaves the two second `lExtend` values
unassigned exactly when `t ≤ 1` and the two second `eExtend` values exactly when `s ≤ 1`,
and the weight it computes for a pair does not depend on the value that an unassigned
local holds. -/
theorem unset_extension_values_unused :
    (∀ (eye light : List BPTVertex) (l1A l1R l2A l2R y2A y2R e1A e1R e2A e2R : F32)
      (s t : Nat), t ≤ 2 →
      calculateMISWeight eye light l1A l1R l2A l2R e1A e1R e2A e2R s t
        = calculateMISWeight eye light l1A l1R y2A y2R e1A e1R e2A e2R s t) ∧
    (∀ (eye light : List BPTVertex) (l1A l1R l2A l2R y1A y1R y2A y2R e1A e1R e2A e2R : F32)
      (s t : Nat), t ≤ 1 →
      calculateMISWeight eye light l1A l1R l2A l2R e1A e1R e2A e2R s t
        = calculateMISWeight eye light y1A y1R y2A y2R e1A e1R e2A e2R s t) ∧
    (∀ (eye light : List BPTVertex) (l1A l1R l2A l2R e1A e1R e2A e2R y2A y2R : F32)
      (s t : Nat), s ≤ 1 →
      calculateMISWeight eye light l1A l1R l2A l2R e1A e1R e2A e2R s t
        = calculateMISWeight eye light l1A l1R l2A l2R e1A e1R y2A y2R s t) ∧
    (∀ (env : ConnectEnv) (job : Job) (c : Connection) (eVtx lVtx : BPTVertex) (t s : Nat)
      (x : F32),
      (t ≤ 1 → lExtend2nd env job c eVtx t = some (env.uninit, env.uninit)) ∧
      (s ≤ 1 → eExtend2nd env job c lVtx s = some (env.uninit, env.uninit)) ∧
      (1 < t → lExtend2nd { env with uninit := x } job c eVtx t = lExtend2nd env job c eVtx t) ∧
      (1 < s → eExtend2nd { env with uninit := x } job c lVtx s = eExtend2nd env job c lVtx s) ∧
      connectionWeight { env with uninit := x } job c eVtx lVtx t s
        = connectionWeight env job c eVtx lVtx t s) := by
  refine ⟨?_, ?_, ?_, ?_⟩
  · intro eye light l1A l1R l2A l2R y2A y2R e1A e1R e2A e2R s t ht
    exact calculateMISWeight_lSecond_unused eye light l1A l1R l2A l2R y2A y2R e1A e1R e2A e2R
      s t ht
  · intro eye light l1A l1R l2A l2R y1A y1R y2A y2R e1A e1R e2A e2R s t ht
    unfold calculateMISWeight recMISWeightSum
    simp only []
    rw [extendAndShorten_all_unused l1A l1R l2A l2R y1A y1R y2A y2R eye t 1 1 ht]
  · intro eye light l1A l1R l2A l2R e1A e1R e2A e2R y2A y2R s t hs
    exact calculateMISWeight_eSecond_unused eye light l1A l1R l2A l2R e1A e1R e2A e2R y2A y2R
      s t hs
  · intro env job c eVtx lVtx t s x
    have hl1 : t ≤ 1 → lExtend2nd env job c eVtx t = some (env.uninit, env.uninit) := by
      intro ht
      unfold lExtend2nd
      rw [if_neg (by omega)]
    have he1 : s ≤ 1 → eExtend2nd env job c lVtx s = some (env.uninit, env.uninit) := by
      intro hs
      unfold eExtend2nd
      rw [if_neg (by omega)]
    have hl2 : 1 < t →
        lExtend2nd { env with uninit := x } job c eVtx t = lExtend2nd env job c eVtx t := by
      intro ht
      unfold lExtend2nd
      rw [if_pos ht, if_pos ht]
      rfl
    have he2 : 1 < s →
        eExtend2nd { env with uninit := x } job c lVtx s = eExtend2nd env job c lVtx s := by
      intro hs
      unfold eExtend2nd
      rw [if_pos hs, if_pos hs]
      rfl
    refine ⟨hl1, he1, hl2, he2, ?_⟩
    have hlx : ¬ 1 < t →
        lExtend2nd { env with uninit := x } job c eVtx t = some (x, x) := by
      intro ht
      unfold lExtend2nd
      rw [if_neg ht]
    have hex : ¬ 1 < s →
        eExtend2nd { env with uninit := x } job c lVtx s = some (x, x) := by
      intro hs
      unfold eExtend2nd
      rw [if_neg hs]
    unfold connectionWeight
    by_cases ht : 1 < t
    · rw [hl2 ht]
      cases lExtend2nd env job c eVtx t with
      | none => rfl
      | some l2 =>
        by_cases hs : 1 < s
        · rw [he2 hs]
        · rw [hex hs, he1 (by omega)]
          simp only []
          exact calculateMISWeight_eSecond_unused _ _ _ _ _ _ _ _ _ _ _ _ s t (by omega)
    · rw [hlx ht, hl1 (by omega)]
      by_cases hs : 1 < s
      · rw [he2 hs]
        cases eExtend2nd env job c lVtx s with
        | none => rfl
        | some e2 =>
          simp only []
          exact calculateMISWeight_lSecond_unused _ _ _ _ _ _ _ _ _ _ _ _ s t (by omega)
      · rw [hex hs, he1 (by omega)]
        simp only []
        rw [calculateMISWeight_lSecond_unused _ _ _ _ x x env.uninit env.uninit _ _ _ _ s t
          (by omega)]
        exact calculateMISWeight_eSecond_unused _ _ _ _ _ _ _ _ _ _ _ _ s t (by omega)

/-- C27 at concrete inputs: for the eye chain of the examples with `t = 2` and `s = 1` the
weight is the same whether the second `lExtend` values are NaN or 5; and for the pair
`t = 1`, `s = 1` of the connection example, where the kernel leaves four values
unassigned, the weight is `1/2` whether an unassigned local holds NaN or 7. -/
theorem unset_extension_values_unused_witness :
    calculateMISWeight sampleEye sampleLight 1 1 F32.nan F32.nan 1 1 1 1 1 2
      = calculateMISWeight sampleEye sampleLight 1 1 5 5 1 1 1 1 1 2 ∧
    connectionWeight { connectExampleEnv with uninit := 7 } (connectJob 3 (DDFProxy.edf 3))
        (connection connectExampleEnv 0 lensVertex (lightVertexOn 3 (DDFProxy.edf 3)))
        lensVertex (lightVertexOn 3 (DDFProxy.edf 3)) 1 1
      = connectionWeight connectExampleEnv (connectJob 3 (DDFProxy.edf 3))
        (connection connectExampleEnv 0 lensVertex (lightVertexOn 3 (DDFProxy.edf 3)))
        lensVertex (lightVertexOn 3 (DDFProxy.edf 3)) 1 1 ∧
    connectionWeight connectExampleEnv (connectJob 3 (DDFProxy.edf 3))
        (connection connectExampleEnv 0 lensVertex (lightVertexOn 3 (DDFProxy.edf 3)))
        lensVertex (lightVertexOn 3 (DDFProxy.edf 3)) 1 1 = some (F32.fin (1 / 2)) :=
  ⟨unset_extension_values_unused.1 sampleEye sampleLight 1 1 F32.nan F32.nan 5 5 1 1 1 1 1 2
      (by decide),
    (unset_extension_values_unused.2.2.2 connectExampleEnv (connectJob 3 (DDFProxy.edf 3))
      (connection connectExampleEnv 0 lensVertex (lightVertexOn 3 (DDFProxy.edf 3)))
      lensVertex (lightVertexOn 3 (DDFProxy.edf 3)) 1 1 7).2.2.2.2,
    by decide!⟩


/-! ## C28: the two conversions of a reference frame -/

theorem Vector3D.isFinite_elim {v : Vector3D} (h : v.isFinite = true) :
    ∃ a b c : ℚ, v = ⟨F32.fin a, F32.fin b, F32.fin c⟩ := by
  obtain ⟨x, y, z⟩ := v
  simp only [Vector3D.isFinite, Bool.and_eq_true] at h
  obtain ⟨a, rfl⟩ := F32.isfinite_elim h.1.1
  obtain ⟨b, rfl⟩ := F32.isfinite_elim h.1.2
  obtain ⟨c, rfl⟩ := F32.isfinite_elim h.2
  exact ⟨a, b, c, rfl⟩

/-- C29. With `sizeof(Point3D)` at least 6 (it is at least 12, three `float` members of four
bytes), `BoundingBox3D::corner` returns `minP` for `c = 0`, and for every `c` from 1 to 7 one of
its three reads lies outside the six coordinates stored in the box, so the corner described by
the bits of `c` is not returned; at `c = 7` the reads are at the elements 12, 25 and 50 after
`minP.x` when `sizeof(Point3D)` is 12, while `maxP` is stored at the elements 3, 4 and 5. -/
theorem corner_reads_outside_box (sizeofPoint3D : Nat) (b : BoundingBox3D)
    (hsz : 6 ≤ sizeofPoint3D) :
    BoundingBox3D.corner sizeofPoint3D b 0 = some b.minP ∧
    BoundingBox3D.cornerByBits b 0 = b.minP ∧ BoundingBox3D.cornerByBits b 7 = b.maxP ∧
    (∀ c, 1 ≤ c → c < 8 → BoundingBox3D.corner sizeofPoint3D b c = none) ∧
    (∀ c, 1 ≤ c → c < 8 →
      BoundingBox3D.corner sizeofPoint3D b c ≠ some (BoundingBox3D.cornerByBits b c)) ∧
    [0 + 12 * (7 &&& 0x01), 1 + 12 * (7 &&& 0x02), 2 + 12 * (7 &&& 0x04)] = [12, 25, 50] := by
  have hnone : ∀ c, 1 ≤ c → c < 8 → BoundingBox3D.corner sizeofPoint3D b c = none := by
    intro c h1 h8
    have hread : ∀ k, 6 ≤ k → b.readFloat k = none := by
      intro k hk
      exact List.getElem?_eq_none (by simpa [BoundingBox3D.floats] using hk)
    have key : ∀ c, 1 ≤ c → c < 8 → c &&& 0x01 = 1 ∨ c &&& 0x02 = 2 ∨ c &&& 0x04 = 4 := by
      decide
    simp only [BoundingBox3D.corner, if_pos h8]
    split
    · rename_i x y z hx hy hz
      rcases key c h1 h8 with h | h | h
      · rw [h, hread _ (by omega)] at hx
        exact Option.noConfusion hx
      · rw [h, hread _ (by omega)] at hy
        exact Option.noConfusion hy
      · rw [h, hread _ (by omega)] at hz
        exact Option.noConfusion hz
    · rfl
  refine ⟨?_, ?_, ?_, hnone, ?_, by decide⟩
  · simp [BoundingBox3D.corner, BoundingBox3D.readFloat, BoundingBox3D.floats]
  · simp [BoundingBox3D.cornerByBits]
  · simp [BoundingBox3D.cornerByBits, Nat.testBit]
  · intro c h1 h8
    rw [hnone c h1 h8]
    exact fun h => Option.noConfusion h

theorem corner_reads_outside_box_witness :
    BoundingBox3D.corner 12 sampleBox 0 = some sampleBox.minP ∧
    BoundingBox3D.cornerByBits sampleBox 0 = sampleBox.minP ∧
    BoundingBox3D.cornerByBits sampleBox 7 = sampleBox.maxP ∧
    (∀ c, 1 ≤ c → c < 8 → BoundingBox3D.corner 12 sampleBox c = none) ∧
    (∀ c, 1 ≤ c → c < 8 →
      BoundingBox3D.corner 12 sampleBox c ≠ some (BoundingBox3D.cornerByBits sampleBox c)) ∧
    [0 + 12 * (7 &&& 0x01), 1 + 12 * (7 &&& 0x02), 2 + 12 * (7 &&& 0x04)] = [12, 25, 50] :=
  corner_reads_outside_box 12 sampleBox (by decide)

/-! ## C30: the slab test of a bounding box -/

theorem F32.fin_sub_fin (a b : ℚ) : F32.fin a - F32.fin b = F32.fin (a - b) := by
  show F32.fin (a + -b) = _
  rw [sub_eq_add_neg]

theorem Vector3D.get_set {v : Vector3D} {i j : Nat} (a : F32) (hi : i < 3) (hj : j < 3) :
    (v.set i a).get j = if j = i then a else v.get j := by
  interval_cases i <;> interval_cases j <;> rfl

/-- One axis of the slab test over the rationals: the point of parameter `d` lies between the
two planes exactly when `d` lies between the two plane distances. -/
theorem axis_iff (lo hi o dx d : ℚ) (hle : lo ≤ hi) (hdx : dx ≠ 0) :
    (lo ≤ o + d * dx ∧ o + d * dx ≤ hi) ↔
      (min ((lo - o) * (1 / dx)) ((hi - o) * (1 / dx)) ≤ d ∧
        d ≤ max ((lo - o) * (1 / dx)) ((hi - o) * (1 / dx))) := by
  rw [mul_one_div, mul_one_div]
  rcases lt_or_gt_of_ne hdx with hneg | hpos
  · have h1 : (hi - o) / dx ≤ (lo - o) / dx :=
      div_le_div_of_nonpos_of_le (le_of_lt hneg) (by linarith)
    rw [min_eq_right h1, max_eq_left h1, div_le_iff_of_neg hneg, le_div_iff_of_neg hneg]
    constructor <;> rintro ⟨h2, h3⟩ <;> constructor <;> linarith
  · have h1 : (lo - o) / dx ≤ (hi - o) / dx :=
      div_le_div_of_nonneg_right (by linarith) (le_of_lt hpos)
    rw [min_eq_left h1, max_eq_right h1, div_le_iff₀ hpos, le_div_iff₀ hpos]
    constructor <;> rintro ⟨h2, h3⟩ <;> constructor <;> linarith

/-- The update of the two distances at one axis, for the plane distances `lo` and `hi`. -/
theorem dist_update (d0 d1 : F32) (lo hi : ℚ)
    (h0 : F32.isnan d0 = false) (h1 : F32.isnan d1 = false) :
    let e0 := if F32.lt d0 (F32.fin lo) then F32.fin lo else d0
    let e1 := if F32.lt (F32.fin hi) d1 then F32.fin hi else d1
    F32.isnan e0 = false ∧ F32.isnan e1 = false ∧
    (∀ d : ℚ, (F32.le e0 (F32.fin d) = true ∧ F32.le (F32.fin d) e1 = true) ↔
      (F32.le d0 (F32.fin d) = true ∧ F32.le (F32.fin d) d1 = true ∧ lo ≤ d ∧ d ≤ hi)) ∧
    (F32.lt e1 e0 = false → ∃ p q, e0 = F32.fin p ∧ e1 = F32.fin q ∧ p ≤ q) ∧
    (F32.lt e1 e0 = true →
      ¬ ∃ d : ℚ, F32.le e0 (F32.fin d) = true ∧ F32.le (F32.fin d) e1 = true) := by
  intro e0 e1
  have hE0 : ∃ p, (e0 = F32.fin p ∨ e0 = F32.inf false) ∧ F32.isnan e0 = false ∧
      ∀ d : ℚ, F32.le e0 (F32.fin d) = true ↔ (F32.le d0 (F32.fin d) = true ∧ lo ≤ d) := by
    rcases d0 with a | s | _
    · by_cases h : a < lo
      · refine ⟨lo, Or.inl ?_, ?_, ?_⟩ <;> simp [e0, F32.lt, F32.le, F32.isnan, h]
        intro d hd
        linarith
      · refine ⟨a, Or.inl ?_, ?_, ?_⟩ <;> simp [e0, F32.lt, F32.le, F32.isnan, h]
        intro d hd
        linarith
    · cases s
      · refine ⟨0, Or.inr ?_, ?_, ?_⟩ <;> simp [e0, F32.lt, F32.le, F32.isnan]
      · refine ⟨lo, Or.inl ?_, ?_, ?_⟩ <;> simp [e0, F32.lt, F32.le, F32.isnan]
    · simp [F32.isnan] at h0
  have hE1 : ∃ q, (e1 = F32.fin q ∨ e1 = F32.inf true) ∧ F32.isnan e1 = false ∧
      ∀ d : ℚ, F32.le (F32.fin d) e1 = true ↔ (F32.le (F32.fin d) d1 = true ∧ d ≤ hi) := by
    rcases d1 with b | t | _
    · by_cases h : hi < b
      · refine ⟨hi, Or.inl ?_, ?_, ?_⟩ <;> simp [e1, F32.lt, F32.le, F32.isnan, h]
        intro d hd
        linarith
      · refine ⟨b, Or.inl ?_, ?_, ?_⟩ <;> simp [e1, F32.lt, F32.le, F32.isnan, h]
        intro d hd
        linarith
    · cases t
      · refine ⟨hi, Or.inl ?_, ?_, ?_⟩ <;> simp [e1, F32.lt, F32.le, F32.isnan]
      · refine ⟨0, Or.inr ?_, ?_, ?_⟩ <;> simp [e1, F32.lt, F32.le, F32.isnan]
    · simp [F32.isnan] at h1
  obtain ⟨p, hp, hn0, hd0⟩ := hE0
  obtain ⟨q, hq, hn1, hd1⟩ := hE1
  refine ⟨hn0, hn1, ?_, ?_, ?_⟩
  · intro d
    rw [hd0, hd1]
    tauto
  · intro hlt
    rcases hp with hp | hp <;> rcases hq with hq | hq <;> rw [hp, hq] at hlt <;>
      simp [F32.lt] at hlt
    exact ⟨p, q, hp, hq, hlt⟩
  · intro hlt
    rintro ⟨d, h2, h3⟩
    rcases hp with hp | hp <;> rcases hq with hq | hq <;> rw [hp] at h2 hlt <;>
      rw [hq] at h3 hlt <;> simp [F32.lt, F32.le] at hlt h2 h3
    linarith

/-- The loop of the slab test from axis `i` on returns true exactly when some parameter lies
between the two distances and between the two plane distances of every axis still to visit. -/
theorem intersectLoop_iff : ∀ (n i : Nat) (tNear tFar : Vector3D) (d0 d1 : F32),
    i + n ≤ 3 →
    (∀ j, j < 3 → ∃ a b, tNear.get j = F32.fin a ∧ tFar.get j = F32.fin b) →
    F32.isnan d0 = false → F32.isnan d1 = false →
    (n = 0 → ∃ p q, d0 = F32.fin p ∧ d1 = F32.fin q ∧ p ≤ q) →
    (BoundingBox3D.intersectLoop n i tNear tFar d0 d1 = true ↔
      ∃ d : ℚ, F32.le d0 (F32.fin d) = true ∧ F32.le (F32.fin d) d1 = true ∧
        ∀ j, i ≤ j → j < i + n → ∃ a b, tNear.get j = F32.fin a ∧ tFar.get j = F32.fin b ∧
          min a b ≤ d ∧ d ≤ max a b) := by
  intro n
  induction n with
  | zero =>
    intro i tNear tFar d0 d1 _ _ _ _ hq
    obtain ⟨p, q, rfl, rfl, hpq⟩ := hq rfl
    simp only [BoundingBox3D.intersectLoop, true_iff]
    exact ⟨p, by simp [F32.le], by simpa [F32.le] using hpq,
      fun j h1 h2 => absurd h2 (by omega)⟩
  | succ n ih =>
    intro i tNear tFar d0 d1 hin hfin h0 h1 _
    obtain ⟨a, b, ha, hb⟩ := hfin i (by omega)
    have hsw : ∃ tN tF : Vector3D,
        (if F32.lt (tFar.get i) (tNear.get i) then tNear.set i (tFar.get i) else tNear) = tN ∧
        (if F32.lt (tFar.get i) (tNear.get i) then tFar.set i (tNear.get i) else tFar) = tF ∧
        tN.get i = F32.fin (min a b) ∧ tF.get i = F32.fin (max a b) ∧
        ∀ j, j < 3 → j ≠ i → tN.get j = tNear.get j ∧ tF.get j = tFar.get j := by
      refine ⟨_, _, rfl, rfl, ?_⟩
      have hi3 : i < 3 := by omega
      rw [ha, hb]
      by_cases h : b < a
      · simp only [F32.lt, h, decide_True, if_true, Vector3D.get_set _ hi3 hi3]
        refine ⟨by rw [min_eq_right (le_of_lt h)], by rw [max_eq_left (le_of_lt h)], ?_⟩
        intro j hj hji
        rw [Vector3D.get_set _ hi3 hj, Vector3D.get_set _ hi3 hj, if_neg hji, if_neg hji]
        exact ⟨rfl, rfl⟩
      · have hlt : F32.lt (F32.fin b) (F32.fin a) = false := by simp [F32.lt, h]
        rw [hlt, if_neg (show ¬ (false = true) by decide),
          if_neg (show ¬ (false = true) by decide), ha, hb]
        exact ⟨by rw [min_eq_left (not_lt.mp h)], by rw [max_eq_right (not_lt.mp h)],
          fun j _ _ => ⟨rfl, rfl⟩⟩
    obtain ⟨tN, tF, hN, hF, hNi, hFi, hother⟩ := hsw
    obtain ⟨hn0, hn1, hd, hfinite, hempty⟩ := dist_update d0 d1 (min a b) (max a b) h0 h1
    have hstep : BoundingBox3D.intersectLoop (n + 1) i tNear tFar d0 d1 =
        if F32.lt (if F32.lt (F32.fin (max a b)) d1 then F32.fin (max a b) else d1)
            (if F32.lt d0 (F32.fin (min a b)) then F32.fin (min a b) else d0) then false
        else BoundingBox3D.intersectLoop n (i + 1) tN tF
          (if F32.lt d0 (F32.fin (min a b)) then F32.fin (min a b) else d0)
          (if F32.lt (F32.fin (max a b)) d1 then F32.fin (max a b) else d1) := by
      simp only [BoundingBox3D.intersectLoop]
      rw [hN, hF, hNi, hFi]
    rw [hstep]
    have hfin2 : ∀ j, j < 3 → ∃ a b, tN.get j = F32.fin a ∧ tF.get j = F32.fin b := by
      intro j hj
      by_cases hji : j = i
      · subst hji
        exact ⟨_, _, hNi, hFi⟩
      · obtain ⟨a2, b2, ha2, hb2⟩ := hfin j hj
        exact ⟨a2, b2, by rw [(hother j hj hji).1, ha2], by rw [(hother j hj hji).2, hb2]⟩
    by_cases hlt : F32.lt (if F32.lt (F32.fin (max a b)) d1 then F32.fin (max a b) else d1)
        (if F32.lt d0 (F32.fin (min a b)) then F32.fin (min a b) else d0) = true
    · rw [if_pos hlt]
      constructor
      · intro h
        exact absurd h (by decide)
      · rintro ⟨d, h2, h3, hall⟩
        exfalso
        obtain ⟨a2, b2, ha2, hb2, h4, h5⟩ := hall i (le_refl i) (by omega)
        rw [ha] at ha2
        rw [hb] at hb2
        cases ha2
        cases hb2
        exact hempty hlt ⟨d, (hd d).mpr ⟨h2, h3, h4, h5⟩⟩
    · rw [if_neg hlt]
      rw [ih (i + 1) tN tF _ _ (by omega) hfin2 hn0 hn1
        (fun _ => hfinite (by simpa using hlt))]
      constructor
      · rintro ⟨d, h2, h3, hall⟩
        obtain ⟨h4, h5, h6, h7⟩ := (hd d).mp ⟨h2, h3⟩
        refine ⟨d, h4, h5, ?_⟩
        intro j hj1 hj2
        by_cases hji : j = i
        · subst hji
          exact ⟨a, b, ha, hb, h6, h7⟩
        · obtain ⟨a2, b2, ha2, hb2, h8, h9⟩ := hall j (by omega) (by omega)
          exact ⟨a2, b2, by rw [← (hother j (by omega) hji).1, ha2],
            by rw [← (hother j (by omega) hji).2, hb2], h8, h9⟩
      · rintro ⟨d, h2, h3, hall⟩
        obtain ⟨a2, b2, ha2, hb2, h4, h5⟩ := hall i (le_refl i) (by omega)
        rw [ha] at ha2
        rw [hb] at hb2
        cases ha2
        cases hb2
        obtain ⟨h6, h7⟩ := (hd d).mpr ⟨h2, h3, h4, h5⟩
        refine ⟨d, h6, h7, ?_⟩
        intro j hj1 hj2
        have hji : j ≠ i := by omega
        obtain ⟨a3, b3, ha3, hb3, h8, h9⟩ := hall j (by omega) (by omega)
        exact ⟨a3, b3, by rw [(hother j (by omega) hji).1, ha3],
          by rw [(hother j (by omega) hji).2, hb3], h8, h9⟩

/-- No finite parameter lies between two distances of which the first is greater than the
second. -/
theorem F32.no_value_between {d0 d1 : F32} (h : F32.lt d1 d0 = true) (d : ℚ)
    (h2 : F32.le d0 (F32.fin d) = true) (h3 : F32.le (F32.fin d) d1 = true) : False := by
  rcases d0 with a | s | _ <;> rcases d1 with b | t | _ <;>
    simp [F32.lt, F32.le] at h h2 h3 <;>
    first
      | linarith
      | simp_all

/-- C30. For a box with finite coordinates and `minP <= maxP` in each coordinate, and a ray
with finite origin and finite direction of which no component is zero, whose `distMin` and
`distMax` are not NaN (`distMax` may be the default, infinity), `BoundingBox3D::intersect`
returns true if and only if there is a parameter `d` with `distMin <= d <= distMax` such that
`org + d * dir` lies in the closed box; and it returns false whenever `distMin > distMax`.
The arithmetic is exact. -/
theorem intersect_iff_hit (b : BoundingBox3D) (r : Ray)
    (hmin : b.minP.isFinite = true) (hmax : b.maxP.isFinite = true)
    (hord : b.isOrdered = true) (horg : r.org.isFinite = true)
    (hdir : r.dir.isFinite = true) (hnz : r.dir.noZeroComponent = true)
    (h0 : F32.isnan r.distMin = false) (h1 : F32.isnan r.distMax = false) :
    (b.intersect r = true ↔
      ∃ d : ℚ, F32.le r.distMin (F32.fin d) = true ∧ F32.le (F32.fin d) r.distMax = true ∧
        b.containsPoint (r.pointAt (F32.fin d)) = true) ∧
    (F32.lt r.distMax r.distMin = true → b.intersect r = false) := by
  obtain ⟨minP, maxP⟩ := b
  obtain ⟨org, dir, time, dmin, dmax⟩ := r
  obtain ⟨lx, ly, lz, rfl⟩ := Vector3D.isFinite_elim hmin
  obtain ⟨ux, uy, uz, rfl⟩ := Vector3D.isFinite_elim hmax
  obtain ⟨ox, oy, oz, rfl⟩ := Vector3D.isFinite_elim horg
  obtain ⟨dx, dy, dz, rfl⟩ := Vector3D.isFinite_elim hdir
  simp only [BoundingBox3D.isOrdered, F32.le, Bool.and_eq_true, decide_eq_true_eq] at hord
  obtain ⟨⟨hx, hy⟩, hz⟩ := hord
  simp only [Vector3D.noZeroComponent, F32.eq, F32.zero_eq, Bool.and_eq_true,
    Bool.not_eq_true', decide_eq_false_iff_not] at hnz
  obtain ⟨⟨hdx, hdy⟩, hdz⟩ := hnz
  have htN : (({ x := F32.fin lx, y := F32.fin ly, z := F32.fin lz } : Vector3D) -
      { x := F32.fin ox, y := F32.fin oy, z := F32.fin oz }).mulv
        (Vector3D.reciprocal { x := F32.fin dx, y := F32.fin dy, z := F32.fin dz }) =
      ⟨F32.fin ((lx - ox) * (1 / dx)), F32.fin ((ly - oy) * (1 / dy)),
        F32.fin ((lz - oz) * (1 / dz))⟩ := by
    show Vector3D.mk ((F32.fin lx - F32.fin ox) * (1 / F32.fin dx))
      ((F32.fin ly - F32.fin oy) * (1 / F32.fin dy))
      ((F32.fin lz - F32.fin oz) * (1 / F32.fin dz)) = _
    simp only [F32.one_eq, F32.fin_div_fin 1 hdx, F32.fin_div_fin 1 hdy, F32.fin_div_fin 1 hdz,
      F32.fin_sub_fin, F32.fin_mul_fin]
  have htF : (({ x := F32.fin ux, y := F32.fin uy, z := F32.fin uz } : Vector3D) -
      { x := F32.fin ox, y := F32.fin oy, z := F32.fin oz }).mulv
        (Vector3D.reciprocal { x := F32.fin dx, y := F32.fin dy, z := F32.fin dz }) =
      ⟨F32.fin ((ux - ox) * (1 / dx)), F32.fin ((uy - oy) * (1 / dy)),
        F32.fin ((uz - oz) * (1 / dz))⟩ := by
    show Vector3D.mk ((F32.fin ux - F32.fin ox) * (1 / F32.fin dx))
      ((F32.fin uy - F32.fin oy) * (1 / F32.fin dy))
      ((F32.fin uz - F32.fin oz) * (1 / F32.fin dz)) = _
    simp only [F32.one_eq, F32.fin_div_fin 1 hdx, F32.fin_div_fin 1 hdy, F32.fin_div_fin 1 hdz,
      F32.fin_sub_fin, F32.fin_mul_fin]
  have hiff : BoundingBox3D.intersect ⟨⟨F32.fin lx, F32.fin ly, F32.fin lz⟩,
        ⟨F32.fin ux, F32.fin uy, F32.fin uz⟩⟩
        ⟨⟨F32.fin ox, F32.fin oy, F32.fin oz⟩, ⟨F32.fin dx, F32.fin dy, F32.fin dz⟩, time, dmin,
          dmax⟩ = true ↔
      ∃ d : ℚ, F32.le dmin (F32.fin d) = true ∧ F32.le (F32.fin d) dmax = true ∧
        ((lx ≤ ox + d * dx ∧ ox + d * dx ≤ ux) ∧ (ly ≤ oy + d * dy ∧ oy + d * dy ≤ uy) ∧
          (lz ≤ oz + d * dz ∧ oz + d * dz ≤ uz)) := by
    simp only [BoundingBox3D.intersect]
    rw [htN, htF, intersectLoop_iff 3 0 _ _ dmin dmax (by omega)
      (fun j hj => by interval_cases j <;> exact ⟨_, _, rfl, rfl⟩) h0 h1
      (fun h => absurd h (by decide))]
    constructor
    · rintro ⟨d, h2, h3, hall⟩
      refine ⟨d, h2, h3, ?_, ?_, ?_⟩
      · obtain ⟨a, c, ha, hc, h4, h5⟩ := hall 0 (by omega) (by omega)
        cases ha
        cases hc
        exact (axis_iff lx ux ox dx d hx hdx).mpr ⟨h4, h5⟩
      · obtain ⟨a, c, ha, hc, h4, h5⟩ := hall 1 (by omega) (by omega)
        cases ha
        cases hc
        exact (axis_iff ly uy oy dy d hy hdy).mpr ⟨h4, h5⟩
      · obtain ⟨a, c, ha, hc, h4, h5⟩ := hall 2 (by omega) (by omega)
        cases ha
        cases hc
        exact (axis_iff lz uz oz dz d hz hdz).mpr ⟨h4, h5⟩
    · rintro ⟨d, h2, h3, h4, h5, h6⟩
      refine ⟨d, h2, h3, ?_⟩
      intro j _ hj
      have hj3 : j < 3 := by omega
      interval_cases j
      · exact ⟨_, _, rfl, rfl, (axis_iff lx ux ox dx d hx hdx).mp h4⟩
      · exact ⟨_, _, rfl, rfl, (axis_iff ly uy oy dy d hy hdy).mp h5⟩
      · exact ⟨_, _, rfl, rfl, (axis_iff lz uz oz dz d hz hdz).mp h6⟩
  constructor
  · rw [hiff]
    simp only [BoundingBox3D.containsPoint, Ray.pointAt, F32.fin_mul_fin, F32.fin_add_fin,
      F32.le, Bool.and_eq_true, decide_eq_true_eq]
    constructor
    · rintro ⟨d, h2, h3, ⟨h4, h5⟩, ⟨h6, h7⟩, h8, h9⟩
      exact ⟨d, h2, h3, ⟨⟨⟨⟨h4, h5⟩, h6⟩, h7⟩, h8⟩, h9⟩
    · rintro ⟨d, h2, h3, ⟨⟨⟨⟨h4, h5⟩, h6⟩, h7⟩, h8⟩, h9⟩
      exact ⟨d, h2, h3, ⟨h4, h5⟩, ⟨h6, h7⟩, h8, h9⟩
  · intro hlt
    rw [← Bool.not_eq_true]
    intro h
    obtain ⟨d, h2, h3, _⟩ := hiff.mp h
    exact F32.no_value_between hlt d h2 h3

theorem intersect_iff_hit_witness :
    (sampleBox.intersect sampleRay = true ↔
      ∃ d : ℚ, F32.le sampleRay.distMin (F32.fin d) = true ∧
        F32.le (F32.fin d) sampleRay.distMax = true ∧
        sampleBox.containsPoint (sampleRay.pointAt (F32.fin d)) = true) ∧
    (F32.lt sampleRay.distMax sampleRay.distMin = true → sampleBox.intersect sampleRay = false) :=
  intersect_iff_hit sampleBox sampleRay (by decide!) (by decide!) (by decide!) (by decide!)
    (by decide!) (by decide!) (by decide!) (by decide!)

end SLR
